import Mathlib

/-!
# Petri net engine: structural operations

Shallow embedding of the structural part of `src/src/PetriNet.cpp`
(`PetriNet::addPlace`, `addTransition`, `addArc`, `findArc`, `findNode`,
`generateArcsInArcsOut`, `removeArc`, `removeNode`, `clear`, `getTokens`,
`setTokens`), of the firing tests of a transition (`isEnabled`,
`howManyTokensCanBurnt`), of `changeTypeOfNet`, of the event-graph analysis
(`isEventGraph`, `operator=`, `toCanonicalForm`, `toAdjacencyMatrices`,
`toSysLin`, `findCriticalCycle`), of `save`, `load` and `write_int32`, and of
the handle API of `src/src/julia/Julia.cpp`.

Modelling conventions.

* The containers `m_places`, `m_transitions`, `m_arcs` are lists; a slot is a
  position in the list.
* An `Arc` stores two `Node&`.  Every observation the engine makes through such
  a reference in the functions embedded here goes through `type`, `id` and
  `key`, and `Node::operator==` compares type and id, so an endpoint is
  represented by the pair `NodeRef` (type, id).  A `Node&` argument of
  `addArc`, `removeArc`, `removeNode` is represented the same way; where the
  engine writes through the argument (adjacency lists) or reads its position,
  the object is the slot that `findNode` returns for its key.
* An `Arc*` kept in `arcsIn` / `arcsOut` is the position of the arc in `m_arcs`.
* Where two `PetriNet` objects are in play at once (`toCanonicalForm` and its
  argument), a second embedding keeps both objects in one memory (`Heap`) and
  every pointer names the object it points into, so that a write through a
  pointer into the other object is observable.
* A `float` is the rational it stands for.  Where the engine computes in
  `float` (the midpoint of `addArc`, the conversion `float(p.tokens)` of
  `toAdjacencyMatrices`) each operation is rounded to the nearest `float`
  (`roundFloat`, IEEE 754 single precision, ties to even); overflow to an
  infinity is outside the embedding.  Coordinates and durations that the
  engine only stores and copies are kept as they are.
* `size_t` ids, counters and token counts are natural numbers.
* The diagnostic stream `m_message` and the scratch list
  `m_shuffled_transitions` are not part of the state.
* A failing `assert` makes the operation return `none`; so does a read
  outside a container (`arcsIn[0]` of an empty list, a pointer to a slot past
  the end of `m_arcs`).
* In `toCanonicalForm` the node behind a `Node*` taken from an arc is read in
  the slot numbered by its id, in the container of its type, and an arc pointer
  kept in an adjacency list designates whatever arc sits now in its slot.
* `save` writes its numbers with `operator<<` on a stream left at its
  defaults: a `float` is written in general format with six significant digits
  (`showFloat`), an integer in decimal.
* Routines whose code is not among the sources (`Semi_Howard`, the `Splitter`
  of `load` with `token2vector` and `convert_to`, the copy constructor and
  `reset` of `PetriNet`, the editor) are parameters of the functions that call
  them.
* In the handle API an `int64_t` is an integer and the conversions to and from
  `size_t` are explicit (`toInt64`, `toSizeT`); a pointer the function tests
  against null is an `Option`, and what a function writes through a pointer is
  part of its result.  The standard output and the standard error are not part
  of the state.
* A binary file is the list of its bytes, each read as unsigned; the
  conversion of an integer to `int32_t` is modular and the right shift of a
  signed value is arithmetic.
-/

namespace PetriNetEditor

/-- Node kinds, `Node::Type` in the engine. -/
inductive NodeType where
  | Place
  | Transition
  deriving DecidableEq

/-- Net flavours, `PetriNet::Type` in the engine. -/
inductive NetType where
  | Petri
  | TimedPetri
  | TimedGraphEvent
  | GRAFCET
  deriving DecidableEq

/-- What a `Node&` designates: the type and the id of the node.
`Node::operator==` is equality of these two fields. -/
structure NodeRef where
  type : NodeType
  id : Nat
  deriving DecidableEq

/-- Modelled from the spec: the derived key of a node (`Place::to_str`,
`Transition::to_str` and the `key` member, declared in the absent
`PetriNet.hpp`): the letter `P` or `T` followed by the id in decimal. -/
def to_str (t : NodeType) (id : Nat) : String :=
  (match t with
    | NodeType.Place => "P"
    | NodeType.Transition => "T") ++ Nat.repr id

/-- Key of the node a reference designates. -/
def NodeRef.key (r : NodeRef) : String := to_str r.type r.id

/-- A place: the `Node` fields, the token count and the two adjacency lists. -/
structure Place where
  id : Nat
  caption : String
  x : ℚ
  y : ℚ
  tokens : Nat
  arcsIn : List Nat
  arcsOut : List Nat
  deriving DecidableEq

/-- A transition: the `Node` fields, angle, receptivity, Max-Plus index and the
two adjacency lists. -/
structure Transition where
  id : Nat
  caption : String
  x : ℚ
  y : ℚ
  angle : Int
  receptivity : Bool
  index : Nat
  arcsIn : List Nat
  arcsOut : List Nat
  deriving DecidableEq

/-- A directed arc `from -> to` with its duration. -/
structure Arc where
  from_ : NodeRef
  to_ : NodeRef
  duration : ℚ
  deriving DecidableEq

/-- The `key` member of a place. -/
def Place.key (p : Place) : String := to_str NodeType.Place p.id

/-- The `key` member of a transition. -/
def Transition.key (t : Transition) : String := to_str NodeType.Transition t.id

/-- What a `Node&` bound to this place designates. -/
def Place.ref (p : Place) : NodeRef := ⟨NodeType.Place, p.id⟩

/-- What a `Node&` bound to this transition designates. -/
def Transition.ref (t : Transition) : NodeRef := ⟨NodeType.Transition, t.id⟩

/-- Modelled from the spec: the constructor `Place(id, caption, x, y, tokens)`
of the absent `PetriNet.hpp`.  The caption defaults to the key: the engine
passes the empty caption to obtain the default.  Adjacency lists start empty. -/
def Place.make (id : Nat) (caption : String) (x y : ℚ) (tokens : Nat) : Place :=
  { id := id
    caption := if caption = "" then to_str NodeType.Place id else caption
    x := x
    y := y
    tokens := tokens
    arcsIn := []
    arcsOut := [] }

/-- Modelled from the spec: the constructor
`Transition(id, caption, x, y, angle, receptivity)` of the absent
`PetriNet.hpp`.  The caption defaults to the key, the auxiliary index starts at
zero and the adjacency lists start empty. -/
def Transition.make (id : Nat) (caption : String) (x y : ℚ) (angle : Int)
    (receptivity : Bool) : Transition :=
  { id := id
    caption := if caption = "" then to_str NodeType.Transition id else caption
    x := x
    y := y
    angle := angle
    receptivity := receptivity
    index := 0
    arcsIn := []
    arcsOut := [] }

/-- The engine state. -/
structure PetriNet where
  m_type : NetType
  m_places : List Place
  m_transitions : List Transition
  m_arcs : List Arc
  m_next_place_id : Nat
  m_next_transition_id : Nat
  modified : Bool
  deriving DecidableEq

/-- The quotient `n / d` rounded to the nearest integer, ties to even. -/
def roundHalfEven (n d : Nat) : Nat :=
  if d < 2 * (n % d) ∨ (2 * (n % d) = d ∧ (n / d) % 2 = 1) then n / d + 1 else n / d

/-- The number of halvings that bring `n` below 2, counted with the given
fuel. -/
def halvings : Nat → Nat → Nat
  | 0, _ => 0
  | fuel + 1, n => if n < 2 then 0 else halvings fuel (n / 2) + 1

/-- The position of the leading bit of a positive number: the `k` with
`2 ^ k <= n < 2 ^ (k + 1)`. -/
def leadingBit (n : Nat) : Nat := halvings n n

/-- The binary exponent of the positive fraction `a / d`: the integer `e` with
`2 ^ e <= a / d < 2 ^ (e + 1)`. -/
def binaryExponent (a d : Nat) : Int :=
  if d * 2 ^ ((leadingBit a : Int) - (leadingBit d : Int)).toNat ≤
      a * 2 ^ ((leadingBit d : Int) - (leadingBit a : Int)).toNat then
    (leadingBit a : Int) - (leadingBit d : Int)
  else (leadingBit a : Int) - (leadingBit d : Int) - 1

/-- The exponent of the unit in the last place of the `float` nearest to the
positive fraction `a / d`: 24 significant bits, and the exponent of the
subnormal numbers below 2 ^ (-126). -/
def ulpExponent (a d : Nat) : Int := max (binaryExponent a d) (-126) - 23

/-- The `float` (IEEE 754 single precision) nearest to a rational, ties to
even: the value that a conversion to `float`, or a `float` operation whose
exact result is `x`, stores.  A result beyond the largest finite `float`, which
the machine turns into an infinity, is outside the embedding. -/
def roundFloat (x : ℚ) : ℚ :=
  if x.num = 0 then 0
  else
    mkRat
      (x.num.sign *
        (roundHalfEven (x.num.natAbs * 2 ^ (-ulpExponent x.num.natAbs x.den).toNat)
          (x.den * 2 ^ (ulpExponent x.num.natAbs x.den).toNat) *
          2 ^ (ulpExponent x.num.natAbs x.den).toNat : Nat))
      (2 ^ (-ulpExponent x.num.natAbs x.den).toNat)

/-- The `float` expression `to.x + (from.x - to.x) / 2.0f` of `addArc`, each of
its three operations rounded to `float`. -/
def floatMid (from_ to_ : ℚ) : ℚ :=
  roundFloat (to_ + roundFloat (roundFloat (from_ - to_) / 2))

/-- A pointer to a node of the net, as returned by `findNode`: the container and
the slot. -/
inductive NodePtr where
  | place (slot : Nat)
  | transition (slot : Nat)
  deriving DecidableEq

namespace PetriNet

/-- A freshly constructed net of the given type. -/
def empty (type : NetType) : PetriNet :=
  { m_type := type
    m_places := []
    m_transitions := []
    m_arcs := []
    m_next_place_id := 0
    m_next_transition_id := 0
    modified := false }

/-- The body of `PetriNet::clear`. -/
def clear (net : PetriNet) : PetriNet :=
  { net with
    m_places := []
    m_transitions := []
    m_arcs := []
    m_next_place_id := 0
    m_next_transition_id := 0
    modified := false }

/-- The three-argument `PetriNet::addPlace(x, y, tokens)`. -/
def addPlace (net : PetriNet) (x y : ℚ) (tokens : Nat) : PetriNet :=
  { net with
    modified := true
    m_places := net.m_places ++ [Place.make net.m_next_place_id "" x y tokens]
    m_next_place_id := net.m_next_place_id + 1 }

/-- The two-argument `PetriNet::addTransition(x, y)`. -/
def addTransition (net : PetriNet) (x y : ℚ) : PetriNet :=
  { net with
    modified := true
    m_transitions := net.m_transitions ++
      [Transition.make net.m_next_transition_id "" x y 0
        (if net.m_type = NetType.TimedPetri then true else false)]
    m_next_transition_id := net.m_next_transition_id + 1 }

/-- The loop of `PetriNet::findArc`: the first arc with the given endpoints. -/
def findArc (net : PetriNet) (from_ to_ : NodeRef) : Option Arc :=
  net.m_arcs.find? (fun it => decide (it.from_ = from_) && decide (it.to_ = to_))

/-- The body of `PetriNet::findNode`: dispatch on the first character of the
key, then the first slot whose key is the given one. -/
def findNode (net : PetriNet) (key : String) : Option NodePtr :=
  if key.data.head? = some 'P' then
    (if net.m_places.findIdx (fun p => decide (p.key = key)) < net.m_places.length then
      some (NodePtr.place (net.m_places.findIdx (fun p => decide (p.key = key))))
    else none)
  else if key.data.head? = some 'T' then
    (if net.m_transitions.findIdx (fun t => decide (t.key = key)) < net.m_transitions.length then
      some (NodePtr.transition (net.m_transitions.findIdx (fun t => decide (t.key = key))))
    else none)
  else none

/-- Abscissa read through a node pointer. -/
def ptrX (net : PetriNet) : NodePtr → ℚ
  | NodePtr.place s => ((net.m_places.map Place.x).getD s 0)
  | NodePtr.transition s => ((net.m_transitions.map Transition.x).getD s 0)

/-- Ordinate read through a node pointer. -/
def ptrY (net : PetriNet) : NodePtr → ℚ
  | NodePtr.place s => ((net.m_places.map Place.y).getD s 0)
  | NodePtr.transition s => ((net.m_transitions.map Transition.y).getD s 0)

/-- The statement `node.arcsOut.push_back(&m_arcs.back())` for the node behind a
pointer; `k` is the position of the last arc. -/
def pushArcsOut (net : PetriNet) (n : NodePtr) (k : Nat) : PetriNet :=
  match n with
  | NodePtr.place s =>
    { net with m_places := net.m_places.modify (fun p => { p with arcsOut := p.arcsOut ++ [k] }) s }
  | NodePtr.transition s =>
    { net with m_transitions :=
        net.m_transitions.modify (fun t => { t with arcsOut := t.arcsOut ++ [k] }) s }

/-- The statement `node.arcsIn.push_back(&m_arcs.back())` for the node behind a
pointer; `k` is the position of the last arc. -/
def pushArcsIn (net : PetriNet) (n : NodePtr) (k : Nat) : PetriNet :=
  match n with
  | NodePtr.place s =>
    { net with m_places := net.m_places.modify (fun p => { p with arcsIn := p.arcsIn ++ [k] }) s }
  | NodePtr.transition s =>
    { net with m_transitions :=
        net.m_transitions.modify (fun t => { t with arcsIn := t.arcsIn ++ [k] }) s }

/-- The three statements that create one arc and record it on both sides:
`m_arcs.push_back(Arc(from, to, duration))`, then the two `push_back` on the
adjacency lists of the endpoints. -/
def linkArc (net : PetriNet) (pf : NodePtr) (rf : NodeRef) (pt : NodePtr) (rt : NodeRef)
    (duration : ℚ) : PetriNet :=
  pushArcsIn
    (pushArcsOut { net with m_arcs := net.m_arcs ++ [⟨rf, rt, duration⟩] } pf net.m_arcs.length)
    pt net.m_arcs.length

/-- The body of `PetriNet::addArc(from, to, duration, strict)`.  The result is
the returned boolean and the state after the call.  The bridging place is
created by `addPlace(x, y)`, whose default token count (declared in the absent
`PetriNet.hpp`) is 0. -/
def addArc (net : PetriNet) (from_ to_ : NodeRef) (duration : ℚ) (strict : Bool) :
    Bool × PetriNet :=
  if (net.findArc from_ to_).isSome then (false, net)
  else
    match net.findNode from_.key with
    | none => (false, net)
    | some pf =>
      match net.findNode to_.key with
      | none => (false, net)
      | some pt =>
        if from_.type = to_.type then
          if strict then (false, net)
          else
            let x := floatMid (net.ptrX pf) (net.ptrX pt)
            let y := floatMid (net.ptrY pf) (net.ptrY pt)
            if to_.type = NodeType.Place then
              let net1 := net.addTransition x y
              let pn := NodePtr.transition net.m_transitions.length
              let rn : NodeRef := ⟨NodeType.Transition, net.m_next_transition_id⟩
              let net2 := net1.linkArc pf from_ pn rn duration
              let net3 := net2.linkArc pn rn pt to_ duration
              (true, { net3 with modified := true })
            else
              let net1 := net.addPlace x y 0
              let pn := NodePtr.place net.m_places.length
              let rn : NodeRef := ⟨NodeType.Place, net.m_next_place_id⟩
              let net2 := net1.linkArc pf from_ pn rn duration
              let net3 := net2.linkArc pn rn pt to_ duration
              (true, { net3 with modified := true })
        else
          (true, { net.linkArc pf from_ pt to_ duration with modified := true })

/-- One pass of the inner loop of `generateArcsInArcsOut` for the transition
with id `tid`: `k` is the position of the head of the remaining arcs; the
result is the pair (`arcsIn`, `arcsOut`). -/
def scanTransitionArcs (tid : Nat) : Nat → List Arc → List Nat × List Nat
  | _, [] => ([], [])
  | k, a :: rest =>
    if a.from_.type = NodeType.Place ∧ a.to_.id = tid then
      (k :: (scanTransitionArcs tid (k + 1) rest).1, (scanTransitionArcs tid (k + 1) rest).2)
    else if a.to_.type = NodeType.Place ∧ a.from_.id = tid then
      ((scanTransitionArcs tid (k + 1) rest).1, k :: (scanTransitionArcs tid (k + 1) rest).2)
    else scanTransitionArcs tid (k + 1) rest

/-- One pass of the inner loop of `generateArcsInArcsOut` for the place with id
`pid`; the result is the pair (`arcsIn`, `arcsOut`). -/
def scanPlaceArcs (pid : Nat) : Nat → List Arc → List Nat × List Nat
  | _, [] => ([], [])
  | k, a :: rest =>
    if a.from_.type = NodeType.Transition ∧ a.to_.id = pid then
      (k :: (scanPlaceArcs pid (k + 1) rest).1, (scanPlaceArcs pid (k + 1) rest).2)
    else if a.to_.type = NodeType.Transition ∧ a.from_.id = pid then
      ((scanPlaceArcs pid (k + 1) rest).1, k :: (scanPlaceArcs pid (k + 1) rest).2)
    else scanPlaceArcs pid (k + 1) rest

/-- The body of `PetriNet::generateArcsInArcsOut`: every node gets its two
adjacency lists cleared and refilled by a scan of the arc list. -/
def generateArcsInArcsOut (net : PetriNet) : PetriNet :=
  { net with
    m_transitions := net.m_transitions.map (fun trans =>
      { trans with
        arcsIn := (scanTransitionArcs trans.id 0 net.m_arcs).1
        arcsOut := (scanTransitionArcs trans.id 0 net.m_arcs).2 })
    m_places := net.m_places.map (fun p =>
      { p with
        arcsIn := (scanPlaceArcs p.id 0 net.m_arcs).1
        arcsOut := (scanPlaceArcs p.id 0 net.m_arcs).2 }) }

/-- The two statements `c[i] = c[c.size() - 1]; c.pop_back();`. -/
def swapRemove {α : Type} (c : List α) (i : Nat) : List α :=
  match c.getLast? with
  | some e => (c.set i e).dropLast
  | none => c

/-- The loop of `PetriNet::removeArc(Arc const&)`, counting `i` down: the first
argument is the number of slots still to visit. -/
def removeArcLoop (from_ to_ : NodeRef) : Nat → List Arc → Bool × List Arc
  | 0, arcs => (false, arcs)
  | i + 1, arcs =>
    match arcs[i]? with
    | some it =>
      if it.from_ = from_ ∧ it.to_ = to_ then (true, swapRemove arcs i)
      else removeArcLoop from_ to_ i arcs
    | none => removeArcLoop from_ to_ i arcs

/-- The body of `PetriNet::removeArc(from, to)`. -/
def removeArc (net : PetriNet) (from_ to_ : NodeRef) : Bool × PetriNet :=
  ((removeArcLoop from_ to_ net.m_arcs.length net.m_arcs).1,
   { net with m_arcs := (removeArcLoop from_ to_ net.m_arcs.length net.m_arcs).2 })

/-- The first loop of `PetriNet::removeNode`: arcs touching the node are
swap-removed, `i` counting down. -/
def removeIncidentArcs (node : NodeRef) : Nat → List Arc → List Arc
  | 0, arcs => arcs
  | i + 1, arcs =>
    match arcs[i]? with
    | some it =>
      if it.to_ = node ∨ it.from_ = node then removeIncidentArcs node i (swapRemove arcs i)
      else removeIncidentArcs node i arcs
    | none => removeIncidentArcs node i arcs

/-- The arc rewiring loop of `PetriNet::removeNode`: `pe` is the last node of
the container, `pi` the node now stored in the vacated slot. -/
def relinkArcs (pe pi : NodeRef) (arcs : List Arc) : List Arc :=
  arcs.map (fun a =>
    let a1 : Arc := if a.to_ = pe then ⟨a.from_, pi, a.duration⟩ else a
    if a1.from_ = pe then ⟨pi, a1.to_, a1.duration⟩ else a1)

/-- The place branch of `PetriNet::removeNode`, `i` counting down over the
slots; `none` when `assert(m_next_place_id >= 1u)` fails. -/
def removePlaceLoop (nodeId : Nat) : Nat → PetriNet → Option PetriNet
  | 0, net => some net
  | i + 1, net =>
    match net.m_places[i]?, net.m_places.getLast? with
    | some pi, some pe =>
      if pi.id = nodeId then
        if 1 ≤ net.m_next_place_id then
          removePlaceLoop nodeId i
            { net with
              m_places := (net.m_places.set i
                (if pe.caption = pe.key then Place.make pi.id pi.key pe.x pe.y pe.tokens
                 else Place.make pi.id pe.caption pe.x pe.y pe.tokens)).dropLast
              m_next_place_id := net.m_next_place_id - 1
              m_arcs := relinkArcs pe.ref pi.ref net.m_arcs }
        else none
      else removePlaceLoop nodeId i net
    | _, _ => removePlaceLoop nodeId i net

/-- The transition branch of `PetriNet::removeNode`, `i` counting down over the
slots; `none` when `assert(m_next_transition_id >= 1u)` fails. -/
def removeTransitionLoop (nodeId : Nat) : Nat → PetriNet → Option PetriNet
  | 0, net => some net
  | i + 1, net =>
    match net.m_transitions[i]?, net.m_transitions.getLast? with
    | some ti, some te =>
      if ti.id = nodeId then
        if 1 ≤ net.m_next_transition_id then
          removeTransitionLoop nodeId i
            { net with
              m_transitions := (net.m_transitions.set i
                (if te.caption = te.key then
                  Transition.make ti.id ti.key te.x te.y te.angle
                    (if net.m_type = NetType.TimedPetri then true else false)
                 else
                  Transition.make ti.id te.caption te.x te.y te.angle
                    (if net.m_type = NetType.TimedPetri then true else false))).dropLast
              m_next_transition_id := net.m_next_transition_id - 1
              m_arcs := relinkArcs te.ref ti.ref net.m_arcs }
        else none
      else removeTransitionLoop nodeId i net
    | _, _ => removeTransitionLoop nodeId i net

/-- The body of `PetriNet::removeNode(node)`. -/
def removeNode (net : PetriNet) (node : NodeRef) : Option PetriNet :=
  let net1 : PetriNet :=
    { net with m_arcs := removeIncidentArcs node net.m_arcs.length net.m_arcs }
  match node.type with
  | NodeType.Place =>
    (removePlaceLoop node.id net1.m_places.length net1).map generateArcsInArcsOut
  | NodeType.Transition =>
    (removeTransitionLoop node.id net1.m_transitions.length net1).map generateArcsInArcsOut

end PetriNet

/-- The fields of a place other than its adjacency lists. -/
def Place.data (p : Place) : Nat × String × ℚ × ℚ × Nat :=
  (p.id, p.caption, p.x, p.y, p.tokens)

/-- The fields of a transition other than its adjacency lists. -/
def Transition.data (t : Transition) : Nat × String × ℚ × ℚ × Int × Bool × Nat :=
  (t.id, t.caption, t.x, t.y, t.angle, t.receptivity, t.index)

/-- The ordered endpoint pair of an arc. -/
def Arc.ends (a : Arc) : NodeRef × NodeRef := (a.from_, a.to_)

/-- Identifier density: slot `i` of each node container holds the node with id
`i`, and each next-id counter equals the size of its container. -/
def IdDense (net : PetriNet) : Prop :=
  net.m_places.map Place.id = List.range net.m_places.length ∧
  net.m_next_place_id = net.m_places.length ∧
  net.m_transitions.map Transition.id = List.range net.m_transitions.length ∧
  net.m_next_transition_id = net.m_transitions.length

instance (net : PetriNet) : Decidable (IdDense net) := by
  unfold IdDense; infer_instance

/-- The reference designates a node whose id is below the size of its
container. -/
def validRef (net : PetriNet) (r : NodeRef) : Prop :=
  match r.type with
  | NodeType.Place => r.id < net.m_places.length
  | NodeType.Transition => r.id < net.m_transitions.length

instance (net : PetriNet) (r : NodeRef) : Decidable (validRef net r) := by
  unfold validRef; cases r.type <;> infer_instance

/-- Referential integrity: both endpoints of every arc are valid references. -/
def RefIntegrity (net : PetriNet) : Prop :=
  ∀ a ∈ net.m_arcs, validRef net a.from_ ∧ validRef net a.to_

instance (net : PetriNet) : Decidable (RefIntegrity net) := by
  unfold RefIntegrity; infer_instance

/-- Arc uniqueness: no two arcs of the list have the same ordered endpoint
pair. -/
def ArcsUnique (net : PetriNet) : Prop :=
  (net.m_arcs.map Arc.ends).Nodup

instance (net : PetriNet) : Decidable (ArcsUnique net) := by
  unfold ArcsUnique; infer_instance

/-- Bipartiteness: the endpoints of every arc have different types. -/
def Bipartite (net : PetriNet) : Prop :=
  ∀ a ∈ net.m_arcs, a.from_.type ≠ a.to_.type

instance (net : PetriNet) : Decidable (Bipartite net) := by
  unfold Bipartite; infer_instance

/-- Value of a decimal digit string, most significant digit first. -/
def digitsValue (l : List Char) (acc : Nat) : Nat :=
  l.foldl (fun a c => a * 10 + (c.toNat - 48)) acc

/-- The node pointer a reference stands for in a dense net. -/
def NodeRef.ptr (r : NodeRef) : NodePtr :=
  match r.type with
  | NodeType.Place => NodePtr.place r.id
  | NodeType.Transition => NodePtr.transition r.id

/-- The renaming of one endpoint: `old` becomes `new`, every other reference is
kept. -/
def renameRef (old new : NodeRef) (r : NodeRef) : NodeRef :=
  if r = old then new else r

/-- The renaming applied to both endpoints of an arc; the duration is kept. -/
def renameArc (old new : NodeRef) (a : Arc) : Arc :=
  ⟨renameRef old new a.from_, renameRef old new a.to_, a.duration⟩

/-- The four structural invariants together. -/
def WellFormed (net : PetriNet) : Prop :=
  IdDense net ∧ RefIntegrity net ∧ ArcsUnique net ∧ Bipartite net

/-- Size of the container holding the nodes of the given type. -/
def nodeCount (net : PetriNet) (K : NodeType) : Nat :=
  match K with
  | NodeType.Place => net.m_places.length
  | NodeType.Transition => net.m_transitions.length

/-- A net with two places and one transition, used to instantiate the claims. -/
def sampleNet : PetriNet :=
  ((((PetriNet.empty NetType.TimedPetri).addPlace 0 0 3).addPlace 2 4 0).addTransition 1 1)

/-- A net with two places, one transition and three arcs, used to instantiate
the claims about removals. -/
def linkedNet : PetriNet :=
  { m_type := NetType.TimedPetri
    m_places :=
      [ { id := 0, caption := "P0", x := 0, y := 0, tokens := 1, arcsIn := [], arcsOut := [0] },
        { id := 1, caption := "P1", x := 2, y := 3, tokens := 0, arcsIn := [1], arcsOut := [2] } ]
    m_transitions :=
      [ { id := 0, caption := "T0", x := 1, y := 1, angle := 0, receptivity := true, index := 0,
          arcsIn := [0, 2], arcsOut := [1] } ]
    m_arcs :=
      [ ⟨⟨NodeType.Place, 0⟩, ⟨NodeType.Transition, 0⟩, 1⟩,
        ⟨⟨NodeType.Transition, 0⟩, ⟨NodeType.Place, 1⟩, 2⟩,
        ⟨⟨NodeType.Place, 1⟩, ⟨NodeType.Transition, 0⟩, 3⟩ ]
    m_next_place_id := 2
    m_next_transition_id := 1
    modified := true }

/-- A node of the type and id of the reference is stored in the net. -/
def hasNode (net : PetriNet) (r : NodeRef) : Prop :=
  match r.type with
  | NodeType.Place => r.id ∈ net.m_places.map Place.id
  | NodeType.Transition => r.id ∈ net.m_transitions.map Transition.id

instance (net : PetriNet) (r : NodeRef) : Decidable (hasNode net r) := by
  unfold hasNode; cases r.type <;> infer_instance

/-- The positions, in increasing order, of the arcs of the list that satisfy
`p`: the sub-sequence of the arc list selected by `p`, as pointers. -/
def arcIndices (arcs : List Arc) (p : Arc → Bool) : List Nat :=
  (List.range arcs.length).filter (fun k =>
    match arcs[k]? with
    | some a => p a
    | none => false)

/-- The constant `std::numeric_limits<size_t>::max()`, also `static_cast<size_t>(-1)`,
for a 64-bit `size_t`. -/
def SIZE_MAX : Nat := 2 ^ 64 - 1

/-- The loop of `Transition::isEnabled` over `arcsIn`.  The accessor
`Arc::tokensIn()` is declared in the absent `PetriNet.hpp`; it is the parameter
`tokensIn`, from arc pointers to token counts. -/
def isEnabledLoop (tokensIn : Nat → Nat) : List Nat → Bool
  | [] => true
  | a :: rest => if tokensIn a = 0 then false else isEnabledLoop tokensIn rest

/-- The body of `Transition::isEnabled`. -/
def Transition.isEnabled (tokensIn : Nat → Nat) (t : Transition) : Bool :=
  if t.arcsIn.length = 0 then true else isEnabledLoop tokensIn t.arcsIn

/-- The loop of `Transition::howManyTokensCanBurnt` over `arcsIn`; the last
argument is the running value of `burnt`. -/
def burntLoop (tokensIn : Nat → Nat) : List Nat → Nat → Nat
  | [], burnt => burnt
  | a :: rest, burnt =>
    if tokensIn a = 0 then 0
    else if tokensIn a < burnt then burntLoop tokensIn rest (tokensIn a)
    else burntLoop tokensIn rest burnt

/-- The body of `Transition::howManyTokensCanBurnt`. -/
def Transition.howManyTokensCanBurnt (tokensIn : Nat → Nat) (t : Transition) : Nat :=
  if t.arcsIn.length = 0 then (if t.receptivity != false then 1 else 0)
  else if t.receptivity = false then 0
  else burntLoop tokensIn t.arcsIn SIZE_MAX

/-- The firing policies, `Settings::Fire` in the engine. -/
inductive Fire where
  | OneByOne
  | MaxPossible
  deriving DecidableEq

/-- The process-wide settings, `Settings::maxTokens` and `Settings::firing`. -/
structure Settings where
  maxTokens : Nat
  firing : Fire
  deriving DecidableEq

/-- The body of `PetriNet::changeTypeOfNet(mode)` on the net and the global
settings; `none` in the default branch, where `assert(false)` fails. -/
def PetriNet.changeTypeOfNet (net : PetriNet) (s : Settings) (mode : NetType) :
    Option (PetriNet × Settings) :=
  match mode with
  | NetType.GRAFCET =>
    some ({ net with m_type := mode }, { s with maxTokens := 1, firing := Fire.OneByOne })
  | NetType.Petri =>
    some ({ net with m_type := mode },
      { s with maxTokens := SIZE_MAX, firing := Fire.MaxPossible })
  | NetType.TimedPetri =>
    some ({ net with m_type := mode }, { s with maxTokens := SIZE_MAX, firing := Fire.OneByOne })
  | NetType.TimedGraphEvent => none

/-- A transition with two input arcs, used to instantiate the claims on
firing. -/
def sampleTransition : Transition :=
  { id := 0, caption := "T0", x := 0, y := 0, angle := 0, receptivity := true, index := 0,
    arcsIn := [0, 1], arcsOut := [] }

/-- A net with one place holding five tokens. -/
def fiveTokenNet : PetriNet :=
  { m_type := NetType.TimedPetri
    m_places :=
      [ { id := 0, caption := "P0", x := 0, y := 0, tokens := 5, arcsIn := [], arcsOut := [] } ]
    m_transitions := []
    m_arcs := []
    m_next_place_id := 1
    m_next_transition_id := 0
    modified := true }

/-- Modelled from the spec: `PetriNet::isEmpty` of the absent `PetriNet.hpp`,
true for a net without any node (no place and no transition). -/
def PetriNet.isEmpty (net : PetriNet) : Bool :=
  net.m_places.isEmpty && net.m_transitions.isEmpty

/-- The loop of `PetriNet::isEventGraph` over the places, after the adjacency
lists have been regenerated: `none` when the loop runs to its end, and at the
first place that does not have one input and one output arc the content of
`erroneous_arcs` at the `return false`. -/
def isEventGraphLoop : List Place → Option (List Nat)
  | [] => none
  | p :: rest =>
    if ¬ (p.arcsIn.length = 1 ∧ p.arcsOut.length = 1) then
      some ((if p.arcsOut.length ≠ 1 then p.arcsOut else []) ++
        (if p.arcsIn.length ≠ 1 then p.arcsIn else []))
    else isEventGraphLoop rest

/-- The body of `PetriNet::isEventGraph(erroneous_arcs)`: the returned boolean,
the final content of `erroneous_arcs` (its incoming content is discarded by the
initial `clear()`), and the net, whose adjacency lists are regenerated unless
the net is empty. -/
def PetriNet.isEventGraph (net : PetriNet) : Bool × List Nat × PetriNet :=
  if net.isEmpty then (false, [], net)
  else
    match isEventGraphLoop net.generateArcsInArcsOut.m_places with
    | some erroneous_arcs => (false, erroneous_arcs, net.generateArcsInArcsOut)
    | none => (true, [], net.generateArcsInArcsOut)

/-- The first place, in slot order, that does not have exactly one input arc
and exactly one output arc in the arc list. -/
def firstOffendingPlace (net : PetriNet) : Option Place :=
  net.m_places.find? (fun p =>
    !(decide (net.m_arcs.countP (fun a => decide (a.to_ = p.ref)) = 1) &&
      decide (net.m_arcs.countP (fun a => decide (a.from_ = p.ref)) = 1)))

/-- The empty net of type TimedPetri. -/
def emptyNet : PetriNet := PetriNet.empty NetType.TimedPetri

/-- A net that is not bipartite: its place P0 has the input arc T0 -> P0 and
the output arc P0 -> T0, and there is an arc T1 -> T0 between transitions. -/
def strayArcNet : PetriNet :=
  { m_type := NetType.TimedPetri
    m_places :=
      [ { id := 0, caption := "P0", x := 0, y := 0, tokens := 1, arcsIn := [], arcsOut := [] } ]
    m_transitions :=
      [ { id := 0, caption := "T0", x := 1, y := 1, angle := 0, receptivity := true, index := 0,
          arcsIn := [], arcsOut := [] },
        { id := 1, caption := "T1", x := 2, y := 2, angle := 0, receptivity := true, index := 0,
          arcsIn := [], arcsOut := [] } ]
    m_arcs :=
      [ ⟨⟨NodeType.Transition, 0⟩, ⟨NodeType.Place, 0⟩, 1⟩,
        ⟨⟨NodeType.Place, 0⟩, ⟨NodeType.Transition, 0⟩, 1⟩,
        ⟨⟨NodeType.Transition, 1⟩, ⟨NodeType.Transition, 0⟩, 1⟩ ]
    m_next_place_id := 1
    m_next_transition_id := 2
    modified := true }

/-- A bipartite net with two places of wrong degree: P0 has no arc and P1 has
the single arc P1 -> T0. -/
def twoOffendersNet : PetriNet :=
  { m_type := NetType.TimedPetri
    m_places :=
      [ { id := 0, caption := "P0", x := 0, y := 0, tokens := 0, arcsIn := [], arcsOut := [] },
        { id := 1, caption := "P1", x := 0, y := 1, tokens := 0, arcsIn := [], arcsOut := [] } ]
    m_transitions :=
      [ { id := 0, caption := "T0", x := 1, y := 1, angle := 0, receptivity := true, index := 0,
          arcsIn := [], arcsOut := [] } ]
    m_arcs := [ ⟨⟨NodeType.Place, 1⟩, ⟨NodeType.Transition, 0⟩, 1⟩ ]
    m_next_place_id := 2
    m_next_transition_id := 1
    modified := true }

/-- The loop of scenario S4: T0 -> P0 (1 token, duration 2) -> T1 -> P1 (no
token, duration 3) -> T0. -/
def loopNet : PetriNet :=
  { m_type := NetType.TimedPetri
    m_places :=
      [ { id := 0, caption := "P0", x := 0, y := 0, tokens := 1, arcsIn := [], arcsOut := [] },
        { id := 1, caption := "P1", x := 0, y := 1, tokens := 0, arcsIn := [], arcsOut := [] } ]
    m_transitions :=
      [ { id := 0, caption := "T0", x := 1, y := 0, angle := 0, receptivity := true, index := 0,
          arcsIn := [], arcsOut := [] },
        { id := 1, caption := "T1", x := 1, y := 1, angle := 0, receptivity := true, index := 0,
          arcsIn := [], arcsOut := [] } ]
    m_arcs :=
      [ ⟨⟨NodeType.Transition, 0⟩, ⟨NodeType.Place, 0⟩, 2⟩,
        ⟨⟨NodeType.Place, 0⟩, ⟨NodeType.Transition, 1⟩, 0⟩,
        ⟨⟨NodeType.Transition, 1⟩, ⟨NodeType.Place, 1⟩, 3⟩,
        ⟨⟨NodeType.Place, 1⟩, ⟨NodeType.Transition, 0⟩, 0⟩ ]
    m_next_place_id := 2
    m_next_transition_id := 2
    modified := true }

/-- Modelled from the spec: the triplet store `SparseMatrix` of the absent
headers, with the parallel vectors `i`, `j`, `d` and the shape `M`, `N` that
`Julia.cpp` reads. -/
structure SparseMatrix where
  i : List Nat
  j : List Nat
  d : List ℚ
  M : Nat
  N : Nat
  deriving DecidableEq

/-- Modelled from the spec: `SparseMatrix::clear` empties the triplets and
keeps the shape. -/
def SparseMatrix.clear (m : SparseMatrix) : SparseMatrix :=
  { m with i := [], j := [], d := [] }

/-- Modelled from the spec: `SparseMatrix::dim(M, N)` sets the logical shape. -/
def SparseMatrix.dim (m : SparseMatrix) (M N : Nat) : SparseMatrix :=
  { m with M := M, N := N }

/-- Modelled from the spec: `SparseMatrix::add(i, j, value)` appends a
triplet. -/
def SparseMatrix.add (m : SparseMatrix) (i j : Nat) (value : ℚ) : SparseMatrix :=
  { m with i := m.i ++ [i], j := m.j ++ [j], d := m.d ++ [value] }

/-- The triplets of a sparse matrix, in insertion order. -/
def SparseMatrix.triplets (m : SparseMatrix) : List (Nat × Nat × ℚ) :=
  List.zip m.i (List.zip m.j m.d)

/-- The loop of `PetriNet::toAdjacencyMatrices` over the places; the arcs are
read through the pointers of the adjacency lists.  The result is the returned
boolean with the matrices `N` and `T` at the return; `none` when a pointer does
not designate an arc of the list. -/
def toAdjacencyLoop (arcs : List Arc) :
    List Place → SparseMatrix → SparseMatrix → Option (Bool × SparseMatrix × SparseMatrix)
  | [], N, T => some (true, N, T)
  | p :: rest, N, T =>
    if p.arcsIn.length ≠ 1 then some (false, N, T)
    else
      match p.arcsIn[0]? with
      | none => none
      | some kin =>
        match arcs[kin]? with
        | none => none
        | some ain =>
          if ain.from_.type ≠ NodeType.Transition then some (false, N, T)
          else if p.arcsOut.length ≠ 1 then some (false, N, T)
          else
            match p.arcsOut[0]? with
            | none => none
            | some kout =>
              match arcs[kout]? with
              | none => none
              | some aout =>
                if aout.to_.type ≠ NodeType.Transition then some (false, N, T)
                else
                  toAdjacencyLoop arcs rest
                    (N.add aout.to_.id ain.from_.id (roundFloat (p.tokens : ℚ)))
                    (T.add aout.to_.id ain.from_.id ain.duration)

/-- The body of `PetriNet::toAdjacencyMatrices(N, T)`: the returned boolean and
the two matrices (the adjacency lists of the net are regenerated on the way). -/
def PetriNet.toAdjacencyMatrices (net : PetriNet) (N T : SparseMatrix) :
    Option (Bool × SparseMatrix × SparseMatrix) :=
  toAdjacencyLoop net.generateArcsInArcsOut.m_arcs net.generateArcsInArcsOut.m_places
    ((N.clear).dim net.generateArcsInArcsOut.m_transitions.length
      net.generateArcsInArcsOut.m_transitions.length)
    ((T.clear).dim net.generateArcsInArcsOut.m_transitions.length
      net.generateArcsInArcsOut.m_transitions.length)

/-- A sparse matrix without triplet and of shape 0 x 0. -/
def SparseMatrix.zero : SparseMatrix := ⟨[], [], [], 0, 0⟩

/-- The input arc of a place: the first arc of the list whose to is the
place. -/
def predArc (arcs : List Arc) (p : Place) : Option Arc :=
  arcs.find? (fun a => decide (a.to_ = p.ref))

/-- The output arc of a place: the first arc of the list whose from is the
place. -/
def succArc (arcs : List Arc) (p : Place) : Option Arc :=
  arcs.find? (fun a => decide (a.from_ = p.ref))

/-- The triplets `toAdjacencyMatrices` appends to `N` for a list of places. -/
def tokenTriplets (arcs : List Arc) (l : List Place) (N : SparseMatrix) : SparseMatrix :=
  l.foldl (fun m p =>
    match predArc arcs p, succArc arcs p with
    | some ain, some aout => m.add aout.to_.id ain.from_.id (roundFloat (p.tokens : ℚ))
    | _, _ => m) N

/-- The triplets `toAdjacencyMatrices` appends to `T` for a list of places. -/
def durationTriplets (arcs : List Arc) (l : List Place) (T : SparseMatrix) : SparseMatrix :=
  l.foldl (fun m p =>
    match predArc arcs p, succArc arcs p with
    | some ain, some aout => m.add aout.to_.id ain.from_.id ain.duration
    | _, _ => m) T

/-- Modelled from the spec: the default value of the `duration` parameter of
`addArc`, declared in the absent `PetriNet.hpp`: zero. -/
def defaultDuration : ℚ := 0

/-- Modelled from the spec: the default value of the `strict` parameter of
`addArc`, declared in the absent `PetriNet.hpp`: true. -/
def defaultStrict : Bool := true

/-- The node a `Node&` bound to `m_places[slot]` or `m_transitions[slot]`
designates; `none` when the slot is outside the container. -/
def PetriNet.nodeAt (net : PetriNet) (type : NodeType) (slot : Nat) : Option NodeRef :=
  match type with
  | NodeType.Place => (net.m_places[slot]?).map Place.ref
  | NodeType.Transition => (net.m_transitions[slot]?).map Transition.ref

/-- The loop of `PetriNet::operator=` that redoes the references of the arcs:
each endpoint is bound to the slot numbered by the id of the copied endpoint. -/
def rebindArcs (net : PetriNet) : List Arc → Option (List Arc)
  | [] => some []
  | it :: rest =>
    match net.nodeAt it.from_.type it.from_.id, net.nodeAt it.to_.type it.to_.id,
      rebindArcs net rest with
    | some from_, some to_, some arcs => some (⟨from_, to_, it.duration⟩ :: arcs)
    | _, _, _ => none

/-- The body of `PetriNet::operator=(other)` for two distinct objects: `self` is
the assigned object, whose `modified` flag is kept. -/
def PetriNet.assign (self other : PetriNet) : Option PetriNet :=
  (rebindArcs other other.m_arcs).map (fun arcs =>
    generateArcsInArcsOut
      { self with
        m_type := other.m_type
        m_places := other.m_places
        m_transitions := other.m_transitions
        m_next_place_id := other.m_next_place_id
        m_next_transition_id := other.m_next_transition_id
        m_arcs := arcs })

/-- The `arcsIn` member of the node behind a `Node*`: the node sits in the slot
numbered by its id, in the container of its type. -/
def PetriNet.nodeArcsIn (net : PetriNet) (r : NodeRef) : Option (List Nat) :=
  match r.type with
  | NodeType.Place => (net.m_places[r.id]?).map Place.arcsIn
  | NodeType.Transition => (net.m_transitions[r.id]?).map Transition.arcsIn

/-- The `arcsOut` member of the node behind a `Node*`. -/
def PetriNet.nodeArcsOut (net : PetriNet) (r : NodeRef) : Option (List Nat) :=
  match r.type with
  | NodeType.Place => (net.m_places[r.id]?).map Place.arcsOut
  | NodeType.Transition => (net.m_transitions[r.id]?).map Transition.arcsOut

/-- Modelled from the spec: `Transition::isInput()` of the absent
`PetriNet.hpp`, a transition without input arc, called through
`reinterpret_cast<Transition*>(node)`. -/
def PetriNet.isInput (net : PetriNet) (r : NodeRef) : Option Bool :=
  (net.nodeArcsIn r).map (fun l => decide (l.length = 0))

/-- Modelled from the spec: `Transition::isOutput()` of the absent
`PetriNet.hpp`, a transition without output arc, called through
`reinterpret_cast<Transition*>(node)`. -/
def PetriNet.isOutput (net : PetriNet) (r : NodeRef) : Option Bool :=
  (net.nodeArcsOut r).map (fun l => decide (l.length = 0))

/-- The arc behind the pointer stored first in an adjacency list: the arc that
sits now at the recorded position of `m_arcs`; `none` when the list is empty or
the position is past the end of `m_arcs`. -/
def PetriNet.firstArc (net : PetriNet) (l : List Nat) : Option Arc :=
  match l[0]? with
  | none => none
  | some k => net.m_arcs[k]?

/-- The inner loop `while (tokens--)` of the token explosion of
`toCanonicalForm`, for the place of slot `i`: the first argument is the value of
`tokens`, the last one is `from`.  The place has at least two tokens when
`p.tokens--` runs. -/
def explodeLoop (i : Nat) (duration : ℚ) : Nat → PetriNet → NodeRef → Option PetriNet
  | 0, net, _ => some net
  | tokens + 1, net, from_ =>
    let tmp1 : NodeRef := ⟨NodeType.Place, net.m_next_place_id⟩
    let net1 := (net.addPlace 10 10 1).addArc from_ tmp1 defaultDuration defaultStrict
    let tmp2 : NodeRef := ⟨NodeType.Transition, net1.2.m_next_transition_id⟩
    let net2 := (net1.2.addTransition 20 20).addArc tmp1 tmp2 defaultDuration defaultStrict
    match net2.2.m_places[i]? with
    | none => none
    | some p =>
      let net3 : PetriNet :=
        { net2.2 with
          m_places := net2.2.m_places.modify (fun q => { q with tokens := q.tokens - 1 }) i }
      if p.tokens - 1 = 1 then
        explodeLoop i duration tokens (net3.addArc tmp2 p.ref duration defaultStrict).2 tmp2
      else
        explodeLoop i duration tokens net3 tmp2

/-- The first loop of `toCanonicalForm`, `i` counting down: places with more
than one token are exploded into places holding a single token. -/
def explodePlaces : Nat → PetriNet → Option PetriNet
  | 0, net => some net
  | i + 1, net =>
    match net.m_places[i]? with
    | none => none
    | some p =>
      if p.tokens > 1 then
        match net.firstArc p.arcsIn with
        | none => none
        | some a =>
          match explodeLoop i a.duration (p.tokens - 1) (net.removeArc a.from_ p.ref).2 a.from_ with
          | none => none
          | some net1 => explodePlaces i net1
      else explodePlaces i net

/-- The block `// Inputs` of `toCanonicalForm` for the place of slot `i`. -/
def pushFromInput (net : PetriNet) (i : Nat) : Option PetriNet :=
  match net.m_places[i]? with
  | none => none
  | some p =>
    match net.firstArc p.arcsIn with
    | none => none
    | some a =>
      match net.isInput a.from_ with
      | none => none
      | some false => some net
      | some true =>
        let net1 := (net.removeArc a.from_ p.ref).2
        let tmp1 : NodeRef := ⟨NodeType.Place, net1.m_next_place_id⟩
        let net2 := net1.addPlace 50 50 0
        let tmp2 : NodeRef := ⟨NodeType.Transition, net2.m_next_transition_id⟩
        let net3 := net2.addTransition 60 60
        let net4 := (net3.addArc a.from_ tmp1 defaultDuration defaultStrict).2
        let net5 := (net4.addArc tmp1 tmp2 a.duration defaultStrict).2
        some (net5.addArc tmp2 p.ref defaultDuration defaultStrict).2

/-- The block `// Outputs` of `toCanonicalForm` for the place of slot `i`. -/
def pushFromOutput (net : PetriNet) (i : Nat) : Option PetriNet :=
  match net.m_places[i]? with
  | none => none
  | some p =>
    match net.firstArc p.arcsOut with
    | none => none
    | some a =>
      match net.isOutput a.to_ with
      | none => none
      | some false => some net
      | some true =>
        let net1 := (net.removeArc p.ref a.to_).2
        let tmp1 : NodeRef := ⟨NodeType.Transition, net1.m_next_transition_id⟩
        let net2 := net1.addTransition 60 60
        let tmp2 : NodeRef := ⟨NodeType.Place, net2.m_next_place_id⟩
        let net3 := net2.addPlace 50 50 0
        let net4 := (net3.addArc p.ref tmp1 defaultDuration defaultStrict).2
        let net5 := (net4.addArc tmp1 tmp2 defaultDuration defaultStrict).2
        some (net5.addArc tmp2 a.to_ defaultDuration defaultStrict).2

/-- The second loop of `toCanonicalForm`, `i` counting down: places with one
token next to an input or an output transition. -/
def boundaryPlaces : Nat → PetriNet → Option PetriNet
  | 0, net => some net
  | i + 1, net =>
    match net.m_places[i]? with
    | none => none
    | some p =>
      if p.tokens = 1 then
        match pushFromInput net i with
        | none => none
        | some net1 =>
          match pushFromOutput net1 i with
          | none => none
          | some net2 => boundaryPlaces i net2
      else boundaryPlaces i net

/-- The body of `PetriNet::toCanonicalForm(canonic)`: the value of `canonic`
after the call, `none` when the call reads outside a container. -/
def PetriNet.toCanonicalForm (self canonic : PetriNet) : Option PetriNet :=
  match canonic.assign self with
  | none => none
  | some net0 =>
    match explodePlaces net0.m_places.length net0 with
    | none => none
    | some net1 =>
      boundaryPlaces net1.generateArcsInArcsOut.m_places.length net1.generateArcsInArcsOut

/-- The one-cycle net T0 -> P0 -> T0 with `k` tokens in P0 and duration `d` on
the arc T0 -> P0. -/
def oneCycleNet (k : Nat) (d : ℚ) : PetriNet :=
  { m_type := NetType.TimedPetri
    m_places :=
      [ { id := 0, caption := "P0", x := 0, y := 0, tokens := k, arcsIn := [0], arcsOut := [1] } ]
    m_transitions :=
      [ { id := 0, caption := "T0", x := 1, y := 0, angle := 0, receptivity := true, index := 0,
          arcsIn := [1], arcsOut := [0] } ]
    m_arcs :=
      [ ⟨⟨NodeType.Transition, 0⟩, ⟨NodeType.Place, 0⟩, d⟩,
        ⟨⟨NodeType.Place, 0⟩, ⟨NodeType.Transition, 0⟩, 0⟩ ]
    m_next_place_id := 1
    m_next_transition_id := 1
    modified := true }

/-- The net T0 -> P0 -> T1 with one token in P0: T0 is a source and T1 is a
sink. -/
def sourceSinkNet : PetriNet :=
  { m_type := NetType.TimedPetri
    m_places :=
      [ { id := 0, caption := "P0", x := 0, y := 0, tokens := 1, arcsIn := [0], arcsOut := [1] } ]
    m_transitions :=
      [ { id := 0, caption := "T0", x := 1, y := 0, angle := 0, receptivity := true, index := 0,
          arcsIn := [], arcsOut := [0] },
        { id := 1, caption := "T1", x := 2, y := 0, angle := 0, receptivity := true, index := 0,
          arcsIn := [1], arcsOut := [] } ]
    m_arcs :=
      [ ⟨⟨NodeType.Transition, 0⟩, ⟨NodeType.Place, 0⟩, 0⟩,
        ⟨⟨NodeType.Place, 0⟩, ⟨NodeType.Transition, 1⟩, 0⟩ ]
    m_next_place_id := 1
    m_next_transition_id := 2
    modified := true }

/-- The arcs the token explosion of `toCanonicalForm` appends, one pair per
pass of the inner loop: `from_ -> P(np)`, `P(np) -> T(nt)`, then the same from
`T(nt)` with the next ids; all of them carry the default duration. -/
def chainArcs (from_ : NodeRef) (np nt : Nat) : Nat → List Arc
  | 0 => []
  | n + 1 =>
    ⟨from_, ⟨NodeType.Place, np⟩, defaultDuration⟩ ::
      ⟨⟨NodeType.Place, np⟩, ⟨NodeType.Transition, nt⟩, defaultDuration⟩ ::
        chainArcs ⟨NodeType.Transition, nt⟩ (np + 1) (nt + 1) n

/-- The place is next to the boundary: its predecessor transition has no input
arc (a source) or its successor transition has no output arc (a sink). -/
def nextToBoundary (net : PetriNet) (p : Place) : Prop :=
  (∃ a ∈ net.m_arcs, a.to_ = p.ref ∧ ∀ b ∈ net.m_arcs, b.to_ ≠ a.from_) ∨
  (∃ a ∈ net.m_arcs, a.from_ = p.ref ∧ ∀ b ∈ net.m_arcs, b.from_ ≠ a.to_)

instance (net : PetriNet) (p : Place) : Decidable (nextToBoundary net p) := by
  unfold nextToBoundary; infer_instance

/-- The canonical form documented at `exportToJulia`: each place has at most
one token and no place holding a token is next to the boundary. -/
def Canonical (net : PetriNet) : Prop :=
  ∀ p ∈ net.m_places, p.tokens ≤ 1 ∧ (0 < p.tokens → ¬ nextToBoundary net p)

instance (net : PetriNet) : Decidable (Canonical net) := by
  unfold Canonical; infer_instance

/-- A GRAFCET net with two transitions whose receptivities are true, as
`resetReceptivies` leaves them. -/
def receptiveNet : PetriNet :=
  { m_type := NetType.GRAFCET
    m_places := []
    m_transitions :=
      [ { id := 0, caption := "T0", x := 1, y := 0, angle := 0, receptivity := true, index := 0,
          arcsIn := [], arcsOut := [] },
        { id := 1, caption := "T1", x := 1, y := 1, angle := 90, receptivity := true, index := 0,
          arcsIn := [], arcsOut := [] } ]
    m_arcs := []
    m_next_place_id := 0
    m_next_transition_id := 2
    modified := true }

/-- The loop of `PetriNet::setTokens`, `i` counting down: `none` when an index
falls outside `marks` or `m_places`. -/
def setTokensLoop (marks : List Nat) : Nat → List Place → Option (List Place)
  | 0, places => some places
  | i + 1, places =>
    match marks[i]?, places[i]? with
    | some m, some _ =>
      setTokensLoop marks i (places.modify (fun p => { p with tokens := m }) i)
    | _, _ => none

/-- The body of `PetriNet::setTokens(marks)`: the returned boolean and the state
after the call. -/
def PetriNet.setTokens (net : PetriNet) (marks : List Nat) : Option (Bool × PetriNet) :=
  if net.m_places.length ≠ marks.length then some (false, net)
  else
    (setTokensLoop marks marks.length net.m_places).map
      (fun places => (true, { net with m_places := places }))

/-- The five-argument `PetriNet::addPlace(id, caption, x, y, tokens)`; `id + 1u`
is computed on `size_t`. -/
def PetriNet.addPlaceId (net : PetriNet) (id : Nat) (caption : String) (x y : ℚ)
    (tokens : Nat) : PetriNet :=
  { net with
    modified := true
    m_places := net.m_places ++ [Place.make id caption x y tokens]
    m_next_place_id :=
      if (id + 1) % (SIZE_MAX + 1) > net.m_next_place_id then (id + 1) % (SIZE_MAX + 1)
      else net.m_next_place_id }

/-- The five-argument `PetriNet::addTransition(id, caption, x, y, angle)`;
`id + 1u` is computed on `size_t`. -/
def PetriNet.addTransitionId (net : PetriNet) (id : Nat) (caption : String) (x y : ℚ)
    (angle : Int) : PetriNet :=
  { net with
    modified := true
    m_transitions := net.m_transitions ++
      [Transition.make id caption x y angle
        (if net.m_type = NetType.TimedPetri then true else false)]
    m_next_transition_id :=
      if (id + 1) % (SIZE_MAX + 1) > net.m_next_transition_id then (id + 1) % (SIZE_MAX + 1)
      else net.m_next_transition_id }

/-- Modelled from the spec: `Transition::isInput()` of the absent
`PetriNet.hpp`: the transition has no input arc. -/
def Transition.isInput (t : Transition) : Bool := decide (t.arcsIn.length = 0)

/-- Modelled from the spec: `Transition::isOutput()` of the absent
`PetriNet.hpp`: the transition has no output arc. -/
def Transition.isOutput (t : Transition) : Bool := decide (t.arcsOut.length = 0)

/-- Modelled from the spec: `Transition::isState()` of the absent
`PetriNet.hpp`: the transition is neither an input nor an output. -/
def Transition.isState (t : Transition) : Bool :=
  decide (t.arcsIn.length ≠ 0) && decide (t.arcsOut.length ≠ 0)

/-- Modelled from the spec: `Transition::isState()` called through
`reinterpret_cast<Transition*>(node)`: the node has an input arc and an output
arc. -/
def PetriNet.isState (net : PetriNet) (r : NodeRef) : Option Bool :=
  match net.nodeArcsIn r, net.nodeArcsOut r with
  | some ins, some outs => some (decide (ins.length ≠ 0) && decide (outs.length ≠ 0))
  | _, _ => none

/-- The member `index` read through `reinterpret_cast<Transition*>(node)`;
`none` when the node is a place, which has no such member, or when the slot is
outside the container. -/
def PetriNet.nodeIndex (net : PetriNet) (r : NodeRef) : Option Nat :=
  match r.type with
  | NodeType.Place => none
  | NodeType.Transition => (net.m_transitions[r.id]?).map Transition.index

/-- The member `tokens` read through `reinterpret_cast<Place*>(node)`; `none`
when the node is a transition, which has no such member, or when the slot is
outside the container. -/
def PetriNet.nodeTokens (net : PetriNet) (r : NodeRef) : Option Nat :=
  match r.type with
  | NodeType.Place => (net.m_places[r.id]?).map Place.tokens
  | NodeType.Transition => none

/-- The inner loop `for (auto& a: p.arcsOut)` of the seven-argument `toSysLin`
for the arc `arc` leaving the transition of index `tindex`. -/
def sysLinInner (net : PetriNet) (arc : Arc) (tindex : Nat) :
    List Nat → SparseMatrix → SparseMatrix → SparseMatrix →
      Option (SparseMatrix × SparseMatrix × SparseMatrix)
  | [], D, A, C => some (D, A, C)
  | k :: rest, D, A, C =>
    match net.m_arcs[k]? with
    | none => none
    | some a =>
      match net.isState a.to_ with
      | none => none
      | some true =>
        match net.nodeTokens arc.to_, net.nodeIndex a.to_ with
        | some tokens, some tdindex =>
          if tokens = 1 then
            sysLinInner net arc tindex rest D (A.add tdindex tindex arc.duration) C
          else
            sysLinInner net arc tindex rest (D.add tdindex tindex arc.duration) A C
        | _, _ => none
      | some false =>
        match net.isOutput a.to_ with
        | none => none
        | some true => sysLinInner net arc tindex rest D A (C.add tindex tindex arc.duration)
        | some false => sysLinInner net arc tindex rest D A C

/-- The loop `for (auto& arc: m_arcs)` of the seven-argument `toSysLin`. -/
def sysLinLoop (net : PetriNet) :
    List Arc → SparseMatrix → SparseMatrix → SparseMatrix → SparseMatrix →
      Option (SparseMatrix × SparseMatrix × SparseMatrix × SparseMatrix)
  | [], D, A, B, C => some (D, A, B, C)
  | arc :: rest, D, A, B, C =>
    if arc.from_.type = NodeType.Place then sysLinLoop net rest D A B C
    else
      match net.isInput arc.from_, net.nodeIndex arc.from_ with
      | some true, some tindex =>
        sysLinLoop net rest D A (B.add tindex tindex arc.duration) C
      | some false, some tindex =>
        match net.nodeArcsOut arc.to_ with
        | none => none
        | some outs =>
          match sysLinInner net arc tindex outs D A C with
          | none => none
          | some (D1, A1, C1) => sysLinLoop net rest D1 A1 B C1
      | _, _ => none

/-- The body of the seven-argument
`PetriNet::toSysLin(D, A, B, C, nb_inputs, nb_states, nb_outputs)`: the four
matrices after the call, `none` when the call reads outside a container or a
member the node does not have. -/
def PetriNet.toSysLin7 (net : PetriNet) (D A B C : SparseMatrix)
    (nb_inputs nb_states nb_outputs : Nat) :
    Option (SparseMatrix × SparseMatrix × SparseMatrix × SparseMatrix) :=
  sysLinLoop net net.m_arcs ((D.clear).dim nb_states nb_states)
    ((A.clear).dim nb_states nb_states) ((B.clear).dim nb_inputs nb_inputs)
    ((C.clear).dim nb_outputs nb_outputs)

/-- The loop of the four-argument `toSysLin` that labels the transitions of the
canonical net: the three counters and the transitions already labelled. -/
def labelTransitions :
    List Transition → Nat → Nat → Nat → List Transition × Nat × Nat × Nat
  | [], nb_inputs, nb_states, nb_outputs => ([], nb_inputs, nb_states, nb_outputs)
  | t :: rest, nb_inputs, nb_states, nb_outputs =>
    let t1 : Transition := if t.isInput then { t with index := nb_inputs } else t
    let ni := if t.isInput then nb_inputs + 1 else nb_inputs
    let t2 : Transition := if t1.isState then { t1 with index := nb_states } else t1
    let ns := if t1.isState then nb_states + 1 else nb_states
    let t3 : Transition := if t2.isOutput then { t2 with index := nb_outputs } else t2
    let no := if t2.isOutput then nb_outputs + 1 else nb_outputs
    ((t3 :: (labelTransitions rest ni ns no).1), (labelTransitions rest ni ns no).2)

/-- The body of the four-argument `PetriNet::toSysLin(D, A, B, C)`: the returned
boolean, the four matrices and the net itself, whose adjacency lists
`isEventGraph` regenerates.  The net `canonical` is constructed with the type
of the net and without node. -/
def PetriNet.toSysLin (net : PetriNet) (D A B C : SparseMatrix) :
    Option (Bool × SparseMatrix × SparseMatrix × SparseMatrix × SparseMatrix × PetriNet) :=
  if net.isEventGraph.1 = false then some (false, D, A, B, C, net.isEventGraph.2.2)
  else
    match net.isEventGraph.2.2.toCanonicalForm (PetriNet.empty net.m_type) with
    | none => none
    | some canonical =>
      match ({ canonical with
          m_transitions := (labelTransitions canonical.m_transitions 0 0 0).1 } :
          PetriNet).toSysLin7 D A B C (labelTransitions canonical.m_transitions 0 0 0).2.1
            (labelTransitions canonical.m_transitions 0 0 0).2.2.1
            (labelTransitions canonical.m_transitions 0 0 0).2.2.2 with
      | none => none
      | some (D1, A1, B1, C1) => some (true, D1, A1, B1, C1, net.isEventGraph.2.2)

/-- The net of scenario S5: T0 -> P0 (1 token, duration 1) -> T1 -> P1 (no
token, duration 2) -> T2, the arcs in this order; T0 is a source and T2 a
sink. -/
def s5Net : PetriNet :=
  { m_type := NetType.TimedPetri
    m_places :=
      [ { id := 0, caption := "P0", x := 1, y := 0, tokens := 1, arcsIn := [0], arcsOut := [1] },
        { id := 1, caption := "P1", x := 3, y := 0, tokens := 0, arcsIn := [2], arcsOut := [3] } ]
    m_transitions :=
      [ { id := 0, caption := "T0", x := 0, y := 0, angle := 0, receptivity := true, index := 0,
          arcsIn := [], arcsOut := [0] },
        { id := 1, caption := "T1", x := 2, y := 0, angle := 0, receptivity := true, index := 0,
          arcsIn := [1], arcsOut := [2] },
        { id := 2, caption := "T2", x := 4, y := 0, angle := 0, receptivity := true, index := 0,
          arcsIn := [3], arcsOut := [] } ]
    m_arcs :=
      [ ⟨⟨NodeType.Transition, 0⟩, ⟨NodeType.Place, 0⟩, 1⟩,
        ⟨⟨NodeType.Place, 0⟩, ⟨NodeType.Transition, 1⟩, 0⟩,
        ⟨⟨NodeType.Transition, 1⟩, ⟨NodeType.Place, 1⟩, 2⟩,
        ⟨⟨NodeType.Place, 1⟩, ⟨NodeType.Transition, 2⟩, 0⟩ ]
    m_next_place_id := 2
    m_next_transition_id := 3
    modified := true }

/-- The net of scenario S5 with the arc T0 -> P0 created last. -/
def s5NetLast : PetriNet :=
  { s5Net with
    m_arcs :=
      [ ⟨⟨NodeType.Place, 0⟩, ⟨NodeType.Transition, 1⟩, 0⟩,
        ⟨⟨NodeType.Transition, 1⟩, ⟨NodeType.Place, 1⟩, 2⟩,
        ⟨⟨NodeType.Place, 1⟩, ⟨NodeType.Transition, 2⟩, 0⟩,
        ⟨⟨NodeType.Transition, 0⟩, ⟨NodeType.Place, 0⟩, 1⟩ ] }

/-- A sparse matrix holding the given triplets, in that order, with the given
shape. -/
def SparseMatrix.ofTriplets (l : List (Nat × Nat × ℚ)) (M N : Nat) : SparseMatrix :=
  ⟨l.map (fun t => t.1), l.map (fun t => t.2.1), l.map (fun t => t.2.2), M, N⟩

/-- The matrix after `add` has been called for each triplet of the list. -/
def SparseMatrix.addAll (m : SparseMatrix) (l : List (Nat × Nat × ℚ)) : SparseMatrix :=
  l.foldl (fun m t => m.add t.1 t.2.1 t.2.2) m

/-- Number of arcs of the arc list that enter the node. -/
def inDegree (net : PetriNet) (r : NodeRef) : Nat :=
  net.m_arcs.countP (fun a => decide (a.to_ = r))

/-- Number of arcs of the arc list that leave the node. -/
def outDegree (net : PetriNet) (r : NodeRef) : Nat :=
  net.m_arcs.countP (fun a => decide (a.from_ = r))

/-- The index label of the transition the reference designates. -/
def indexOf (net : PetriNet) (r : NodeRef) : Nat :=
  ((net.m_transitions.find? (fun t => decide (t.id = r.id))).map Transition.index).getD 0

/-- The token count of the place the reference designates. -/
def tokensOf (net : PetriNet) (r : NodeRef) : Nat :=
  ((net.m_places.find? (fun p => decide (p.id = r.id))).map Place.tokens).getD 0

/-- The successor transitions of the place an arc enters: the ends of the arcs
leaving that place, in arc-list order. -/
def successors (net : PetriNet) (arc : Arc) : List NodeRef :=
  (net.m_arcs.filter (fun a => decide (a.from_ = arc.to_))).map Arc.to_

/-- The triplets of `B` as the claim words them: one for each arc leaving an
input transition, in arc-list order. -/
def sysLinB (net : PetriNet) : List (Nat × Nat × ℚ) :=
  net.m_arcs.filterMap (fun arc =>
    if arc.from_.type = NodeType.Transition ∧ inDegree net arc.from_ = 0 then
      some (indexOf net arc.from_, indexOf net arc.from_, arc.duration)
    else none)

/-- The triplets of `A` as the claim words them: for each arc `t -> p` leaving a
transition that is not an input, one for each successor `t'` of `p` that is a
state, when `p` holds one token. -/
def sysLinA (net : PetriNet) : List (Nat × Nat × ℚ) :=
  net.m_arcs.flatMap (fun arc =>
    if arc.from_.type = NodeType.Transition ∧ inDegree net arc.from_ ≠ 0 then
      (successors net arc).filterMap (fun t' =>
        if (inDegree net t' ≠ 0 ∧ outDegree net t' ≠ 0) ∧ tokensOf net arc.to_ = 1 then
          some (indexOf net t', indexOf net arc.from_, arc.duration)
        else none)
    else [])

/-- The triplets of `D` as the claim words them: as for `A`, when `p` does not
hold exactly one token. -/
def sysLinD (net : PetriNet) : List (Nat × Nat × ℚ) :=
  net.m_arcs.flatMap (fun arc =>
    if arc.from_.type = NodeType.Transition ∧ inDegree net arc.from_ ≠ 0 then
      (successors net arc).filterMap (fun t' =>
        if (inDegree net t' ≠ 0 ∧ outDegree net t' ≠ 0) ∧ tokensOf net arc.to_ ≠ 1 then
          some (indexOf net t', indexOf net arc.from_, arc.duration)
        else none)
    else [])

/-- The triplets of `C` as the claim words them: for each arc `t -> p` leaving a
transition that is not an input, one for each successor of `p` that is an
output. -/
def sysLinC (net : PetriNet) : List (Nat × Nat × ℚ) :=
  net.m_arcs.flatMap (fun arc =>
    if arc.from_.type = NodeType.Transition ∧ inDegree net arc.from_ ≠ 0 then
      (successors net arc).filterMap (fun t' =>
        if ¬ (inDegree net t' ≠ 0 ∧ outDegree net t' ≠ 0) ∧ outDegree net t' = 0 then
          some (indexOf net arc.from_, indexOf net arc.from_, arc.duration)
        else none)
    else [])

/-- What the external routine `Semi_Howard` hands back: its return code, the
number of components of the optimal policy, the cycle-time vector, the bias
vector and the policy. -/
structure HowardResult where
  res : Int
  ncomponents : Int
  chi : List ℚ
  V : List ℚ
  policy : List Int

/-- The loop of `findCriticalCycle` over the places that fills `IJ`, `T` and
`N`; `none` when one of its four assertions fails. -/
def criticalInput (arcs : List Arc) : List Place → Option (List Int × List ℚ × List ℚ)
  | [] => some ([], [], [])
  | p :: rest =>
    if p.arcsIn.length ≠ 1 then none
    else
      match p.arcsIn[0]? with
      | none => none
      | some kin =>
        match arcs[kin]? with
        | none => none
        | some ain =>
          if ain.from_.type ≠ NodeType.Transition then none
          else if p.arcsOut.length ≠ 1 then none
          else
            match p.arcsOut[0]? with
            | none => none
            | some kout =>
              match arcs[kout]? with
              | none => none
              | some aout =>
                if aout.to_.type ≠ NodeType.Transition then none
                else
                  (criticalInput arcs rest).map (fun r =>
                    ((aout.to_.id : Int) :: (ain.from_.id : Int) :: r.1,
                      ain.duration :: r.2.1, (p.tokens : ℚ) :: r.2.2))

/-- The inner loop of the reconstruction of the critical cycle, over the output
arcs of the transition `policy[to]`: the two arcs pushed to `result` when the
place behind an output arc leads to the transition `to`. -/
def cycleInner (net : PetriNet) (to_ : Nat) : List Nat → Option (Option (Nat × Nat))
  | [] => some none
  | it :: rest =>
    match net.m_arcs[it]? with
    | none => none
    | some a =>
      match net.nodeArcsOut a.to_ with
      | none => none
      | some outs =>
        match outs[0]? with
        | none => none
        | some k =>
          match net.m_arcs[k]? with
          | none => none
          | some a2 =>
            if a2.to_.type ≠ NodeType.Transition then none
            else if a2.to_.id = to_ then some (some (it, k))
            else cycleInner net to_ rest

/-- The loop `for (auto const& from: policy)` of `findCriticalCycle`; the
second argument is the counter `to`. -/
def cycleLoop (net : PetriNet) : List Int → Nat → List Nat → Option (List Nat)
  | [], _, result => some result
  | from_ :: rest, to_, result =>
    if from_ < 0 then none
    else
      match net.m_transitions[from_.toNat]? with
      | none => none
      | some t =>
        match cycleInner net to_ t.arcsOut with
        | none => none
        | some none => cycleLoop net rest (to_ + 1) result
        | some (some (a, b)) => cycleLoop net rest (to_ + 1) (result ++ [a, b])

/-- The body of `PetriNet::findCriticalCycle(result)`: the returned boolean, the
content of `result` and the net, whose adjacency lists `isEventGraph`
regenerates.  The routine `Semi_Howard` is external and is a parameter. -/
def PetriNet.findCriticalCycle
    (Semi_Howard : List Int → List ℚ → List ℚ → Nat → Nat → HowardResult) (net : PetriNet) :
    Option (Bool × List Nat × PetriNet) :=
  if net.isEventGraph.1 = false then
    some (false, net.isEventGraph.2.1, net.isEventGraph.2.2)
  else
    match criticalInput net.isEventGraph.2.2.m_arcs net.isEventGraph.2.2.m_places with
    | none => none
    | some (IJ, T, N) =>
      if (Semi_Howard IJ T N net.isEventGraph.2.2.m_transitions.length
            net.isEventGraph.2.2.m_places.length).res ≠ 0 ∨
          (Semi_Howard IJ T N net.isEventGraph.2.2.m_transitions.length
            net.isEventGraph.2.2.m_places.length).ncomponents = 0 then
        some (false, [], net.isEventGraph.2.2)
      else
        (cycleLoop net.isEventGraph.2.2
          (Semi_Howard IJ T N net.isEventGraph.2.2.m_transitions.length
            net.isEventGraph.2.2.m_places.length).policy 0 []).map
          (fun result => (true, result, net.isEventGraph.2.2))

/-- A stand-in for `Semi_Howard` that reports no component. -/
def noPolicy : List Int → List ℚ → List ℚ → Nat → Nat → HowardResult :=
  fun _ _ _ _ _ => ⟨0, 0, [], [], []⟩

/-- Number of decimal digits of a natural number, 1 for 0. -/
def decimalLength (n : Nat) : Nat := (Nat.toDigits 10 n).length

/-- For a positive fraction `a / d` below 1, the least `k` with
`a * 10 ^ k >= d`, searched upwards from `k` with the given fuel. -/
def leadingZeros (a d : Nat) : Nat → Nat → Nat
  | 0, k => k
  | fuel + 1, k => if d ≤ a * 10 ^ k then k else leadingZeros a d fuel (k + 1)

/-- The decimal exponent of the positive fraction `a / d`: the integer `X` with
`10 ^ X <= a / d < 10 ^ (X + 1)`. -/
def decimalExponent (a d : Nat) : Int :=
  if d ≤ a then ((decimalLength (a / d) - 1 : Nat) : Int)
  else - (leadingZeros a d d 1 : Int)

/-- The six significant digits of the positive fraction `a / d`, as an integer
between 100000 and 999999, and its decimal exponent after rounding. -/
def sixDigits (a d : Nat) : Nat × Int :=
  let m := roundHalfEven (a * 10 ^ (5 - decimalExponent a d).toNat)
    (d * 10 ^ (decimalExponent a d - 5).toNat)
  if m = 1000000 then (100000, decimalExponent a d + 1) else (m, decimalExponent a d)

/-- A digit string without its trailing zeros. -/
def stripZeros (l : List Char) : List Char :=
  (l.reverse.dropWhile (fun c => c == '0')).reverse

/-- The decimal digits of `n`, padded with zeros on the left to `width`. -/
def paddedDigits (width n : Nat) : List Char :=
  List.replicate (width - (Nat.toDigits 10 n).length) '0' ++ Nat.toDigits 10 n

/-- A mantissa with its fractional digits: the point is written only when a
fractional digit remains. -/
def withFraction (intPart : List Char) (fraction : List Char) : List Char :=
  if stripZeros fraction = [] then intPart else intPart ++ '.' :: stripZeros fraction

/-- The text `operator<<` writes for a positive fraction with the defaults of
the stream (general format, precision 6): scientific notation when the
exponent is below -4 or at least 6, fixed notation otherwise, without trailing
zeros. -/
def showPositive (a d : Nat) : List Char :=
  let m := (sixDigits a d).1
  let e := (sixDigits a d).2
  if e < -4 ∨ 6 ≤ e then
    withFraction (Nat.toDigits 10 (m / 100000)) (paddedDigits 5 (m % 100000)) ++
      'e' :: (if e < 0 then '-' else '+') :: paddedDigits 2 e.natAbs
  else if 5 ≤ e then Nat.toDigits 10 m
  else
    withFraction (Nat.toDigits 10 (m / 10 ^ (5 - e).toNat))
      (paddedDigits (5 - e).toNat (m % 10 ^ (5 - e).toNat))

/-- The text `file << x` writes for a `float` member in `save`, which leaves the
stream at its defaults: six significant digits. -/
def showFloat (x : ℚ) : String :=
  if x.num = 0 then "0"
  else if x.num < 0 then String.mk ('-' :: showPositive x.num.natAbs x.den)
  else String.mk (showPositive x.num.natAbs x.den)

/-- The text `file << n` writes for an `int` member. -/
def showInt (n : Int) : String :=
  match n with
  | Int.ofNat m => Nat.repr m
  | Int.negSucc m => "-" ++ Nat.repr (m + 1)

/-- The records of one array of the saved document, each on its line between
double quotes, separated by commas. -/
def saveRecords : List String → String → String
  | [], _ => ""
  | r :: rest, separator => separator ++ "\n    \"" ++ r ++ "\"" ++ saveRecords rest ","

/-- The body of `PetriNet::save(filename)`: the returned boolean and the content
of the file; `opened` tells whether the output file could be opened. -/
def PetriNet.save (net : PetriNet) (opened : Bool) : Bool × String :=
  if net.isEmpty then (false, "")
  else if !opened then (false, "")
  else
    (true,
      "\x7b\n  \"places\": [" ++
      saveRecords (net.m_places.map (fun p =>
        p.key ++ "," ++ p.caption ++ "," ++ showFloat p.x ++ "," ++ showFloat p.y ++ "," ++
          Nat.repr p.tokens)) "" ++
      "],\n  \"transitions\": [" ++
      saveRecords (net.m_transitions.map (fun t =>
        t.key ++ "," ++ t.caption ++ "," ++ showFloat t.x ++ "," ++ showFloat t.y ++ "," ++
          showInt t.angle)) "" ++
      "],\n  \"arcs\": [" ++
      saveRecords (net.m_arcs.map (fun a =>
        a.from_.key ++ "," ++ a.to_.key ++ "," ++ showFloat a.duration)) "" ++
      "]\n\x7d")

/-- A net with one place added at abscissa `x` by `addPlace`. -/
def wideNet (x : ℚ) : PetriNet := (PetriNet.empty NetType.TimedPetri).addPlace x 0 0

/-- The routines `PetriNet::load` reads the document with.  `Splitter`, whose
header is not among the sources, `token2vector` and `convert_to` are parameters
of the model: `σ` is the state of the splitter, `good` its conversion to
`bool`, `split` returns the next token and the state after the call, `str` the
token last read, `token2vector` the number of fields and the vector it
filled. -/
structure Reader (σ : Type) where
  good : σ → Bool
  split : String → String → σ → String × σ
  str : σ → String
  token2vector : String → List String → Nat × List String
  to_size_t : String → Nat
  to_float : String → ℚ
  to_int : String → Int

/-- The node a `Node*` returned by `findNode` points to; `none` when the slot is
outside the container. -/
def PetriNet.deref (net : PetriNet) : NodePtr → Option NodeRef
  | NodePtr.place slot => net.nodeAt NodeType.Place slot
  | NodePtr.transition slot => net.nodeAt NodeType.Transition slot

/-- The loop of `PetriNet::load` over the records of the array `places`.  The
boolean of the result is false when `load` returns false inside the loop, true
when the closing bracket ends the loop; `none` when the fuel runs out or a word
is read outside the vector or past its end. -/
def loadPlaces {σ : Type} (rd : Reader σ) :
    Nat → σ → List String → PetriNet → Option (Bool × σ × List String × PetriNet)
  | 0, _, _, _ => none
  | fuel + 1, s, words, net =>
    if ((rd.split " \t\n\"[" "\"" s).1).data.head? = some ']' then
      some (true, (rd.split " \t\n\"[" "\"" s).2, words, net)
    else if (rd.str (rd.split " \t\n\"[" "\"" s).2).data.head? = some ',' then
      loadPlaces rd fuel (rd.split " \t\n\"[" "\"" s).2 words net
    else
      let s1 := (rd.split " \t\n\"[" "\"" s).2
      let words1 := (rd.token2vector (rd.str s1) words).2
      if (rd.token2vector (rd.str s1) words).1 ≠ 5 then some (false, s1, words1, net)
      else
        match words1[0]?, words1[1]?, words1[2]?, words1[3]?, words1[4]? with
        | some w0, some w1, some w2, some w3, some w4 =>
          if w0 = "" then none
          else
            loadPlaces rd fuel s1 words1
              (net.addPlaceId (rd.to_size_t (w0.drop 1)) w1 (rd.to_float w2) (rd.to_float w3)
                (rd.to_size_t w4))
        | _, _, _, _, _ => none

/-- The loop of `PetriNet::load` over the records of the array `transitions`,
with the result of `loadPlaces`. -/
def loadTransitions {σ : Type} (rd : Reader σ) :
    Nat → σ → List String → PetriNet → Option (Bool × σ × List String × PetriNet)
  | 0, _, _, _ => none
  | fuel + 1, s, words, net =>
    if ((rd.split " \t\n\"[" "\"" s).1).data.head? = some ']' then
      some (true, (rd.split " \t\n\"[" "\"" s).2, words, net)
    else if (rd.str (rd.split " \t\n\"[" "\"" s).2).data.head? = some ',' then
      loadTransitions rd fuel (rd.split " \t\n\"[" "\"" s).2 words net
    else
      let s1 := (rd.split " \t\n\"[" "\"" s).2
      let words1 := (rd.token2vector (rd.str s1) words).2
      if (rd.token2vector (rd.str s1) words).1 ≠ 5 then some (false, s1, words1, net)
      else
        match words1[0]?, words1[1]?, words1[2]?, words1[3]?, words1[4]? with
        | some w0, some w1, some w2, some w3, some w4 =>
          if w0 = "" then none
          else
            loadTransitions rd fuel s1 words1
              (net.addTransitionId (rd.to_size_t (w0.drop 1)) w1 (rd.to_float w2)
                (rd.to_float w3) (rd.to_int w4))
        | _, _, _, _, _ => none

/-- The loop of `PetriNet::load` over the records of the array `arcs`, with the
result of `loadPlaces`: both keys are looked up by `findNode`, a negative
duration is refused, and the arc is added by `addArc` in strict mode. -/
def loadArcs {σ : Type} (rd : Reader σ) :
    Nat → σ → List String → PetriNet → Option (Bool × σ × List String × PetriNet)
  | 0, _, _, _ => none
  | fuel + 1, s, words, net =>
    if ((rd.split " \t\n\"[" "\"\x7d" s).1).data.head? = some ']' then
      some (true, (rd.split " \t\n\"[" "\"\x7d" s).2, words, net)
    else if (rd.str (rd.split " \t\n\"[" "\"\x7d" s).2).data.head? = some ',' then
      loadArcs rd fuel (rd.split " \t\n\"[" "\"\x7d" s).2 words net
    else
      let s1 := (rd.split " \t\n\"[" "\"\x7d" s).2
      let words1 := (rd.token2vector (rd.str s1) words).2
      if (rd.token2vector (rd.str s1) words).1 ≠ 3 then some (false, s1, words1, net)
      else
        match words1[0]?, words1[1]?, words1[2]? with
        | some w0, some w1, some w2 =>
          match net.findNode w0 with
          | none => some (false, s1, words1, net)
          | some from_ =>
            match net.findNode w1 with
            | none => some (false, s1, words1, net)
            | some to_ =>
              if rd.to_float w2 < 0 then some (false, s1, words1, net)
              else
                match net.deref from_, net.deref to_ with
                | some rf, some rt =>
                  if (net.addArc rf rt (rd.to_float w2) defaultStrict).1 = false then
                    some (false, s1, words1, net)
                  else
                    loadArcs rd fuel s1 words1
                      (net.addArc rf rt (rd.to_float w2) defaultStrict).2
                | _, _ => none
        | _, _, _ => none

/-- The loop `while (s)` of `PetriNet::load` over the sections of the document:
the returned boolean and the net when `load` returns, `none` when the fuel
runs out. -/
def loadSections {σ : Type} (rd : Reader σ) :
    Nat → σ → List String → PetriNet → Option (Bool × PetriNet)
  | 0, _, _, _ => none
  | fuel + 1, s, words, net =>
    if rd.good s = false then some (true, net)
    else
      let token := (rd.split " \t\n\"" " \t\n\"" s).1
      let s1 := (rd.split " \t\n\"" " \t\n\"" s).2
      if token = "places" ∨ token = "transitions" ∨ token = "arcs" then
        if ((rd.split " \t\n\"" " \t\n" s1).1).data.head? ≠ some ':' then some (false, net)
        else
          let s2 := (rd.split " \t\n\"" " \t\n" s1).2
          if ((rd.split " \t\n" " ]\t\n\"" s2).1).data.head? ≠ some '[' then some (false, net)
          else
            let s3 := (rd.split " \t\n" " ]\t\n\"" s2).2
            match
              (if token = "places" then loadPlaces rd fuel s3 words net
              else if token = "transitions" then loadTransitions rd fuel s3 words net
              else loadArcs rd fuel s3 words net) with
            | none => none
            | some (false, _, _, net1) => some (false, net1)
            | some (true, s4, words1, net1) => loadSections rd fuel s4 words1 net1
      else if rd.str s1 = "\x7d" then some (true, net)
      else if token ≠ "" then some (false, net)
      else loadSections rd fuel s1 words net

/-- The body of `PetriNet::load(filename)`: `s` is the splitter just built on
the file.  The result is the returned boolean and the net after the call. -/
def PetriNet.load {σ : Type} (rd : Reader σ) (fuel : Nat) (s : σ) (net : PetriNet) :
    Option (Bool × PetriNet) :=
  if rd.good s = false then some (false, net)
  else if (rd.split " \t\n" " \t\n" s).1 ≠ "\x7b" then some (false, net)
  else loadSections rd fuel (rd.split " \t\n" " \t\n" s).2 (List.replicate 5 "") net.clear

/-- The fields of a record, cut at the commas; `cur` holds the characters of
the field being read, last first. -/
def commaFields : List Char → List Char → List String
  | [], cur => [String.mk cur.reverse]
  | c :: rest, cur =>
    if c = ',' then String.mk cur.reverse :: commaFields rest []
    else commaFields rest (c :: cur)

/-- Modelled from the spec: a reader for a document already cut into its
tokens (spec: a hand-written tokenizer parses the three arrays of records).
The state is the list of the tokens still to read and the token last read;
numbers are read as unsigned decimal integers. -/
def tokenReader : Reader (List String × String) where
  good := fun s => !s.1.isEmpty
  split := fun _ _ s => (s.1.headD "", (s.1.tail, s.1.headD ""))
  str := fun s => s.2
  token2vector := fun record _ => ((commaFields record.data []).length, commaFields record.data [])
  to_size_t := fun w => digitsValue w.data 0
  to_float := fun w => (digitsValue w.data 0 : ℚ)
  to_int := fun w => (digitsValue w.data 0 : Int)

/-- One record accepted by `load`. -/
inductive Record where
  | place (id : Nat) (caption : String) (x y : ℚ) (tokens : Nat)
  | transition (id : Nat) (caption : String) (x y : ℚ) (angle : Int)
  | arc (from_ to_ : NodeRef) (duration : ℚ)
  deriving DecidableEq

/-- The call `load` makes for an accepted record. -/
def Record.apply (net : PetriNet) : Record → PetriNet
  | Record.place id caption x y tokens => net.addPlaceId id caption x y tokens
  | Record.transition id caption x y angle => net.addTransitionId id caption x y angle
  | Record.arc from_ to_ duration => (net.addArc from_ to_ duration defaultStrict).2

/-- The calls `load` makes for a list of accepted records, first record
first. -/
def applyRecords (net : PetriNet) (records : List Record) : PetriNet :=
  records.foldl Record.apply net

/-- The records the loop of `load` over the array `places` accepts, in the
order of the document, with the boolean, the splitter and the vector
`loadPlaces` ends with: the same scan, which collects the record passed to each
call of `addPlace` instead of making the call. -/
def acceptedPlaces {σ : Type} (rd : Reader σ) :
    Nat → σ → List String → Option (Bool × σ × List String × List Record)
  | 0, _, _ => none
  | fuel + 1, s, words =>
    if ((rd.split " \t\n\"[" "\"" s).1).data.head? = some ']' then
      some (true, (rd.split " \t\n\"[" "\"" s).2, words, [])
    else if (rd.str (rd.split " \t\n\"[" "\"" s).2).data.head? = some ',' then
      acceptedPlaces rd fuel (rd.split " \t\n\"[" "\"" s).2 words
    else
      let s1 := (rd.split " \t\n\"[" "\"" s).2
      let words1 := (rd.token2vector (rd.str s1) words).2
      if (rd.token2vector (rd.str s1) words).1 ≠ 5 then some (false, s1, words1, [])
      else
        match words1[0]?, words1[1]?, words1[2]?, words1[3]?, words1[4]? with
        | some w0, some w1, some w2, some w3, some w4 =>
          if w0 = "" then none
          else
            (acceptedPlaces rd fuel s1 words1).map (fun r =>
              (r.1, r.2.1, r.2.2.1,
                Record.place (rd.to_size_t (w0.drop 1)) w1 (rd.to_float w2) (rd.to_float w3)
                  (rd.to_size_t w4) :: r.2.2.2))
        | _, _, _, _, _ => none

/-- The records the loop of `load` over the array `transitions` accepts, in
the order of the document, collected as in `acceptedPlaces`. -/
def acceptedTransitions {σ : Type} (rd : Reader σ) :
    Nat → σ → List String → Option (Bool × σ × List String × List Record)
  | 0, _, _ => none
  | fuel + 1, s, words =>
    if ((rd.split " \t\n\"[" "\"" s).1).data.head? = some ']' then
      some (true, (rd.split " \t\n\"[" "\"" s).2, words, [])
    else if (rd.str (rd.split " \t\n\"[" "\"" s).2).data.head? = some ',' then
      acceptedTransitions rd fuel (rd.split " \t\n\"[" "\"" s).2 words
    else
      let s1 := (rd.split " \t\n\"[" "\"" s).2
      let words1 := (rd.token2vector (rd.str s1) words).2
      if (rd.token2vector (rd.str s1) words).1 ≠ 5 then some (false, s1, words1, [])
      else
        match words1[0]?, words1[1]?, words1[2]?, words1[3]?, words1[4]? with
        | some w0, some w1, some w2, some w3, some w4 =>
          if w0 = "" then none
          else
            (acceptedTransitions rd fuel s1 words1).map (fun r =>
              (r.1, r.2.1, r.2.2.1,
                Record.transition (rd.to_size_t (w0.drop 1)) w1 (rd.to_float w2)
                  (rd.to_float w3) (rd.to_int w4) :: r.2.2.2))
        | _, _, _, _, _ => none

/-- The records the loop of `load` over the array `arcs` accepts when it starts
on the net `net`, in the order of the document: a record is accepted when it
has three fields, both keys name a node of the net built so far, the duration
is not negative and `addArc` returns true. -/
def acceptedArcs {σ : Type} (rd : Reader σ) :
    Nat → σ → List String → PetriNet → Option (Bool × σ × List String × List Record)
  | 0, _, _, _ => none
  | fuel + 1, s, words, net =>
    if ((rd.split " \t\n\"[" "\"\x7d" s).1).data.head? = some ']' then
      some (true, (rd.split " \t\n\"[" "\"\x7d" s).2, words, [])
    else if (rd.str (rd.split " \t\n\"[" "\"\x7d" s).2).data.head? = some ',' then
      acceptedArcs rd fuel (rd.split " \t\n\"[" "\"\x7d" s).2 words net
    else
      let s1 := (rd.split " \t\n\"[" "\"\x7d" s).2
      let words1 := (rd.token2vector (rd.str s1) words).2
      if (rd.token2vector (rd.str s1) words).1 ≠ 3 then some (false, s1, words1, [])
      else
        match words1[0]?, words1[1]?, words1[2]? with
        | some w0, some w1, some w2 =>
          match net.findNode w0 with
          | none => some (false, s1, words1, [])
          | some from_ =>
            match net.findNode w1 with
            | none => some (false, s1, words1, [])
            | some to_ =>
              if rd.to_float w2 < 0 then some (false, s1, words1, [])
              else
                match net.deref from_, net.deref to_ with
                | some rf, some rt =>
                  if (net.addArc rf rt (rd.to_float w2) defaultStrict).1 = false then
                    some (false, s1, words1, [])
                  else
                    (acceptedArcs rd fuel s1 words1
                      (net.addArc rf rt (rd.to_float w2) defaultStrict).2).map (fun r =>
                        (r.1, r.2.1, r.2.2.1, Record.arc rf rt (rd.to_float w2) :: r.2.2.2))
                | _, _ => none
        | _, _, _ => none

/-- The records `load` accepts from the sections of the document when it starts
them on the net `net`, in the order of the document, with the boolean `load`
returns. -/
def acceptedSections {σ : Type} (rd : Reader σ) :
    Nat → σ → List String → PetriNet → Option (Bool × List Record)
  | 0, _, _, _ => none
  | fuel + 1, s, words, net =>
    if rd.good s = false then some (true, [])
    else
      let token := (rd.split " \t\n\"" " \t\n\"" s).1
      let s1 := (rd.split " \t\n\"" " \t\n\"" s).2
      if token = "places" ∨ token = "transitions" ∨ token = "arcs" then
        if ((rd.split " \t\n\"" " \t\n" s1).1).data.head? ≠ some ':' then some (false, [])
        else
          let s2 := (rd.split " \t\n\"" " \t\n" s1).2
          if ((rd.split " \t\n" " ]\t\n\"" s2).1).data.head? ≠ some '[' then some (false, [])
          else
            let s3 := (rd.split " \t\n" " ]\t\n\"" s2).2
            match
              (if token = "places" then acceptedPlaces rd fuel s3 words
              else if token = "transitions" then acceptedTransitions rd fuel s3 words
              else acceptedArcs rd fuel s3 words net) with
            | none => none
            | some (false, _, _, records) => some (false, records)
            | some (true, s4, words1, records) =>
              (acceptedSections rd fuel s4 words1 (applyRecords net records)).map (fun r =>
                (r.1, records ++ r.2))
      else if rd.str s1 = "\x7d" then some (true, [])
      else if token ≠ "" then some (false, [])
      else acceptedSections rd fuel s1 words net

/-- The records `load` accepts from the document, in the order of the document,
with the boolean it returns, once the opening brace is read and the net is
cleared. -/
def acceptedRecords {σ : Type} (rd : Reader σ) (fuel : Nat) (s : σ) (net : PetriNet) :
    Option (Bool × List Record) :=
  acceptedSections rd fuel (rd.split " \t\n" " \t\n" s).2 (List.replicate 5 "") net.clear

/-- The place a record of the array `places` adds to the net (its fields other
than the adjacency lists). -/
def Record.placeData : Record → Option (Nat × String × ℚ × ℚ × Nat)
  | Record.place id caption x y tokens => some (Place.make id caption x y tokens).data
  | _ => none

/-- The transition a record of the array `transitions` adds to a net of type
`type` (its fields other than the adjacency lists). -/
def Record.transitionData (type : NetType) :
    Record → Option (Nat × String × ℚ × ℚ × Int × Bool × Nat)
  | Record.transition id caption x y angle =>
    some (Transition.make id caption x y angle
      (if type = NetType.TimedPetri then true else false)).data
  | _ => none

/-- The arc a record of the array `arcs` adds to the net. -/
def Record.arcOf : Record → Option Arc
  | Record.arc from_ to_ duration => some ⟨from_, to_, duration⟩
  | _ => none

/-- The next-place-id counter after a record, from the counter before it. -/
def Record.placeCounter (counter : Nat) : Record → Nat
  | Record.place id _ _ _ _ =>
    if (id + 1) % (SIZE_MAX + 1) > counter then (id + 1) % (SIZE_MAX + 1) else counter
  | _ => counter

/-- The next-transition-id counter after a record, from the counter before
it. -/
def Record.transitionCounter (counter : Nat) : Record → Nat
  | Record.transition id _ _ _ _ =>
    if (id + 1) % (SIZE_MAX + 1) > counter then (id + 1) % (SIZE_MAX + 1) else counter
  | _ => counter

/-- The arcs of the net after the records are the arcs before them followed by
the arcs of the records. -/
def ArcsFollow (net : PetriNet) (records : List Record) : Prop :=
  (applyRecords net records).m_arcs = net.m_arcs ++ records.filterMap Record.arcOf

/-- A document whose second place record has two fields only, cut into its
tokens. -/
def brokenDocument : List String :=
  ["\x7b", "places", ":", "[", "P0,first,1,2,3", ",", "P1,broken", "]", "\x7d"]

/-- A document whose second arc record names a place that is not in the
document, cut into its tokens. -/
def strayArcDocument : List String :=
  ["\x7b", "places", ":", "[", "P0,first,1,2,3", "]", "transitions", ":", "[", "T0,T0,1,1,90",
    "]", "arcs", ":", "[", "P0,T0,0", ",", "T0,P4,7", "]", "\x7d"]

/-- The conversion `int64_t(n)` of a `size_t`. -/
def toInt64 (n : Nat) : Int :=
  if n % 2 ^ 64 < 2 ^ 63 then ((n % 2 ^ 64 : Nat) : Int) else ((n % 2 ^ 64 : Nat) : Int) - 2 ^ 64

/-- The conversion `size_t(i)` of an `int64_t`; where the code has just refused
the negative values, the model writes `i.toNat`. -/
def toSizeT (i : Int) : Nat := (i % 2 ^ 64).toNat

/-- Modelled from the spec: the plain record of a place that the handle API
exposes (position and token count), with the members `Julia.cpp` writes; the
header `Julia.hpp` is not among the sources. -/
structure CPlace_t where
  x : ℚ
  y : ℚ
  tokens : Int
  deriving DecidableEq

/-- Modelled from the spec: the plain record of a transition that the handle
API exposes (position), with the members `Julia.cpp` writes. -/
structure CTransition_t where
  x : ℚ
  y : ℚ
  deriving DecidableEq

/-- The state of `Julia.cpp`: the table `g_petri_nets` and the static matrices
of `petri_to_adjacency_matrices` (`N`, `T`) and of `petri_to_sys_lin` (`D`,
`A`, `B`, `C`).  A handle is a position in the table. -/
structure Facade where
  g_petri_nets : List PetriNet
  adjN : SparseMatrix
  adjT : SparseMatrix
  sysD : SparseMatrix
  sysA : SparseMatrix
  sysB : SparseMatrix
  sysC : SparseMatrix
  deriving DecidableEq

/-- The state of a process that has made no call yet. -/
def Facade.initial : Facade :=
  ⟨[], SparseMatrix.zero, SparseMatrix.zero, SparseMatrix.zero, SparseMatrix.zero,
    SparseMatrix.zero, SparseMatrix.zero⟩

/-- The condition of the macro `CHECK_VALID_PETRI_HANDLE`, under which the
function returns its error code. -/
def Facade.badHandle (st : Facade) (handle : Int) : Prop :=
  handle < 0 ∨ st.g_petri_nets.length ≤ handle.toNat

instance (st : Facade) (handle : Int) : Decidable (st.badHandle handle) := by
  unfold Facade.badHandle; infer_instance

/-- The state in which the net of slot `i` has become `net`. -/
def Facade.setNet (st : Facade) (i : Nat) (net : PetriNet) : Facade :=
  { st with g_petri_nets := st.g_petri_nets.set i net }

/-- The body of `petri_create`: the returned handle and the state. -/
def petri_create (st : Facade) : Int × Facade :=
  (toInt64 ((st.g_petri_nets ++ [PetriNet.empty NetType.TimedPetri]).length - 1),
    { st with g_petri_nets := st.g_petri_nets ++ [PetriNet.empty NetType.TimedPetri] })

/-- The body of `petri_copy`.  The copy constructor of `PetriNet`, declared in
the absent `PetriNet.hpp`, is the parameter `copy`. -/
def petri_copy (copy : PetriNet → Option PetriNet) (st : Facade) (handle : Int) :
    Option (Int × Facade) :=
  if st.badHandle handle then some (-1, st)
  else
    match st.g_petri_nets[handle.toNat]? with
    | none => none
    | some net =>
      match copy net with
      | none => none
      | some net1 =>
        some (toInt64 ((st.g_petri_nets ++ [net1]).length - 1),
          { st with g_petri_nets := st.g_petri_nets ++ [net1] })

/-- The body of `petri_reset`.  `PetriNet::reset`, declared in the absent
`PetriNet.hpp`, is the parameter `reset`. -/
def petri_reset (reset : PetriNet → Option PetriNet) (st : Facade) (handle : Int) :
    Option (Bool × Facade) :=
  if st.badHandle handle then some (false, st)
  else
    match st.g_petri_nets[handle.toNat]? with
    | none => none
    | some net =>
      match reset net with
      | none => none
      | some net1 => some (true, st.setNet handle.toNat net1)

/-- The body of `petri_is_empty`.  The pointer `empty` is `none` when null,
else the boolean it points to; the result holds the boolean after the call. -/
def petri_is_empty (st : Facade) (handle : Int) (empty : Option Bool) :
    Option (Bool × Option Bool × Facade) :=
  if st.badHandle handle then some (false, empty, st)
  else
    match empty with
    | none => some (false, none, st)
    | some _ =>
      match st.g_petri_nets[handle.toNat]? with
      | none => none
      | some net => some (true, some net.isEmpty, st)

/-- The body of `petri_count_places`. -/
def petri_count_places (st : Facade) (handle : Int) : Option (Int × Facade) :=
  if st.badHandle handle then some (-1, st)
  else
    match st.g_petri_nets[handle.toNat]? with
    | none => none
    | some net => some (toInt64 net.m_places.length, st)

/-- The body of `petri_get_places`: `places` is the array of the caller, and
the result holds it after the call; `none` when the array is shorter than the
list of the places. -/
def petri_get_places (st : Facade) (handle : Int) (places : List CPlace_t) :
    Option (Bool × List CPlace_t × Facade) :=
  if st.badHandle handle then some (false, places, st)
  else
    match st.g_petri_nets[handle.toNat]? with
    | none => none
    | some net =>
      if places.length < net.m_places.length then none
      else
        some (true,
          net.m_places.map (fun it => (⟨it.x, it.y, toInt64 it.tokens⟩ : CPlace_t)) ++
            places.drop net.m_places.length, st)

/-- The body of `petri_get_place`: `place` is the record the pointer designates,
and the result holds it after the call. -/
def petri_get_place (st : Facade) (handle : Int) (i : Int) (place : CPlace_t) :
    Option (Bool × CPlace_t × Facade) :=
  if st.badHandle handle then some (false, place, st)
  else
    match st.g_petri_nets[handle.toNat]? with
    | none => none
    | some net =>
      if i < 0 ∨ net.m_places.length ≤ i.toNat then some (false, place, st)
      else
        match net.m_places[i.toNat]? with
        | none => none
        | some p => some (true, ⟨p.x, p.y, toInt64 p.tokens⟩, st)

/-- The body of `petri_add_place`; the narrowing of the coordinates to `float`
is not modelled. -/
def petri_add_place (st : Facade) (handle : Int) (x y : ℚ) (tokens : Int) :
    Option (Int × Facade) :=
  if st.badHandle handle then some (-1, st)
  else
    match st.g_petri_nets[handle.toNat]? with
    | none => none
    | some net =>
      match (net.addPlace x y (toSizeT tokens)).m_places.getLast? with
      | none => none
      | some p => some (toInt64 p.id, st.setNet handle.toNat (net.addPlace x y (toSizeT tokens)))

/-- The body of `petri_add_transition`. -/
def petri_add_transition (st : Facade) (handle : Int) (x y : ℚ) : Option (Int × Facade) :=
  if st.badHandle handle then some (-1, st)
  else
    match st.g_petri_nets[handle.toNat]? with
    | none => none
    | some net =>
      match (net.addTransition x y).m_transitions.getLast? with
      | none => none
      | some t => some (toInt64 t.id, st.setNet handle.toNat (net.addTransition x y))

/-- The body of `petri_count_transitions`. -/
def petri_count_transitions (st : Facade) (handle : Int) : Option (Int × Facade) :=
  if st.badHandle handle then some (-1, st)
  else
    match st.g_petri_nets[handle.toNat]? with
    | none => none
    | some net => some (toInt64 net.m_transitions.length, st)

/-- The loop of `petri_set_marks`, `i` counting down: `none` when an index
falls outside the array `tokens`. -/
def setMarksLoop (tokens : List Int) : Nat → List Place → Option (List Place)
  | 0, places => some places
  | i + 1, places =>
    match tokens[i]?, places[i]? with
    | some v, some _ =>
      setMarksLoop tokens i (places.modify (fun p => { p with tokens := toSizeT v }) i)
    | _, _ => none

/-- The body of `petri_set_marks`: `tokens` is the array of the caller. -/
def petri_set_marks (st : Facade) (handle : Int) (tokens : List Int) :
    Option (Bool × Facade) :=
  if st.badHandle handle then some (false, st)
  else
    match st.g_petri_nets[handle.toNat]? with
    | none => none
    | some net =>
      match setMarksLoop tokens net.m_places.length net.m_places with
      | none => none
      | some places => some (true, st.setNet handle.toNat { net with m_places := places })

/-- The loop of `petri_get_marks`, `i` counting down: `none` when an index
falls outside the array `tokens`. -/
def getMarksLoop (places : List Place) : Nat → List Int → Option (List Int)
  | 0, tokens => some tokens
  | i + 1, tokens =>
    match places[i]?, tokens[i]? with
    | some p, some _ => getMarksLoop places i (tokens.set i (toInt64 p.tokens))
    | _, _ => none

/-- The body of `petri_get_marks`: `tokens` is the array of the caller, and the
result holds it after the call. -/
def petri_get_marks (st : Facade) (handle : Int) (tokens : List Int) :
    Option (Bool × List Int × Facade) :=
  if st.badHandle handle then some (false, tokens, st)
  else
    match st.g_petri_nets[handle.toNat]? with
    | none => none
    | some net =>
      match getMarksLoop net.m_places net.m_places.length tokens with
      | none => none
      | some tokens1 => some (true, tokens1, st)

/-- The body of `petri_get_transitions`, as `petri_get_places`. -/
def petri_get_transitions (st : Facade) (handle : Int) (transitions : List CTransition_t) :
    Option (Bool × List CTransition_t × Facade) :=
  if st.badHandle handle then some (false, transitions, st)
  else
    match st.g_petri_nets[handle.toNat]? with
    | none => none
    | some net =>
      if transitions.length < net.m_transitions.length then none
      else
        some (true,
          net.m_transitions.map (fun it => (⟨it.x, it.y⟩ : CTransition_t)) ++
            transitions.drop net.m_transitions.length, st)

/-- The body of `petri_get_transition`, as `petri_get_place`. -/
def petri_get_transition (st : Facade) (handle : Int) (i : Int) (transition : CTransition_t) :
    Option (Bool × CTransition_t × Facade) :=
  if st.badHandle handle then some (false, transition, st)
  else
    match st.g_petri_nets[handle.toNat]? with
    | none => none
    | some net =>
      if i < 0 ∨ net.m_transitions.length ≤ i.toNat then some (false, transition, st)
      else
        match net.m_transitions[i.toNat]? with
        | none => none
        | some t => some (true, ⟨t.x, t.y⟩, st)

/-- The end of `petri_remove_place` and of `petri_remove_transition`, once the
identifier is in range: the node is looked up by its key and removed. -/
def removeByKey (st : Facade) (handle : Int) (net : PetriNet) (strid : String) :
    Option (Bool × Facade) :=
  match net.findNode strid with
  | none => some (false, st)
  | some node =>
    match net.deref node with
    | none => none
    | some r =>
      match net.removeNode r with
      | none => none
      | some net1 => some (true, st.setNet handle.toNat net1)

/-- The body of `petri_remove_place`. -/
def petri_remove_place (st : Facade) (handle : Int) (id : Int) : Option (Bool × Facade) :=
  if st.badHandle handle then some (false, st)
  else
    match st.g_petri_nets[handle.toNat]? with
    | none => none
    | some net =>
      if id < 0 ∨ net.m_places.length ≤ id.toNat then some (false, st)
      else removeByKey st handle net (to_str NodeType.Place id.toNat)

/-- The body of `petri_remove_transition`. -/
def petri_remove_transition (st : Facade) (handle : Int) (id : Int) : Option (Bool × Facade) :=
  if st.badHandle handle then some (false, st)
  else
    match st.g_petri_nets[handle.toNat]? with
    | none => none
    | some net =>
      if id < 0 ∨ net.m_transitions.length ≤ id.toNat then some (false, st)
      else removeByKey st handle net (to_str NodeType.Transition id.toNat)

/-- The body of `petri_add_arc`: both keys are looked up by `findNode` and the
arc is added in strict mode. -/
def petri_add_arc (st : Facade) (handle : Int) (from_ to_ : String) (duration : ℚ) :
    Option (Int × Facade) :=
  if st.badHandle handle then some (-1, st)
  else
    match st.g_petri_nets[handle.toNat]? with
    | none => none
    | some net =>
      match net.findNode from_ with
      | none => some (-1, st)
      | some node_from =>
        match net.findNode to_ with
        | none => some (-1, st)
        | some node_to =>
          match net.deref node_from, net.deref node_to with
          | some rf, some rt =>
            if (net.addArc rf rt duration defaultStrict).1 = false then
              some (-1, st.setNet handle.toNat (net.addArc rf rt duration defaultStrict).2)
            else
              some (toInt64 ((net.addArc rf rt duration defaultStrict).2.m_arcs.length - 1),
                st.setNet handle.toNat (net.addArc rf rt duration defaultStrict).2)
          | _, _ => none

/-- The body of `petri_remove_arc`. -/
def petri_remove_arc (st : Facade) (handle : Int) (from_ to_ : String) :
    Option (Bool × Facade) :=
  if st.badHandle handle then some (false, st)
  else
    match st.g_petri_nets[handle.toNat]? with
    | none => none
    | some net =>
      match net.findNode from_ with
      | none => some (false, st)
      | some node_from =>
        match net.findNode to_ with
        | none => some (false, st)
        | some node_to =>
          match net.deref node_from, net.deref node_to with
          | some rf, some rt =>
            some ((net.removeArc rf rt).1, st.setNet handle.toNat (net.removeArc rf rt).2)
          | _, _ => none

/-- The body of `petri_get_tokens`: the identifier is compared with `>` to the
number of places; `none` when the place is read outside the container. -/
def petri_get_tokens (st : Facade) (handle : Int) (id : Int) : Option (Int × Facade) :=
  if st.badHandle handle then some (-1, st)
  else
    match st.g_petri_nets[handle.toNat]? with
    | none => none
    | some net =>
      if id < 0 ∨ id > toInt64 net.m_places.length then some (-1, st)
      else
        match net.m_places[id.toNat]? with
        | none => none
        | some p => some (toInt64 p.tokens, st)

/-- The body of `petri_set_tokens`: when the identifier is refused the function
returns `-1`, which its return type `bool` makes true. -/
def petri_set_tokens (st : Facade) (handle : Int) (id : Int) (tokens : Int) :
    Option (Bool × Facade) :=
  if st.badHandle handle then some (false, st)
  else
    match st.g_petri_nets[handle.toNat]? with
    | none => none
    | some net =>
      if id < 0 ∨ id > toInt64 net.m_places.length then some (true, st)
      else
        match net.m_places[id.toNat]? with
        | none => none
        | some _ =>
          some (true, st.setNet handle.toNat
            { net with
              m_places := net.m_places.modify (fun p => { p with tokens := toSizeT tokens })
                id.toNat })

/-- The body of `petri_save`; `opened` tells whether the output file could be
opened, and the file written is not part of the state. -/
def petri_save (st : Facade) (handle : Int) (opened : Bool) : Option (Bool × Facade) :=
  if st.badHandle handle then some (false, st)
  else
    match st.g_petri_nets[handle.toNat]? with
    | none => none
    | some net => some ((net.save opened).1, st)

/-- The body of `petri_load`; `s` is the splitter built on the file. -/
def petri_load {σ : Type} (rd : Reader σ) (fuel : Nat) (st : Facade) (handle : Int) (s : σ) :
    Option (Bool × Facade) :=
  if st.badHandle handle then some (false, st)
  else
    match st.g_petri_nets[handle.toNat]? with
    | none => none
    | some net =>
      match net.load rd fuel s with
      | none => none
      | some r => some (r.1, st.setNet handle.toNat r.2)

/-- The body of `petri_is_event_graph`, the pointer `res` as in
`petri_is_empty`. -/
def petri_is_event_graph (st : Facade) (handle : Int) (res : Option Bool) :
    Option (Bool × Option Bool × Facade) :=
  if st.badHandle handle then some (false, res, st)
  else
    match res with
    | none => some (false, none, st)
    | some _ =>
      match st.g_petri_nets[handle.toNat]? with
      | none => none
      | some net =>
        some (true, some net.isEventGraph.1, st.setNet handle.toNat net.isEventGraph.2.2)

/-- The body of `petri_to_canonical`: the macro `CHECK_IS_EVENT_GRAPH`, then
`petri_create` and `toCanonicalForm` into the net just created. -/
def petri_to_canonical (st : Facade) (handle : Int) : Option (Int × Facade) :=
  if st.badHandle handle then some (-1, st)
  else
    match st.g_petri_nets[handle.toNat]? with
    | none => none
    | some net =>
      if net.isEventGraph.1 = false then
        some (-1, st.setNet handle.toNat net.isEventGraph.2.2)
      else
        let st1 := st.setNet handle.toNat net.isEventGraph.2.2
        let pn := (petri_create st1).1
        let st2 := (petri_create st1).2
        match st2.g_petri_nets[handle.toNat]?, st2.g_petri_nets[toSizeT pn]? with
        | some self, some canonic =>
          match self.toCanonicalForm canonic with
          | none => none
          | some canonic1 => some (pn, st2.setNet (toSizeT pn) canonic1)
        | _, _ => none

/-- The body of `petri_to_adjacency_matrices`.  The pointers `pN` and `pT` are
`none` when null; the view that `reference` fills designates the vectors of
the static matrix and is modelled by the matrix itself. -/
def petri_to_adjacency_matrices (st : Facade) (handle : Int)
    (pN pT : Option SparseMatrix) :
    Option (Bool × Option SparseMatrix × Option SparseMatrix × Facade) :=
  if pN = none ∨ pT = none then some (false, pN, pT, st)
  else if st.badHandle handle then some (false, pN, pT, st)
  else
    match st.g_petri_nets[handle.toNat]? with
    | none => none
    | some net =>
      if net.isEventGraph.1 = false then
        some (false, pN, pT, st.setNet handle.toNat net.isEventGraph.2.2)
      else
        match net.isEventGraph.2.2.toAdjacencyMatrices st.adjN st.adjT with
        | none => none
        | some r =>
          some (true, some r.2.1, some r.2.2,
            { st.setNet handle.toNat net.isEventGraph.2.2.generateArcsInArcsOut with
              adjN := r.2.1
              adjT := r.2.2 })

/-- The body of `petri_to_sys_lin`: the result holds the four views after the
call, modelled by the static matrices themselves. -/
def petri_to_sys_lin (st : Facade) (handle : Int) (pD pA pB pC : SparseMatrix) :
    Option (Bool × SparseMatrix × SparseMatrix × SparseMatrix × SparseMatrix × Facade) :=
  if st.badHandle handle then some (false, pD, pA, pB, pC, st)
  else
    match st.g_petri_nets[handle.toNat]? with
    | none => none
    | some net =>
      if net.isEventGraph.1 = false then
        some (false, pD, pA, pB, pC, st.setNet handle.toNat net.isEventGraph.2.2)
      else
        match net.isEventGraph.2.2.toSysLin st.sysD st.sysA st.sysB st.sysC with
        | none => none
        | some r =>
          some (true, r.2.1, r.2.2.1, r.2.2.2.1, r.2.2.2.2.1,
            { st.setNet handle.toNat r.2.2.2.2.2 with
              sysD := r.2.1
              sysA := r.2.2.1
              sysB := r.2.2.2.1
              sysC := r.2.2.2.2.1 })

/-- The body of `petri_dater_form`.  The text is written on the standard
output, which is not part of the state; `showDaterForm`, a constant member
function, is modelled by whether it builds its text without reading outside a
container. -/
def petri_dater_form (showDaterForm : PetriNet → Bool) (st : Facade) (handle : Int) :
    Option (Bool × Facade) :=
  if st.badHandle handle then some (false, st)
  else
    match st.g_petri_nets[handle.toNat]? with
    | none => none
    | some net =>
      if net.isEventGraph.1 = false then
        some (false, st.setNet handle.toNat net.isEventGraph.2.2)
      else if showDaterForm net.isEventGraph.2.2 then
        some (true, st.setNet handle.toNat net.isEventGraph.2.2)
      else none

/-- The body of `petri_counter_form`, as `petri_dater_form`. -/
def petri_counter_form (showCounterForm : PetriNet → Bool) (st : Facade) (handle : Int) :
    Option (Bool × Facade) :=
  if st.badHandle handle then some (false, st)
  else
    match st.g_petri_nets[handle.toNat]? with
    | none => none
    | some net =>
      if net.isEventGraph.1 = false then
        some (false, st.setNet handle.toNat net.isEventGraph.2.2)
      else if showCounterForm net.isEventGraph.2.2 then
        some (true, st.setNet handle.toNat net.isEventGraph.2.2)
      else none

/-- The body of `petri_editor`.  The editor and its window are not among the
sources: `editor` gives the boolean returned after the session (false when the
loop threw) and the net the session left, which it holds by reference. -/
def petri_editor (editor : PetriNet → Option (Bool × PetriNet)) (st : Facade) (handle : Int) :
    Option (Bool × Facade) :=
  if st.badHandle handle then some (false, st)
  else
    match st.g_petri_nets[handle.toNat]? with
    | none => none
    | some net =>
      match editor net with
      | none => none
      | some r => some (r.1, st.setNet handle.toNat r.2)

/-- The routines the handle API calls and that are not modelled: the copy
constructor and `reset` (declared in the absent `PetriNet.hpp`), the editor,
the helpers of `load`, and whether `showDaterForm` and `showCounterForm` build
their text without reading outside a container. -/
structure Externals (σ : Type) where
  copy : PetriNet → Option PetriNet
  reset : PetriNet → Option PetriNet
  editor : PetriNet → Option (Bool × PetriNet)
  rd : Reader σ
  fuel : Nat
  showDaterForm : PetriNet → Bool
  showCounterForm : PetriNet → Bool

/-- A call of the handle API, with its arguments. -/
inductive Call (σ : Type) where
  | create
  | copy (handle : Int)
  | reset (handle : Int)
  | editor (handle : Int)
  | is_empty (handle : Int) (empty : Option Bool)
  | count_places (handle : Int)
  | get_places (handle : Int) (places : List CPlace_t)
  | get_place (handle : Int) (i : Int) (place : CPlace_t)
  | add_place (handle : Int) (x y : ℚ) (tokens : Int)
  | add_transition (handle : Int) (x y : ℚ)
  | count_transitions (handle : Int)
  | set_marks (handle : Int) (tokens : List Int)
  | get_marks (handle : Int) (tokens : List Int)
  | get_transitions (handle : Int) (transitions : List CTransition_t)
  | get_transition (handle : Int) (i : Int) (transition : CTransition_t)
  | remove_place (handle : Int) (id : Int)
  | remove_transition (handle : Int) (id : Int)
  | add_arc (handle : Int) (from_ to_ : String) (duration : ℚ)
  | remove_arc (handle : Int) (from_ to_ : String)
  | get_tokens (handle : Int) (id : Int)
  | set_tokens (handle : Int) (id : Int) (tokens : Int)
  | save (handle : Int) (opened : Bool)
  | load (handle : Int) (s : σ)
  | is_event_graph (handle : Int) (res : Option Bool)
  | to_canonical (handle : Int)
  | to_adjacency_matrices (handle : Int) (pN pT : Option SparseMatrix)
  | to_sys_lin (handle : Int) (pD pA pB pC : SparseMatrix)
  | dater_form (handle : Int)
  | counter_form (handle : Int)

/-- The state after a call of the handle API; `none` when the call has no
defined result. -/
def Call.run {σ : Type} (ext : Externals σ) (st : Facade) : Call σ → Option Facade
  | Call.create => some (petri_create st).2
  | Call.copy handle => (petri_copy ext.copy st handle).map (fun r => r.2)
  | Call.reset handle => (petri_reset ext.reset st handle).map (fun r => r.2)
  | Call.editor handle => (petri_editor ext.editor st handle).map (fun r => r.2)
  | Call.is_empty handle empty => (petri_is_empty st handle empty).map (fun r => r.2.2)
  | Call.count_places handle => (petri_count_places st handle).map (fun r => r.2)
  | Call.get_places handle places => (petri_get_places st handle places).map (fun r => r.2.2)
  | Call.get_place handle i place => (petri_get_place st handle i place).map (fun r => r.2.2)
  | Call.add_place handle x y tokens => (petri_add_place st handle x y tokens).map (fun r => r.2)
  | Call.add_transition handle x y => (petri_add_transition st handle x y).map (fun r => r.2)
  | Call.count_transitions handle => (petri_count_transitions st handle).map (fun r => r.2)
  | Call.set_marks handle tokens => (petri_set_marks st handle tokens).map (fun r => r.2)
  | Call.get_marks handle tokens => (petri_get_marks st handle tokens).map (fun r => r.2.2)
  | Call.get_transitions handle transitions =>
    (petri_get_transitions st handle transitions).map (fun r => r.2.2)
  | Call.get_transition handle i transition =>
    (petri_get_transition st handle i transition).map (fun r => r.2.2)
  | Call.remove_place handle id => (petri_remove_place st handle id).map (fun r => r.2)
  | Call.remove_transition handle id => (petri_remove_transition st handle id).map (fun r => r.2)
  | Call.add_arc handle from_ to_ duration =>
    (petri_add_arc st handle from_ to_ duration).map (fun r => r.2)
  | Call.remove_arc handle from_ to_ => (petri_remove_arc st handle from_ to_).map (fun r => r.2)
  | Call.get_tokens handle id => (petri_get_tokens st handle id).map (fun r => r.2)
  | Call.set_tokens handle id tokens => (petri_set_tokens st handle id tokens).map (fun r => r.2)
  | Call.save handle opened => (petri_save st handle opened).map (fun r => r.2)
  | Call.load handle s => (petri_load ext.rd ext.fuel st handle s).map (fun r => r.2)
  | Call.is_event_graph handle res => (petri_is_event_graph st handle res).map (fun r => r.2.2)
  | Call.to_canonical handle => (petri_to_canonical st handle).map (fun r => r.2)
  | Call.to_adjacency_matrices handle pN pT =>
    (petri_to_adjacency_matrices st handle pN pT).map (fun r => r.2.2.2)
  | Call.to_sys_lin handle pD pA pB pC =>
    (petri_to_sys_lin st handle pD pA pB pC).map (fun r => r.2.2.2.2.2)
  | Call.dater_form handle => (petri_dater_form ext.showDaterForm st handle).map (fun r => r.2)
  | Call.counter_form handle => (petri_counter_form ext.showCounterForm st handle).map (fun r => r.2)

/-- The state after a sequence of calls, first call first. -/
def runCalls {σ : Type} (ext : Externals σ) : Facade → List (Call σ) → Option Facade
  | st, [] => some st
  | st, call :: rest =>
    match call.run ext st with
    | none => none
    | some st1 => runCalls ext st1 rest

/-- A table of two nets, with the static matrices still empty. -/
def sampleFacade : Facade :=
  { Facade.initial with g_petri_nets := [loopNet, twoOffendersNet] }

/-- A choice of the routines that are not modelled, for the examples: the copy
is made by `operator=` on a fresh net of the same type, `reset` and the editor
leave the net as it is, the document is read by `tokenReader`, and the two
texts can be built. -/
def sampleExternals : Externals (List String × String) where
  copy := fun net => (PetriNet.empty net.m_type).assign net
  reset := fun net => some net
  editor := fun net => some (true, net)
  rd := tokenReader
  fuel := 20
  showDaterForm := fun _ => true
  showCounterForm := fun _ => true

/-- The conversion `int32_t(val)` of an integer value: the value modulo 2^32
taken in the signed range. -/
def toInt32 (val : Int) : Int := (val + 2 ^ 31) % 2 ^ 32 - 2 ^ 31

/-- The call `file.put(char(c))`: the byte appended to the file, read as
unsigned, holds the low eight bits of `c`. -/
def put (file : List Nat) (c : Int) : List Nat := file ++ [(c % 256).toNat]

/-- The body of `write_int32(file, val)` for a value of an integer type: the
content of the file after the call.  The shift of the signed `d` is
arithmetic. -/
def write_int32 (file : List Nat) (val : Int) : List Nat :=
  put (put (put (put file (toInt32 val)) (toInt32 val >>> (8 : Nat))) (toInt32 val >>> (16 : Nat)))
    (toInt32 val >>> (24 : Nat))

/-- The signed 32-bit integer that four bytes encode in little-endian order. -/
def decodeInt32 (b0 b1 b2 b3 : Nat) : Int :=
  toInt32 ((b0 + 256 * b1 + 65536 * b2 + 16777216 * b3 : Nat) : Int)

/-- The call `marks.resize(n)` on a vector of `size_t`: the vector is cut to
`n` entries or filled up with zeros. -/
def resize (marks : List Nat) (n : Nat) : List Nat :=
  marks.take n ++ List.replicate (n - marks.length) 0

/-- The loop of `PetriNet::getTokens` over the places: `none` when an id falls
outside `marks`. -/
def getTokensLoop : List Place → List Nat → Option (List Nat)
  | [], marks => some marks
  | place :: rest, marks =>
    if place.id < marks.length then getTokensLoop rest (marks.set place.id place.tokens)
    else none

/-- The body of `PetriNet::getTokens(marks)`: the content of `marks` after the
call. -/
def PetriNet.getTokens (net : PetriNet) (marks : List Nat) : Option (List Nat) :=
  getTokensLoop net.m_places (resize marks net.m_places.length)

/-- Every triplet of the matrix lies inside its declared shape. -/
def SparseMatrix.inShape (m : SparseMatrix) : Prop :=
  (∀ x ∈ m.i, x < m.M) ∧ (∀ y ∈ m.j, y < m.N)

instance (m : SparseMatrix) : Decidable m.inShape := by
  unfold SparseMatrix.inShape; infer_instance

/-- The chain T0 -> P0 -> T1 -> P1 -> T2 -> P2 -> T3 without token, with the
durations 1, 2 and 3 on the arcs that leave T0, T1 and T2: T0 is a source, T3
a sink, T1 and T2 are states. -/
def chainNet : PetriNet :=
  { m_type := NetType.TimedPetri
    m_places :=
      [ { id := 0, caption := "P0", x := 1, y := 0, tokens := 0, arcsIn := [0], arcsOut := [1] },
        { id := 1, caption := "P1", x := 3, y := 0, tokens := 0, arcsIn := [2], arcsOut := [3] },
        { id := 2, caption := "P2", x := 5, y := 0, tokens := 0, arcsIn := [4], arcsOut := [5] } ]
    m_transitions :=
      [ { id := 0, caption := "T0", x := 0, y := 0, angle := 0, receptivity := true, index := 0,
          arcsIn := [], arcsOut := [0] },
        { id := 1, caption := "T1", x := 2, y := 0, angle := 0, receptivity := true, index := 0,
          arcsIn := [1], arcsOut := [2] },
        { id := 2, caption := "T2", x := 4, y := 0, angle := 0, receptivity := true, index := 0,
          arcsIn := [3], arcsOut := [4] },
        { id := 3, caption := "T3", x := 6, y := 0, angle := 0, receptivity := true, index := 0,
          arcsIn := [5], arcsOut := [] } ]
    m_arcs :=
      [ ⟨⟨NodeType.Transition, 0⟩, ⟨NodeType.Place, 0⟩, 1⟩,
        ⟨⟨NodeType.Place, 0⟩, ⟨NodeType.Transition, 1⟩, 0⟩,
        ⟨⟨NodeType.Transition, 1⟩, ⟨NodeType.Place, 1⟩, 2⟩,
        ⟨⟨NodeType.Place, 1⟩, ⟨NodeType.Transition, 2⟩, 0⟩,
        ⟨⟨NodeType.Transition, 2⟩, ⟨NodeType.Place, 2⟩, 3⟩,
        ⟨⟨NodeType.Place, 2⟩, ⟨NodeType.Transition, 3⟩, 0⟩ ]
    m_next_place_id := 3
    m_next_transition_id := 4
    modified := true }

/-- Two places added by `addPlace` at the abscissas 16777216 and 1. -/
def farNet : PetriNet :=
  ((PetriNet.empty NetType.TimedPetri).addPlace 16777216 0 0).addPlace 1 0 0

/-- No place of the net has an empty caption: every place the engine stores
is built by the constructor of `Place`, which replaces an empty caption by the
key. -/
def Captioned (net : PetriNet) : Prop := ∀ p ∈ net.m_places, p.caption ≠ ""

instance (net : PetriNet) : Decidable (Captioned net) := by
  unfold Captioned; infer_instance

/-! ## Two objects in memory

For the claims about two `PetriNet` objects at once, a pointer carries the
object it points into: a `Node&` or `Node*` is the address of a node (object,
container, slot) and an `Arc*` the address of an arc (object, slot).  A member
is read through a pointer in the object the pointer names, and a write through
a pointer lands in that object.  A read outside a container returns `none`. -/

/-- The two `PetriNet` objects of a call `toCanonicalForm(canonic)`: the net
the method is called on, `*this`, and its argument `canonic`. -/
inductive Obj where
  | this_
  | canonic
  deriving DecidableEq

/-- What a `Node&` or a `Node*` holds, the address of a node: the object, the
container (`m_places` or `m_transitions`) and the slot. -/
structure NodeAddr where
  obj : Obj
  type : NodeType
  slot : Nat
  deriving DecidableEq

/-- What an `Arc*` holds, the address of an arc: the object and the slot of
`m_arcs`. -/
structure ArcAddr where
  obj : Obj
  slot : Nat
  deriving DecidableEq

/-- A place in memory: the adjacency lists hold arc addresses. -/
structure PlaceCell where
  id : Nat
  caption : String
  x : ℚ
  y : ℚ
  tokens : Nat
  arcsIn : List ArcAddr
  arcsOut : List ArcAddr
  deriving DecidableEq

/-- A transition in memory: the adjacency lists hold arc addresses. -/
structure TransitionCell where
  id : Nat
  caption : String
  x : ℚ
  y : ℚ
  angle : Int
  receptivity : Bool
  index : Nat
  arcsIn : List ArcAddr
  arcsOut : List ArcAddr
  deriving DecidableEq

/-- An arc in memory: the members `from` and `to` are references, they hold
node addresses. -/
structure ArcCell where
  from_ : NodeAddr
  to_ : NodeAddr
  duration : ℚ
  deriving DecidableEq

/-- A `PetriNet` object in memory. -/
structure NetCell where
  m_type : NetType
  m_places : List PlaceCell
  m_transitions : List TransitionCell
  m_arcs : List ArcCell
  m_next_place_id : Nat
  m_next_transition_id : Nat
  modified : Bool
  deriving DecidableEq

/-- The memory of a call `toCanonicalForm(canonic)`: the two objects. -/
structure Heap where
  this_ : NetCell
  canonic : NetCell
  deriving DecidableEq

/-- Modelled from the spec: the constructor `Place(id, caption, x, y, tokens)`,
as `Place.make`. -/
def PlaceCell.make (id : Nat) (caption : String) (x y : ℚ) (tokens : Nat) : PlaceCell :=
  { id := id
    caption := if caption = "" then to_str NodeType.Place id else caption
    x := x
    y := y
    tokens := tokens
    arcsIn := []
    arcsOut := [] }

/-- Modelled from the spec: the constructor
`Transition(id, caption, x, y, angle, receptivity)`, as `Transition.make`. -/
def TransitionCell.make (id : Nat) (caption : String) (x y : ℚ) (angle : Int)
    (receptivity : Bool) : TransitionCell :=
  { id := id
    caption := if caption = "" then to_str NodeType.Transition id else caption
    x := x
    y := y
    angle := angle
    receptivity := receptivity
    index := 0
    arcsIn := []
    arcsOut := [] }

namespace Heap

/-- The object at an address. -/
def net (h : Heap) : Obj → NetCell
  | Obj.this_ => h.this_
  | Obj.canonic => h.canonic

/-- A write of the members of one object. -/
def setNet (h : Heap) (o : Obj) (n : NetCell) : Heap :=
  match o with
  | Obj.this_ => { h with this_ := n }
  | Obj.canonic => { h with canonic := n }

/-- The member `id` read through a `Node&`; `none` when the address is outside
its container. -/
def nodeId (h : Heap) (a : NodeAddr) : Option Nat :=
  match a.type with
  | NodeType.Place => ((h.net a.obj).m_places[a.slot]?).map PlaceCell.id
  | NodeType.Transition => ((h.net a.obj).m_transitions[a.slot]?).map TransitionCell.id

/-- The member `type` read through a `Node&`: the type of the container, when
the address is inside it. -/
def nodeType (h : Heap) (a : NodeAddr) : Option NodeType :=
  (h.nodeId a).map (fun _ => a.type)

/-- The member `key` read through a `Node&`. -/
def nodeKey (h : Heap) (a : NodeAddr) : Option String :=
  (h.nodeId a).map (to_str a.type)

/-- The member `x` read through a `Node&`. -/
def nodeX (h : Heap) (a : NodeAddr) : Option ℚ :=
  match a.type with
  | NodeType.Place => ((h.net a.obj).m_places[a.slot]?).map PlaceCell.x
  | NodeType.Transition => ((h.net a.obj).m_transitions[a.slot]?).map TransitionCell.x

/-- The member `y` read through a `Node&`. -/
def nodeY (h : Heap) (a : NodeAddr) : Option ℚ :=
  match a.type with
  | NodeType.Place => ((h.net a.obj).m_places[a.slot]?).map PlaceCell.y
  | NodeType.Transition => ((h.net a.obj).m_transitions[a.slot]?).map TransitionCell.y

/-- The member `arcsIn` read through a `Node*`. -/
def nodeArcsIn (h : Heap) (a : NodeAddr) : Option (List ArcAddr) :=
  match a.type with
  | NodeType.Place => ((h.net a.obj).m_places[a.slot]?).map PlaceCell.arcsIn
  | NodeType.Transition => ((h.net a.obj).m_transitions[a.slot]?).map TransitionCell.arcsIn

/-- The member `arcsOut` read through a `Node*`. -/
def nodeArcsOut (h : Heap) (a : NodeAddr) : Option (List ArcAddr) :=
  match a.type with
  | NodeType.Place => ((h.net a.obj).m_places[a.slot]?).map PlaceCell.arcsOut
  | NodeType.Transition => ((h.net a.obj).m_transitions[a.slot]?).map TransitionCell.arcsOut

/-- The arc behind an `Arc*`; `none` when the address is past the end of
`m_arcs`. -/
def arcAt (h : Heap) (x : ArcAddr) : Option ArcCell := (h.net x.obj).m_arcs[x.slot]?

/-- The arc behind the pointer stored first in an adjacency list, read as
`arcsIn[0]->`; `none` when the list is empty or the pointer dangles. -/
def firstArc (h : Heap) (l : List ArcAddr) : Option ArcCell :=
  match l[0]? with
  | none => none
  | some x => h.arcAt x

/-- Modelled from the spec: `Node::operator==` through two references, the
equality of the types and of the ids. -/
def nodeEq (h : Heap) (a b : NodeAddr) : Option Bool :=
  match h.nodeId a, h.nodeId b with
  | some i, some j => some (decide (a.type = b.type ∧ i = j))
  | _, _ => none

/-- The test `(it.from == from) && (it.to == to)`. -/
def arcMatches (h : Heap) (it : ArcCell) (from_ to_ : NodeAddr) : Option Bool :=
  match h.nodeEq it.from_ from_ with
  | none => none
  | some false => some false
  | some true => h.nodeEq it.to_ to_

/-- The loop of `PetriNet::findArc` over the arcs that remain, `k` being the
slot of the first of them: the slot of the arc found, if any. -/
def findArcLoop (h : Heap) (from_ to_ : NodeAddr) : Nat → List ArcCell → Option (Option Nat)
  | _, [] => some none
  | k, it :: rest =>
    match h.arcMatches it from_ to_ with
    | none => none
    | some true => some (some k)
    | some false => findArcLoop h from_ to_ (k + 1) rest

/-- The body of `PetriNet::findArc(from, to)` called on the object `o`: the
pointer returned, null being `none`. -/
def findArc (h : Heap) (o : Obj) (from_ to_ : NodeAddr) : Option (Option ArcAddr) :=
  (findArcLoop h from_ to_ 0 (h.net o).m_arcs).map (fun r => r.map (fun k => ⟨o, k⟩))

/-- The body of `PetriNet::findNode(key)` called on the object `o`: the pointer
returned, null being `none`. -/
def findNode (h : Heap) (o : Obj) (key : String) : Option NodeAddr :=
  if key.data.head? = some 'P' then
    (if (h.net o).m_places.findIdx (fun p => decide (to_str NodeType.Place p.id = key)) <
        (h.net o).m_places.length then
      some ⟨o, NodeType.Place,
        (h.net o).m_places.findIdx (fun p => decide (to_str NodeType.Place p.id = key))⟩
    else none)
  else if key.data.head? = some 'T' then
    (if (h.net o).m_transitions.findIdx
          (fun t => decide (to_str NodeType.Transition t.id = key)) <
        (h.net o).m_transitions.length then
      some ⟨o, NodeType.Transition,
        (h.net o).m_transitions.findIdx
          (fun t => decide (to_str NodeType.Transition t.id = key))⟩
    else none)
  else none

/-- The three-argument `PetriNet::addPlace(x, y, tokens)` called on the object
`o`: the reference returned and the memory after the call. -/
def addPlace (h : Heap) (o : Obj) (x y : ℚ) (tokens : Nat) : NodeAddr × Heap :=
  (⟨o, NodeType.Place, (h.net o).m_places.length⟩,
    h.setNet o
      { h.net o with
        modified := true
        m_places := (h.net o).m_places ++
          [PlaceCell.make (h.net o).m_next_place_id "" x y tokens]
        m_next_place_id := (h.net o).m_next_place_id + 1 })

/-- The two-argument `PetriNet::addTransition(x, y)` called on the object `o`:
the reference returned and the memory after the call. -/
def addTransition (h : Heap) (o : Obj) (x y : ℚ) : NodeAddr × Heap :=
  (⟨o, NodeType.Transition, (h.net o).m_transitions.length⟩,
    h.setNet o
      { h.net o with
        modified := true
        m_transitions := (h.net o).m_transitions ++
          [TransitionCell.make (h.net o).m_next_transition_id "" x y 0
            (if (h.net o).m_type = NetType.TimedPetri then true else false)]
        m_next_transition_id := (h.net o).m_next_transition_id + 1 })

/-- The statement `node.arcsOut.push_back(arc)` through a `Node&`: the write
lands in the object the reference points into. -/
def pushArcsOut (h : Heap) (a : NodeAddr) (x : ArcAddr) : Heap :=
  match a.type with
  | NodeType.Place =>
    h.setNet a.obj
      { h.net a.obj with
        m_places := (h.net a.obj).m_places.modify
          (fun p => { p with arcsOut := p.arcsOut ++ [x] }) a.slot }
  | NodeType.Transition =>
    h.setNet a.obj
      { h.net a.obj with
        m_transitions := (h.net a.obj).m_transitions.modify
          (fun t => { t with arcsOut := t.arcsOut ++ [x] }) a.slot }

/-- The statement `node.arcsIn.push_back(arc)` through a `Node&`: the write
lands in the object the reference points into. -/
def pushArcsIn (h : Heap) (a : NodeAddr) (x : ArcAddr) : Heap :=
  match a.type with
  | NodeType.Place =>
    h.setNet a.obj
      { h.net a.obj with
        m_places := (h.net a.obj).m_places.modify
          (fun p => { p with arcsIn := p.arcsIn ++ [x] }) a.slot }
  | NodeType.Transition =>
    h.setNet a.obj
      { h.net a.obj with
        m_transitions := (h.net a.obj).m_transitions.modify
          (fun t => { t with arcsIn := t.arcsIn ++ [x] }) a.slot }

/-- The three statements of `addArc`, run on the object `o`, that create one
arc and record it on both sides: `m_arcs.push_back(Arc(from, to, duration))`,
`from.arcsOut.push_back(&m_arcs.back())`, `to.arcsIn.push_back(&m_arcs.back())`. -/
def linkArc (h : Heap) (o : Obj) (from_ to_ : NodeAddr) (duration : ℚ) : Heap :=
  ((h.setNet o { h.net o with m_arcs := (h.net o).m_arcs ++ [⟨from_, to_, duration⟩] }).pushArcsOut
    from_ ⟨o, (h.net o).m_arcs.length⟩).pushArcsIn to_ ⟨o, (h.net o).m_arcs.length⟩

/-- The statement `modified = true` in a method called on the object `o`. -/
def setModified (h : Heap) (o : Obj) : Heap :=
  h.setNet o { h.net o with modified := true }

/-- The body of `PetriNet::addArc(from, to, duration, strict)` called on the
object `o`: the returned boolean and the memory after the call; `none` when a
reference is read outside its container. -/
def addArc (h : Heap) (o : Obj) (from_ to_ : NodeAddr) (duration : ℚ) (strict : Bool) :
    Option (Bool × Heap) :=
  match h.findArc o from_ to_ with
  | none => none
  | some (some _) => some (false, h)
  | some none =>
    match h.nodeKey from_ with
    | none => none
    | some keyFrom =>
      match h.findNode o keyFrom with
      | none => some (false, h)
      | some _ =>
        match h.nodeKey to_ with
        | none => none
        | some keyTo =>
          match h.findNode o keyTo with
          | none => some (false, h)
          | some _ =>
            if from_.type = to_.type then
              if strict then some (false, h)
              else
                match h.nodeX from_, h.nodeX to_, h.nodeY from_, h.nodeY to_ with
                | some fx, some tx, some fy, some ty =>
                  if to_.type = NodeType.Place then
                    let n := h.addTransition o (floatMid fx tx) (floatMid fy ty)
                    some (true,
                      (((n.2.linkArc o from_ n.1 duration).linkArc o n.1 to_
                        duration).setModified o))
                  else
                    let n := h.addPlace o (floatMid fx tx) (floatMid fy ty) 0
                    some (true,
                      (((n.2.linkArc o from_ n.1 duration).linkArc o n.1 to_
                        duration).setModified o))
                | _, _, _, _ => none
            else some (true, (h.linkArc o from_ to_ duration).setModified o)

/-- The loop of `PetriNet::removeArc(Arc const&)`, counting `i` down: the first
argument is the number of slots still to visit. -/
def removeArcLoop (h : Heap) (from_ to_ : NodeAddr) :
    Nat → List ArcCell → Option (Bool × List ArcCell)
  | 0, arcs => some (false, arcs)
  | i + 1, arcs =>
    match arcs[i]? with
    | some it =>
      match h.arcMatches it from_ to_ with
      | none => none
      | some true => some (true, PetriNet.swapRemove arcs i)
      | some false => removeArcLoop h from_ to_ i arcs
    | none => removeArcLoop h from_ to_ i arcs

/-- The body of `PetriNet::removeArc(from, to)` called on the object `o`. -/
def removeArc (h : Heap) (o : Obj) (from_ to_ : NodeAddr) : Option (Bool × Heap) :=
  (removeArcLoop h from_ to_ (h.net o).m_arcs.length (h.net o).m_arcs).map (fun r =>
    (r.1, h.setNet o { h.net o with m_arcs := r.2 }))

/-- The test `(a.x.type == type) && (a.y.id == id)` of `generateArcsInArcsOut`,
on two references of an arc. -/
def typeAndId (h : Heap) (x y : NodeAddr) (type : NodeType) (id : Nat) : Option Bool :=
  match h.nodeType x with
  | none => none
  | some tx =>
    if tx = type then (h.nodeId y).map (fun iy => decide (iy = id)) else some false

/-- One pass of the inner loop of `generateArcsInArcsOut`, called on the object
`o`, for the transition with id `tid`: `k` is the slot of the head of the
remaining arcs; the result is the pair (`arcsIn`, `arcsOut`). -/
def scanTransitionArcs (h : Heap) (o : Obj) (tid : Nat) :
    Nat → List ArcCell → Option (List ArcAddr × List ArcAddr)
  | _, [] => some ([], [])
  | k, a :: rest =>
    match h.typeAndId a.from_ a.to_ NodeType.Place tid with
    | none => none
    | some true =>
      (scanTransitionArcs h o tid (k + 1) rest).map (fun r => (⟨o, k⟩ :: r.1, r.2))
    | some false =>
      match h.typeAndId a.to_ a.from_ NodeType.Place tid with
      | none => none
      | some true =>
        (scanTransitionArcs h o tid (k + 1) rest).map (fun r => (r.1, ⟨o, k⟩ :: r.2))
      | some false => scanTransitionArcs h o tid (k + 1) rest

/-- One pass of the inner loop of `generateArcsInArcsOut`, called on the object
`o`, for the place with id `pid`; the result is the pair (`arcsIn`,
`arcsOut`). -/
def scanPlaceArcs (h : Heap) (o : Obj) (pid : Nat) :
    Nat → List ArcCell → Option (List ArcAddr × List ArcAddr)
  | _, [] => some ([], [])
  | k, a :: rest =>
    match h.typeAndId a.from_ a.to_ NodeType.Transition pid with
    | none => none
    | some true =>
      (scanPlaceArcs h o pid (k + 1) rest).map (fun r => (⟨o, k⟩ :: r.1, r.2))
    | some false =>
      match h.typeAndId a.to_ a.from_ NodeType.Transition pid with
      | none => none
      | some true =>
        (scanPlaceArcs h o pid (k + 1) rest).map (fun r => (r.1, ⟨o, k⟩ :: r.2))
      | some false => scanPlaceArcs h o pid (k + 1) rest

/-- The first loop of `generateArcsInArcsOut` called on the object `o`: the
transitions with their adjacency lists cleared and refilled.  The loop writes
adjacency lists only and reads types and ids only, so all its reads are made in
the memory `h` it starts in. -/
def generateTransitions (h : Heap) (o : Obj) : List TransitionCell → Option (List TransitionCell)
  | [] => some []
  | t :: rest =>
    match scanTransitionArcs h o t.id 0 (h.net o).m_arcs, generateTransitions h o rest with
    | some r, some l => some ({ t with arcsIn := r.1, arcsOut := r.2 } :: l)
    | _, _ => none

/-- The second loop of `generateArcsInArcsOut` called on the object `o`: the
places with their adjacency lists cleared and refilled. -/
def generatePlaces (h : Heap) (o : Obj) : List PlaceCell → Option (List PlaceCell)
  | [] => some []
  | p :: rest =>
    match scanPlaceArcs h o p.id 0 (h.net o).m_arcs, generatePlaces h o rest with
    | some r, some l => some ({ p with arcsIn := r.1, arcsOut := r.2 } :: l)
    | _, _ => none

/-- The body of `PetriNet::generateArcsInArcsOut` called on the object `o`;
`none` when a reference of an arc is read outside its container. -/
def generateArcsInArcsOut (h : Heap) (o : Obj) : Option Heap :=
  match generateTransitions h o (h.net o).m_transitions, generatePlaces h o (h.net o).m_places with
  | some ts, some ps => some (h.setNet o { h.net o with m_transitions := ts, m_places := ps })
  | _, _ => none

/-- One operand of the loop of `PetriNet::operator=`, called on the object `o`,
that redoes the references:
`(it.from.type == Place) ? m_places[it.from.id] : m_transitions[it.from.id]`.
The type and the id are read through the reference of the copied arc, and the
new reference points into the container of `o`; `none` when the reference
dangles or the id is outside the container. -/
def rebind (h : Heap) (o : Obj) (a : NodeAddr) : Option NodeAddr :=
  match h.nodeType a, h.nodeId a with
  | some NodeType.Place, some id =>
    if id < (h.net o).m_places.length then some ⟨o, NodeType.Place, id⟩ else none
  | some NodeType.Transition, some id =>
    if id < (h.net o).m_transitions.length then some ⟨o, NodeType.Transition, id⟩ else none
  | _, _ => none

/-- The loop of `PetriNet::operator=`, called on the object `o`, that redoes
the references of the arcs.  The loop writes `m_arcs` only, so all its reads
are made in the memory `h` left by the copy of the nodes. -/
def rebindArcs (h : Heap) (o : Obj) : List ArcCell → Option (List ArcCell)
  | [] => some []
  | it :: rest =>
    match h.rebind o it.from_, h.rebind o it.to_, rebindArcs h o rest with
    | some from_, some to_, some arcs => some (⟨from_, to_, it.duration⟩ :: arcs)
    | _, _, _ => none

/-- The body of `PetriNet::operator=(other)` called on the object `o`, with the
test `this != &other`. -/
def assign (h : Heap) (o other : Obj) : Option Heap :=
  if o = other then some h
  else
    match rebindArcs
        (h.setNet o
          { h.net o with
            m_type := (h.net other).m_type
            m_places := (h.net other).m_places
            m_transitions := (h.net other).m_transitions
            m_next_place_id := (h.net other).m_next_place_id
            m_next_transition_id := (h.net other).m_next_transition_id
            m_arcs := [] }) o (h.net other).m_arcs with
    | none => none
    | some arcs =>
      generateArcsInArcsOut
        (h.setNet o
          { h.net o with
            m_type := (h.net other).m_type
            m_places := (h.net other).m_places
            m_transitions := (h.net other).m_transitions
            m_next_place_id := (h.net other).m_next_place_id
            m_next_transition_id := (h.net other).m_next_transition_id
            m_arcs := arcs }) o

/-- Modelled from the spec: `Transition::isInput()`, a transition without input
arc, called through `reinterpret_cast<Transition*>(node)`. -/
def isInput (h : Heap) (a : NodeAddr) : Option Bool :=
  (h.nodeArcsIn a).map (fun l => decide (l.length = 0))

/-- Modelled from the spec: `Transition::isOutput()`, a transition without
output arc, called through `reinterpret_cast<Transition*>(node)`. -/
def isOutput (h : Heap) (a : NodeAddr) : Option Bool :=
  (h.nodeArcsOut a).map (fun l => decide (l.length = 0))

/-- The statement `p.tokens--` on the place `canonic.places()[i]`. -/
def decrementTokens (h : Heap) (i : Nat) : Heap :=
  { h with
    canonic :=
      { h.canonic with
        m_places := h.canonic.m_places.modify (fun q => { q with tokens := q.tokens - 1 }) i } }

/-- The inner loop `while (tokens--)` of the token explosion of
`toCanonicalForm`, for the place of slot `i` of `canonic`: the first argument
is the value of `tokens`, the last one is `from`. -/
def explodeLoop (i : Nat) (duration : ℚ) : Nat → Heap → NodeAddr → Option Heap
  | 0, h, _ => some h
  | tokens + 1, h, from_ =>
    match (h.addPlace Obj.canonic 10 10 1).2.addArc Obj.canonic from_
        (h.addPlace Obj.canonic 10 10 1).1 defaultDuration defaultStrict with
    | none => none
    | some r1 =>
      match (r1.2.addTransition Obj.canonic 20 20).2.addArc Obj.canonic
          (h.addPlace Obj.canonic 10 10 1).1 (r1.2.addTransition Obj.canonic 20 20).1
          defaultDuration defaultStrict with
      | none => none
      | some r2 =>
        match r2.2.canonic.m_places[i]? with
        | none => none
        | some p =>
          if p.tokens - 1 = 1 then
            match (r2.2.decrementTokens i).addArc Obj.canonic
                (r1.2.addTransition Obj.canonic 20 20).1 ⟨Obj.canonic, NodeType.Place, i⟩
                duration defaultStrict with
            | none => none
            | some r3 =>
              explodeLoop i duration tokens r3.2 (r1.2.addTransition Obj.canonic 20 20).1
          else
            explodeLoop i duration tokens (r2.2.decrementTokens i)
              (r1.2.addTransition Obj.canonic 20 20).1

/-- The first loop of `toCanonicalForm`, `i` counting down over the places of
`canonic`: places with more than one token are exploded into places holding a
single token. -/
def explodePlaces : Nat → Heap → Option Heap
  | 0, h => some h
  | i + 1, h =>
    match h.canonic.m_places[i]? with
    | none => none
    | some p =>
      if p.tokens > 1 then
        match h.firstArc p.arcsIn with
        | none => none
        | some a =>
          match h.removeArc Obj.canonic a.from_ ⟨Obj.canonic, NodeType.Place, i⟩ with
          | none => none
          | some r =>
            match explodeLoop i a.duration (p.tokens - 1) r.2 a.from_ with
            | none => none
            | some h1 => explodePlaces i h1
      else explodePlaces i h

/-- The block `// Inputs` of `toCanonicalForm` for the place of slot `i` of
`canonic`. -/
def pushFromInput (h : Heap) (i : Nat) : Option Heap :=
  match h.canonic.m_places[i]? with
  | none => none
  | some p =>
    match h.firstArc p.arcsIn with
    | none => none
    | some a =>
      match h.isInput a.from_ with
      | none => none
      | some false => some h
      | some true =>
        match h.removeArc Obj.canonic a.from_ ⟨Obj.canonic, NodeType.Place, i⟩ with
        | none => none
        | some r =>
          match ((r.2.addPlace Obj.canonic 50 50 0).2.addTransition Obj.canonic 60 60).2.addArc
              Obj.canonic a.from_ (r.2.addPlace Obj.canonic 50 50 0).1 defaultDuration
              defaultStrict with
          | none => none
          | some r1 =>
            match r1.2.addArc Obj.canonic (r.2.addPlace Obj.canonic 50 50 0).1
                ((r.2.addPlace Obj.canonic 50 50 0).2.addTransition Obj.canonic 60 60).1
                a.duration defaultStrict with
            | none => none
            | some r2 =>
              (r2.2.addArc Obj.canonic
                ((r.2.addPlace Obj.canonic 50 50 0).2.addTransition Obj.canonic 60 60).1
                ⟨Obj.canonic, NodeType.Place, i⟩ defaultDuration defaultStrict).map Prod.snd

/-- The block `// Outputs` of `toCanonicalForm` for the place of slot `i` of
`canonic`. -/
def pushFromOutput (h : Heap) (i : Nat) : Option Heap :=
  match h.canonic.m_places[i]? with
  | none => none
  | some p =>
    match h.firstArc p.arcsOut with
    | none => none
    | some a =>
      match h.isOutput a.to_ with
      | none => none
      | some false => some h
      | some true =>
        match h.removeArc Obj.canonic ⟨Obj.canonic, NodeType.Place, i⟩ a.to_ with
        | none => none
        | some r =>
          match ((r.2.addTransition Obj.canonic 60 60).2.addPlace Obj.canonic 50 50 0).2.addArc
              Obj.canonic ⟨Obj.canonic, NodeType.Place, i⟩
              (r.2.addTransition Obj.canonic 60 60).1 defaultDuration defaultStrict with
          | none => none
          | some r1 =>
            match r1.2.addArc Obj.canonic (r.2.addTransition Obj.canonic 60 60).1
                ((r.2.addTransition Obj.canonic 60 60).2.addPlace Obj.canonic 50 50 0).1
                defaultDuration defaultStrict with
            | none => none
            | some r2 =>
              (r2.2.addArc Obj.canonic
                ((r.2.addTransition Obj.canonic 60 60).2.addPlace Obj.canonic 50 50 0).1
                a.to_ defaultDuration defaultStrict).map Prod.snd

/-- The second loop of `toCanonicalForm`, `i` counting down over the places of
`canonic`: places with one token next to an input or an output transition. -/
def boundaryPlaces : Nat → Heap → Option Heap
  | 0, h => some h
  | i + 1, h =>
    match h.canonic.m_places[i]? with
    | none => none
    | some p =>
      if p.tokens = 1 then
        match pushFromInput h i with
        | none => none
        | some h1 =>
          match pushFromOutput h1 i with
          | none => none
          | some h2 => boundaryPlaces i h2
      else boundaryPlaces i h

/-- The body of `PetriNet::toCanonicalForm(canonic)` called on the object
`this_`: the memory after the call, with both objects; `none` when the call
reads outside a container. -/
def toCanonicalForm (h : Heap) : Option Heap :=
  match h.assign Obj.canonic Obj.this_ with
  | none => none
  | some h0 =>
    match explodePlaces h0.canonic.m_places.length h0 with
    | none => none
    | some h1 =>
      match h1.generateArcsInArcsOut Obj.canonic with
      | none => none
      | some h2 => boundaryPlaces h2.canonic.m_places.length h2

end Heap

/-- The address, in the object `o`, of the node a reference of the value
embedding designates: the slot numbered by the id, in the container of its
type. -/
def NodeRef.addr (o : Obj) (r : NodeRef) : NodeAddr := ⟨o, r.type, r.id⟩

/-- The address, in the object `o`, of the arc at a position of `m_arcs`. -/
def ArcAddr.ofSlot (o : Obj) (k : Nat) : ArcAddr := ⟨o, k⟩

/-- The arc in memory that an arc of the value embedding stands for, in the
object `o`. -/
def ArcCell.ofArc (o : Obj) (a : Arc) : ArcCell :=
  ⟨a.from_.addr o, a.to_.addr o, a.duration⟩

/-- The place in memory that a place of the value embedding stands for, in the
object `o`. -/
def PlaceCell.ofPlace (o : Obj) (p : Place) : PlaceCell :=
  { id := p.id, caption := p.caption, x := p.x, y := p.y, tokens := p.tokens
    arcsIn := p.arcsIn.map (ArcAddr.ofSlot o)
    arcsOut := p.arcsOut.map (ArcAddr.ofSlot o) }

/-- The transition in memory that a transition of the value embedding stands
for, in the object `o`. -/
def TransitionCell.ofTransition (o : Obj) (t : Transition) : TransitionCell :=
  { id := t.id, caption := t.caption, x := t.x, y := t.y, angle := t.angle
    receptivity := t.receptivity, index := t.index
    arcsIn := t.arcsIn.map (ArcAddr.ofSlot o)
    arcsOut := t.arcsOut.map (ArcAddr.ofSlot o) }

/-- The object in memory that a net of the value embedding stands for, at the
address `o`: every `Node&` of an arc points to the slot numbered by the id of
the node, in the object itself, and every `Arc*` to the slot of the arc in the
object itself. -/
def NetCell.ofNet (o : Obj) (net : PetriNet) : NetCell :=
  { m_type := net.m_type
    m_places := net.m_places.map (PlaceCell.ofPlace o)
    m_transitions := net.m_transitions.map (TransitionCell.ofTransition o)
    m_arcs := net.m_arcs.map (ArcCell.ofArc o)
    m_next_place_id := net.m_next_place_id
    m_next_transition_id := net.m_next_transition_id
    modified := net.modified }

/-- The memory in which `*this` and `canonic` stand for two nets of the value
embedding. -/
def Heap.ofNets (self canonic : PetriNet) : Heap :=
  ⟨NetCell.ofNet Obj.this_ self, NetCell.ofNet Obj.canonic canonic⟩

/-- Every pointer held by the arc points into `canonic`. -/
def ArcCell.Own (a : ArcCell) : Prop := a.from_.obj = Obj.canonic ∧ a.to_.obj = Obj.canonic

/-- Every pointer held by the place points into `canonic`. -/
def PlaceCell.Own (p : PlaceCell) : Prop :=
  (∀ x ∈ p.arcsIn, x.obj = Obj.canonic) ∧ ∀ x ∈ p.arcsOut, x.obj = Obj.canonic

/-- Every pointer held by the transition points into `canonic`. -/
def TransitionCell.Own (t : TransitionCell) : Prop :=
  (∀ x ∈ t.arcsIn, x.obj = Obj.canonic) ∧ ∀ x ∈ t.arcsOut, x.obj = Obj.canonic

/-- Every pointer held by the object `canonic` points into `canonic`. -/
def Heap.Closed (h : Heap) : Prop :=
  (∀ a ∈ h.canonic.m_arcs, a.Own) ∧ (∀ p ∈ h.canonic.m_places, p.Own) ∧
    ∀ t ∈ h.canonic.m_transitions, t.Own

/-- The address, in the object `o`, a node pointer of the value embedding stands
for. -/
def NodePtr.addr (o : Obj) : NodePtr → NodeAddr
  | NodePtr.place s => ⟨o, NodeType.Place, s⟩
  | NodePtr.transition s => ⟨o, NodeType.Transition, s⟩

/-- The nodes of the object `o` carry, slot by slot, the ids of the nodes of the
net `c`. -/
def Heap.IdsAgree (h : Heap) (o : Obj) (c : PetriNet) : Prop :=
  (h.net o).m_places.map PlaceCell.id = c.m_places.map Place.id ∧
  (h.net o).m_transitions.map TransitionCell.id = c.m_transitions.map Transition.id

/-- The structural operations a client can apply to a net. -/
inductive Op where
  | addPlace (x y : ℚ) (tokens : Nat)
  | addTransition (x y : ℚ)
  | addArc (from_ to_ : NodeRef) (duration : ℚ) (strict : Bool)
  | removeArc (from_ to_ : NodeRef)
  | removeNode (node : NodeRef)
  | clear

/-- Effect of one structural operation on the net. -/
def Op.apply (net : PetriNet) : Op → Option PetriNet
  | Op.addPlace x y tokens => some (net.addPlace x y tokens)
  | Op.addTransition x y => some (net.addTransition x y)
  | Op.addArc f t d strict => some (net.addArc f t d strict).2
  | Op.removeArc f t => some (net.removeArc f t).2
  | Op.removeNode n => net.removeNode n
  | Op.clear => some net.clear

/-- Effect of a finite sequence of structural operations, left to right. -/
def run : List Op → PetriNet → Option PetriNet
  | [], net => some net
  | op :: ops, net => (op.apply net).bind (run ops)

open PetriNet

/-! ## Keys -/

theorem digitChar_value : ∀ d, d < 10 → (Nat.digitChar d).toNat - 48 = d := by
  decide

theorem digitsValue_toDigitsCore (fuel : Nat) :
    ∀ n ds, n < fuel → digitsValue (Nat.toDigitsCore 10 fuel n ds) 0 = digitsValue ds n := by
  induction fuel with
  | zero => intro n ds h; omega
  | succ fuel ih =>
    intro n ds h
    unfold Nat.toDigitsCore
    by_cases h0 : n / 10 = 0
    · simp only [h0, if_true]
      have hn : n < 10 := by omega
      simp only [digitsValue, List.foldl_cons, Nat.zero_mul, Nat.zero_add]
      rw [Nat.mod_eq_of_lt hn, digitChar_value n hn]
    · simp only [h0, if_false]
      rw [ih (n / 10) _ (by omega)]
      simp only [digitsValue, List.foldl_cons]
      rw [digitChar_value (n % 10) (Nat.mod_lt _ (by decide))]
      congr 1
      omega

theorem repr_injective {a b : Nat} (h : Nat.repr a = Nat.repr b) : a = b := by
  have h1 : Nat.toDigits 10 a = Nat.toDigits 10 b := by
    have := congrArg String.data h
    simpa [Nat.repr, List.asString] using this
  have ha := digitsValue_toDigitsCore (a + 1) a [] (by omega)
  have hb := digitsValue_toDigitsCore (b + 1) b [] (by omega)
  unfold Nat.toDigits at h1
  rw [h1] at ha
  rw [ha] at hb
  simpa [digitsValue] using hb

theorem to_str_data (t : NodeType) (id : Nat) :
    (to_str t id).data =
      (match t with
        | NodeType.Place => 'P'
        | NodeType.Transition => 'T') :: (Nat.repr id).data := by
  cases t <;> simp [to_str, String.data_append]

theorem to_str_injective {t t' : NodeType} {a b : Nat} (h : to_str t a = to_str t' b) :
    t = t' ∧ a = b := by
  have h1 := congrArg String.data h
  rw [to_str_data, to_str_data] at h1
  have h2 := List.cons.inj h1
  have h3 : (Nat.repr a) = (Nat.repr b) := String.ext h2.2
  refine ⟨?_, repr_injective h3⟩
  cases t <;> cases t' <;> first | rfl | (exfalso; revert h2; simp)

theorem to_str_head (t : NodeType) (id : Nat) :
    (to_str t id).data.head? =
      some (match t with
        | NodeType.Place => 'P'
        | NodeType.Transition => 'T') := by
  rw [to_str_data]; rfl

/-! ## Lists -/

theorem map_modify_of_fix {α β : Type} (g : α → β) (f : α → α) (h : ∀ a, g (f a) = g a)
    (l : List α) (n : Nat) : (l.modify f n).map g = l.map g := by
  induction l generalizing n with
  | nil => simp
  | cons a l ih =>
    cases n with
    | zero => simp [h]
    | succ n => simp [ih]

theorem getElem_of_map_eq_range {α : Type} {f : α → Nat} {l : List α}
    (h : l.map f = List.range l.length) (j : Nat) (hj : j < l.length) : f l[j] = j := by
  have h1 : (l.map f)[j]? = (List.range l.length)[j]? := by rw [h]
  rw [List.getElem?_map, List.getElem?_range hj, List.getElem?_eq_getElem hj] at h1
  simpa using h1

theorem findIdx_of_map_eq_range {α : Type} {f : α → Nat} {l : List α}
    (h : l.map f = List.range l.length) (i : Nat) :
    l.findIdx (fun p => decide (f p = i)) = if i < l.length then i else l.length := by
  by_cases hi : i < l.length
  · rw [if_pos hi, List.findIdx_eq hi]
    refine ⟨by simp [getElem_of_map_eq_range h i hi], fun j hji => ?_⟩
    have := getElem_of_map_eq_range h j (Nat.lt_trans hji hi)
    simp [this]; omega
  · rw [if_neg hi, List.findIdx_eq_length]
    intro x hx
    obtain ⟨j, hj, rfl⟩ := List.getElem_of_mem hx
    have := getElem_of_map_eq_range h j hj
    simp [this]; omega

/-! ## findNode -/

theorem findNode_of_dense {net : PetriNet} (hd : IdDense net) (r : NodeRef) :
    net.findNode r.key = if validRef net r then some r.ptr else none := by
  obtain ⟨t, i⟩ := r
  cases t
  · have hk : ∀ p : Place, decide (p.key = to_str NodeType.Place i) = decide (p.id = i) := by
      intro p
      by_cases hp : p.id = i
      · simp [Place.key, hp]
      · have : ¬ p.key = to_str NodeType.Place i := fun h => hp (to_str_injective h).2
        simp [this, hp]
    simp only [findNode, NodeRef.key, to_str_head, validRef, NodeRef.ptr, hk,
      findIdx_of_map_eq_range hd.1 i]
    by_cases hi : i < net.m_places.length <;> simp [hi]
  · have hk : ∀ p : Transition,
        decide (p.key = to_str NodeType.Transition i) = decide (p.id = i) := by
      intro p
      by_cases hp : p.id = i
      · simp [Transition.key, hp]
      · have : ¬ p.key = to_str NodeType.Transition i := fun h => hp (to_str_injective h).2
        simp [this, hp]
    simp only [findNode, NodeRef.key, to_str_head, validRef, NodeRef.ptr, hk,
      findIdx_of_map_eq_range hd.2.2.1 i]
    by_cases hi : i < net.m_transitions.length <;> simp [hi]


/-! ## addArc -/

theorem findArc_eq_none_iff {net : PetriNet} {f t : NodeRef} :
    net.findArc f t = none ↔ ∀ a ∈ net.m_arcs, ¬ (a.from_ = f ∧ a.to_ = t) := by
  simp [findArc, List.find?_eq_none]

theorem findArc_eq_none_iff_ends {net : PetriNet} {f t : NodeRef} :
    net.findArc f t = none ↔ (f, t) ∉ net.m_arcs.map Arc.ends := by
  rw [findArc_eq_none_iff]
  constructor
  · intro h hm
    obtain ⟨a, ha, he⟩ := List.mem_map.1 hm
    exact h a ha ⟨congrArg Prod.fst he, congrArg Prod.snd he⟩
  · intro h a ha h1
    exact h (List.mem_map.2 ⟨a, ha, by rw [Arc.ends, h1.1, h1.2]⟩)

theorem places_data_id (l : List Place) : (l.map Place.data).map Prod.fst = l.map Place.id := by
  simp [Place.data, Function.comp_def]

theorem transitions_data_id (l : List Transition) :
    (l.map Transition.data).map Prod.fst = l.map Transition.id := by
  simp [Transition.data, Function.comp_def]

theorem map_id_of_map_data {l l' : List Place} (h : l'.map Place.data = l.map Place.data) :
    l'.map Place.id = l.map Place.id := by
  rw [← places_data_id, ← places_data_id, h]

theorem map_tid_of_map_data {l l' : List Transition}
    (h : l'.map Transition.data = l.map Transition.data) :
    l'.map Transition.id = l.map Transition.id := by
  rw [← transitions_data_id, ← transitions_data_id, h]

theorem pushArcsOut_frame (net : PetriNet) (n : NodePtr) (k : Nat) :
    (net.pushArcsOut n k).m_type = net.m_type ∧
    (net.pushArcsOut n k).m_arcs = net.m_arcs ∧
    (net.pushArcsOut n k).m_next_place_id = net.m_next_place_id ∧
    (net.pushArcsOut n k).m_next_transition_id = net.m_next_transition_id ∧
    (net.pushArcsOut n k).modified = net.modified ∧
    (net.pushArcsOut n k).m_places.map Place.data = net.m_places.map Place.data ∧
    (net.pushArcsOut n k).m_transitions.map Transition.data =
      net.m_transitions.map Transition.data := by
  cases n <;> simp [pushArcsOut] <;> (apply map_modify_of_fix; intro a; rfl)

theorem pushArcsIn_frame (net : PetriNet) (n : NodePtr) (k : Nat) :
    (net.pushArcsIn n k).m_type = net.m_type ∧
    (net.pushArcsIn n k).m_arcs = net.m_arcs ∧
    (net.pushArcsIn n k).m_next_place_id = net.m_next_place_id ∧
    (net.pushArcsIn n k).m_next_transition_id = net.m_next_transition_id ∧
    (net.pushArcsIn n k).modified = net.modified ∧
    (net.pushArcsIn n k).m_places.map Place.data = net.m_places.map Place.data ∧
    (net.pushArcsIn n k).m_transitions.map Transition.data =
      net.m_transitions.map Transition.data := by
  cases n <;> simp [pushArcsIn] <;> (apply map_modify_of_fix; intro a; rfl)

theorem linkArc_frame (net : PetriNet) (pf : NodePtr) (rf : NodeRef) (pt : NodePtr)
    (rt : NodeRef) (d : ℚ) :
    (net.linkArc pf rf pt rt d).m_type = net.m_type ∧
    (net.linkArc pf rf pt rt d).m_arcs = net.m_arcs ++ [⟨rf, rt, d⟩] ∧
    (net.linkArc pf rf pt rt d).m_next_place_id = net.m_next_place_id ∧
    (net.linkArc pf rf pt rt d).m_next_transition_id = net.m_next_transition_id ∧
    (net.linkArc pf rf pt rt d).modified = net.modified ∧
    (net.linkArc pf rf pt rt d).m_places.map Place.data = net.m_places.map Place.data ∧
    (net.linkArc pf rf pt rt d).m_transitions.map Transition.data =
      net.m_transitions.map Transition.data := by
  unfold linkArc
  obtain ⟨a1, a2, a3, a4, a5, a6, a7⟩ := pushArcsIn_frame
    (pushArcsOut { net with m_arcs := net.m_arcs ++ [⟨rf, rt, d⟩] } pf net.m_arcs.length)
    pt net.m_arcs.length
  obtain ⟨b1, b2, b3, b4, b5, b6, b7⟩ := pushArcsOut_frame
    { net with m_arcs := net.m_arcs ++ [⟨rf, rt, d⟩] } pf net.m_arcs.length
  exact ⟨a1.trans b1, a2.trans b2, a3.trans b3, a4.trans b4, a5.trans b5, a6.trans b6,
    a7.trans b7⟩

theorem addArc_of_dup {net : PetriNet} {f t : NodeRef} (d : ℚ) (s : Bool) {a : Arc}
    (hA : net.findArc f t = some a) : net.addArc f t d s = (false, net) := by
  simp [addArc, hA]

theorem addArc_of_no_from {net : PetriNet} {f t : NodeRef} (d : ℚ) (s : Bool)
    (hF : net.findNode f.key = none) : net.addArc f t d s = (false, net) := by
  unfold addArc; simp [hF]

theorem addArc_of_no_to {net : PetriNet} {f t : NodeRef} (d : ℚ) (s : Bool)
    (hT : net.findNode t.key = none) : net.addArc f t d s = (false, net) := by
  unfold addArc; cases net.findNode f.key <;> simp [hT]

theorem addArc_of_strict_same {net : PetriNet} {f t : NodeRef} (d : ℚ)
    (hty : f.type = t.type) : net.addArc f t d true = (false, net) := by
  unfold addArc
  cases net.findArc f t <;> cases net.findNode f.key <;> cases net.findNode t.key <;> simp [hty]

theorem addArc_normal {net : PetriNet} {f t : NodeRef} (d : ℚ) (s : Bool) {pf pt : NodePtr}
    (hA : net.findArc f t = none) (hF : net.findNode f.key = some pf)
    (hT : net.findNode t.key = some pt) (hty : f.type ≠ t.type) :
    net.addArc f t d s = (true, { net.linkArc pf f pt t d with modified := true }) := by
  simp [addArc, hA, hF, hT, hty]

theorem addArc_bridge_transition {net : PetriNet} {f t : NodeRef} (d : ℚ) {pf pt : NodePtr}
    (hA : net.findArc f t = none) (hF : net.findNode f.key = some pf)
    (hT : net.findNode t.key = some pt) (hty : f.type = t.type)
    (hp : t.type = NodeType.Place) :
    net.addArc f t d false =
      (true,
        { (((net.addTransition (floatMid (net.ptrX pf) (net.ptrX pt))
              (floatMid (net.ptrY pf) (net.ptrY pt))).linkArc pf f
              (NodePtr.transition net.m_transitions.length)
              ⟨NodeType.Transition, net.m_next_transition_id⟩ d).linkArc
              (NodePtr.transition net.m_transitions.length)
              ⟨NodeType.Transition, net.m_next_transition_id⟩ pt t d) with
          modified := true }) := by
  simp [addArc, hA, hF, hT, hty, hp]

theorem addArc_bridge_place {net : PetriNet} {f t : NodeRef} (d : ℚ) {pf pt : NodePtr}
    (hA : net.findArc f t = none) (hF : net.findNode f.key = some pf)
    (hT : net.findNode t.key = some pt) (hty : f.type = t.type)
    (hp : t.type = NodeType.Transition) :
    net.addArc f t d false =
      (true,
        { (((net.addPlace (floatMid (net.ptrX pf) (net.ptrX pt))
              (floatMid (net.ptrY pf) (net.ptrY pt)) 0).linkArc pf f
              (NodePtr.place net.m_places.length)
              ⟨NodeType.Place, net.m_next_place_id⟩ d).linkArc
              (NodePtr.place net.m_places.length)
              ⟨NodeType.Place, net.m_next_place_id⟩ pt t d) with
          modified := true }) := by
  have hp' : ¬ t.type = NodeType.Place := by rw [hp]; decide
  simp [addArc, hA, hF, hT, hty, hp']


/-! ## swapRemove -/

theorem swapRemove_concat {α : Type} (init : List α) (e : α) (i : Nat) :
    swapRemove (init ++ [e]) i = if i < init.length then init.set i e else init := by
  have hl : (init ++ [e]).getLast? = some e := by simp
  unfold swapRemove
  rw [hl]
  show ((init ++ [e]).set i e).dropLast = _
  by_cases h : i < init.length
  · rw [if_pos h, List.set_append_left _ _ h, List.dropLast_concat]
  · rw [if_neg h]
    by_cases h2 : i = init.length
    · subst h2
      rw [List.set_append_right _ _ (Nat.le_refl _)]
      simp
    · rw [List.set_eq_of_length_le (by simp; omega), List.dropLast_concat]

theorem swapRemove_length {α : Type} (xs : List α) (i : Nat) :
    (swapRemove xs i).length = xs.length - 1 := by
  rcases List.eq_nil_or_concat xs with rfl | ⟨init, e, hc⟩
  · simp [swapRemove]
  · rw [hc, List.concat_eq_append, swapRemove_concat]; split <;> simp

theorem swapRemove_perm {α : Type} (xs : List α) (i : Nat) (h : i < xs.length) :
    (swapRemove xs i).Perm (xs.eraseIdx i) := by
  rcases List.eq_nil_or_concat xs with rfl | ⟨init, e, hc⟩
  · simp at h
  · rw [List.concat_eq_append] at hc
    subst hc
    rw [swapRemove_concat]
    by_cases h1 : i < init.length
    · rw [if_pos h1, List.eraseIdx_append_of_lt_length h1, List.set_eq_take_append_cons_drop,
        if_pos h1, List.eraseIdx_eq_take_drop_succ]
      refine (List.perm_middle).trans ?_
      rw [← List.singleton_append, List.append_assoc]
      exact List.perm_append_comm.trans (by simp)
    · rw [if_neg h1]
      have : i = init.length := by simp at h; omega
      subst this
      rw [List.eraseIdx_append_of_length_le (Nat.le_refl _)]
      simp

theorem swapRemove_getElem_opt {α : Type} (xs : List α) (i j : Nat) (h : i < xs.length) :
    (swapRemove xs i)[j]? =
      if j + 1 < xs.length then (if j = i then xs.getLast? else xs[j]?) else none := by
  rcases List.eq_nil_or_concat xs with rfl | ⟨init, e, hc⟩
  · simp at h
  · rw [List.concat_eq_append] at hc
    subst hc
    have hl : (init ++ [e]).getLast? = some e := by simp
    rw [swapRemove_concat, hl]
    simp only [List.length_append, List.length_singleton, Nat.add_lt_add_iff_right]
    by_cases hj : j < init.length
    · rw [if_pos hj, List.getElem?_append_left hj]
      by_cases h1 : i < init.length
      · rw [if_pos h1, List.getElem?_set]
        by_cases hji : j = i
        · subst hji; simp [hj]
        · have : ¬ i = j := fun h => hji h.symm
          simp [hji, this]
      · rw [if_neg h1]
        have : ¬ j = i := by simp at h; omega
        simp [this]
    · rw [if_neg hj]
      split <;> simp <;> omega


/-! ## removeArc -/

theorem removeArcLoop_spec (f t : NodeRef) :
    ∀ (i : Nat) (arcs : List Arc), i ≤ arcs.length →
      ((removeArcLoop f t i arcs = (false, arcs)) ∧
        ∀ j a, j < i → arcs[j]? = some a → ¬ (a.from_ = f ∧ a.to_ = t)) ∨
      (∃ m a, m < i ∧ arcs[m]? = some a ∧ (a.from_ = f ∧ a.to_ = t) ∧
        (∀ j b, m < j → j < i → arcs[j]? = some b → ¬ (b.from_ = f ∧ b.to_ = t)) ∧
        removeArcLoop f t i arcs = (true, swapRemove arcs m)) := by
  intro i
  induction i with
  | zero =>
    intro arcs _
    exact Or.inl ⟨rfl, fun j a hj => by omega⟩
  | succ i ih =>
    intro arcs hi
    have hlt : i < arcs.length := hi
    have hget : arcs[i]? = some arcs[i] := List.getElem?_eq_getElem hlt
    by_cases hp : arcs[i].from_ = f ∧ arcs[i].to_ = t
    · refine Or.inr ⟨i, arcs[i], Nat.lt_succ_self i, hget, hp, fun j b h1 h2 => by omega, ?_⟩
      simp only [removeArcLoop, hget, hp, and_self, if_true]
    · have hstep : removeArcLoop f t (i + 1) arcs = removeArcLoop f t i arcs := by
        simp only [removeArcLoop, hget, hp, if_false]
      rcases ih arcs (Nat.le_of_lt hlt) with ⟨h1, h2⟩ | ⟨m, a, hm, ha, hpa, hlast, hres⟩
      · refine Or.inl ⟨hstep.trans h1, fun j a hj hja => ?_⟩
        by_cases hji : j = i
        · subst hji; rw [hget] at hja; cases hja; exact hp
        · exact h2 j a (by omega) hja
      · refine Or.inr ⟨m, a, by omega, ha, hpa, fun j b h1 h2 hjb => ?_, hstep.trans hres⟩
        by_cases hji : j = i
        · subst hji; rw [hget] at hjb; cases hjb; exact hp
        · exact hlast j b h1 (by omega) hjb

/-! ## removeNode: the arc removal loop -/

theorem filter_eraseIdx_of_false {α : Type} (p : α → Bool) :
    ∀ (l : List α) (i : Nat) (a : α), l[i]? = some a → p a = false →
      (l.eraseIdx i).filter p = l.filter p := by
  intro l
  induction l with
  | nil => intro i a h; simp at h
  | cons x l ih =>
    intro i a h hp
    cases i with
    | zero =>
      simp at h; subst h
      simp [List.filter_cons, hp]
    | succ i =>
      simp at h
      simp [List.filter_cons, ih i a h hp]

theorem removeIncidentArcs_perm (node : NodeRef) :
    ∀ (i : Nat) (arcs : List Arc), i ≤ arcs.length →
      (∀ j a, i ≤ j → arcs[j]? = some a → ¬ (a.to_ = node ∨ a.from_ = node)) →
      (removeIncidentArcs node i arcs).Perm
        (arcs.filter (fun a => !decide (a.to_ = node ∨ a.from_ = node))) := by
  intro i
  induction i with
  | zero =>
    intro arcs _ hinv
    have : arcs.filter (fun a => !decide (a.to_ = node ∨ a.from_ = node)) = arcs := by
      rw [List.filter_eq_self]
      intro a ha
      obtain ⟨j, hj, rfl⟩ := List.getElem_of_mem ha
      have := hinv j arcs[j] (Nat.zero_le _) (List.getElem?_eq_getElem hj)
      simpa using this
    rw [this]
    exact List.Perm.refl _
  | succ i ih =>
    intro arcs hi hinv
    have hlt : i < arcs.length := hi
    have hget : arcs[i]? = some arcs[i] := List.getElem?_eq_getElem hlt
    by_cases hp : arcs[i].to_ = node ∨ arcs[i].from_ = node
    · have hstep : removeIncidentArcs node (i + 1) arcs =
          removeIncidentArcs node i (swapRemove arcs i) := by
        simp only [removeIncidentArcs, hget, hp, if_true]
      rw [hstep]
      have hlen := swapRemove_length arcs i
      refine (ih (swapRemove arcs i) (by omega) ?_).trans ?_
      · intro j a hij hja
        rw [swapRemove_getElem_opt arcs i j hlt] at hja
        by_cases hj1 : j + 1 < arcs.length
        · rw [if_pos hj1] at hja
          by_cases hji : j = i
          · rw [if_pos hji, List.getLast?_eq_getElem?] at hja
            exact hinv (arcs.length - 1) a (by omega) hja
          · rw [if_neg hji] at hja
            exact hinv j a (by omega) hja
        · rw [if_neg hj1] at hja; cases hja
      · have hfalse : (fun a : Arc => !decide (a.to_ = node ∨ a.from_ = node)) arcs[i] = false := by
          show (!decide (arcs[i].to_ = node ∨ arcs[i].from_ = node)) = false
          rw [decide_eq_true hp]; rfl
        rw [← filter_eraseIdx_of_false _ arcs i arcs[i] hget hfalse]
        exact (swapRemove_perm arcs i hlt).filter _
    · have hstep : removeIncidentArcs node (i + 1) arcs = removeIncidentArcs node i arcs := by
        simp only [removeIncidentArcs, hget, hp, if_false]
      rw [hstep]
      refine ih arcs (Nat.le_of_lt hlt) (fun j a hij hja => ?_)
      by_cases hji : j = i
      · subst hji; rw [hget] at hja; cases hja; exact hp
      · exact hinv j a (by omega) hja

theorem removeIncidentArcs_perm_filter (node : NodeRef) (arcs : List Arc) :
    (removeIncidentArcs node arcs.length arcs).Perm
      (arcs.filter (fun a => !decide (a.to_ = node ∨ a.from_ = node))) := by
  refine removeIncidentArcs_perm node arcs.length arcs (Nat.le_refl _) (fun j a hj hja => ?_)
  rw [List.getElem?_eq_none (by omega)] at hja
  cases hja


/-! ## removeNode: the node removal loops -/

theorem getElem_opt_set_dropLast {α : Type} (l : List α) (i j : Nat) (x : α) :
    ((l.set i x).dropLast)[j]? =
      if j + 1 < l.length then (if i = j then some x else l[j]?) else none := by
  rw [List.dropLast_eq_take, List.getElem?_take, List.length_set, List.getElem?_set]
  by_cases h : j + 1 < l.length
  · have h1 : j < l.length - 1 := by omega
    have h2 : j < l.length := by omega
    by_cases hij : i = j
    · subst hij; simp [h, h1, h2]
    · simp [h, h1, h2, hij]
  · have h1 : ¬ j < l.length - 1 := by omega
    simp [h, h1]

theorem removePlaceLoop_of_no_match (nodeId : Nat) :
    ∀ (k : Nat) (net : PetriNet),
      (∀ j p, j < k → net.m_places[j]? = some p → p.id ≠ nodeId) →
      removePlaceLoop nodeId k net = some net := by
  intro k
  induction k with
  | zero => intro net _; rfl
  | succ k ih =>
    intro net h
    have hrec := ih net (fun j p hj hp => h j p (by omega) hp)
    unfold removePlaceLoop
    cases hk : net.m_places[k]? with
    | none => simpa using hrec
    | some pi =>
      cases hl : net.m_places.getLast? with
      | none => simpa using hrec
      | some pe =>
        have := h k pi (Nat.lt_succ_self k) hk
        simpa [this] using hrec

theorem removePlaceLoop_skip (nodeId : Nat) (net : PetriNet) :
    ∀ (k : Nat), nodeId < k →
      (∀ j p, nodeId < j → net.m_places[j]? = some p → p.id ≠ nodeId) →
      removePlaceLoop nodeId k net = removePlaceLoop nodeId (nodeId + 1) net := by
  intro k
  induction k with
  | zero => intro h; omega
  | succ k ih =>
    intro hk h
    by_cases hk1 : k = nodeId
    · subst hk1; rfl
    · rw [← ih (by omega) h]
      conv => lhs; unfold removePlaceLoop
      cases hg : net.m_places[k]? with
      | none => simp
      | some pi =>
        cases hl : net.m_places.getLast? with
        | none => simp
        | some pe =>
          have := h k pi (by omega) hg
          simp [this]

theorem removePlaceLoop_dense (net : PetriNet)
    (hd : net.m_places.map Place.id = List.range net.m_places.length)
    (hc : net.m_next_place_id = net.m_places.length) {i : Nat} (hi : i < net.m_places.length) :
    ∃ pi pe, net.m_places[i]? = some pi ∧ net.m_places.getLast? = some pe ∧
      pi.id = i ∧ pe.id = net.m_places.length - 1 ∧
      removePlaceLoop i net.m_places.length net =
        some { net with
          m_places := (net.m_places.set i
            (if pe.caption = pe.key then Place.make pi.id pi.key pe.x pe.y pe.tokens
             else Place.make pi.id pe.caption pe.x pe.y pe.tokens)).dropLast
          m_next_place_id := net.m_next_place_id - 1
          m_arcs := relinkArcs pe.ref pi.ref net.m_arcs } := by
  have hid : ∀ (j : Nat) (p : Place), net.m_places[j]? = some p → p.id = j := by
    intro j p hp
    have hj : j < net.m_places.length := by
      rcases Nat.lt_or_ge j net.m_places.length with h | h
      · exact h
      · rw [List.getElem?_eq_none h] at hp; cases hp
    rw [List.getElem?_eq_getElem hj] at hp
    cases hp
    exact getElem_of_map_eq_range hd j hj
  have hl : net.m_places.length - 1 < net.m_places.length := by omega
  have hlast : net.m_places.getLast? = net.m_places[net.m_places.length - 1]? :=
    List.getLast?_eq_getElem? _
  have hlastget : net.m_places[net.m_places.length - 1]? =
      some net.m_places[net.m_places.length - 1] :=
    List.getElem?_eq_getElem (by omega)
  refine ⟨net.m_places[i], net.m_places[net.m_places.length - 1],
    List.getElem?_eq_getElem hi, hlast.trans hlastget, hid i _ (List.getElem?_eq_getElem hi),
    hid _ _ hlastget, ?_⟩
  rw [removePlaceLoop_skip i net net.m_places.length hi
    (fun j p hj hp => by rw [hid j p hp]; omega)]
  conv => lhs; unfold removePlaceLoop
  simp only [List.getElem?_eq_getElem hi, hlast, hlastget,
    hid i _ (List.getElem?_eq_getElem hi), if_true]
  rw [if_pos (by omega)]
  apply removePlaceLoop_of_no_match
  intro j p hj hp
  simp only at hp
  rw [getElem_opt_set_dropLast] at hp
  by_cases hj1 : j + 1 < net.m_places.length
  · rw [if_pos hj1, if_neg (by omega)] at hp
    rw [hid j p hp]; omega
  · rw [if_neg hj1] at hp; cases hp

theorem removeTransitionLoop_of_no_match (nodeId : Nat) :
    ∀ (k : Nat) (net : PetriNet),
      (∀ j p, j < k → net.m_transitions[j]? = some p → p.id ≠ nodeId) →
      removeTransitionLoop nodeId k net = some net := by
  intro k
  induction k with
  | zero => intro net _; rfl
  | succ k ih =>
    intro net h
    have hrec := ih net (fun j p hj hp => h j p (by omega) hp)
    unfold removeTransitionLoop
    cases hk : net.m_transitions[k]? with
    | none => simpa using hrec
    | some pi =>
      cases hl : net.m_transitions.getLast? with
      | none => simpa using hrec
      | some pe =>
        have := h k pi (Nat.lt_succ_self k) hk
        simpa [this] using hrec

theorem removeTransitionLoop_skip (nodeId : Nat) (net : PetriNet) :
    ∀ (k : Nat), nodeId < k →
      (∀ j p, nodeId < j → net.m_transitions[j]? = some p → p.id ≠ nodeId) →
      removeTransitionLoop nodeId k net = removeTransitionLoop nodeId (nodeId + 1) net := by
  intro k
  induction k with
  | zero => intro h; omega
  | succ k ih =>
    intro hk h
    by_cases hk1 : k = nodeId
    · subst hk1; rfl
    · rw [← ih (by omega) h]
      conv => lhs; unfold removeTransitionLoop
      cases hg : net.m_transitions[k]? with
      | none => simp
      | some pi =>
        cases hl : net.m_transitions.getLast? with
        | none => simp
        | some pe =>
          have := h k pi (by omega) hg
          simp [this]

theorem removeTransitionLoop_dense (net : PetriNet)
    (hd : net.m_transitions.map Transition.id = List.range net.m_transitions.length)
    (hc : net.m_next_transition_id = net.m_transitions.length) {i : Nat} (hi : i < net.m_transitions.length) :
    ∃ pi pe, net.m_transitions[i]? = some pi ∧ net.m_transitions.getLast? = some pe ∧
      pi.id = i ∧ pe.id = net.m_transitions.length - 1 ∧
      removeTransitionLoop i net.m_transitions.length net =
        some { net with
          m_transitions := (net.m_transitions.set i
            (if pe.caption = pe.key then
              Transition.make pi.id pi.key pe.x pe.y pe.angle
                (if net.m_type = NetType.TimedPetri then true else false)
             else
              Transition.make pi.id pe.caption pe.x pe.y pe.angle
                (if net.m_type = NetType.TimedPetri then true else false))).dropLast
          m_next_transition_id := net.m_next_transition_id - 1
          m_arcs := relinkArcs pe.ref pi.ref net.m_arcs } := by
  have hid : ∀ (j : Nat) (p : Transition), net.m_transitions[j]? = some p → p.id = j := by
    intro j p hp
    have hj : j < net.m_transitions.length := by
      rcases Nat.lt_or_ge j net.m_transitions.length with h | h
      · exact h
      · rw [List.getElem?_eq_none h] at hp; cases hp
    rw [List.getElem?_eq_getElem hj] at hp
    cases hp
    exact getElem_of_map_eq_range hd j hj
  have hl : net.m_transitions.length - 1 < net.m_transitions.length := by omega
  have hlast : net.m_transitions.getLast? = net.m_transitions[net.m_transitions.length - 1]? :=
    List.getLast?_eq_getElem? _
  have hlastget : net.m_transitions[net.m_transitions.length - 1]? =
      some net.m_transitions[net.m_transitions.length - 1] :=
    List.getElem?_eq_getElem (by omega)
  refine ⟨net.m_transitions[i], net.m_transitions[net.m_transitions.length - 1],
    List.getElem?_eq_getElem hi, hlast.trans hlastget, hid i _ (List.getElem?_eq_getElem hi),
    hid _ _ hlastget, ?_⟩
  rw [removeTransitionLoop_skip i net net.m_transitions.length hi
    (fun j p hj hp => by rw [hid j p hp]; omega)]
  conv => lhs; unfold removeTransitionLoop
  simp only [List.getElem?_eq_getElem hi, hlast, hlastget,
    hid i _ (List.getElem?_eq_getElem hi), if_true]
  rw [if_pos (by omega)]
  apply removeTransitionLoop_of_no_match
  intro j p hj hp
  simp only at hp
  rw [getElem_opt_set_dropLast] at hp
  by_cases hj1 : j + 1 < net.m_transitions.length
  · rw [if_pos hj1, if_neg (by omega)] at hp
    rw [hid j p hp]; omega
  · rw [if_neg hj1] at hp; cases hp

/-! ## generateArcsInArcsOut and removeNode -/

theorem generate_frame (net : PetriNet) :
    net.generateArcsInArcsOut.m_type = net.m_type ∧
    net.generateArcsInArcsOut.m_arcs = net.m_arcs ∧
    net.generateArcsInArcsOut.m_next_place_id = net.m_next_place_id ∧
    net.generateArcsInArcsOut.m_next_transition_id = net.m_next_transition_id ∧
    net.generateArcsInArcsOut.modified = net.modified ∧
    net.generateArcsInArcsOut.m_places.map Place.data = net.m_places.map Place.data ∧
    net.generateArcsInArcsOut.m_transitions.map Transition.data =
      net.m_transitions.map Transition.data := by
  simp [generateArcsInArcsOut, Place.data, Transition.data, Function.comp_def]

theorem relinkArcs_eq_map (pe pi : NodeRef) (arcs : List Arc) :
    relinkArcs pe pi arcs = arcs.map (renameArc pe pi) := by
  unfold relinkArcs
  apply List.map_congr_left
  intro a _
  obtain ⟨f, t, d⟩ := a
  by_cases h1 : t = pe <;> by_cases h2 : f = pe <;> simp [renameArc, renameRef, h1, h2]

theorem removeNode_place_dense {net : PetriNet} (hd : IdDense net) {i : Nat}
    (hi : i < net.m_places.length) :
    ∃ pi pe, net.m_places[i]? = some pi ∧ net.m_places.getLast? = some pe ∧
      pi.id = i ∧ pe.id = net.m_places.length - 1 ∧
      net.removeNode ⟨NodeType.Place, i⟩ =
        some (generateArcsInArcsOut { net with
          m_places := (net.m_places.set i
            (if pe.caption = pe.key then Place.make pi.id pi.key pe.x pe.y pe.tokens
             else Place.make pi.id pe.caption pe.x pe.y pe.tokens)).dropLast
          m_next_place_id := net.m_next_place_id - 1
          m_arcs := relinkArcs pe.ref pi.ref
            (removeIncidentArcs ⟨NodeType.Place, i⟩ net.m_arcs.length net.m_arcs) }) := by
  obtain ⟨pi, pe, h1, h2, h3, h4, h5⟩ :=
    removePlaceLoop_dense
      { net with
        m_arcs := removeIncidentArcs ⟨NodeType.Place, i⟩ net.m_arcs.length net.m_arcs }
      hd.1 hd.2.1 hi
  refine ⟨pi, pe, h1, h2, h3, h4, ?_⟩
  simp only [removeNode, h5, Option.map_some']

theorem removeNode_place_absent {net : PetriNet} (hd : IdDense net) {i : Nat}
    (hi : net.m_places.length ≤ i) :
    net.removeNode ⟨NodeType.Place, i⟩ =
      some (generateArcsInArcsOut { net with
        m_arcs := removeIncidentArcs ⟨NodeType.Place, i⟩ net.m_arcs.length net.m_arcs }) := by
  have h := removePlaceLoop_of_no_match i net.m_places.length
    { net with
      m_arcs := removeIncidentArcs ⟨NodeType.Place, i⟩ net.m_arcs.length net.m_arcs }
    (fun j p hj hp => by
      have hj' : j < net.m_places.length := hj
      have h1 : net.m_places[j]? = some p := hp
      rw [List.getElem?_eq_getElem hj'] at h1
      cases h1
      rw [getElem_of_map_eq_range hd.1 j hj']
      omega)
  simp only [removeNode, h, Option.map_some']

theorem removeNode_transition_dense {net : PetriNet} (hd : IdDense net) {i : Nat}
    (hi : i < net.m_transitions.length) :
    ∃ pi pe, net.m_transitions[i]? = some pi ∧ net.m_transitions.getLast? = some pe ∧
      pi.id = i ∧ pe.id = net.m_transitions.length - 1 ∧
      net.removeNode ⟨NodeType.Transition, i⟩ =
        some (generateArcsInArcsOut { net with
          m_transitions := (net.m_transitions.set i
            (if pe.caption = pe.key then
              Transition.make pi.id pi.key pe.x pe.y pe.angle
                (if net.m_type = NetType.TimedPetri then true else false)
             else
              Transition.make pi.id pe.caption pe.x pe.y pe.angle
                (if net.m_type = NetType.TimedPetri then true else false))).dropLast
          m_next_transition_id := net.m_next_transition_id - 1
          m_arcs := relinkArcs pe.ref pi.ref
            (removeIncidentArcs ⟨NodeType.Transition, i⟩ net.m_arcs.length net.m_arcs) }) := by
  obtain ⟨pi, pe, h1, h2, h3, h4, h5⟩ :=
    removeTransitionLoop_dense
      { net with
        m_arcs := removeIncidentArcs ⟨NodeType.Transition, i⟩ net.m_arcs.length net.m_arcs }
      hd.2.2.1 hd.2.2.2 hi
  refine ⟨pi, pe, h1, h2, h3, h4, ?_⟩
  simp only [removeNode, h5, Option.map_some']

theorem removeNode_transition_absent {net : PetriNet} (hd : IdDense net) {i : Nat}
    (hi : net.m_transitions.length ≤ i) :
    net.removeNode ⟨NodeType.Transition, i⟩ =
      some (generateArcsInArcsOut { net with
        m_arcs := removeIncidentArcs ⟨NodeType.Transition, i⟩ net.m_arcs.length net.m_arcs }) := by
  have h := removeTransitionLoop_of_no_match i net.m_transitions.length
    { net with
      m_arcs := removeIncidentArcs ⟨NodeType.Transition, i⟩ net.m_arcs.length net.m_arcs }
    (fun j p hj hp => by
      have hj' : j < net.m_transitions.length := hj
      have h1 : net.m_transitions[j]? = some p := hp
      rw [List.getElem?_eq_getElem hj'] at h1
      cases h1
      rw [getElem_of_map_eq_range hd.2.2.1 j hj']
      omega)
  simp only [removeNode, h, Option.map_some']

/-! ## Renaming after a removal -/

theorem renameRef_injOn {old v r1 r2 : NodeRef} (h1 : r1 ≠ v) (h2 : r2 ≠ v)
    (h : renameRef old v r1 = renameRef old v r2) : r1 = r2 := by
  unfold renameRef at h
  by_cases a1 : r1 = old <;> by_cases a2 : r2 = old
  · rw [a1, a2]
  · rw [if_pos a1, if_neg a2] at h; exact absurd h.symm h2
  · rw [if_neg a1, if_pos a2] at h; exact absurd h h1
  · rw [if_neg a1, if_neg a2] at h; exact h

theorem renameRef_type {old v : NodeRef} (ht : old.type = v.type) (r : NodeRef) :
    (renameRef old v r).type = r.type := by
  unfold renameRef
  by_cases a : r = old
  · rw [if_pos a, a, ht]
  · rw [if_neg a]

theorem mem_of_perm_filter {arcs arcs1 : List Arc} {v : NodeRef}
    (hperm : arcs1.Perm (arcs.filter (fun a => !decide (a.to_ = v ∨ a.from_ = v))))
    {a : Arc} (ha : a ∈ arcs1) : a ∈ arcs ∧ a.from_ ≠ v ∧ a.to_ ≠ v := by
  have := (hperm.mem_iff).1 ha
  rw [List.mem_filter] at this
  refine ⟨this.1, ?_, ?_⟩
  · intro h; simp [h] at this
  · intro h; simp [h] at this

theorem nodup_ends_rename {arcs arcs1 : List Arc} {v : NodeRef} (old : NodeRef)
    (hperm : arcs1.Perm (arcs.filter (fun a => !decide (a.to_ = v ∨ a.from_ = v))))
    (hn : (arcs.map Arc.ends).Nodup) :
    ((arcs1.map (renameArc old v)).map Arc.ends).Nodup := by
  rw [List.map_map]
  have h1 : (arcs1.map Arc.ends).Nodup := by
    have h2 : ((arcs.filter (fun a => !decide (a.to_ = v ∨ a.from_ = v))).map Arc.ends).Nodup :=
      hn.sublist ((List.filter_sublist _).map _)
    exact ((hperm.map Arc.ends).nodup_iff).2 h2
  have h3 : arcs1.map (Arc.ends ∘ renameArc old v) =
      (arcs1.map Arc.ends).map (fun p => (renameRef old v p.1, renameRef old v p.2)) := by
    rw [List.map_map]; rfl
  rw [h3]
  apply List.Nodup.map_on _ h1
  intro x hx y hy hxy
  obtain ⟨a, ha, rfl⟩ := List.mem_map.1 hx
  obtain ⟨b, hb, rfl⟩ := List.mem_map.1 hy
  have ha' := mem_of_perm_filter hperm ha
  have hb' := mem_of_perm_filter hperm hb
  simp only [Arc.ends, Prod.mk.injEq] at hxy ⊢
  exact ⟨renameRef_injOn ha'.2.1 hb'.2.1 hxy.1, renameRef_injOn ha'.2.2 hb'.2.2 hxy.2⟩

theorem map_set_dropLast_range {α : Type} {f : α → Nat} {l : List α}
    (h : l.map f = List.range l.length) {i : Nat} {m : α} (hm : f m = i) :
    ((l.set i m).dropLast).map f = List.range ((l.set i m).dropLast).length := by
  apply List.ext_getElem?
  intro j
  rw [List.getElem?_map, getElem_opt_set_dropLast, List.length_dropLast, List.length_set]
  by_cases hj : j + 1 < l.length
  · have hj' : j < l.length - 1 := by omega
    rw [if_pos hj, List.getElem?_range hj']
    by_cases hij : i = j
    · rw [if_pos hij]; simp [hm, hij]
    · rw [if_neg hij, List.getElem?_eq_getElem (by omega)]
      simp [getElem_of_map_eq_range h j (by omega)]
  · rw [if_neg hj, List.getElem?_eq_none (by simp; omega)]
    rfl

/-! ## Preservation of the structural invariants -/

theorem validRef_of_lengths {net net' : PetriNet}
    (hp : net.m_places.length ≤ net'.m_places.length)
    (ht : net.m_transitions.length ≤ net'.m_transitions.length) {r : NodeRef}
    (h : validRef net r) : validRef net' r := by
  unfold validRef at h ⊢
  cases hr : r.type <;> rw [hr] at h <;> simp only at h ⊢ <;> omega

theorem idDense_of_frame {net net' : PetriNet}
    (hp : net'.m_places.map Place.data = net.m_places.map Place.data)
    (ht : net'.m_transitions.map Transition.data = net.m_transitions.map Transition.data)
    (hnp : net'.m_next_place_id = net.m_next_place_id)
    (hnt : net'.m_next_transition_id = net.m_next_transition_id)
    (h : IdDense net) : IdDense net' := by
  have lp : net'.m_places.length = net.m_places.length := by
    simpa using congrArg List.length hp
  have lt : net'.m_transitions.length = net.m_transitions.length := by
    simpa using congrArg List.length ht
  unfold IdDense
  rw [map_id_of_map_data hp, map_tid_of_map_data ht, hnp, hnt, lp, lt]
  exact h

theorem wf_of_frame {net net' : PetriNet}
    (hp : net'.m_places.map Place.data = net.m_places.map Place.data)
    (ht : net'.m_transitions.map Transition.data = net.m_transitions.map Transition.data)
    (hnp : net'.m_next_place_id = net.m_next_place_id)
    (hnt : net'.m_next_transition_id = net.m_next_transition_id)
    (ha : ∃ l, net'.m_arcs.Perm l ∧ l.Sublist net.m_arcs)
    (h : WellFormed net) : WellFormed net' := by
  obtain ⟨l, hperm, hsub⟩ := ha
  have lp : net'.m_places.length = net.m_places.length := by
    simpa using congrArg List.length hp
  have lt : net'.m_transitions.length = net.m_transitions.length := by
    simpa using congrArg List.length ht
  have hmem : ∀ a ∈ net'.m_arcs, a ∈ net.m_arcs := fun a ha => hsub.subset (hperm.subset ha)
  refine ⟨idDense_of_frame hp ht hnp hnt h.1, ?_, ?_, ?_⟩
  · intro a ha
    have := h.2.1 a (hmem a ha)
    exact ⟨validRef_of_lengths (Nat.le_of_eq lp.symm) (Nat.le_of_eq lt.symm) this.1,
      validRef_of_lengths (Nat.le_of_eq lp.symm) (Nat.le_of_eq lt.symm) this.2⟩
  · unfold ArcsUnique
    exact ((hperm.map Arc.ends).nodup_iff).2 (h.2.2.1.sublist (hsub.map _))
  · intro a ha
    exact h.2.2.2 a (hmem a ha)

theorem wf_clear (net : PetriNet) : WellFormed net.clear := by
  refine ⟨⟨rfl, rfl, rfl, rfl⟩, ?_, ?_, ?_⟩
  · intro a ha; cases ha
  · exact List.nodup_nil
  · intro a ha; cases ha

theorem wf_addPlace {net : PetriNet} (h : WellFormed net) (x y : ℚ) (tokens : Nat) :
    WellFormed (net.addPlace x y tokens) := by
  obtain ⟨⟨h1, h2, h3, h4⟩, hr, hu, hb⟩ := h
  refine ⟨⟨?_, ?_, h3, h4⟩, ?_, hu, hb⟩
  · simp only [addPlace, List.map_append, List.map_cons, List.map_nil, List.length_append,
      List.length_singleton, List.range_succ, h1, h2, Place.make]
  · simp only [addPlace, List.length_append, List.length_singleton, h2]
  · intro a ha
    have := hr a ha
    exact ⟨validRef_of_lengths (by simp [addPlace]) (by simp [addPlace]) this.1,
      validRef_of_lengths (by simp [addPlace]) (by simp [addPlace]) this.2⟩

theorem wf_addTransition {net : PetriNet} (h : WellFormed net) (x y : ℚ) :
    WellFormed (net.addTransition x y) := by
  obtain ⟨⟨h1, h2, h3, h4⟩, hr, hu, hb⟩ := h
  refine ⟨⟨h1, h2, ?_, ?_⟩, ?_, hu, hb⟩
  · simp only [addTransition, List.map_append, List.map_cons, List.map_nil, List.length_append,
      List.length_singleton, List.range_succ, h3, h4, Transition.make]
  · simp only [addTransition, List.length_append, List.length_singleton, h4]
  · intro a ha
    have := hr a ha
    exact ⟨validRef_of_lengths (by simp [addTransition]) (by simp [addTransition]) this.1,
      validRef_of_lengths (by simp [addTransition]) (by simp [addTransition]) this.2⟩

theorem wf_linkArc {net : PetriNet} (h : WellFormed net) (pf pt : NodePtr) {rf rt : NodeRef}
    (d : ℚ) (hf : validRef net rf) (ht : validRef net rt) (hty : rf.type ≠ rt.type)
    (hnew : (rf, rt) ∉ net.m_arcs.map Arc.ends) :
    WellFormed (net.linkArc pf rf pt rt d) := by
  obtain ⟨_, a2, a3, a4, _, a6, a7⟩ := linkArc_frame net pf rf pt rt d
  have lp : (net.linkArc pf rf pt rt d).m_places.length = net.m_places.length := by
    simpa using congrArg List.length a6
  have lt : (net.linkArc pf rf pt rt d).m_transitions.length = net.m_transitions.length := by
    simpa using congrArg List.length a7
  refine ⟨idDense_of_frame a6 a7 a3 a4 h.1, ?_, ?_, ?_⟩
  · intro a ha
    rw [a2, List.mem_append, List.mem_singleton] at ha
    rcases ha with ha | rfl
    · have := h.2.1 a ha
      exact ⟨validRef_of_lengths (Nat.le_of_eq lp.symm) (Nat.le_of_eq lt.symm) this.1,
        validRef_of_lengths (Nat.le_of_eq lp.symm) (Nat.le_of_eq lt.symm) this.2⟩
    · exact ⟨validRef_of_lengths (Nat.le_of_eq lp.symm) (Nat.le_of_eq lt.symm) hf,
        validRef_of_lengths (Nat.le_of_eq lp.symm) (Nat.le_of_eq lt.symm) ht⟩
  · unfold ArcsUnique
    rw [a2, List.map_append, List.map_singleton]
    refine List.Nodup.append h.2.2.1 (List.nodup_singleton _) ?_
    intro x hx hx'
    rw [List.mem_singleton] at hx'
    subst hx'
    exact hnew hx
  · intro a ha
    rw [a2, List.mem_append, List.mem_singleton] at ha
    rcases ha with ha | rfl
    · exact h.2.2.2 a ha
    · exact hty

theorem wf_set_modified {net : PetriNet} (h : WellFormed net) (b : Bool) :
    WellFormed { net with modified := b } := h

theorem validRef_of_findNode {net : PetriNet} (hd : IdDense net) {r : NodeRef} {p : NodePtr}
    (h : net.findNode r.key = some p) : validRef net r := by
  rw [findNode_of_dense hd] at h
  by_contra hv
  rw [if_neg hv] at h
  cases h

theorem linkArc_lengths (net : PetriNet) (pf : NodePtr) (rf : NodeRef) (pt : NodePtr)
    (rt : NodeRef) (d : ℚ) :
    (net.linkArc pf rf pt rt d).m_places.length = net.m_places.length ∧
    (net.linkArc pf rf pt rt d).m_transitions.length = net.m_transitions.length := by
  obtain ⟨_, _, _, _, _, a6, a7⟩ := linkArc_frame net pf rf pt rt d
  exact ⟨by simpa using congrArg List.length a6, by simpa using congrArg List.length a7⟩

theorem validRef_linkArc {net : PetriNet} (pf : NodePtr) (rf : NodeRef) (pt : NodePtr)
    (rt : NodeRef) (d : ℚ) {r : NodeRef} (h : validRef net r) :
    validRef (net.linkArc pf rf pt rt d) r :=
  validRef_of_lengths (Nat.le_of_eq (linkArc_lengths net pf rf pt rt d).1.symm)
    (Nat.le_of_eq (linkArc_lengths net pf rf pt rt d).2.symm) h

theorem wf_bridge {net1 : PetriNet} (h : WellFormed net1) (pf pn pt : NodePtr)
    {f n t : NodeRef} (d : ℚ) (vf : validRef net1 f) (vn : validRef net1 n)
    (vt : validRef net1 t) (hfn : f.type ≠ n.type) (hnt : n.type ≠ t.type)
    (hfresh : ∀ a ∈ net1.m_arcs, a.from_ ≠ n ∧ a.to_ ≠ n) :
    WellFormed ((net1.linkArc pf f pn n d).linkArc pn n pt t d) := by
  have w2 : WellFormed (net1.linkArc pf f pn n d) :=
    wf_linkArc h pf pn d vf vn hfn (by
      intro hm
      obtain ⟨a, ha, he⟩ := List.mem_map.1 hm
      exact (hfresh a ha).2 (congrArg Prod.snd he))
  refine wf_linkArc w2 pn pt d (validRef_linkArc pf f pn n d vn) (validRef_linkArc pf f pn n d vt)
    hnt ?_
  intro hm
  rw [(linkArc_frame net1 pf f pn n d).2.1, List.map_append, List.mem_append] at hm
  rcases hm with hm | hm
  · obtain ⟨a, ha, he⟩ := List.mem_map.1 hm
    exact (hfresh a ha).1 (congrArg Prod.fst he)
  · simp only [List.map_cons, List.map_nil, List.mem_singleton, Arc.ends, Prod.mk.injEq] at hm
    exact hfn (by rw [hm.1])

theorem wf_addArc {net : PetriNet} (h : WellFormed net) (f t : NodeRef) (d : ℚ) (s : Bool) :
    WellFormed (net.addArc f t d s).2 := by
  cases hA : net.findArc f t with
  | some a => rw [addArc_of_dup d s hA]; exact h
  | none =>
    cases hF : net.findNode f.key with
    | none => rw [addArc_of_no_from d s hF]; exact h
    | some pf =>
      cases hT : net.findNode t.key with
      | none => rw [addArc_of_no_to d s hT]; exact h
      | some pt =>
        have vf := validRef_of_findNode h.1 hF
        have vt := validRef_of_findNode h.1 hT
        have hnew := findArc_eq_none_iff_ends.1 hA
        by_cases hty : f.type = t.type
        · cases s
          · cases hp : t.type
            · rw [addArc_bridge_transition d hA hF hT hty hp]
              refine wf_set_modified (wf_bridge (wf_addTransition h _ _) pf _ pt d
                (validRef_of_lengths (by simp [addTransition]) (by simp [addTransition]) vf)
                (by simp [validRef, addTransition, h.1.2.2.2])
                (validRef_of_lengths (by simp [addTransition]) (by simp [addTransition]) vt)
                (by rw [hty, hp]; exact fun e => NodeType.noConfusion e)
                (by rw [hp]; exact fun e => NodeType.noConfusion e) ?_) true
              intro a ha
              have := h.2.1 a ha
              constructor
              · intro e; have h1 := this.1; rw [e] at h1
                simp [validRef, h.1.2.2.2] at h1
              · intro e; have h1 := this.2; rw [e] at h1
                simp [validRef, h.1.2.2.2] at h1
            · rw [addArc_bridge_place d hA hF hT hty hp]
              refine wf_set_modified (wf_bridge (wf_addPlace h _ _ 0) pf _ pt d
                (validRef_of_lengths (by simp [addPlace]) (by simp [addPlace]) vf)
                (by simp [validRef, addPlace, h.1.2.1])
                (validRef_of_lengths (by simp [addPlace]) (by simp [addPlace]) vt)
                (by rw [hty, hp]; exact fun e => NodeType.noConfusion e)
                (by rw [hp]; exact fun e => NodeType.noConfusion e) ?_) true
              intro a ha
              have := h.2.1 a ha
              constructor
              · intro e; have h1 := this.1; rw [e] at h1
                simp [validRef, h.1.2.1] at h1
              · intro e; have h1 := this.2; rw [e] at h1
                simp [validRef, h.1.2.1] at h1
          · rw [addArc_of_strict_same d hty]; exact h
        · rw [addArc_normal d s hA hF hT hty]
          exact wf_set_modified (wf_linkArc h pf pt d vf vt hty hnew) true

theorem validRef_iff (net : PetriNet) (r : NodeRef) :
    validRef net r ↔ r.id < nodeCount net r.type := by
  unfold validRef nodeCount
  cases r.type <;> exact Iff.rfl

theorem wf_removeArc {net : PetriNet} (h : WellFormed net) (f t : NodeRef) :
    WellFormed (net.removeArc f t).2 := by
  refine @wf_of_frame net _ rfl rfl rfl rfl ?_ h
  rcases removeArcLoop_spec f t net.m_arcs.length net.m_arcs (Nat.le_refl _) with
    ⟨h1, _⟩ | ⟨m, a, hm, _, _, _, hres⟩
  · exact ⟨net.m_arcs, by simp [removeArc, h1], List.Sublist.refl _⟩
  · exact ⟨net.m_arcs.eraseIdx m, by simpa [removeArc, hres] using swapRemove_perm net.m_arcs m hm,
      List.eraseIdx_sublist _ _⟩

theorem wf_after_remove {net net2 : PetriNet} (h : WellFormed net) (v : NodeRef)
    (hv : validRef net v) (hd : IdDense net2)
    (hcount : ∀ K, nodeCount net2 K =
      if K = v.type then nodeCount net v.type - 1 else nodeCount net K)
    {arcs1 : List Arc}
    (hperm : arcs1.Perm (net.m_arcs.filter (fun a => !decide (a.to_ = v ∨ a.from_ = v))))
    (harcs : net2.m_arcs = arcs1.map (renameArc ⟨v.type, nodeCount net v.type - 1⟩ v)) :
    WellFormed net2 := by
  have hvalid : ∀ r, validRef net r → r ≠ v →
      validRef net2 (renameRef ⟨v.type, nodeCount net v.type - 1⟩ v r) := by
    intro r hr hne
    rw [validRef_iff] at hr hv ⊢
    rw [renameRef_type (by rfl), hcount]
    unfold renameRef
    by_cases hK : r.type = v.type
    · rw [if_pos hK]
      by_cases hold : r = ⟨v.type, nodeCount net v.type - 1⟩
      · rw [if_pos hold]
        have : v.id ≠ nodeCount net v.type - 1 := by
          intro e
          apply hne
          rw [hold, ← e]
        omega
      · rw [if_neg hold]
        have : r.id ≠ nodeCount net v.type - 1 := by
          intro e
          apply hold
          obtain ⟨rt, ri⟩ := r
          simp only at hK e
          rw [hK, e]
        rw [hK] at hr
        omega
    · rw [if_neg hK]
      have hold : r ≠ ⟨v.type, nodeCount net v.type - 1⟩ := by
        intro e; apply hK; rw [e]
      rw [if_neg hold]
      exact hr
  refine ⟨hd, ?_, ?_, ?_⟩
  · intro a ha
    rw [harcs] at ha
    obtain ⟨b, hb, rfl⟩ := List.mem_map.1 ha
    obtain ⟨hb1, hb2, hb3⟩ := mem_of_perm_filter hperm hb
    exact ⟨hvalid _ (h.2.1 b hb1).1 hb2, hvalid _ (h.2.1 b hb1).2 hb3⟩
  · unfold ArcsUnique
    rw [harcs]
    exact nodup_ends_rename _ hperm h.2.2.1
  · intro a ha
    rw [harcs] at ha
    obtain ⟨b, hb, rfl⟩ := List.mem_map.1 ha
    obtain ⟨hb1, _, _⟩ := mem_of_perm_filter hperm hb
    simp only [renameArc]
    rw [renameRef_type (by rfl), renameRef_type (by rfl)]
    exact h.2.2.2 b hb1

theorem wf_generate {net : PetriNet} (h : WellFormed net) :
    WellFormed net.generateArcsInArcsOut := by
  obtain ⟨_, a2, a3, a4, _, a6, a7⟩ := generate_frame net
  exact wf_of_frame a6 a7 a3 a4 ⟨net.m_arcs, by rw [a2], List.Sublist.refl _⟩ h

theorem wf_removeNode {net : PetriNet} (h : WellFormed net) (v : NodeRef) :
    ∃ net', net.removeNode v = some net' ∧ WellFormed net' := by
  obtain ⟨K, i⟩ := v
  have hperm := removeIncidentArcs_perm_filter ⟨K, i⟩ net.m_arcs
  cases K
  · by_cases hi : i < net.m_places.length
    · obtain ⟨pi, pe, h1, h2, h3, h4, h5⟩ := removeNode_place_dense h.1 hi
      refine ⟨_, h5, wf_generate (wf_after_remove h ⟨NodeType.Place, i⟩ hi ?_ ?_ hperm ?_)⟩
      · refine ⟨?_, ?_, h.1.2.2.1, h.1.2.2.2⟩
        · exact map_set_dropLast_range h.1.1 (by split <;> simp [Place.make, h3])
        · simp only [List.length_dropLast, List.length_set, h.1.2.1]
      · intro K
        cases K <;> simp [nodeCount]
      · simp only [relinkArcs_eq_map, Place.ref, h3, h4, nodeCount]
    · rw [removeNode_place_absent h.1 (Nat.le_of_not_lt hi)]
      exact ⟨_, rfl, wf_generate (@wf_of_frame net _ rfl rfl rfl rfl
        ⟨_, hperm, List.filter_sublist _⟩ h)⟩
  · by_cases hi : i < net.m_transitions.length
    · obtain ⟨pi, pe, h1, h2, h3, h4, h5⟩ := removeNode_transition_dense h.1 hi
      refine ⟨_, h5,
        wf_generate (wf_after_remove h ⟨NodeType.Transition, i⟩ hi ?_ ?_ hperm ?_)⟩
      · refine ⟨h.1.1, h.1.2.1, ?_, ?_⟩
        · exact map_set_dropLast_range h.1.2.2.1 (by split <;> simp [Transition.make, h3])
        · simp only [List.length_dropLast, List.length_set, h.1.2.2.2]
      · intro K
        cases K <;> simp [nodeCount]
      · simp only [relinkArcs_eq_map, Transition.ref, h3, h4, nodeCount]
    · rw [removeNode_transition_absent h.1 (Nat.le_of_not_lt hi)]
      exact ⟨_, rfl, wf_generate (@wf_of_frame net _ rfl rfl rfl rfl
        ⟨_, hperm, List.filter_sublist _⟩ h)⟩

theorem wf_apply {net : PetriNet} (h : WellFormed net) (op : Op) :
    ∃ net', op.apply net = some net' ∧ WellFormed net' := by
  cases op with
  | addPlace x y tokens => exact ⟨_, rfl, wf_addPlace h x y tokens⟩
  | addTransition x y => exact ⟨_, rfl, wf_addTransition h x y⟩
  | addArc f t d s => exact ⟨_, rfl, wf_addArc h f t d s⟩
  | removeArc f t => exact ⟨_, rfl, wf_removeArc h f t⟩
  | removeNode n => exact wf_removeNode h n
  | clear => exact ⟨_, rfl, wf_clear net⟩

/-- C4. `addArc(from, to, duration, strict)` returns true exactly when no arc
(from, to) is in the arc list, `findNode` finds a node for the key of `from`
and for the key of `to`, and the endpoint types differ or `strict` is false;
when it returns false the whole state (places, transitions, arcs, next-id
counters, modified flag) is the one before the call. -/
theorem C4_addArc_result (net : PetriNet) (from_ to_ : NodeRef) (duration : ℚ)
    (strict : Bool) :
    ((net.addArc from_ to_ duration strict).1 = true ↔
      ((∀ a ∈ net.m_arcs, ¬ (a.from_ = from_ ∧ a.to_ = to_)) ∧
        (net.findNode from_.key).isSome = true ∧ (net.findNode to_.key).isSome = true ∧
        (from_.type ≠ to_.type ∨ strict = false))) ∧
    ((net.addArc from_ to_ duration strict).1 = false →
      (net.addArc from_ to_ duration strict).2 = net) := by
  rw [← findArc_eq_none_iff]
  unfold addArc
  cases hA : net.findArc from_ to_ with
  | some a => simp
  | none =>
    cases hF : net.findNode from_.key with
    | none => simp
    | some pf =>
      cases hT : net.findNode to_.key with
      | none => simp
      | some pt =>
        by_cases hty : from_.type = to_.type
        · cases strict
          · by_cases hp : to_.type = NodeType.Place <;> simp [hty, hp]
          · simp [hty]
        · simp [hty]

/-- Witness of C4 on the sample net: a strict request between two places is
refused and leaves the net as it was. -/
theorem C4_addArc_result_witness :
    (sampleNet.addArc ⟨NodeType.Place, 0⟩ ⟨NodeType.Place, 1⟩ 1 true).2 = sampleNet :=
  (C4_addArc_result sampleNet ⟨NodeType.Place, 0⟩ ⟨NodeType.Place, 1⟩ 1 true).2 (by decide)

/-! ## Adjacency updates of addArc, slot by slot -/

theorem pushArcsOut_places (net : PetriNet) (n : NodePtr) (k j : Nat) :
    (net.pushArcsOut n k).m_places[j]? =
      (net.m_places[j]?).map (fun p =>
        if n = NodePtr.place j then { p with arcsOut := p.arcsOut ++ [k] } else p) := by
  cases n with
  | place s =>
    simp only [pushArcsOut, List.getElem?_modify, NodePtr.place.injEq]
    rfl
  | transition s => simp [pushArcsOut]

theorem pushArcsOut_transitions (net : PetriNet) (n : NodePtr) (k j : Nat) :
    (net.pushArcsOut n k).m_transitions[j]? =
      (net.m_transitions[j]?).map (fun t =>
        if n = NodePtr.transition j then { t with arcsOut := t.arcsOut ++ [k] } else t) := by
  cases n with
  | place s => simp [pushArcsOut]
  | transition s =>
    simp only [pushArcsOut, List.getElem?_modify, NodePtr.transition.injEq]
    rfl

theorem pushArcsIn_places (net : PetriNet) (n : NodePtr) (k j : Nat) :
    (net.pushArcsIn n k).m_places[j]? =
      (net.m_places[j]?).map (fun p =>
        if n = NodePtr.place j then { p with arcsIn := p.arcsIn ++ [k] } else p) := by
  cases n with
  | place s =>
    simp only [pushArcsIn, List.getElem?_modify, NodePtr.place.injEq]
    rfl
  | transition s => simp [pushArcsIn]

theorem pushArcsIn_transitions (net : PetriNet) (n : NodePtr) (k j : Nat) :
    (net.pushArcsIn n k).m_transitions[j]? =
      (net.m_transitions[j]?).map (fun t =>
        if n = NodePtr.transition j then { t with arcsIn := t.arcsIn ++ [k] } else t) := by
  cases n with
  | place s => simp [pushArcsIn]
  | transition s =>
    simp only [pushArcsIn, List.getElem?_modify, NodePtr.transition.injEq]
    rfl

theorem linkArc_places (net : PetriNet) (pf : NodePtr) (rf : NodeRef) (pt : NodePtr)
    (rt : NodeRef) (d : ℚ) (j : Nat) :
    (net.linkArc pf rf pt rt d).m_places[j]? =
      (net.m_places[j]?).map (fun p =>
        { p with
          arcsOut := if pf = NodePtr.place j then p.arcsOut ++ [net.m_arcs.length] else p.arcsOut
          arcsIn := if pt = NodePtr.place j then p.arcsIn ++ [net.m_arcs.length] else p.arcsIn }) := by
  unfold linkArc
  rw [pushArcsIn_places, pushArcsOut_places]
  cases net.m_places[j]? with
  | none => rfl
  | some p =>
    by_cases h1 : pf = NodePtr.place j <;> by_cases h2 : pt = NodePtr.place j <;>
      simp [h1, h2]

theorem linkArc_transitions (net : PetriNet) (pf : NodePtr) (rf : NodeRef) (pt : NodePtr)
    (rt : NodeRef) (d : ℚ) (j : Nat) :
    (net.linkArc pf rf pt rt d).m_transitions[j]? =
      (net.m_transitions[j]?).map (fun t =>
        { t with
          arcsOut :=
            if pf = NodePtr.transition j then t.arcsOut ++ [net.m_arcs.length] else t.arcsOut
          arcsIn :=
            if pt = NodePtr.transition j then t.arcsIn ++ [net.m_arcs.length] else t.arcsIn }) := by
  unfold linkArc
  rw [pushArcsIn_transitions, pushArcsOut_transitions]
  cases net.m_transitions[j]? with
  | none => rfl
  | some p =>
    by_cases h1 : pf = NodePtr.transition j <;> by_cases h2 : pt = NodePtr.transition j <;>
      simp [h1, h2]

/-! ## Rounding to `float` -/

theorem halvings_le : ∀ (fuel n k : Nat), n < 2 ^ (k + 1) → halvings fuel n ≤ k := by
  intro fuel
  induction fuel with
  | zero => intro n k _; exact Nat.zero_le _
  | succ fuel ih =>
    intro n k h
    unfold halvings
    split_ifs with h2
    · exact Nat.zero_le _
    · cases k with
      | zero => omega
      | succ k =>
        have : n / 2 < 2 ^ (k + 1) := by
          rw [Nat.div_lt_iff_lt_mul (by norm_num)]
          rw [pow_succ] at h
          exact h
        have := ih (n / 2) k this
        omega

theorem le_halvings : ∀ (fuel n j : Nat), n ≤ fuel → 2 ^ j ≤ n → j ≤ halvings fuel n := by
  intro fuel
  induction fuel with
  | zero =>
    intro n j h1 h2
    have : 0 < 2 ^ j := Nat.two_pow_pos _
    omega
  | succ fuel ih =>
    intro n j h1 h2
    unfold halvings
    split_ifs with h3
    · cases j with
      | zero => exact Nat.le_refl _
      | succ j =>
        have : 2 ≤ 2 ^ (j + 1) := by
          have := Nat.one_le_two_pow (n := j)
          rw [pow_succ]; omega
        omega
    · cases j with
      | zero => exact Nat.zero_le _
      | succ j =>
        have h4 : 2 ^ j ≤ n / 2 := by
          rw [Nat.le_div_iff_mul_le (by norm_num)]
          rw [pow_succ] at h2
          exact h2
        have h5 : n / 2 ≤ fuel := by omega
        have := ih (n / 2) j h5 h4
        omega

theorem binaryExponent_le (a d : Nat) :
    binaryExponent a d ≤ (leadingBit a : Int) - (leadingBit d : Int) := by
  unfold binaryExponent
  split_ifs <;> omega

theorem roundHalfEven_of_dvd (n d : Nat) (hd : 0 < d) (h : d ∣ n) : roundHalfEven n d = n / d := by
  unfold roundHalfEven
  have h0 : n % d = 0 := Nat.mod_eq_zero_of_dvd h
  rw [h0]
  simp
  omega

/-- A rational whose denominator is a power of two, at most 2^149, and whose
numerator has at most 24 bits is a `float`: rounding leaves it as it is. -/
theorem roundFloat_exact (x : ℚ) (j : Nat) (hd : x.den = 2 ^ j) (ha : x.num.natAbs < 2 ^ 24)
    (hj : j ≤ 149) : roundFloat x = x := by
  unfold roundFloat
  by_cases h0 : x.num = 0
  · rw [if_pos h0]
    exact (Rat.zero_of_num_zero h0).symm
  rw [if_neg h0]
  have hla : leadingBit x.num.natAbs ≤ 23 := halvings_le _ _ 23 ha
  have hld : j ≤ leadingBit x.den := by
    unfold leadingBit
    exact le_halvings _ _ j (Nat.le_refl _) (by rw [hd])
  have hbe := binaryExponent_le x.num.natAbs x.den
  have hu1 : (ulpExponent x.num.natAbs x.den).toNat = 0 := by
    unfold ulpExponent
    omega
  have hu2 : j ≤ (-ulpExponent x.num.natAbs x.den).toNat := by
    unfold ulpExponent
    omega
  rw [hu1]
  obtain ⟨k, hk⟩ : ∃ k, (-ulpExponent x.num.natAbs x.den).toNat = j + k :=
    ⟨_, (Nat.add_sub_cancel' hu2).symm⟩
  rw [hk, pow_zero, Nat.mul_one, Nat.mul_one, hd]
  have hdiv : 2 ^ j ∣ x.num.natAbs * 2 ^ (j + k) := by
    exact ⟨x.num.natAbs * 2 ^ k, by rw [pow_add]; ring⟩
  rw [roundHalfEven_of_dvd _ _ (Nat.two_pow_pos _) hdiv]
  have hq : x.num.natAbs * 2 ^ (j + k) / 2 ^ j = x.num.natAbs * 2 ^ k := by
    rw [pow_add, ← Nat.mul_assoc, Nat.mul_right_comm]
    exact Nat.mul_div_cancel _ (Nat.two_pow_pos _)
  rw [hq, Rat.mkRat_eq_div]
  have hx : x = (x.num : ℚ) / (2 ^ j : ℕ) := by
    rw [← hd]
    exact (Rat.num_div_den x).symm
  have hs : (x.num.sign * ((x.num.natAbs * 2 ^ k : Nat) : Int)) = x.num * 2 ^ k := by
    push_cast
    rw [← mul_assoc, Int.sign_mul_abs]
  rw [hs]
  conv_rhs => rw [hx]
  push_cast
  rw [pow_add]
  field_simp
  ring

theorem roundFloat_int (z : Int) (hz : z.natAbs < 2 ^ 24) : roundFloat (z : ℚ) = z :=
  roundFloat_exact (z : ℚ) 0 (by simp) (by simpa using hz) (by norm_num)

theorem roundFloat_natCast (n : Nat) (hn : n < 2 ^ 24) : roundFloat (n : ℚ) = n :=
  roundFloat_exact (n : ℚ) 0 (by simp) (by simpa using hn) (by norm_num)

theorem roundFloat_half (z : Int) (hz : z.natAbs < 2 ^ 24) :
    roundFloat ((z : ℚ) / 2) = (z : ℚ) / 2 := by
  have hdiv : ((z : ℚ) / 2) = Rat.divInt z 2 := by
    rw [Rat.divInt_eq_div]; norm_num
  have hden : (((z : ℚ) / 2).den : Int) ∣ 2 := by
    rw [hdiv]; exact Rat.den_dvd z 2
  have hnum : ((z : ℚ) / 2).num ∣ z := by
    rw [hdiv]; exact Rat.num_dvd z (by norm_num)
  have hdn : ((z : ℚ) / 2).den ∣ 2 := by exact_mod_cast hden
  have hcases : ((z : ℚ) / 2).den = 1 ∨ ((z : ℚ) / 2).den = 2 := by
    have := Nat.le_of_dvd (by norm_num) hdn
    have hpos := ((z : ℚ) / 2).den_pos
    interval_cases h : ((z : ℚ) / 2).den
    · exact Or.inl rfl
    · exact Or.inr rfl
  have hna : ((z : ℚ) / 2).num.natAbs < 2 ^ 24 := by
    by_cases hz0 : z = 0
    · subst hz0; simp
    · have := Int.natAbs_dvd_natAbs.2 hnum
      have := Nat.le_of_dvd (Int.natAbs_pos.2 hz0) this
      omega
  rcases hcases with h | h
  · exact roundFloat_exact _ 0 (by rw [h]; rfl) hna (by norm_num)
  · exact roundFloat_exact _ 1 (by rw [h]; rfl) hna (by norm_num)

/-- On integer coordinates of magnitude at most 2^22 the `float` midpoint is
the exact midpoint. -/
theorem floatMid_exact (f t : Int) (hf : f.natAbs ≤ 2 ^ 22) (ht : t.natAbs ≤ 2 ^ 22) :
    floatMid (f : ℚ) (t : ℚ) = ((f : ℚ) + t) / 2 := by
  unfold floatMid
  have h1 : ((f : ℚ) - t) = ((f - t : Int) : ℚ) := by push_cast; ring
  have hn1 : (f - t).natAbs < 2 ^ 24 := by omega
  rw [h1, roundFloat_int _ hn1, roundFloat_half _ hn1]
  have h2 : (t : ℚ) + ((f - t : Int) : ℚ) / 2 = ((f + t : Int) : ℚ) / 2 := by push_cast; ring
  have hn2 : (f + t).natAbs < 2 ^ 24 := by omega
  rw [h2, roundFloat_half _ hn2]
  push_cast
  ring

/-! ## Claims C5 and C6 -/

/-- C5 as stated fails on the position.  Two places are added at the abscissas
16777216 and 1, and the tolerant `addArc` bridges the first to the second: the
`float` expression `to.x + (from.x - to.x) / 2.0f` gives 1 + 8388607.5, which
is not a `float` and is rounded to 8388608, so the bridging transition is
stored at abscissa 8388608 and not at the midpoint 16777217/2. -/
theorem C5_counterexample :
    farNet.m_places.map Place.x = [16777216, 1] ∧
    (farNet.addArc ⟨NodeType.Place, 0⟩ ⟨NodeType.Place, 1⟩ 0 false).1 = true ∧
    (farNet.addArc ⟨NodeType.Place, 0⟩ ⟨NodeType.Place, 1⟩ 0 false).2.m_transitions.map
      Transition.x = [8388608] ∧
    ((16777216 : ℚ) + 1) / 2 ≠ 8388608 := by
  decide!

/-- C5 (amended). In a net containing two nodes `from` and `to` of the same
type (found by `findNode`, at `pf` and `pt`) with no arc (from, to), and whose
coordinates have a magnitude of at most 2^126 (so that no `float` operation
overflows), the tolerant `addArc(from, to, d, strict = false)` returns true,
appends exactly one node of the opposite type (a transition when both are
places, a place with 0 tokens when both are transitions) whose id is the
previous next-id counter of that type, and appends exactly the two arcs
from -> n and n -> to, both with duration `d`.  The position of the node is the
value of the `float` expressions `to.x + (from.x - to.x) / 2.0f` and
`to.y + (from.y - to.y) / 2.0f`, each operation rounded to `float`; it is the
midpoint of the two nodes when their coordinates are integers of magnitude at
most 2^22.  The fields (id, caption, position, tokens, angle, receptivity,
index) of every node that was in the net are unchanged and the earlier arcs are
unchanged. -/
theorem C5_addArc_bridging_node (net : PetriNet) (from_ to_ : NodeRef) (d : ℚ)
    (pf pt : NodePtr)
    (hF : net.findNode from_.key = some pf) (hT : net.findNode to_.key = some pt)
    (hty : from_.type = to_.type)
    (hA : ∀ a ∈ net.m_arcs, ¬ (a.from_ = from_ ∧ a.to_ = to_))
    (hrange : |net.ptrX pf| ≤ 2 ^ 126 ∧ |net.ptrX pt| ≤ 2 ^ 126 ∧
      |net.ptrY pf| ≤ 2 ^ 126 ∧ |net.ptrY pt| ≤ 2 ^ 126) :
    (net.addArc from_ to_ d false).1 = true ∧
    (to_.type = NodeType.Place →
      ∃ n : Transition,
        n.id = net.m_next_transition_id ∧
        n.x = roundFloat (net.ptrX pt + roundFloat (roundFloat (net.ptrX pf - net.ptrX pt) / 2)) ∧
        n.y = roundFloat (net.ptrY pt + roundFloat (roundFloat (net.ptrY pf - net.ptrY pt) / 2)) ∧
        (∀ fx tx : Int, net.ptrX pf = fx → net.ptrX pt = tx → fx.natAbs ≤ 2 ^ 22 →
          tx.natAbs ≤ 2 ^ 22 → n.x = (net.ptrX pf + net.ptrX pt) / 2) ∧
        (∀ fy ty : Int, net.ptrY pf = fy → net.ptrY pt = ty → fy.natAbs ≤ 2 ^ 22 →
          ty.natAbs ≤ 2 ^ 22 → n.y = (net.ptrY pf + net.ptrY pt) / 2) ∧
        (net.addArc from_ to_ d false).2.m_transitions.map Transition.data =
          net.m_transitions.map Transition.data ++ [n.data] ∧
        (net.addArc from_ to_ d false).2.m_places.map Place.data =
          net.m_places.map Place.data ∧
        (net.addArc from_ to_ d false).2.m_arcs =
          net.m_arcs ++ [⟨from_, n.ref, d⟩, ⟨n.ref, to_, d⟩]) ∧
    (to_.type = NodeType.Transition →
      ∃ n : Place,
        n.id = net.m_next_place_id ∧ n.tokens = 0 ∧
        n.x = roundFloat (net.ptrX pt + roundFloat (roundFloat (net.ptrX pf - net.ptrX pt) / 2)) ∧
        n.y = roundFloat (net.ptrY pt + roundFloat (roundFloat (net.ptrY pf - net.ptrY pt) / 2)) ∧
        (∀ fx tx : Int, net.ptrX pf = fx → net.ptrX pt = tx → fx.natAbs ≤ 2 ^ 22 →
          tx.natAbs ≤ 2 ^ 22 → n.x = (net.ptrX pf + net.ptrX pt) / 2) ∧
        (∀ fy ty : Int, net.ptrY pf = fy → net.ptrY pt = ty → fy.natAbs ≤ 2 ^ 22 →
          ty.natAbs ≤ 2 ^ 22 → n.y = (net.ptrY pf + net.ptrY pt) / 2) ∧
        (net.addArc from_ to_ d false).2.m_places.map Place.data =
          net.m_places.map Place.data ++ [n.data] ∧
        (net.addArc from_ to_ d false).2.m_transitions.map Transition.data =
          net.m_transitions.map Transition.data ∧
        (net.addArc from_ to_ d false).2.m_arcs =
          net.m_arcs ++ [⟨from_, n.ref, d⟩, ⟨n.ref, to_, d⟩]) := by
  have hA' := findArc_eq_none_iff.2 hA
  have _ := hrange
  have hex : ∀ (a b : ℚ) (f t : Int), a = f → b = t → f.natAbs ≤ 2 ^ 22 → t.natAbs ≤ 2 ^ 22 →
      floatMid a b = (a + b) / 2 := by
    intro a b f t ha hb hf ht
    rw [ha, hb]
    exact floatMid_exact f t hf ht
  refine ⟨?_, ?_, ?_⟩
  · cases hp : to_.type
    · rw [addArc_bridge_transition d hA' hF hT hty hp]
    · rw [addArc_bridge_place d hA' hF hT hty hp]
  · intro hp
    rw [addArc_bridge_transition d hA' hF hT hty hp]
    obtain ⟨_, a2, _, _, _, a6, a7⟩ := linkArc_frame
      ((net.addTransition (floatMid (net.ptrX pf) (net.ptrX pt))
        (floatMid (net.ptrY pf) (net.ptrY pt))).linkArc pf from_
        (NodePtr.transition net.m_transitions.length)
        ⟨NodeType.Transition, net.m_next_transition_id⟩ d)
      (NodePtr.transition net.m_transitions.length)
      ⟨NodeType.Transition, net.m_next_transition_id⟩ pt to_ d
    obtain ⟨_, b2, _, _, _, b6, b7⟩ := linkArc_frame
      (net.addTransition (floatMid (net.ptrX pf) (net.ptrX pt))
        (floatMid (net.ptrY pf) (net.ptrY pt))) pf from_
      (NodePtr.transition net.m_transitions.length)
      ⟨NodeType.Transition, net.m_next_transition_id⟩ d
    refine ⟨Transition.make net.m_next_transition_id ""
      (floatMid (net.ptrX pf) (net.ptrX pt))
      (floatMid (net.ptrY pf) (net.ptrY pt)) 0
      (if net.m_type = NetType.TimedPetri then true else false), rfl, rfl, rfl,
      fun fx tx h1 h2 h3 h4 => hex _ _ fx tx h1 h2 h3 h4,
      fun fy ty h1 h2 h3 h4 => hex _ _ fy ty h1 h2 h3 h4, ?_, ?_, ?_⟩
    · simp only [a7, b7]
      simp [addTransition]
    · simp only [a6, b6]
      simp [addTransition]
    · simp only [a2, b2]
      simp [addTransition, Transition.ref, Transition.make]
  · intro hp
    rw [addArc_bridge_place d hA' hF hT hty hp]
    obtain ⟨_, a2, _, _, _, a6, a7⟩ := linkArc_frame
      ((net.addPlace (floatMid (net.ptrX pf) (net.ptrX pt))
        (floatMid (net.ptrY pf) (net.ptrY pt)) 0).linkArc pf from_
        (NodePtr.place net.m_places.length)
        ⟨NodeType.Place, net.m_next_place_id⟩ d)
      (NodePtr.place net.m_places.length)
      ⟨NodeType.Place, net.m_next_place_id⟩ pt to_ d
    obtain ⟨_, b2, _, _, _, b6, b7⟩ := linkArc_frame
      (net.addPlace (floatMid (net.ptrX pf) (net.ptrX pt))
        (floatMid (net.ptrY pf) (net.ptrY pt)) 0) pf from_
      (NodePtr.place net.m_places.length)
      ⟨NodeType.Place, net.m_next_place_id⟩ d
    refine ⟨Place.make net.m_next_place_id ""
      (floatMid (net.ptrX pf) (net.ptrX pt))
      (floatMid (net.ptrY pf) (net.ptrY pt)) 0, rfl, rfl, rfl, rfl,
      fun fx tx h1 h2 h3 h4 => hex _ _ fx tx h1 h2 h3 h4,
      fun fy ty h1 h2 h3 h4 => hex _ _ fy ty h1 h2 h3 h4, ?_, ?_, ?_⟩
    · simp only [a6, b6]
      simp [addPlace]
    · simp only [a7, b7]
      simp [addPlace]
    · simp only [a2, b2]
      simp [addPlace, Place.ref, Place.make]

/-- Witness of C5 on the sample net: bridging its two places. -/
theorem C5_addArc_bridging_node_witness :
    ∃ n : Transition,
      n.id = sampleNet.m_next_transition_id ∧
      n.x = roundFloat (sampleNet.ptrX (NodePtr.place 1) +
        roundFloat (roundFloat (sampleNet.ptrX (NodePtr.place 0) -
          sampleNet.ptrX (NodePtr.place 1)) / 2)) ∧
      n.y = roundFloat (sampleNet.ptrY (NodePtr.place 1) +
        roundFloat (roundFloat (sampleNet.ptrY (NodePtr.place 0) -
          sampleNet.ptrY (NodePtr.place 1)) / 2)) ∧
      (∀ fx tx : Int, sampleNet.ptrX (NodePtr.place 0) = fx →
        sampleNet.ptrX (NodePtr.place 1) = tx → fx.natAbs ≤ 2 ^ 22 → tx.natAbs ≤ 2 ^ 22 →
        n.x = (sampleNet.ptrX (NodePtr.place 0) + sampleNet.ptrX (NodePtr.place 1)) / 2) ∧
      (∀ fy ty : Int, sampleNet.ptrY (NodePtr.place 0) = fy →
        sampleNet.ptrY (NodePtr.place 1) = ty → fy.natAbs ≤ 2 ^ 22 → ty.natAbs ≤ 2 ^ 22 →
        n.y = (sampleNet.ptrY (NodePtr.place 0) + sampleNet.ptrY (NodePtr.place 1)) / 2) ∧
      (sampleNet.addArc ⟨NodeType.Place, 0⟩ ⟨NodeType.Place, 1⟩ 5 false).2.m_transitions.map
          Transition.data =
        sampleNet.m_transitions.map Transition.data ++ [n.data] ∧
      (sampleNet.addArc ⟨NodeType.Place, 0⟩ ⟨NodeType.Place, 1⟩ 5 false).2.m_places.map
          Place.data =
        sampleNet.m_places.map Place.data ∧
      (sampleNet.addArc ⟨NodeType.Place, 0⟩ ⟨NodeType.Place, 1⟩ 5 false).2.m_arcs =
        sampleNet.m_arcs ++
          [⟨⟨NodeType.Place, 0⟩, n.ref, 5⟩, ⟨n.ref, ⟨NodeType.Place, 1⟩, 5⟩] :=
  (C5_addArc_bridging_node sampleNet ⟨NodeType.Place, 0⟩ ⟨NodeType.Place, 1⟩ 5
    (NodePtr.place 0) (NodePtr.place 1) (by decide) (by decide) (by decide) (by decide)
    (by decide!)).2.1 (by decide)

/-- C6. In a net containing nodes `from` and `to` of different types (found by
`findNode` at `pf` and `pt`) with no arc (from, to), `addArc(from, to, d,
strict)` returns true; the arc list is the previous one with the single arc
(from, to, d) appended; the position of that arc is appended to the `arcsOut`
of the node at `pf` and to the `arcsIn` of the node at `pt`, and no other
adjacency list nor any other field of any node changes; no node is added; the
next-id counters are kept and the modified flag is true. -/
theorem C6_addArc_plain (net : PetriNet) (from_ to_ : NodeRef) (d : ℚ) (strict : Bool)
    (pf pt : NodePtr)
    (hF : net.findNode from_.key = some pf) (hT : net.findNode to_.key = some pt)
    (hty : from_.type ≠ to_.type)
    (hA : ∀ a ∈ net.m_arcs, ¬ (a.from_ = from_ ∧ a.to_ = to_)) :
    (net.addArc from_ to_ d strict).1 = true ∧
    (net.addArc from_ to_ d strict).2.m_arcs = net.m_arcs ++ [⟨from_, to_, d⟩] ∧
    (∀ j : Nat, (net.addArc from_ to_ d strict).2.m_places[j]? =
      (net.m_places[j]?).map (fun p : Place =>
        { p with
          arcsOut := if pf = NodePtr.place j then p.arcsOut ++ [net.m_arcs.length] else p.arcsOut
          arcsIn := if pt = NodePtr.place j then p.arcsIn ++ [net.m_arcs.length] else p.arcsIn })) ∧
    (∀ j : Nat, (net.addArc from_ to_ d strict).2.m_transitions[j]? =
      (net.m_transitions[j]?).map (fun t : Transition =>
        { t with
          arcsOut :=
            if pf = NodePtr.transition j then t.arcsOut ++ [net.m_arcs.length] else t.arcsOut
          arcsIn :=
            if pt = NodePtr.transition j then t.arcsIn ++ [net.m_arcs.length] else t.arcsIn })) ∧
    (net.addArc from_ to_ d strict).2.m_places.length = net.m_places.length ∧
    (net.addArc from_ to_ d strict).2.m_transitions.length = net.m_transitions.length ∧
    (net.addArc from_ to_ d strict).2.m_next_place_id = net.m_next_place_id ∧
    (net.addArc from_ to_ d strict).2.m_next_transition_id = net.m_next_transition_id ∧
    (net.addArc from_ to_ d strict).2.modified = true := by
  rw [addArc_normal d strict (findArc_eq_none_iff.2 hA) hF hT hty]
  obtain ⟨_, a2, a3, a4, _, _, _⟩ := linkArc_frame net pf from_ pt to_ d
  exact ⟨rfl, a2, fun j => linkArc_places net pf from_ pt to_ d j,
    fun j => linkArc_transitions net pf from_ pt to_ d j,
    (linkArc_lengths net pf from_ pt to_ d).1, (linkArc_lengths net pf from_ pt to_ d).2,
    a3, a4, rfl⟩

/-- Witness of C6 on the sample net: the arc P0 -> T0. -/
theorem C6_addArc_plain_witness :
    (sampleNet.addArc ⟨NodeType.Place, 0⟩ ⟨NodeType.Transition, 0⟩ 2 true).2.m_arcs =
      sampleNet.m_arcs ++ [⟨⟨NodeType.Place, 0⟩, ⟨NodeType.Transition, 0⟩, 2⟩] :=
  (C6_addArc_plain sampleNet ⟨NodeType.Place, 0⟩ ⟨NodeType.Transition, 0⟩ 2 true
    (NodePtr.place 0) (NodePtr.transition 0) (by decide) (by decide) (by decide)
    (by decide)).2.1

/-! ## Claim C7 -/

theorem to_str_ne_empty (t : NodeType) (id : Nat) : to_str t id ≠ "" := by
  intro e
  have := congrArg String.data e
  rw [to_str_data] at this
  cases this

theorem getElem_opt_map_set_dropLast {α β : Type} (g : α → β) (l : List α) (i j : Nat) (x : α) :
    (((l.set i x).dropLast).map g)[j]? =
      if j + 1 < l.length then (if i = j then some (g x) else (l.map g)[j]?) else none := by
  rw [List.getElem?_map, getElem_opt_set_dropLast]
  by_cases h : j + 1 < l.length
  · by_cases hij : i = j <;> simp [h, hij]
  · simp [h]

theorem captioned_iff (net : PetriNet) :
    Captioned net ↔ "" ∉ (net.m_places.map Place.data).map (fun d => d.2.1) := by
  unfold Captioned
  simp only [List.map_map, List.mem_map, Function.comp, Place.data, not_exists, not_and]

theorem captioned_of_data {net net' : PetriNet}
    (h : net'.m_places.map Place.data = net.m_places.map Place.data) (hc : Captioned net) :
    Captioned net' := by
  rw [captioned_iff] at hc ⊢
  rw [h]
  exact hc

theorem make_caption_ne (id : Nat) (caption : String) (x y : ℚ) (tokens : Nat) :
    (Place.make id caption x y tokens).caption ≠ "" := by
  unfold Place.make
  by_cases h : caption = ""
  · simp only [h, if_true]
    exact to_str_ne_empty _ _
  · rw [if_neg h]
    exact h

theorem captioned_append {net net' : PetriNet} (p : Place)
    (h : net'.m_places.map Place.data = net.m_places.map Place.data ++ [p.data])
    (hp : p.caption ≠ "") (hc : Captioned net) : Captioned net' := by
  rw [captioned_iff] at hc ⊢
  rw [h, List.map_append, List.mem_append]
  rintro (h1 | h1)
  · exact hc h1
  · simp only [List.map_cons, List.map_nil, List.mem_singleton, Place.data] at h1
    exact hp h1.symm

theorem captioned_addPlace {net : PetriNet} (hc : Captioned net) (x y : ℚ) (tokens : Nat) :
    Captioned (net.addPlace x y tokens) :=
  captioned_append (Place.make net.m_next_place_id "" x y tokens) (by simp [addPlace])
    (make_caption_ne _ _ _ _ _) hc

theorem captioned_addPlaceId {net : PetriNet} (hc : Captioned net) (id : Nat) (caption : String)
    (x y : ℚ) (tokens : Nat) : Captioned (net.addPlaceId id caption x y tokens) :=
  captioned_append (Place.make id caption x y tokens) (by simp [PetriNet.addPlaceId])
    (make_caption_ne _ _ _ _ _) hc

theorem captioned_addArc {net : PetriNet} (hc : Captioned net) (f t : NodeRef) (d : ℚ)
    (s : Bool) : Captioned (net.addArc f t d s).2 := by
  cases hA : net.findArc f t with
  | some a => rw [addArc_of_dup d s hA]; exact hc
  | none =>
    cases hF : net.findNode f.key with
    | none => rw [addArc_of_no_from d s hF]; exact hc
    | some pf =>
      cases hT : net.findNode t.key with
      | none => rw [addArc_of_no_to d s hT]; exact hc
      | some pt =>
        by_cases hty : f.type = t.type
        · cases s
          · cases hp : t.type
            · rw [addArc_bridge_transition d hA hF hT hty hp]
              refine captioned_of_data ?_ hc
              simp only [(linkArc_frame _ _ _ _ _ _).2.2.2.2.2.1]
              simp [addTransition]
            · rw [addArc_bridge_place d hA hF hT hty hp]
              refine captioned_append (Place.make net.m_next_place_id ""
                (floatMid (net.ptrX pf) (net.ptrX pt)) (floatMid (net.ptrY pf) (net.ptrY pt)) 0)
                ?_ (make_caption_ne _ _ _ _ _) hc
              simp only [(linkArc_frame _ _ _ _ _ _).2.2.2.2.2.1]
              simp [addPlace]
          · rw [addArc_of_strict_same d hty]; exact hc
        · rw [addArc_normal d s hA hF hT hty]
          refine captioned_of_data ?_ hc
          simp only [(linkArc_frame _ _ _ _ _ _).2.2.2.2.2.1]

theorem captioned_removeNode {net : PetriNet} (h : WellFormed net) (hc : Captioned net)
    (v : NodeRef) : ∀ net', net.removeNode v = some net' → Captioned net' := by
  intro net' hr
  obtain ⟨K, i⟩ := v
  cases K
  · by_cases hi : i < net.m_places.length
    · obtain ⟨pi, pe, h1, h2, h3, h4, h5⟩ := removeNode_place_dense h.1 hi
      rw [h5] at hr
      cases hr
      intro p hp
      have hmem : p.data ∈ (generateArcsInArcsOut { net with
          m_places := (net.m_places.set i
            (if pe.caption = pe.key then Place.make pi.id pi.key pe.x pe.y pe.tokens
             else Place.make pi.id pe.caption pe.x pe.y pe.tokens)).dropLast
          m_next_place_id := net.m_next_place_id - 1
          m_arcs := relinkArcs pe.ref pi.ref
            (removeIncidentArcs ⟨NodeType.Place, i⟩ net.m_arcs.length net.m_arcs) }).m_places.map
          Place.data := List.mem_map_of_mem _ hp
      rw [(generate_frame _).2.2.2.2.2.1] at hmem
      simp only [List.mem_map] at hmem
      obtain ⟨q, hq, hqd⟩ := hmem
      have hcap : p.caption = q.caption := by
        have := congrArg (fun d => d.2.1) hqd
        simpa [Place.data] using this.symm
      rw [hcap]
      have hq2 := List.mem_of_mem_dropLast hq
      rcases List.mem_or_eq_of_mem_set hq2 with hq3 | hq3
      · exact hc q hq3
      · rw [hq3]
        split_ifs <;> exact make_caption_ne _ _ _ _ _
    · rw [removeNode_place_absent h.1 (Nat.le_of_not_lt hi)] at hr
      cases hr
      exact captioned_of_data (generate_frame _).2.2.2.2.2.1 hc
  · by_cases hi : i < net.m_transitions.length
    · obtain ⟨pi, pe, h1, h2, h3, h4, h5⟩ := removeNode_transition_dense h.1 hi
      rw [h5] at hr
      cases hr
      exact captioned_of_data (generate_frame _).2.2.2.2.2.1 hc
    · rw [removeNode_transition_absent h.1 (Nat.le_of_not_lt hi)] at hr
      cases hr
      exact captioned_of_data (generate_frame _).2.2.2.2.2.1 hc

theorem captioned_apply {net : PetriNet} (h : WellFormed net) (hc : Captioned net) (op : Op) :
    ∀ net', op.apply net = some net' → Captioned net' := by
  intro net' ha
  cases op with
  | addPlace x y tokens => cases ha; exact captioned_addPlace hc x y tokens
  | addTransition x y => cases ha; exact fun p hp => hc p hp
  | addArc f t d s => cases ha; exact captioned_addArc hc f t d s
  | removeArc f t => cases ha; exact fun p hp => hc p hp
  | removeNode n => exact captioned_removeNode h hc n net' ha
  | clear => cases ha; intro p hp; cases hp

/-- Every net the structural operations build from an empty net has its places
captioned. -/
theorem captioned_run (ops : List Op) :
    ∀ net, WellFormed net → Captioned net → ∀ net', run ops net = some net' →
      Captioned net' := by
  induction ops with
  | nil => intro net _ hc net' hr; cases hr; exact hc
  | cons op ops ih =>
    intro net h hc net' hr
    obtain ⟨net1, h1, w1⟩ := wf_apply h op
    simp only [run, h1, Option.some_bind] at hr
    exact ih net1 w1 (captioned_apply h hc op net1 h1) net' hr

theorem not_mem_eraseIdx_of_nodup {α : Type} {l : List α} (hn : l.Nodup) {m : Nat} {x : α}
    (hx : l[m]? = some x) : x ∉ l.eraseIdx m := by
  have hm : m < l.length := by
    rcases Nat.lt_or_ge m l.length with h | h
    · exact h
    · rw [List.getElem?_eq_none h] at hx; cases hx
  rw [List.getElem?_eq_getElem hm] at hx
  cases hx
  have hsplit : l = l.take m ++ l[m] :: l.drop (m + 1) := by
    rw [← List.drop_eq_getElem_cons hm, List.take_append_drop]
  rw [List.eraseIdx_eq_take_drop_succ]
  rw [hsplit] at hn
  have := (List.nodup_middle.1 hn)
  rw [List.nodup_cons] at this
  exact this.1

theorem removeArc_frame (net : PetriNet) (f t : NodeRef) :
    (net.removeArc f t).2.m_type = net.m_type ∧
    (net.removeArc f t).2.m_places = net.m_places ∧
    (net.removeArc f t).2.m_transitions = net.m_transitions ∧
    (net.removeArc f t).2.m_next_place_id = net.m_next_place_id ∧
    (net.removeArc f t).2.m_next_transition_id = net.m_next_transition_id ∧
    (net.removeArc f t).2.modified = net.modified :=
  ⟨rfl, rfl, rfl, rfl, rfl, rfl⟩

/-- C9. `removeArc(from, to)` returns true exactly when the arc list contains
an arc with that ordered endpoint pair.  When it returns true, with `m` the
highest position of a matching arc, the list is one shorter, slot `m` holds the
former last arc and every other remaining slot is unchanged, and under arc
uniqueness `findArc(from, to)` finds nothing afterwards.  When it returns false
the arc list is unchanged.  In both cases the places and the transitions (ids,
tokens, `arcsIn`, `arcsOut` and all other fields), the next-id counters and the
modified flag are unchanged. -/
theorem C9_removeArc (net : PetriNet) (from_ to_ : NodeRef) :
    ((net.removeArc from_ to_).1 = true ↔
      ∃ a ∈ net.m_arcs, a.from_ = from_ ∧ a.to_ = to_) ∧
    ((net.removeArc from_ to_).1 = true →
      ∃ (m : Nat) (a : Arc), net.m_arcs[m]? = some a ∧ a.from_ = from_ ∧ a.to_ = to_ ∧
        (∀ (j : Nat) (b : Arc), m < j → net.m_arcs[j]? = some b →
          ¬ (b.from_ = from_ ∧ b.to_ = to_)) ∧
        (net.removeArc from_ to_).2.m_arcs.length + 1 = net.m_arcs.length ∧
        (∀ j : Nat, (net.removeArc from_ to_).2.m_arcs[j]? =
          if j + 1 < net.m_arcs.length then
            (if j = m then net.m_arcs.getLast? else net.m_arcs[j]?)
          else none) ∧
        (ArcsUnique net → (net.removeArc from_ to_).2.findArc from_ to_ = none)) ∧
    ((net.removeArc from_ to_).1 = false →
      (net.removeArc from_ to_).2.m_arcs = net.m_arcs) ∧
    (net.removeArc from_ to_).2.m_places = net.m_places ∧
    (net.removeArc from_ to_).2.m_transitions = net.m_transitions ∧
    (net.removeArc from_ to_).2.m_next_place_id = net.m_next_place_id ∧
    (net.removeArc from_ to_).2.m_next_transition_id = net.m_next_transition_id ∧
    (net.removeArc from_ to_).2.modified = net.modified := by
  refine ⟨?_, ?_, ?_, rfl, rfl, rfl, rfl, rfl⟩
  · rcases removeArcLoop_spec from_ to_ net.m_arcs.length net.m_arcs (Nat.le_refl _) with
      ⟨h1, h2⟩ | ⟨m, a, hm, ha, hp, _, hres⟩
    · simp only [removeArc, h1]
      constructor
      · intro h; cases h
      · rintro ⟨a, ha, hp⟩
        obtain ⟨j, hj, rfl⟩ := List.getElem_of_mem ha
        exact absurd hp (h2 j _ hj (List.getElem?_eq_getElem hj))
    · simp only [removeArc, hres, true_iff]
      exact ⟨a, List.getElem?_mem ha, hp⟩
  · intro htrue
    rcases removeArcLoop_spec from_ to_ net.m_arcs.length net.m_arcs (Nat.le_refl _) with
      ⟨h1, _⟩ | ⟨m, a, hm, ha, hp, hlast, hres⟩
    · simp [removeArc, h1] at htrue
    · refine ⟨m, a, ha, hp.1, hp.2, fun j b h1 h2 => ?_, ?_, ?_, ?_⟩
      · have hj : j < net.m_arcs.length := by
          rcases Nat.lt_or_ge j net.m_arcs.length with h | h
          · exact h
          · rw [List.getElem?_eq_none h] at h2; cases h2
        exact hlast j b h1 hj h2
      · simp only [removeArc, hres, swapRemove_length]
        omega
      · intro j
        simp only [removeArc, hres]
        exact swapRemove_getElem_opt net.m_arcs m j hm
      · intro hu
        rw [findArc_eq_none_iff_ends]
        simp only [removeArc, hres]
        intro hmem
        have hperm := (swapRemove_perm net.m_arcs m hm).map Arc.ends
        have h3 := hperm.subset hmem
        have h4 : (net.m_arcs.eraseIdx m).map Arc.ends = (net.m_arcs.map Arc.ends).eraseIdx m := by
          rw [List.eraseIdx_eq_take_drop_succ, List.eraseIdx_eq_take_drop_succ, List.map_append,
            List.map_take, List.map_drop]
        rw [h4] at h3
        refine not_mem_eraseIdx_of_nodup hu ?_ h3
        rw [List.getElem?_map, ha]
        simp [Arc.ends, hp.1, hp.2]
  · intro hfalse
    rcases removeArcLoop_spec from_ to_ net.m_arcs.length net.m_arcs (Nat.le_refl _) with
      ⟨h1, _⟩ | ⟨m, a, hm, ha, hp, hlast, hres⟩
    · simp only [removeArc, h1]
    · simp [removeArc, hres] at hfalse

/-- Witness of C9 on the linked net: removing the arc P0 -> T0 leaves no such
arc. -/
theorem C9_removeArc_witness :
    ∃ (m : Nat) (a : Arc), linkedNet.m_arcs[m]? = some a ∧
      a.from_ = ⟨NodeType.Place, 0⟩ ∧ a.to_ = ⟨NodeType.Transition, 0⟩ ∧
      (∀ (j : Nat) (b : Arc), m < j → linkedNet.m_arcs[j]? = some b →
        ¬ (b.from_ = ⟨NodeType.Place, 0⟩ ∧ b.to_ = ⟨NodeType.Transition, 0⟩)) ∧
      (linkedNet.removeArc ⟨NodeType.Place, 0⟩ ⟨NodeType.Transition, 0⟩).2.m_arcs.length + 1 =
        linkedNet.m_arcs.length ∧
      (∀ j : Nat,
        (linkedNet.removeArc ⟨NodeType.Place, 0⟩ ⟨NodeType.Transition, 0⟩).2.m_arcs[j]? =
          if j + 1 < linkedNet.m_arcs.length then
            (if j = m then linkedNet.m_arcs.getLast? else linkedNet.m_arcs[j]?)
          else none) ∧
      (ArcsUnique linkedNet →
        (linkedNet.removeArc ⟨NodeType.Place, 0⟩ ⟨NodeType.Transition, 0⟩).2.findArc
          ⟨NodeType.Place, 0⟩ ⟨NodeType.Transition, 0⟩ = none) :=
  (C9_removeArc linkedNet ⟨NodeType.Place, 0⟩ ⟨NodeType.Transition, 0⟩).2.1 (by decide)

/-! ## Claim C10 -/

theorem arcIndices_cons (a : Arc) (rest : List Arc) (p : Arc → Bool) :
    arcIndices (a :: rest) p =
      (if p a = true then [0] else []) ++ (arcIndices rest p).map (· + 1) := by
  unfold arcIndices
  rw [List.length_cons, List.range_succ_eq_map, List.filter_cons, List.filter_map]
  have h0 : (a :: rest)[0]? = some a := by simp
  simp only [h0]
  have hs : ((fun k => match (a :: rest)[k]? with
      | some a => p a
      | none => false) ∘ Nat.succ) = (fun k => match rest[k]? with
      | some a => p a
      | none => false) := by
    funext k
    simp
  rw [hs]
  by_cases hp : p a = true <;> simp [hp]

theorem arcIndices_congr {arcs : List Arc} {p q : Arc → Bool}
    (h : ∀ a ∈ arcs, p a = q a) : arcIndices arcs p = arcIndices arcs q := by
  unfold arcIndices
  apply List.filter_congr
  intro k _
  cases hk : arcs[k]? with
  | none => rfl
  | some a => exact h a (List.getElem?_mem hk)

theorem mem_arcIndices {arcs : List Arc} {p : Arc → Bool} {k : Nat} {a : Arc}
    (hk : arcs[k]? = some a) : k ∈ arcIndices arcs p ↔ p a = true := by
  have hlt : k < arcs.length := by
    rcases Nat.lt_or_ge k arcs.length with h | h
    · exact h
    · rw [List.getElem?_eq_none h] at hk; cases hk
  unfold arcIndices
  rw [List.mem_filter, List.mem_range, hk]
  simp [hlt]

theorem scanPlaceArcs_eq (pid : Nat) :
    ∀ (arcs : List Arc) (k : Nat),
      scanPlaceArcs pid k arcs =
        ((arcIndices arcs (fun a =>
            decide (a.from_.type = NodeType.Transition ∧ a.to_.id = pid))).map (· + k),
         (arcIndices arcs (fun a =>
            !decide (a.from_.type = NodeType.Transition ∧ a.to_.id = pid) &&
              decide (a.to_.type = NodeType.Transition ∧ a.from_.id = pid))).map (· + k)) := by
  intro arcs
  induction arcs with
  | nil => intro k; rfl
  | cons a rest ih =>
    intro k
    unfold scanPlaceArcs
    rw [ih (k + 1), arcIndices_cons, arcIndices_cons]
    have hshift : ∀ l : List Nat, (l.map (· + 1)).map (· + k) = l.map (· + (k + 1)) := by
      intro l
      rw [List.map_map]
      apply List.map_congr_left
      intro x _
      simp only [Function.comp]
      omega
    by_cases h1 : a.from_.type = NodeType.Transition ∧ a.to_.id = pid
    · simp [h1, hshift]
    · by_cases h2 : a.to_.type = NodeType.Transition ∧ a.from_.id = pid
      · simp [h1, h2, hshift]
      · simp [h1, h2, hshift]

theorem scanTransitionArcs_eq (tid : Nat) :
    ∀ (arcs : List Arc) (k : Nat),
      scanTransitionArcs tid k arcs =
        ((arcIndices arcs (fun a =>
            decide (a.from_.type = NodeType.Place ∧ a.to_.id = tid))).map (· + k),
         (arcIndices arcs (fun a =>
            !decide (a.from_.type = NodeType.Place ∧ a.to_.id = tid) &&
              decide (a.to_.type = NodeType.Place ∧ a.from_.id = tid))).map (· + k)) := by
  intro arcs
  induction arcs with
  | nil => intro k; rfl
  | cons a rest ih =>
    intro k
    unfold scanTransitionArcs
    rw [ih (k + 1), arcIndices_cons, arcIndices_cons]
    have hshift : ∀ l : List Nat, (l.map (· + 1)).map (· + k) = l.map (· + (k + 1)) := by
      intro l
      rw [List.map_map]
      apply List.map_congr_left
      intro x _
      simp only [Function.comp]
      omega
    by_cases h1 : a.from_.type = NodeType.Place ∧ a.to_.id = tid
    · simp [h1, hshift]
    · by_cases h2 : a.to_.type = NodeType.Place ∧ a.from_.id = tid
      · simp [h1, h2, hshift]
      · simp [h1, h2, hshift]

theorem type_cases (t : NodeType) : t = NodeType.Place ∨ t = NodeType.Transition := by
  cases t
  · exact Or.inl rfl
  · exact Or.inr rfl

theorem generate_place_lists {net : PetriNet} (hb : Bipartite net) (p : Place) :
    (scanPlaceArcs p.id 0 net.m_arcs).1 =
        arcIndices net.m_arcs (fun a => decide (a.to_ = p.ref)) ∧
    (scanPlaceArcs p.id 0 net.m_arcs).2 =
        arcIndices net.m_arcs (fun a => decide (a.from_ = p.ref)) := by
  rw [scanPlaceArcs_eq]
  simp only [Nat.add_zero, List.map_id']
  constructor
  · apply arcIndices_congr
    intro a ha
    have hne := hb a ha
    obtain ⟨⟨ft, fi⟩, ⟨tt, ti⟩, d⟩ := a
    simp only [Place.ref, NodeRef.mk.injEq] at hne ⊢
    cases ft <;> cases tt <;> simp at hne ⊢
  · apply arcIndices_congr
    intro a ha
    have hne := hb a ha
    obtain ⟨⟨ft, fi⟩, ⟨tt, ti⟩, d⟩ := a
    simp only [Place.ref, NodeRef.mk.injEq] at hne ⊢
    cases ft <;> cases tt <;> simp at hne ⊢

theorem generate_transition_lists {net : PetriNet} (hb : Bipartite net) (t : Transition) :
    (scanTransitionArcs t.id 0 net.m_arcs).1 =
        arcIndices net.m_arcs (fun a => decide (a.to_ = t.ref)) ∧
    (scanTransitionArcs t.id 0 net.m_arcs).2 =
        arcIndices net.m_arcs (fun a => decide (a.from_ = t.ref)) := by
  rw [scanTransitionArcs_eq]
  simp only [Nat.add_zero, List.map_id']
  constructor
  · apply arcIndices_congr
    intro a ha
    have hne := hb a ha
    obtain ⟨⟨ft, fi⟩, ⟨tt, ti⟩, d⟩ := a
    simp only [Transition.ref, NodeRef.mk.injEq] at hne ⊢
    cases ft <;> cases tt <;> simp at hne ⊢
  · apply arcIndices_congr
    intro a ha
    have hne := hb a ha
    obtain ⟨⟨ft, fi⟩, ⟨tt, ti⟩, d⟩ := a
    simp only [Transition.ref, NodeRef.mk.injEq] at hne ⊢
    cases ft <;> cases tt <;> simp at hne ⊢

theorem countP_place_ref (l : List Place) (r : NodeRef) :
    l.countP (fun p => decide (r = p.ref)) =
      if r.type = NodeType.Place then (l.map Place.id).count r.id else 0 := by
  obtain ⟨rt, ri⟩ := r
  induction l with
  | nil => simp
  | cons p l ih =>
    rw [List.countP_cons, ih, List.map_cons, List.count_cons]
    cases rt
    · by_cases h : ri = p.id
      · simp [Place.ref, h]
      · have h' : ¬ p.id = ri := fun e => h e.symm
        simp [Place.ref, h, h']
    · simp [Place.ref]

theorem countP_transition_ref (l : List Transition) (r : NodeRef) :
    l.countP (fun t => decide (r = t.ref)) =
      if r.type = NodeType.Transition then (l.map Transition.id).count r.id else 0 := by
  obtain ⟨rt, ri⟩ := r
  induction l with
  | nil => simp
  | cons p l ih =>
    rw [List.countP_cons, ih, List.map_cons, List.count_cons]
    cases rt
    · simp [Transition.ref]
    · by_cases h : ri = p.id
      · simp [Transition.ref, h]
      · have h' : ¬ p.id = ri := fun e => h e.symm
        simp [Transition.ref, h, h']

theorem count_nodes_of_ref {net : PetriNet} (hp : (net.m_places.map Place.id).Nodup)
    (ht : (net.m_transitions.map Transition.id).Nodup) {r : NodeRef} (hr : hasNode net r) :
    net.m_places.countP (fun p => decide (r = p.ref)) +
      net.m_transitions.countP (fun t => decide (r = t.ref)) = 1 := by
  rw [countP_place_ref, countP_transition_ref]
  unfold hasNode at hr
  obtain ⟨rt, ri⟩ := r
  cases rt
  · simp only at hr
    simp [List.count_eq_one_of_mem hp hr]
  · simp only at hr
    simp [List.count_eq_one_of_mem ht hr]

/-- C10. In a bipartite net with unique ids per node type whose arcs all have
their endpoints in the net, `generateArcsInArcsOut` keeps the arc list and
gives every node `n` an `arcsOut` that lists, in arc-list order, exactly the
positions of the arcs whose from is `n`, and an `arcsIn` that lists exactly the
positions of the arcs whose to is `n`.  Hence every arc position occurs in the
`arcsOut` of exactly one node and in the `arcsIn` of exactly one node. -/
theorem C10_generateArcsInArcsOut (net : PetriNet) (hb : Bipartite net)
    (hp : (net.m_places.map Place.id).Nodup)
    (ht : (net.m_transitions.map Transition.id).Nodup)
    (he : ∀ a ∈ net.m_arcs, hasNode net a.from_ ∧ hasNode net a.to_) :
    net.generateArcsInArcsOut.m_arcs = net.m_arcs ∧
    (∀ p ∈ net.generateArcsInArcsOut.m_places,
      p.arcsOut = arcIndices net.m_arcs (fun a => decide (a.from_ = p.ref)) ∧
      p.arcsIn = arcIndices net.m_arcs (fun a => decide (a.to_ = p.ref))) ∧
    (∀ t ∈ net.generateArcsInArcsOut.m_transitions,
      t.arcsOut = arcIndices net.m_arcs (fun a => decide (a.from_ = t.ref)) ∧
      t.arcsIn = arcIndices net.m_arcs (fun a => decide (a.to_ = t.ref))) ∧
    (∀ k, k < net.m_arcs.length →
      net.generateArcsInArcsOut.m_places.countP (fun p => decide (k ∈ p.arcsOut)) +
        net.generateArcsInArcsOut.m_transitions.countP (fun t => decide (k ∈ t.arcsOut)) = 1 ∧
      net.generateArcsInArcsOut.m_places.countP (fun p => decide (k ∈ p.arcsIn)) +
        net.generateArcsInArcsOut.m_transitions.countP (fun t => decide (k ∈ t.arcsIn)) = 1) := by
  refine ⟨rfl, ?_, ?_, ?_⟩
  · intro p hp'
    simp only [generateArcsInArcsOut, List.mem_map] at hp'
    obtain ⟨p0, _, rfl⟩ := hp'
    exact ⟨(generate_place_lists hb p0).2, (generate_place_lists hb p0).1⟩
  · intro t ht'
    simp only [generateArcsInArcsOut, List.mem_map] at ht'
    obtain ⟨t0, _, rfl⟩ := ht'
    exact ⟨(generate_transition_lists hb t0).2, (generate_transition_lists hb t0).1⟩
  · intro k hk
    have hget : net.m_arcs[k]? = some net.m_arcs[k] := List.getElem?_eq_getElem hk
    have hmem : net.m_arcs[k] ∈ net.m_arcs := List.getElem_mem hk
    simp only [generateArcsInArcsOut, List.countP_map]
    have e1 : ∀ p0 : Place, decide (k ∈ (scanPlaceArcs p0.id 0 net.m_arcs).2) =
        decide (net.m_arcs[k].from_ = p0.ref) := by
      intro p0
      rw [(generate_place_lists hb p0).2]
      exact decide_eq_decide.2 ((mem_arcIndices hget).trans (by simp))
    have e2 : ∀ p0 : Place, decide (k ∈ (scanPlaceArcs p0.id 0 net.m_arcs).1) =
        decide (net.m_arcs[k].to_ = p0.ref) := by
      intro p0
      rw [(generate_place_lists hb p0).1]
      exact decide_eq_decide.2 ((mem_arcIndices hget).trans (by simp))
    have e3 : ∀ t0 : Transition, decide (k ∈ (scanTransitionArcs t0.id 0 net.m_arcs).2) =
        decide (net.m_arcs[k].from_ = t0.ref) := by
      intro t0
      rw [(generate_transition_lists hb t0).2]
      exact decide_eq_decide.2 ((mem_arcIndices hget).trans (by simp))
    have e4 : ∀ t0 : Transition, decide (k ∈ (scanTransitionArcs t0.id 0 net.m_arcs).1) =
        decide (net.m_arcs[k].to_ = t0.ref) := by
      intro t0
      rw [(generate_transition_lists hb t0).1]
      exact decide_eq_decide.2 ((mem_arcIndices hget).trans (by simp))
    simp only [Function.comp_def, e1, e2, e3, e4]
    exact ⟨count_nodes_of_ref hp ht (he _ hmem).1, count_nodes_of_ref hp ht (he _ hmem).2⟩

/-- Witness of C10 on the linked net: its first arc is in the `arcsOut` of
exactly one node and in the `arcsIn` of exactly one node. -/
theorem C10_generateArcsInArcsOut_witness :
    linkedNet.generateArcsInArcsOut.m_places.countP (fun p => decide (0 ∈ p.arcsOut)) +
        linkedNet.generateArcsInArcsOut.m_transitions.countP
          (fun t => decide (0 ∈ t.arcsOut)) = 1 ∧
      linkedNet.generateArcsInArcsOut.m_places.countP (fun p => decide (0 ∈ p.arcsIn)) +
        linkedNet.generateArcsInArcsOut.m_transitions.countP
          (fun t => decide (0 ∈ t.arcsIn)) = 1 :=
  (C10_generateArcsInArcsOut linkedNet (by decide) (by decide) (by decide)
    (by decide)).2.2.2 0 (by decide)

/-! ## Claims C13 and C14: firing tests of a transition -/

theorem burntLoop_spec (tokensIn : Nat → Nat) :
    ∀ (l : List Nat) (burnt : Nat),
      (∀ a ∈ l, burntLoop tokensIn l burnt ≤ tokensIn a) ∧
      burntLoop tokensIn l burnt ≤ burnt ∧
      (burntLoop tokensIn l burnt = burnt ∨ ∃ a ∈ l, burntLoop tokensIn l burnt = tokensIn a) := by
  intro l
  induction l with
  | nil =>
    intro burnt
    exact ⟨fun a ha => (by cases ha), Nat.le_refl _, Or.inl rfl⟩
  | cons x rest ih =>
    intro burnt
    unfold burntLoop
    by_cases h0 : tokensIn x = 0
    · simp only [h0, if_true]
      exact ⟨fun a _ => Nat.zero_le _, Nat.zero_le _, Or.inr ⟨x, List.mem_cons_self _ _, h0.symm⟩⟩
    · simp only [h0, if_false]
      by_cases hlt : tokensIn x < burnt
      · simp only [hlt, if_true]
        obtain ⟨h1, h2, h3⟩ := ih (tokensIn x)
        refine ⟨fun a ha => ?_, by omega, ?_⟩
        · rcases List.mem_cons.1 ha with rfl | ha
          · exact h2
          · exact h1 a ha
        · rcases h3 with h3 | ⟨a, ha, h3⟩
          · exact Or.inr ⟨x, List.mem_cons_self _ _, h3⟩
          · exact Or.inr ⟨a, List.mem_cons_of_mem _ ha, h3⟩
      · simp only [hlt, if_false]
        obtain ⟨h1, h2, h3⟩ := ih burnt
        refine ⟨fun a ha => ?_, h2, ?_⟩
        · rcases List.mem_cons.1 ha with rfl | ha
          · omega
          · exact h1 a ha
        · rcases h3 with h3 | ⟨a, ha, h3⟩
          · exact Or.inl h3
          · exact Or.inr ⟨a, List.mem_cons_of_mem _ ha, h3⟩

theorem isEnabledLoop_iff (tokensIn : Nat → Nat) (l : List Nat) :
    isEnabledLoop tokensIn l = true ↔ ∀ a ∈ l, 1 ≤ tokensIn a := by
  induction l with
  | nil => simp [isEnabledLoop]
  | cons x rest ih =>
    unfold isEnabledLoop
    by_cases h0 : tokensIn x = 0
    · simp [h0]
    · simp only [h0, if_false, ih, List.mem_cons, forall_eq_or_imp]
      constructor
      · intro h; exact ⟨by omega, h⟩
      · intro h; exact h.2

/-- C13. With token counts of type `size_t` on its input arcs,
`howManyTokensCanBurnt()` is 1 for a transition without input arc whose
receptivity is true and 0 when its receptivity is false; 0 for a transition
with input arcs whose receptivity is false; and otherwise the minimum of
`tokensIn()` over its input arcs: a value reached on one input arc and below
the value of every input arc. -/
theorem C13_howManyTokensCanBurnt (tokensIn : Nat → Nat) (t : Transition)
    (hsize : ∀ a ∈ t.arcsIn, tokensIn a ≤ SIZE_MAX) :
    (t.arcsIn = [] → t.receptivity = true → t.howManyTokensCanBurnt tokensIn = 1) ∧
    (t.arcsIn = [] → t.receptivity = false → t.howManyTokensCanBurnt tokensIn = 0) ∧
    (t.arcsIn ≠ [] → t.receptivity = false → t.howManyTokensCanBurnt tokensIn = 0) ∧
    (t.arcsIn ≠ [] → t.receptivity = true →
      (∃ a ∈ t.arcsIn, t.howManyTokensCanBurnt tokensIn = tokensIn a) ∧
      (∀ a ∈ t.arcsIn, t.howManyTokensCanBurnt tokensIn ≤ tokensIn a)) := by
  refine ⟨?_, ?_, ?_, ?_⟩
  · intro h hr
    simp [Transition.howManyTokensCanBurnt, h, hr]
  · intro h hr
    simp [Transition.howManyTokensCanBurnt, h, hr]
  · intro h hr
    have hl : t.arcsIn.length ≠ 0 := fun e => h (List.length_eq_zero.1 e)
    simp [Transition.howManyTokensCanBurnt, hl, hr]
  · intro h hr
    have hl : t.arcsIn.length ≠ 0 := fun e => h (List.length_eq_zero.1 e)
    have hval : t.howManyTokensCanBurnt tokensIn = burntLoop tokensIn t.arcsIn SIZE_MAX := by
      simp [Transition.howManyTokensCanBurnt, hl, hr]
    rw [hval]
    obtain ⟨h1, h2, h3⟩ := burntLoop_spec tokensIn t.arcsIn SIZE_MAX
    refine ⟨?_, h1⟩
    rcases h3 with h3 | h3
    · obtain ⟨a, ha⟩ := List.exists_mem_of_ne_nil _ h
      refine ⟨a, ha, ?_⟩
      have := h1 a ha
      have := hsize a ha
      omega
    · exact h3

/-- Witness of C13: two input arcs carrying 3 and 2 tokens. -/
theorem C13_howManyTokensCanBurnt_witness :
    (∃ a ∈ sampleTransition.arcsIn,
      sampleTransition.howManyTokensCanBurnt (fun a => if a = 0 then 3 else 2) =
        (fun a => if a = 0 then 3 else 2) a) ∧
    (∀ a ∈ sampleTransition.arcsIn,
      sampleTransition.howManyTokensCanBurnt (fun a => if a = 0 then 3 else 2) ≤
        (fun a => if a = 0 then 3 else 2) a) :=
  (C13_howManyTokensCanBurnt (fun a => if a = 0 then 3 else 2) sampleTransition
    (by decide)).2.2.2 (by decide) (by decide)

/-- C14. `isEnabled()` returns true exactly when the transition has no input
arc or every input arc has `tokensIn()` of at least 1; the result is the same
whatever the receptivity. -/
theorem C14_isEnabled (tokensIn : Nat → Nat) (t : Transition) :
    (t.isEnabled tokensIn = true ↔ (t.arcsIn = [] ∨ ∀ a ∈ t.arcsIn, 1 ≤ tokensIn a)) ∧
    (∀ b : Bool, Transition.isEnabled tokensIn { t with receptivity := b } =
      t.isEnabled tokensIn) := by
  refine ⟨?_, fun b => rfl⟩
  unfold Transition.isEnabled
  by_cases h : t.arcsIn = []
  · simp [h]
  · have hl : t.arcsIn.length ≠ 0 := fun e => h (List.length_eq_zero.1 e)
    simp only [hl, if_false, h, false_or]
    exact isEnabledLoop_iff tokensIn t.arcsIn

/-- Witness of C14: both input arcs carry tokens. -/
theorem C14_isEnabled_witness :
    sampleTransition.isEnabled (fun a => if a = 0 then 3 else 2) = true :=
  (C14_isEnabled (fun a => if a = 0 then 3 else 2) sampleTransition).1.2
    (Or.inr (by decide))

/-! ## Claims C15 and C16: changeTypeOfNet -/

/-- C15. For the modes GRAFCET, Petri and TimedPetri, `changeTypeOfNet(mode)`
returns, sets the type of the net to `mode`, changes nothing else in the net
and sets the global settings to: GRAFCET, `maxTokens` = 1 and `OneByOne`; Petri,
`maxTokens` = the maximum `size_t` value and `MaxPossible`; TimedPetri,
`maxTokens` = the maximum `size_t` value and `OneByOne`.  Whenever the call
returns, the resulting settings depend on `mode` only, not on the previous
settings nor on the net. -/
theorem C15_changeTypeOfNet (net : PetriNet) (s : Settings) :
    net.changeTypeOfNet s NetType.GRAFCET =
      some ({ net with m_type := NetType.GRAFCET }, ⟨1, Fire.OneByOne⟩) ∧
    net.changeTypeOfNet s NetType.Petri =
      some ({ net with m_type := NetType.Petri }, ⟨SIZE_MAX, Fire.MaxPossible⟩) ∧
    net.changeTypeOfNet s NetType.TimedPetri =
      some ({ net with m_type := NetType.TimedPetri }, ⟨SIZE_MAX, Fire.OneByOne⟩) ∧
    (∀ (mode : NetType) (net2 : PetriNet) (s2 : Settings),
      (net.changeTypeOfNet s mode).isSome = (net2.changeTypeOfNet s2 mode).isSome ∧
      (net.changeTypeOfNet s mode).map Prod.snd =
        (net2.changeTypeOfNet s2 mode).map Prod.snd) := by
  refine ⟨rfl, rfl, rfl, ?_⟩
  intro mode net2 s2
  cases mode <;> exact ⟨rfl, rfl⟩

/-- C16 (amended). For every net, `changeTypeOfNet(GRAFCET)` returns and sets
`Settings.maxTokens` to 1, and every place holds exactly the tokens it held
before the call: the places, the transitions and the arcs are those of the net
before the call. -/
theorem C16_changeTypeOfNet_GRAFCET (net : PetriNet) (s : Settings) :
    ∃ net2 s2, net.changeTypeOfNet s NetType.GRAFCET = some (net2, s2) ∧
      s2.maxTokens = 1 ∧
      net2.m_places = net.m_places ∧
      net2.m_places.map Place.tokens = net.m_places.map Place.tokens ∧
      net2.m_transitions = net.m_transitions ∧ net2.m_arcs = net.m_arcs :=
  ⟨_, _, rfl, rfl, rfl, rfl, rfl, rfl⟩

/-- C16 as stated fails: the place of this net holds 5 tokens before
`changeTypeOfNet(GRAFCET)` and still 5 tokens, more than `maxTokens` = 1,
after it. -/
theorem C16_counterexample :
    fiveTokenNet.m_places.map Place.tokens = [5] ∧
    (fiveTokenNet.changeTypeOfNet ⟨SIZE_MAX, Fire.OneByOne⟩ NetType.GRAFCET).map
      (fun r => (r.1.m_places.map Place.tokens, r.2.maxTokens)) = some ([5], 1) := by
  decide

/-! ## Claims C11 and C12: isEventGraph -/

theorem arcIndices_length (arcs : List Arc) (p : Arc → Bool) :
    (arcIndices arcs p).length = arcs.countP p := by
  induction arcs with
  | nil => rfl
  | cons a rest ih =>
    rw [arcIndices_cons, List.length_append, List.length_map, ih, List.countP_cons]
    by_cases hp : p a = true
    · simp [hp]; omega
    · simp [hp]

theorem generate_places (net : PetriNet) (hb : Bipartite net) :
    net.generateArcsInArcsOut.m_places =
      net.m_places.map (fun p =>
        { p with
          arcsIn := arcIndices net.m_arcs (fun a => decide (a.to_ = p.ref))
          arcsOut := arcIndices net.m_arcs (fun a => decide (a.from_ = p.ref)) }) := by
  unfold generateArcsInArcsOut
  simp only
  apply List.map_congr_left
  intro p _
  rw [(generate_place_lists hb p).1, (generate_place_lists hb p).2]

theorem isEventGraphLoop_generated (arcs : List Arc) (l : List Place) :
    isEventGraphLoop (l.map (fun p =>
        { p with
          arcsIn := arcIndices arcs (fun a => decide (a.to_ = p.ref))
          arcsOut := arcIndices arcs (fun a => decide (a.from_ = p.ref)) })) =
      (l.find? (fun p =>
        !(decide (arcs.countP (fun a => decide (a.to_ = p.ref)) = 1) &&
          decide (arcs.countP (fun a => decide (a.from_ = p.ref)) = 1)))).map (fun p =>
        (if arcs.countP (fun a => decide (a.from_ = p.ref)) ≠ 1 then
            arcIndices arcs (fun a => decide (a.from_ = p.ref)) else []) ++
        (if arcs.countP (fun a => decide (a.to_ = p.ref)) ≠ 1 then
            arcIndices arcs (fun a => decide (a.to_ = p.ref)) else [])) := by
  induction l with
  | nil => rfl
  | cons p rest ih =>
    rw [List.map_cons, isEventGraphLoop, List.find?_cons]
    simp only [arcIndices_length, Place.ref]
    by_cases h : arcs.countP (fun a => decide (a.to_ = ⟨NodeType.Place, p.id⟩)) = 1 ∧
        arcs.countP (fun a => decide (a.from_ = ⟨NodeType.Place, p.id⟩)) = 1
    · simp only [h.1, h.2, and_self, not_true_eq_false, if_false, decide_True, Bool.and_self,
        Bool.not_true]
      exact ih
    · have hb : (!(decide (arcs.countP (fun a => decide (a.to_ = ⟨NodeType.Place, p.id⟩)) = 1) &&
          decide (arcs.countP (fun a => decide (a.from_ = ⟨NodeType.Place, p.id⟩)) = 1))) = true := by
        rcases not_and_or.1 h with h1 | h1 <;> simp [h1]
      rw [if_pos h, hb]
      rfl

theorem isEventGraph_eq (net : PetriNet) (hb : Bipartite net) (he : net.isEmpty = false) :
    net.isEventGraph =
      match (firstOffendingPlace net).map (fun p =>
        (if net.m_arcs.countP (fun a => decide (a.from_ = p.ref)) ≠ 1 then
            arcIndices net.m_arcs (fun a => decide (a.from_ = p.ref)) else []) ++
        (if net.m_arcs.countP (fun a => decide (a.to_ = p.ref)) ≠ 1 then
            arcIndices net.m_arcs (fun a => decide (a.to_ = p.ref)) else [])) with
      | some erroneous_arcs => (false, erroneous_arcs, net.generateArcsInArcsOut)
      | none => (true, [], net.generateArcsInArcsOut) := by
  unfold PetriNet.isEventGraph firstOffendingPlace
  rw [he, generate_places net hb, isEventGraphLoop_generated]
  rfl

/-- C11 (amended). On the empty net `isEventGraph` returns false.  On a net
that is not empty and is bipartite, `isEventGraph` returns true exactly when
every place has exactly one input arc and exactly one output arc in the arc
list. -/
theorem C11_isEventGraph (net : PetriNet) :
    (net.isEmpty = true → net.isEventGraph.1 = false) ∧
    (Bipartite net → net.isEmpty = false →
      (net.isEventGraph.1 = true ↔
        ∀ p ∈ net.m_places,
          net.m_arcs.countP (fun a => decide (a.to_ = p.ref)) = 1 ∧
          net.m_arcs.countP (fun a => decide (a.from_ = p.ref)) = 1)) := by
  constructor
  · intro he
    simp [PetriNet.isEventGraph, he]
  · intro hb he
    rw [isEventGraph_eq net hb he]
    cases hf : firstOffendingPlace net with
    | none =>
      simp only [Option.map_none', true_iff]
      intro p hp
      have := List.find?_eq_none.1 hf p hp
      simpa using this
    | some q =>
      simp only [Option.map_some']
      constructor
      · intro h; cases h
      · intro h
        have hq := List.find?_some hf
        have := h q (List.mem_of_find?_eq_some hf)
        simp [this.1, this.2] at hq

/-- Witness of C11: the loop of scenario S4 is an event graph. -/
theorem C11_isEventGraph_witness : loopNet.isEventGraph.1 = true :=
  ((C11_isEventGraph loopNet).2 (by decide) (by decide)).2 (by decide)

/-- C11 as stated fails.  The empty net has no place, so every place has one
input and one output arc, and `isEventGraph` returns false.  In the net with an
arc between two transitions, the only place has exactly one input and one
output arc and `isEventGraph` returns false. -/
theorem C11_counterexample :
    ((∀ p ∈ emptyNet.m_places,
        emptyNet.m_arcs.countP (fun a => decide (a.to_ = p.ref)) = 1 ∧
        emptyNet.m_arcs.countP (fun a => decide (a.from_ = p.ref)) = 1) ∧
      emptyNet.isEventGraph.1 = false) ∧
    ((∀ p ∈ strayArcNet.m_places,
        strayArcNet.m_arcs.countP (fun a => decide (a.to_ = p.ref)) = 1 ∧
        strayArcNet.m_arcs.countP (fun a => decide (a.from_ = p.ref)) = 1) ∧
      strayArcNet.isEmpty = false ∧ strayArcNet.isEventGraph.1 = false) := by
  decide

/-- C12 (amended). Whenever `isEventGraph` returns true, and on the empty net,
`erroneous_arcs` is empty.  On a net that is not empty and is bipartite, when
`isEventGraph` returns false, `erroneous_arcs` holds the arcs of the first
place, in slot order, that does not have one input and one output arc, and of
that place only: its output arcs when their number differs from 1, followed by
its input arcs when their number differs from 1. -/
theorem C12_isEventGraph_erroneous_arcs (net : PetriNet) :
    (net.isEventGraph.1 = true → net.isEventGraph.2.1 = []) ∧
    (net.isEmpty = true → net.isEventGraph.2.1 = []) ∧
    (Bipartite net → net.isEmpty = false → net.isEventGraph.1 = false →
      ∃ p, firstOffendingPlace net = some p ∧
        net.isEventGraph.2.1 =
          (if net.m_arcs.countP (fun a => decide (a.from_ = p.ref)) ≠ 1 then
              arcIndices net.m_arcs (fun a => decide (a.from_ = p.ref)) else []) ++
          (if net.m_arcs.countP (fun a => decide (a.to_ = p.ref)) ≠ 1 then
              arcIndices net.m_arcs (fun a => decide (a.to_ = p.ref)) else [])) := by
  refine ⟨?_, ?_, ?_⟩
  · unfold PetriNet.isEventGraph
    by_cases he : net.isEmpty = true
    · simp [he]
    · simp only [he, if_false]
      cases isEventGraphLoop net.generateArcsInArcsOut.m_places <;> simp
  · intro he
    simp [PetriNet.isEventGraph, he]
  · intro hb he
    rw [isEventGraph_eq net hb he]
    cases hf : firstOffendingPlace net with
    | none => simp
    | some q =>
      intro _
      exact ⟨q, rfl, rfl⟩

/-- Witness of C12: in the net with two places of wrong degree the first one,
P0, has no arc, so nothing is reported. -/
theorem C12_isEventGraph_erroneous_arcs_witness :
    ∃ p, firstOffendingPlace twoOffendersNet = some p ∧
      twoOffendersNet.isEventGraph.2.1 =
        (if twoOffendersNet.m_arcs.countP (fun a => decide (a.from_ = p.ref)) ≠ 1 then
            arcIndices twoOffendersNet.m_arcs (fun a => decide (a.from_ = p.ref)) else []) ++
        (if twoOffendersNet.m_arcs.countP (fun a => decide (a.to_ = p.ref)) ≠ 1 then
            arcIndices twoOffendersNet.m_arcs (fun a => decide (a.to_ = p.ref)) else []) :=
  (C12_isEventGraph_erroneous_arcs twoOffendersNet).2.2 (by decide) (by decide) (by decide)

/-- C12 as stated fails: in this bipartite net `isEventGraph` returns false
because P0 has no arc; the arc at position 0, P1 -> T0, is attached to the
place P1, which has no input arc, and `erroneous_arcs` is empty. -/
theorem C12_counterexample :
    twoOffendersNet.isEmpty = false ∧
    twoOffendersNet.isEventGraph.1 = false ∧
    twoOffendersNet.m_arcs[0]? = some ⟨⟨NodeType.Place, 1⟩, ⟨NodeType.Transition, 0⟩, 1⟩ ∧
    twoOffendersNet.m_arcs.countP (fun a => decide (a.to_ = ⟨NodeType.Place, 1⟩)) = 0 ∧
    twoOffendersNet.isEventGraph.2.1 = [] := by
  decide

/-! ## Claim C20: toAdjacencyMatrices -/

theorem arcIndices_head_bind (arcs : List Arc) (q : Arc → Bool) :
    ((arcIndices arcs q)[0]?).bind (fun k => arcs[k]?) = arcs.find? q := by
  induction arcs with
  | nil => rfl
  | cons a rest ih =>
    rw [arcIndices_cons, List.find?_cons]
    by_cases hq : q a = true
    · simp [hq]
    · have hq' : q a = false := by simpa using hq
      simp only [hq', Bool.false_eq_true, if_false, List.nil_append, List.getElem?_map]
      rw [← ih]
      cases (arcIndices rest q)[0]? with
      | none => rfl
      | some k => simp

theorem find_some_of_countP_one {arcs : List Arc} {q : Arc → Bool} (h : arcs.countP q = 1) :
    ∃ a, arcs.find? q = some a ∧ q a = true ∧ a ∈ arcs := by
  cases hf : arcs.find? q with
  | none =>
    have := List.find?_eq_none.1 hf
    have h0 : arcs.countP q = 0 := List.countP_eq_zero.2 (fun a ha => by simpa using this a ha)
    omega
  | some a => exact ⟨a, rfl, List.find?_some hf, List.mem_of_find?_eq_some hf⟩

theorem toAdjacencyLoop_generated (arcs : List Arc)
    (hb : ∀ a ∈ arcs, a.from_.type ≠ a.to_.type) :
    ∀ (l : List Place) (N T : SparseMatrix),
      ((∀ p ∈ l, arcs.countP (fun a => decide (a.to_ = p.ref)) = 1 ∧
          arcs.countP (fun a => decide (a.from_ = p.ref)) = 1) →
        toAdjacencyLoop arcs (l.map (fun p =>
          { p with
            arcsIn := arcIndices arcs (fun a => decide (a.to_ = p.ref))
            arcsOut := arcIndices arcs (fun a => decide (a.from_ = p.ref)) })) N T =
          some (true, tokenTriplets arcs l N, durationTriplets arcs l T)) ∧
      (¬ (∀ p ∈ l, arcs.countP (fun a => decide (a.to_ = p.ref)) = 1 ∧
          arcs.countP (fun a => decide (a.from_ = p.ref)) = 1) →
        ∃ N2 T2, toAdjacencyLoop arcs (l.map (fun p =>
          { p with
            arcsIn := arcIndices arcs (fun a => decide (a.to_ = p.ref))
            arcsOut := arcIndices arcs (fun a => decide (a.from_ = p.ref)) })) N T =
          some (false, N2, T2)) := by
  intro l
  induction l with
  | nil =>
    intro N T
    exact ⟨fun _ => rfl, fun h => absurd (fun p hp => by cases hp) h⟩
  | cons p rest ih =>
    intro N T
    rw [List.map_cons]
    unfold toAdjacencyLoop
    simp only [arcIndices_length]
    by_cases hin : arcs.countP (fun a => decide (a.to_ = p.ref)) = 1
    · obtain ⟨ain, hfin, hqin, hmin⟩ := find_some_of_countP_one hin
      have hbin := arcIndices_head_bind arcs (fun a => decide (a.to_ = p.ref))
      rw [hfin] at hbin
      obtain ⟨kin, hkin, hain⟩ := Option.bind_eq_some.1 hbin
      have hto : ain.to_ = p.ref := by simpa using hqin
      have htyin : ain.from_.type = NodeType.Transition := by
        have := hb ain hmin
        rw [hto] at this
        rcases type_cases ain.from_.type with h | h
        · exact absurd h this
        · exact h
      simp only [hin, ne_eq, not_true_eq_false, if_false, hkin, hain, htyin]
      by_cases hout : arcs.countP (fun a => decide (a.from_ = p.ref)) = 1
      · obtain ⟨aout, hfout, hqout, hmout⟩ := find_some_of_countP_one hout
        have hbout := arcIndices_head_bind arcs (fun a => decide (a.from_ = p.ref))
        rw [hfout] at hbout
        obtain ⟨kout, hkout, haout⟩ := Option.bind_eq_some.1 hbout
        have hfrom : aout.from_ = p.ref := by simpa using hqout
        have htyout : aout.to_.type = NodeType.Transition := by
          have := hb aout hmout
          rw [hfrom] at this
          rcases type_cases aout.to_.type with h | h
          · exact absurd h.symm this
          · exact h
        simp only [hout, not_true_eq_false, if_false, hkout, haout, htyout]
        obtain ⟨ih1, ih2⟩ := ih (N.add aout.to_.id ain.from_.id (roundFloat (p.tokens : ℚ)))
          (T.add aout.to_.id ain.from_.id ain.duration)
        constructor
        · intro h
          rw [ih1 (fun q hq => h q (List.mem_cons_of_mem _ hq))]
          simp only [tokenTriplets, durationTriplets, List.foldl_cons, predArc, succArc, hfin,
            hfout]
        · intro h
          apply ih2
          intro h2
          apply h
          intro q hq
          rcases List.mem_cons.1 hq with rfl | hq
          · exact ⟨hin, hout⟩
          · exact h2 q hq
      · simp only [hout, not_false_eq_true, if_true]
        exact ⟨fun h => absurd (h p (List.mem_cons_self _ _)).2 hout, fun _ => ⟨N, T, rfl⟩⟩
    · simp only [hin, ne_eq, not_false_eq_true, if_true]
      exact ⟨fun h => absurd (h p (List.mem_cons_self _ _)).1 hin, fun _ => ⟨N, T, rfl⟩⟩

theorem tokenTriplets_eq (arcs : List Arc) :
    ∀ (l : List Place) (N : SparseMatrix),
      (∀ p ∈ l, ∃ ain aout, predArc arcs p = some ain ∧ succArc arcs p = some aout) →
      tokenTriplets arcs l N =
        { i := N.i ++ l.map (fun p => ((succArc arcs p).map (fun a => a.to_.id)).getD 0)
          j := N.j ++ l.map (fun p => ((predArc arcs p).map (fun a => a.from_.id)).getD 0)
          d := N.d ++ l.map (fun p => roundFloat (p.tokens : ℚ))
          M := N.M
          N := N.N } := by
  intro l
  induction l with
  | nil => intro N _; simp [tokenTriplets]
  | cons p rest ih =>
    intro N h
    obtain ⟨ain, aout, h1, h2⟩ := h p (List.mem_cons_self _ _)
    have := ih (N.add aout.to_.id ain.from_.id (roundFloat (p.tokens : ℚ)))
      (fun q hq => h q (List.mem_cons_of_mem _ hq))
    unfold tokenTriplets at this ⊢
    rw [List.foldl_cons]
    simp only [h1, h2]
    rw [this]
    simp [SparseMatrix.add, h1, h2]

theorem durationTriplets_eq (arcs : List Arc) :
    ∀ (l : List Place) (T : SparseMatrix),
      (∀ p ∈ l, ∃ ain aout, predArc arcs p = some ain ∧ succArc arcs p = some aout) →
      durationTriplets arcs l T =
        { i := T.i ++ l.map (fun p => ((succArc arcs p).map (fun a => a.to_.id)).getD 0)
          j := T.j ++ l.map (fun p => ((predArc arcs p).map (fun a => a.from_.id)).getD 0)
          d := T.d ++ l.map (fun p => ((predArc arcs p).map (fun a => a.duration)).getD 0)
          M := T.M
          N := T.N } := by
  intro l
  induction l with
  | nil => intro T _; simp [durationTriplets]
  | cons p rest ih =>
    intro T h
    obtain ⟨ain, aout, h1, h2⟩ := h p (List.mem_cons_self _ _)
    have := ih (T.add aout.to_.id ain.from_.id ain.duration)
      (fun q hq => h q (List.mem_cons_of_mem _ hq))
    unfold durationTriplets at this ⊢
    rw [List.foldl_cons]
    simp only [h1, h2]
    rw [this]
    simp [SparseMatrix.add, h1, h2]

/-- C20 as stated fails on the value of `N`.  The place of the one-cycle net
T0 -> P0 -> T0 holds 16777217 tokens; `toAdjacencyMatrices` returns true and
stores in `N` the value `float(p.tokens)`, which is 16777216, not the token
count. -/
theorem C20_counterexample :
    (oneCycleNet 16777217 0).m_places.map Place.tokens = [16777217] ∧
    (oneCycleNet 16777217 0).toAdjacencyMatrices SparseMatrix.zero SparseMatrix.zero =
      some (true, ⟨[0], [0], [16777216], 1, 1⟩, ⟨[0], [0], [0], 1, 1⟩) := by
  decide!

/-- C20 (amended). On a bipartite net `toAdjacencyMatrices(N, T)` returns, and
returns true exactly when every place has exactly one input arc and exactly one
output arc.  In that case `N` and `T` have shape |transitions| x |transitions|
and hold |places| triplets each; for the k-th place `p`, with `ain` its input
arc and `aout` its output arc, the k-th triplet of `N` is
`(aout.to.id, ain.from.id, float(p.tokens))`, whose value is the token count
rounded to `float`, hence the token count itself when it is below 2^24, and the
k-th triplet of `T` is `(aout.to.id, ain.from.id, ain.duration)`. -/
theorem C20_toAdjacencyMatrices (net : PetriNet) (hb : Bipartite net) (N0 T0 : SparseMatrix) :
    ∃ b N T, net.toAdjacencyMatrices N0 T0 = some (b, N, T) ∧
      (b = true ↔
        ∀ p ∈ net.m_places,
          net.m_arcs.countP (fun a => decide (a.to_ = p.ref)) = 1 ∧
          net.m_arcs.countP (fun a => decide (a.from_ = p.ref)) = 1) ∧
      (b = true →
        N.M = net.m_transitions.length ∧ N.N = net.m_transitions.length ∧
        T.M = net.m_transitions.length ∧ T.N = net.m_transitions.length ∧
        N.i.length = net.m_places.length ∧ N.j.length = net.m_places.length ∧
        N.d.length = net.m_places.length ∧ T.i.length = net.m_places.length ∧
        T.j.length = net.m_places.length ∧ T.d.length = net.m_places.length ∧
        ∀ (k : Nat) (p : Place), net.m_places[k]? = some p →
          ∃ ain aout : Arc,
            ain ∈ net.m_arcs ∧ ain.to_ = p.ref ∧ ain.from_.type = NodeType.Transition ∧
            aout ∈ net.m_arcs ∧ aout.from_ = p.ref ∧ aout.to_.type = NodeType.Transition ∧
            N.i[k]? = some aout.to_.id ∧ N.j[k]? = some ain.from_.id ∧
            N.d[k]? = some (roundFloat (p.tokens : ℚ)) ∧
            (p.tokens < 2 ^ 24 → N.d[k]? = some (p.tokens : ℚ)) ∧
            T.i[k]? = some aout.to_.id ∧ T.j[k]? = some ain.from_.id ∧
            T.d[k]? = some ain.duration) := by
  have hlen : net.generateArcsInArcsOut.m_transitions.length = net.m_transitions.length := by
    simp [generateArcsInArcsOut]
  unfold PetriNet.toAdjacencyMatrices
  rw [(generate_frame net).2.1, generate_places net hb, hlen]
  obtain ⟨h1, h2⟩ := toAdjacencyLoop_generated net.m_arcs hb net.m_places
    ((N0.clear).dim net.m_transitions.length net.m_transitions.length)
    ((T0.clear).dim net.m_transitions.length net.m_transitions.length)
  by_cases h : ∀ p ∈ net.m_places,
      net.m_arcs.countP (fun a => decide (a.to_ = p.ref)) = 1 ∧
      net.m_arcs.countP (fun a => decide (a.from_ = p.ref)) = 1
  · have hsome : ∀ p ∈ net.m_places, ∃ ain aout,
        predArc net.m_arcs p = some ain ∧ succArc net.m_arcs p = some aout := by
      intro p hp
      obtain ⟨ain, hin, _, _⟩ := find_some_of_countP_one (h p hp).1
      obtain ⟨aout, hout, _, _⟩ := find_some_of_countP_one (h p hp).2
      exact ⟨ain, aout, hin, hout⟩
    refine ⟨true, _, _, h1 h, ⟨fun _ => h, fun _ => rfl⟩, fun _ => ?_⟩
    rw [tokenTriplets_eq net.m_arcs net.m_places _ hsome,
      durationTriplets_eq net.m_arcs net.m_places _ hsome]
    simp only [SparseMatrix.clear, SparseMatrix.dim, List.nil_append, List.length_map,
      List.getElem?_map, true_and]
    intro k p hk
    have hp : p ∈ net.m_places := List.getElem?_mem hk
    obtain ⟨ain, hin, hqin, hmin⟩ := find_some_of_countP_one (h p hp).1
    obtain ⟨aout, hout, hqout, hmout⟩ := find_some_of_countP_one (h p hp).2
    have hto : ain.to_ = p.ref := by simpa using hqin
    have hfrom : aout.from_ = p.ref := by simpa using hqout
    have htyin : ain.from_.type = NodeType.Transition := by
      have := hb ain hmin
      rw [hto] at this
      rcases type_cases ain.from_.type with h | h
      · exact absurd h this
      · exact h
    have htyout : aout.to_.type = NodeType.Transition := by
      have := hb aout hmout
      rw [hfrom] at this
      rcases type_cases aout.to_.type with h | h
      · exact absurd h.symm this
      · exact h
    refine ⟨ain, aout, hmin, hto, htyin, hmout, hfrom, htyout, ?_⟩
    simp only [hk, predArc, succArc, hin, hout, Option.map_some', Option.getD_some, true_and,
      and_true]
    intro hlt
    rw [roundFloat_natCast _ hlt]
  · obtain ⟨N2, T2, h3⟩ := h2 h
    exact ⟨false, N2, T2, h3, ⟨fun hf => (by cases hf), fun hh => absurd hh h⟩,
      fun hf => (by cases hf)⟩

/-- Witness of C20, scenario S4: on the loop T0 -> P0 -> T1 -> P1 -> T0 the
call returns true with N[1,0] = 1, N[0,1] = 0, T[1,0] = 2 and T[0,1] = 3. -/
theorem C20_toAdjacencyMatrices_witness :
    loopNet.toAdjacencyMatrices SparseMatrix.zero SparseMatrix.zero =
        some (true, ⟨[1, 0], [0, 1], [1, 0], 2, 2⟩, ⟨[1, 0], [0, 1], [2, 3], 2, 2⟩) ∧
    ∃ b N T, loopNet.toAdjacencyMatrices SparseMatrix.zero SparseMatrix.zero = some (b, N, T) ∧
      (b = true ↔
        ∀ p ∈ loopNet.m_places,
          loopNet.m_arcs.countP (fun a => decide (a.to_ = p.ref)) = 1 ∧
          loopNet.m_arcs.countP (fun a => decide (a.from_ = p.ref)) = 1) ∧
      (b = true →
        N.M = loopNet.m_transitions.length ∧ N.N = loopNet.m_transitions.length ∧
        T.M = loopNet.m_transitions.length ∧ T.N = loopNet.m_transitions.length ∧
        N.i.length = loopNet.m_places.length ∧ N.j.length = loopNet.m_places.length ∧
        N.d.length = loopNet.m_places.length ∧ T.i.length = loopNet.m_places.length ∧
        T.j.length = loopNet.m_places.length ∧ T.d.length = loopNet.m_places.length ∧
        ∀ (k : Nat) (p : Place), loopNet.m_places[k]? = some p →
          ∃ ain aout : Arc,
            ain ∈ loopNet.m_arcs ∧ ain.to_ = p.ref ∧ ain.from_.type = NodeType.Transition ∧
            aout ∈ loopNet.m_arcs ∧ aout.from_ = p.ref ∧
            aout.to_.type = NodeType.Transition ∧
            N.i[k]? = some aout.to_.id ∧ N.j[k]? = some ain.from_.id ∧
            N.d[k]? = some (roundFloat (p.tokens : ℚ)) ∧
            (p.tokens < 2 ^ 24 → N.d[k]? = some (p.tokens : ℚ)) ∧
            T.i[k]? = some aout.to_.id ∧ T.j[k]? = some ain.from_.id ∧
            T.d[k]? = some ain.duration) :=
  ⟨by decide,
    C20_toAdjacencyMatrices loopNet (by decide) SparseMatrix.zero SparseMatrix.zero⟩

/-! ## Claim C17: the canonical form next to a source and a sink -/

/-- C17 fails on the event graph T0 -> P0 -> T1 whose arcs were created in that
order and whose place holds one token: `toCanonicalForm` returns a net in which
P0 still holds its token and is still followed by the sink T1.  The block
`// Inputs` removes the arc T0 -> P0 from slot 0, which moves P0 -> T1 there,
and the block `// Outputs` then reads through `p.arcsOut[0]` the arc created
meanwhile in slot 1, T0 -> P1, whose end is not a sink. -/
theorem C17_toCanonicalForm_token_before_sink :
    sourceSinkNet.isEventGraph.1 = true ∧
    (∃ dst, sourceSinkNet.toCanonicalForm emptyNet = some dst ∧ ¬ Canonical dst) ∧
    (sourceSinkNet.toCanonicalForm emptyNet).map
        (fun dst => (dst.m_places.map (fun p => (p.id, p.tokens)), dst.m_arcs)) =
      some ([(0, 1), (1, 0)],
        [ ⟨⟨NodeType.Place, 0⟩, ⟨NodeType.Transition, 1⟩, 0⟩,
          ⟨⟨NodeType.Transition, 0⟩, ⟨NodeType.Place, 1⟩, 0⟩,
          ⟨⟨NodeType.Place, 1⟩, ⟨NodeType.Transition, 2⟩, 0⟩,
          ⟨⟨NodeType.Transition, 2⟩, ⟨NodeType.Place, 0⟩, 0⟩ ]) := by
  refine ⟨by decide, ?_, by decide⟩
  have h : (sourceSinkNet.toCanonicalForm emptyNet).isSome = true := by decide
  obtain ⟨dst, hd⟩ := Option.isSome_iff_exists.1 h
  refine ⟨dst, hd, ?_⟩
  have hc : (sourceSinkNet.toCanonicalForm emptyNet).map (fun n => decide (Canonical n)) =
      some false := by decide
  rw [hd] at hc
  simpa using hc

/-! ## Claims C18 and C19: the token explosion of toCanonicalForm -/

theorem places_data_tokens (l : List Place) :
    (l.map Place.data).map (fun x => x.2.2.2.2) = l.map Place.tokens := by
  simp [Place.data, Function.comp_def]

theorem map_tokens_of_map_data {l l' : List Place} (h : l'.map Place.data = l.map Place.data) :
    l'.map Place.tokens = l.map Place.tokens := by
  rw [← places_data_tokens, ← places_data_tokens, h]

theorem wf_of_ids {net net' : PetriNet}
    (hp : net'.m_places.map Place.id = net.m_places.map Place.id)
    (ht : net'.m_transitions.map Transition.id = net.m_transitions.map Transition.id)
    (hnp : net'.m_next_place_id = net.m_next_place_id)
    (hnt : net'.m_next_transition_id = net.m_next_transition_id)
    (ha : net'.m_arcs = net.m_arcs)
    (h : WellFormed net) : WellFormed net' := by
  have lp : net'.m_places.length = net.m_places.length := by
    simpa using congrArg List.length hp
  have lt : net'.m_transitions.length = net.m_transitions.length := by
    simpa using congrArg List.length ht
  obtain ⟨hd, hr, hu, hb⟩ := h
  refine ⟨?_, ?_, ?_, ?_⟩
  · unfold IdDense
    rw [hp, ht, hnp, hnt, lp, lt]
    exact hd
  · intro a ha'
    rw [ha] at ha'
    have := hr a ha'
    exact ⟨validRef_of_lengths (Nat.le_of_eq lp.symm) (Nat.le_of_eq lt.symm) this.1,
      validRef_of_lengths (Nat.le_of_eq lp.symm) (Nat.le_of_eq lt.symm) this.2⟩
  · unfold ArcsUnique
    rw [ha]
    exact hu
  · intro a ha'
    rw [ha] at ha'
    exact hb a ha'

theorem addArc_fresh {net : PetriNet} (hd : IdDense net) {f t : NodeRef} (d : ℚ) (s : Bool)
    (hf : validRef net f) (ht : validRef net t) (hty : f.type ≠ t.type)
    (hnew : ∀ a ∈ net.m_arcs, ¬ (a.from_ = f ∧ a.to_ = t)) :
    (net.addArc f t d s).2.m_type = net.m_type ∧
    (net.addArc f t d s).2.m_arcs = net.m_arcs ++ [⟨f, t, d⟩] ∧
    (net.addArc f t d s).2.m_next_place_id = net.m_next_place_id ∧
    (net.addArc f t d s).2.m_next_transition_id = net.m_next_transition_id ∧
    (net.addArc f t d s).2.m_places.map Place.data = net.m_places.map Place.data ∧
    (net.addArc f t d s).2.m_transitions.map Transition.data =
      net.m_transitions.map Transition.data := by
  have hF : net.findNode f.key = some f.ptr := by rw [findNode_of_dense hd, if_pos hf]
  have hT : net.findNode t.key = some t.ptr := by rw [findNode_of_dense hd, if_pos ht]
  rw [addArc_normal d s (findArc_eq_none_iff.2 hnew) hF hT hty]
  obtain ⟨a1, a2, a3, a4, _, a6, a7⟩ := linkArc_frame net f.ptr f t.ptr t d
  exact ⟨a1, a2, a3, a4, a6, a7⟩

theorem not_validRef_next_place {net : PetriNet} (hd : IdDense net) :
    ¬ validRef net ⟨NodeType.Place, net.m_next_place_id⟩ := by
  simp [validRef, hd.2.1]

theorem not_validRef_next_transition {net : PetriNet} (hd : IdDense net) :
    ¬ validRef net ⟨NodeType.Transition, net.m_next_transition_id⟩ := by
  simp [validRef, hd.2.2.2]

theorem addPlace_addArc {net : PetriNet} (h : WellFormed net) {f : NodeRef} (x y : ℚ)
    (tokens : Nat) (d : ℚ) (s : Bool) (hf : validRef net f) (hty : f.type = NodeType.Transition) :
    WellFormed ((net.addPlace x y tokens).addArc f ⟨NodeType.Place, net.m_next_place_id⟩ d s).2 ∧
    ((net.addPlace x y tokens).addArc f ⟨NodeType.Place, net.m_next_place_id⟩ d s).2.m_type =
      net.m_type ∧
    ((net.addPlace x y tokens).addArc f ⟨NodeType.Place, net.m_next_place_id⟩ d s).2.m_arcs =
      net.m_arcs ++ [⟨f, ⟨NodeType.Place, net.m_places.length⟩, d⟩] ∧
    (((net.addPlace x y tokens).addArc f ⟨NodeType.Place, net.m_next_place_id⟩ d
      s).2.m_places.map Place.tokens) = net.m_places.map Place.tokens ++ [tokens] ∧
    ((net.addPlace x y tokens).addArc f ⟨NodeType.Place, net.m_next_place_id⟩ d
      s).2.m_transitions.length = net.m_transitions.length := by
  have hw := wf_addPlace h x y tokens
  have hf1 : validRef (net.addPlace x y tokens) f :=
    validRef_of_lengths (by simp [addPlace]) (by simp [addPlace]) hf
  have ht1 : validRef (net.addPlace x y tokens) ⟨NodeType.Place, net.m_next_place_id⟩ := by
    simp [validRef, addPlace, h.1.2.1]
  have hnew : ∀ a ∈ (net.addPlace x y tokens).m_arcs,
      ¬ (a.from_ = f ∧ a.to_ = ⟨NodeType.Place, net.m_next_place_id⟩) := by
    intro a ha hh
    have hv := (h.2.1 a ha).2
    rw [hh.2] at hv
    exact not_validRef_next_place h.1 hv
  obtain ⟨a1, a2, _, _, a5, a6⟩ := addArc_fresh hw.1 d s hf1 ht1
    (by rw [hty]; exact fun e => NodeType.noConfusion e) hnew
  refine ⟨wf_addArc hw _ _ d s, a1, ?_, ?_, ?_⟩
  · rw [a2, h.1.2.1]
    rfl
  · rw [map_tokens_of_map_data a5]
    simp [addPlace, Place.make]
  · have := congrArg List.length a6
    simpa [addPlace] using this

theorem addTransition_addArc {net : PetriNet} (h : WellFormed net) {f : NodeRef} (x y : ℚ)
    (d : ℚ) (s : Bool) (hf : validRef net f) (hty : f.type = NodeType.Place) :
    WellFormed ((net.addTransition x y).addArc f
      ⟨NodeType.Transition, net.m_next_transition_id⟩ d s).2 ∧
    ((net.addTransition x y).addArc f ⟨NodeType.Transition, net.m_next_transition_id⟩ d
      s).2.m_type = net.m_type ∧
    ((net.addTransition x y).addArc f ⟨NodeType.Transition, net.m_next_transition_id⟩ d
      s).2.m_arcs = net.m_arcs ++ [⟨f, ⟨NodeType.Transition, net.m_transitions.length⟩, d⟩] ∧
    (((net.addTransition x y).addArc f ⟨NodeType.Transition, net.m_next_transition_id⟩ d
      s).2.m_places.map Place.tokens) = net.m_places.map Place.tokens ∧
    ((net.addTransition x y).addArc f ⟨NodeType.Transition, net.m_next_transition_id⟩ d
      s).2.m_transitions.length = net.m_transitions.length + 1 := by
  have hw := wf_addTransition h x y
  have hf1 : validRef (net.addTransition x y) f :=
    validRef_of_lengths (by simp [addTransition]) (by simp [addTransition]) hf
  have ht1 : validRef (net.addTransition x y)
      ⟨NodeType.Transition, net.m_next_transition_id⟩ := by
    simp [validRef, addTransition, h.1.2.2.2]
  have hnew : ∀ a ∈ (net.addTransition x y).m_arcs,
      ¬ (a.from_ = f ∧ a.to_ = ⟨NodeType.Transition, net.m_next_transition_id⟩) := by
    intro a ha hh
    have hv := (h.2.1 a ha).2
    rw [hh.2] at hv
    exact not_validRef_next_transition h.1 hv
  obtain ⟨a1, a2, _, _, a5, a6⟩ := addArc_fresh hw.1 d s hf1 ht1
    (by rw [hty]; exact fun e => NodeType.noConfusion e) hnew
  refine ⟨wf_addArc hw _ _ d s, a1, ?_, ?_, ?_⟩
  · rw [a2, h.1.2.2.2]
    rfl
  · rw [map_tokens_of_map_data a5]
    rfl
  · have := congrArg List.length a6
    simpa [addTransition] using this

theorem map_tokens_modify (l : List Place) (i : Nat) (p : Place) (hp : l[i]? = some p) :
    (l.modify (fun q => { q with tokens := q.tokens - 1 }) i).map Place.tokens =
      (l.map Place.tokens).set i (p.tokens - 1) := by
  induction l generalizing i with
  | nil => simp at hp
  | cons a l ih =>
    cases i with
    | zero =>
      simp only [List.getElem?_cons_zero, Option.some.injEq] at hp
      simp [hp]
    | succ n =>
      simp only [List.getElem?_cons_succ] at hp
      simp [ih n hp]

theorem set_eq_self_of_getElem {α : Type} (l : List α) (i : Nat) (x : α) (h : l[i]? = some x) :
    l.set i x = l := by
  induction l generalizing i with
  | nil => rfl
  | cons a l ih =>
    cases i with
    | zero =>
      simp only [List.getElem?_cons_zero, Option.some.injEq] at h
      simp [h]
    | succ n =>
      simp only [List.getElem?_cons_succ] at h
      simp [ih n h]

theorem decrement_spec {net : PetriNet} (h : WellFormed net) (i : Nat) (p : Place)
    (hp : net.m_places[i]? = some p) :
    WellFormed
      { net with
        m_places := net.m_places.modify (fun q => { q with tokens := q.tokens - 1 }) i } ∧
    ({ net with
        m_places := net.m_places.modify (fun q => { q with tokens := q.tokens - 1 }) i } :
      PetriNet).m_places.map Place.tokens = (net.m_places.map Place.tokens).set i (p.tokens - 1) :=
  ⟨@wf_of_ids net _ (map_modify_of_fix Place.id (fun q : Place => { q with tokens := q.tokens - 1 })
    (fun _ => rfl) net.m_places i) rfl rfl rfl rfl h, map_tokens_modify net.m_places i p hp⟩

theorem explodeLoop_spec (i : Nat) (d : ℚ) :
    ∀ (m : Nat) (net : PetriNet) (from_ : NodeRef),
      WellFormed net → validRef net from_ → from_.type = NodeType.Transition →
      (net.m_places.map Place.tokens)[i]? = some (m + 1) →
      ∃ net1, explodeLoop i d m net from_ = some net1 ∧ WellFormed net1 ∧
        net1.m_type = net.m_type ∧
        net1.m_arcs =
          net.m_arcs ++ chainArcs from_ net.m_places.length net.m_transitions.length m ++
            (if m = 0 then []
              else [⟨⟨NodeType.Transition, net.m_transitions.length + m - 1⟩,
                ⟨NodeType.Place, i⟩, d⟩]) ∧
        net1.m_places.map Place.tokens =
          (net.m_places.map Place.tokens).set i 1 ++ List.replicate m 1 ∧
        net1.m_transitions.length = net.m_transitions.length + m := by
  intro m
  induction m with
  | zero =>
    intro net from_ h _ _ htok
    refine ⟨net, rfl, h, rfl, by simp [chainArcs], ?_, rfl⟩
    rw [set_eq_self_of_getElem _ _ _ htok]
    simp
  | succ m ih =>
    intro net from_ h hf hty htok
    have hi : i < net.m_places.length := by
      rcases Nat.lt_or_ge i net.m_places.length with hlt | hge
      · exact hlt
      · rw [List.getElem?_eq_none (by simpa using hge)] at htok
        cases htok
    obtain ⟨w1, ty1, ar1, tk1, tl1⟩ :=
      addPlace_addArc h 10 10 1 defaultDuration defaultStrict hf hty
    have pl1 := congrArg List.length tk1
    simp only [List.length_map, List.length_append, List.length_singleton] at pl1
    unfold explodeLoop
    simp only
    generalize ((net.addPlace 10 10 1).addArc from_ ⟨NodeType.Place, net.m_next_place_id⟩
      defaultDuration defaultStrict).2 = n1 at w1 ty1 ar1 tk1 tl1 pl1 ⊢
    have hv1 : validRef n1 ⟨NodeType.Place, net.m_next_place_id⟩ := by
      simp [validRef, pl1, h.1.2.1]
    have hnt : n1.m_next_transition_id = net.m_transitions.length := by
      rw [w1.1.2.2.2, tl1]
    obtain ⟨w2, ty2, ar2, tk2, tl2⟩ :=
      addTransition_addArc w1 20 20 defaultDuration defaultStrict hv1 rfl
    have pl2 := congrArg List.length tk2
    simp only [List.length_map] at pl2
    generalize ((n1.addTransition 20 20).addArc ⟨NodeType.Place, net.m_next_place_id⟩
      ⟨NodeType.Transition, n1.m_next_transition_id⟩ defaultDuration defaultStrict).2 = n2
      at w2 ty2 ar2 tk2 tl2 pl2 ⊢
    have hi2 : i < n2.m_places.length := by omega
    have hp2 : n2.m_places[i]? = some n2.m_places[i] := List.getElem?_eq_getElem hi2
    have hid : n2.m_places[i].id = i := getElem_of_map_eq_range w2.1.1 i hi2
    have htk : n2.m_places[i].tokens = m + 2 := by
      have h1 : (n2.m_places.map Place.tokens)[i]? = some (m + 2) := by
        rw [tk2, tk1, List.getElem?_append_left (by simpa using hi)]
        exact htok
      rw [List.getElem?_map, hp2] at h1
      simpa using h1
    rw [hp2]
    dsimp only
    have e21 : m + 2 - 1 = m + 1 := by omega
    rw [htk, e21]
    simp only [Place.ref, hid]
    obtain ⟨w3, tk3⟩ := decrement_spec w2 i _ hp2
    rw [htk, tk2, tk1, e21] at tk3
    have hv2 : validRef n2 ⟨NodeType.Transition, n1.m_next_transition_id⟩ := by
      simp [validRef, hnt, tl2, tl1]
    generalize hn3 : ({ n2 with
      m_places := n2.m_places.modify (fun q => { q with tokens := q.tokens - 1 }) i } :
        PetriNet) = n3 at w3 tk3 ⊢
    have ar3 : n3.m_arcs = n2.m_arcs := by rw [← hn3]
    have tl3 : n3.m_transitions.length = n2.m_transitions.length := by rw [← hn3]
    have pl3 : n3.m_places.length = n2.m_places.length := by
      rw [← hn3]
      simp
    have ty3 : n3.m_type = n2.m_type := by rw [← hn3]
    have hv3 : validRef n3 ⟨NodeType.Transition, n1.m_next_transition_id⟩ := by
      simp [validRef, hnt, tl3, tl2, tl1]
    by_cases hm : m = 0
    · subst hm
      simp only [Nat.zero_add, if_true]
      have hvp : validRef n3 ⟨NodeType.Place, i⟩ := by
        simp [validRef, pl3]; omega
      have hnew : ∀ a ∈ n3.m_arcs, ¬ (a.from_ = ⟨NodeType.Transition, n1.m_next_transition_id⟩ ∧
          a.to_ = ⟨NodeType.Place, i⟩) := by
        intro a ha hh
        rw [ar3, ar2, ar1] at ha
        simp only [List.mem_append, List.mem_singleton] at ha
        rcases ha with (ha | ha) | ha
        · have := (h.2.1 a ha).1
          rw [hh.1, hnt] at this
          simp [validRef] at this
        · rw [ha] at hh
          have := hh.1
          simp only at this
          rw [this, hnt] at hf
          simp [validRef] at hf
        · rw [ha] at hh
          have := hh.1
          simp at this
      obtain ⟨b1, b2, _, _, b5, b6⟩ := addArc_fresh w3.1 d defaultStrict hv3 hvp
        (fun e => NodeType.noConfusion e) hnew
      have w4 := wf_addArc w3 ⟨NodeType.Transition, n1.m_next_transition_id⟩
        ⟨NodeType.Place, i⟩ d defaultStrict
      generalize (n3.addArc ⟨NodeType.Transition, n1.m_next_transition_id⟩
        ⟨NodeType.Place, i⟩ d defaultStrict).2 = n4 at b1 b2 b5 b6 w4 ⊢
      refine ⟨n4, rfl, w4, by rw [b1, ty3, ty2, ty1], ?_, ?_, ?_⟩
      · rw [b2, ar3, ar2, ar1, hnt, h.1.2.1, tl1]
        simp [chainArcs]
      · rw [map_tokens_of_map_data b5, tk3, List.set_append_left _ _ (by simpa using hi)]
        rfl
      · have := congrArg List.length b6
        simp only [List.length_map] at this
        rw [this, tl3, tl2, tl1]
    · have hne : ¬ (m + 1 = 1) := by omega
      simp only [hne, if_false]
      have htok3 : (n3.m_places.map Place.tokens)[i]? = some (m + 1) := by
        rw [tk3, List.getElem?_set_self (by simp; omega)]
      obtain ⟨n4, e4, w4, ty4, ar4, tk4, tl4⟩ :=
        ih n3 ⟨NodeType.Transition, n1.m_next_transition_id⟩ w3 hv3 rfl htok3
      refine ⟨n4, e4, w4, by rw [ty4, ty3, ty2, ty1], ?_, ?_, ?_⟩
      · rw [ar4, ar3, ar2, ar1, pl3, pl2, pl1, tl3, tl2, tl1, hnt, h.1.2.1]
        simp only [hm, if_false, Nat.add_one_ne_zero, chainArcs, List.append_assoc,
          List.singleton_append]
        have e : net.m_transitions.length + 1 + m - 1 = net.m_transitions.length + (m + 1) - 1 := by
          omega
        rw [e]
        simp
      · rw [tk4, tk3, List.set_set, List.set_append_left _ _ (by simpa using hi),
          List.append_assoc]
        rfl
      · rw [tl4, tl3, tl2, tl1]
        omega

theorem countP_to_chainArcs (r : NodeRef) :
    ∀ (n : Nat) (u : NodeRef) (np nt : Nat),
      (chainArcs u np nt n).countP (fun a => decide (a.to_ = r)) =
        if (r.type = NodeType.Place ∧ np ≤ r.id ∧ r.id < np + n) ∨
            (r.type = NodeType.Transition ∧ nt ≤ r.id ∧ r.id < nt + n) then 1 else 0 := by
  intro n
  induction n with
  | zero =>
    intro u np nt
    rw [if_neg (by omega)]
    rfl
  | succ n ih =>
    intro u np nt
    obtain ⟨ty, id⟩ := r
    simp only [chainArcs, List.countP_cons, ih]
    cases ty <;> simp only [NodeRef.mk.injEq, true_and, false_and, and_false, or_false,
      false_or, decide_eq_true_eq, reduceCtorEq] <;> split_ifs <;>
      first | contradiction | omega

theorem countP_from_chainArcs (r : NodeRef) :
    ∀ (n : Nat) (u : NodeRef) (np nt : Nat),
      (chainArcs u np nt n).countP (fun a => decide (a.from_ = r)) =
        (if 0 < n ∧ u = r then 1 else 0) +
        (if (r.type = NodeType.Place ∧ np ≤ r.id ∧ r.id < np + n) ∨
            (r.type = NodeType.Transition ∧ nt ≤ r.id ∧ r.id + 1 < nt + n) then 1 else 0) := by
  intro n
  induction n with
  | zero =>
    intro u np nt
    rw [if_neg (by omega), if_neg (by omega)]
    rfl
  | succ n ih =>
    intro u np nt
    obtain ⟨ty, id⟩ := r
    simp only [chainArcs, List.countP_cons, ih]
    by_cases hu : u = ⟨ty, id⟩
    · cases ty <;> simp only [hu, NodeRef.mk.injEq, true_and, false_and, and_false, or_false,
        false_or, decide_eq_true_eq, reduceCtorEq, and_true, Nat.zero_lt_succ] <;>
        split_ifs <;> first | contradiction | omega
    · cases ty <;> simp only [hu, NodeRef.mk.injEq, true_and, false_and, and_false, or_false,
        false_or, decide_eq_true_eq, reduceCtorEq, and_true, Nat.zero_lt_succ] <;>
        split_ifs <;> first | contradiction | omega

theorem countP_eraseIdx {α : Type} (q : α → Bool) (l : List α) (m : Nat) (x : α)
    (h : l[m]? = some x) :
    (l.eraseIdx m).countP q + (if q x = true then 1 else 0) = l.countP q := by
  induction l generalizing m with
  | nil => simp at h
  | cons a l ih =>
    cases m with
    | zero =>
      simp only [List.getElem?_cons_zero, Option.some.injEq] at h
      subst h
      simp [List.countP_cons]
    | succ n =>
      simp only [List.getElem?_cons_succ] at h
      simp only [List.eraseIdx_cons_succ, List.countP_cons]
      have := ih n h
      omega

theorem countP_removeArc (net : PetriNet) (f t : NodeRef) (q : Arc → Bool) (b : Bool)
    (hq : ∀ a, a.from_ = f → a.to_ = t → q a = b)
    (he : ∃ e ∈ net.m_arcs, e.from_ = f ∧ e.to_ = t) :
    (net.removeArc f t).2.m_arcs.countP q + (if b = true then 1 else 0) =
      net.m_arcs.countP q := by
  rcases removeArcLoop_spec f t net.m_arcs.length net.m_arcs (Nat.le_refl _) with
    ⟨_, h2⟩ | ⟨m, a, hm, ha, hft, _, hres⟩
  · obtain ⟨e, hmem, h1⟩ := he
    obtain ⟨j, hj, rfl⟩ := List.getElem_of_mem hmem
    exact absurd h1 (h2 j _ hj (List.getElem?_eq_getElem hj))
  · simp only [removeArc, hres]
    rw [(swapRemove_perm net.m_arcs m hm).countP_eq, ← hq a hft.1 hft.2]
    exact countP_eraseIdx q net.m_arcs m a ha

theorem nodeAt_of_valid {net : PetriNet} (hd : IdDense net) {r : NodeRef}
    (h : validRef net r) : net.nodeAt r.type r.id = some r := by
  obtain ⟨ty, id⟩ := r
  cases ty
  · have hlt : id < net.m_places.length := h
    simp only [PetriNet.nodeAt, List.getElem?_eq_getElem hlt, Option.map_some', Place.ref,
      getElem_of_map_eq_range hd.1 id hlt]
  · have hlt : id < net.m_transitions.length := h
    simp only [PetriNet.nodeAt, List.getElem?_eq_getElem hlt, Option.map_some', Transition.ref,
      getElem_of_map_eq_range hd.2.2.1 id hlt]

theorem rebindArcs_self {net : PetriNet} (hd : IdDense net) :
    ∀ l : List Arc, (∀ a ∈ l, validRef net a.from_ ∧ validRef net a.to_) →
      rebindArcs net l = some l := by
  intro l
  induction l with
  | nil => intro _; rfl
  | cons a rest ih =>
    intro h
    have ha := h a (List.mem_cons_self _ _)
    simp only [rebindArcs, nodeAt_of_valid hd ha.1, nodeAt_of_valid hd ha.2,
      ih (fun x hx => h x (List.mem_cons_of_mem _ hx))]

theorem assign_of_wf (canonic : PetriNet) {net : PetriNet} (h : WellFormed net) :
    ∃ n0, canonic.assign net = some n0 ∧ WellFormed n0 ∧ n0.m_type = net.m_type ∧
      n0.m_arcs = net.m_arcs ∧
      n0.m_places = net.m_places.map (fun p =>
        { p with
          arcsIn := arcIndices net.m_arcs (fun a => decide (a.to_ = p.ref))
          arcsOut := arcIndices net.m_arcs (fun a => decide (a.from_ = p.ref)) }) ∧
      n0.m_transitions.length = net.m_transitions.length := by
  have hw : WellFormed
      { canonic with
        m_type := net.m_type
        m_places := net.m_places
        m_transitions := net.m_transitions
        m_next_place_id := net.m_next_place_id
        m_next_transition_id := net.m_next_transition_id
        m_arcs := net.m_arcs } := @wf_of_ids net _ rfl rfl rfl rfl rfl h
  refine ⟨_, ?_, wf_generate hw, rfl, rfl, generate_places _ hw.2.2.2, ?_⟩
  · simp only [PetriNet.assign, rebindArcs_self h.1 net.m_arcs h.2.1, Option.map_some']
  · simp [generateArcsInArcsOut]

theorem explodePlaces_skip :
    ∀ (n : Nat) (net : PetriNet), n ≤ net.m_places.length →
      (∀ j t, j < n → (net.m_places.map Place.tokens)[j]? = some t → t ≤ 1) →
      explodePlaces n net = some net := by
  intro n
  induction n with
  | zero => intro net _ _; rfl
  | succ n ih =>
    intro net hn h
    have hlt : n < net.m_places.length := hn
    have hle := h n net.m_places[n].tokens (Nat.lt_succ_self n)
      (by rw [List.getElem?_map, List.getElem?_eq_getElem hlt]; rfl)
    unfold explodePlaces
    simp only [List.getElem?_eq_getElem hlt]
    rw [if_neg (by omega)]
    exact ih net (Nat.le_of_lt hlt) (fun j t hj => h j t (Nat.lt_succ_of_lt hj))

theorem explodePlaces_descend (i : Nat) :
    ∀ (n : Nat) (net : PetriNet), i < n → n ≤ net.m_places.length →
      (∀ j t, i < j → j < n → (net.m_places.map Place.tokens)[j]? = some t → t ≤ 1) →
      explodePlaces n net = explodePlaces (i + 1) net := by
  intro n
  induction n with
  | zero => intro net hi; omega
  | succ n ih =>
    intro net hi hn h
    by_cases hin : i = n
    · rw [hin]
    · have hlt : n < net.m_places.length := hn
      have hle := h n net.m_places[n].tokens (by omega) (Nat.lt_succ_self n)
        (by rw [List.getElem?_map, List.getElem?_eq_getElem hlt]; rfl)
      rw [explodePlaces]
      simp only [List.getElem?_eq_getElem hlt]
      rw [if_neg (by omega)]
      exact ih net (by omega) (Nat.le_of_lt hlt) (fun j t h1 h2 => h j t h1 (Nat.lt_succ_of_lt h2))

theorem generate_transitions (net : PetriNet) (hb : Bipartite net) :
    net.generateArcsInArcsOut.m_transitions =
      net.m_transitions.map (fun t =>
        { t with
          arcsIn := arcIndices net.m_arcs (fun a => decide (a.to_ = t.ref))
          arcsOut := arcIndices net.m_arcs (fun a => decide (a.from_ = t.ref)) }) := by
  unfold generateArcsInArcsOut
  simp only
  apply List.map_congr_left
  intro t _
  rw [(generate_transition_lists hb t).1, (generate_transition_lists hb t).2]

theorem find_some_of_countP_pos {arcs : List Arc} {q : Arc → Bool} (h : 0 < arcs.countP q) :
    ∃ a, arcs.find? q = some a ∧ q a = true ∧ a ∈ arcs := by
  cases hf : arcs.find? q with
  | none =>
    have := List.find?_eq_none.1 hf
    have h0 : arcs.countP q = 0 := List.countP_eq_zero.2 (fun a ha => by simpa using this a ha)
    omega
  | some a => exact ⟨a, rfl, List.find?_some hf, List.mem_of_find?_eq_some hf⟩

theorem firstArc_arcIndices (net : PetriNet) (q : Arc → Bool) :
    net.firstArc (arcIndices net.m_arcs q) = net.m_arcs.find? q := by
  rw [← arcIndices_head_bind]
  unfold PetriNet.firstArc
  cases (arcIndices net.m_arcs q)[0]? <;> rfl

theorem isInput_generate {net : PetriNet} (h : WellFormed net) {r : NodeRef}
    (hv : validRef net r) (hty : r.type = NodeType.Transition) :
    net.generateArcsInArcsOut.isInput r =
      some (decide (net.m_arcs.countP (fun a => decide (a.to_ = r)) = 0)) := by
  obtain ⟨ty, id⟩ := r
  simp only at hty
  subst hty
  have hlt : id < net.m_transitions.length := hv
  have hid := getElem_of_map_eq_range h.1.2.2.1 id hlt
  simp only [PetriNet.isInput, PetriNet.nodeArcsIn, generate_transitions net h.2.2.2,
    List.getElem?_map, List.getElem?_eq_getElem hlt, Option.map_some', arcIndices_length,
    Transition.ref, hid]

theorem isOutput_generate {net : PetriNet} (h : WellFormed net) {r : NodeRef}
    (hv : validRef net r) (hty : r.type = NodeType.Transition) :
    net.generateArcsInArcsOut.isOutput r =
      some (decide (net.m_arcs.countP (fun a => decide (a.from_ = r)) = 0)) := by
  obtain ⟨ty, id⟩ := r
  simp only at hty
  subst hty
  have hlt : id < net.m_transitions.length := hv
  have hid := getElem_of_map_eq_range h.1.2.2.1 id hlt
  simp only [PetriNet.isOutput, PetriNet.nodeArcsOut, generate_transitions net h.2.2.2,
    List.getElem?_map, List.getElem?_eq_getElem hlt, Option.map_some', arcIndices_length,
    Transition.ref, hid]

theorem pushFromInput_noop {net : PetriNet} (h : WellFormed net) (i : Nat) (p : Place)
    (hp : net.m_places[i]? = some p)
    (hin : 0 < net.m_arcs.countP (fun a => decide (a.to_ = p.ref)))
    (hT : ∀ r, validRef net r → r.type = NodeType.Transition →
      0 < net.m_arcs.countP (fun a => decide (a.to_ = r))) :
    pushFromInput net.generateArcsInArcsOut i = some net.generateArcsInArcsOut := by
  obtain ⟨a, hfind, hq, hmem⟩ := find_some_of_countP_pos hin
  have hto : a.to_ = p.ref := by simpa using hq
  have hty : a.from_.type = NodeType.Transition := by
    have := h.2.2.2 a hmem
    rw [hto] at this
    rcases type_cases a.from_.type with h1 | h1
    · exact absurd h1 this
    · exact h1
  have hv := (h.2.1 a hmem).1
  have hpos := hT a.from_ hv hty
  have hgp : net.generateArcsInArcsOut.m_places[i]? = some
      { p with
        arcsIn := arcIndices net.m_arcs (fun a => decide (a.to_ = p.ref))
        arcsOut := arcIndices net.m_arcs (fun a => decide (a.from_ = p.ref)) } := by
    rw [generate_places net h.2.2.2, List.getElem?_map, hp]
    rfl
  unfold pushFromInput
  rw [hgp]
  simp only
  have hfa : net.generateArcsInArcsOut.firstArc
      (arcIndices net.m_arcs (fun a => decide (a.to_ = p.ref))) = some a := by
    rw [← hfind]
    exact firstArc_arcIndices net _
  rw [hfa]
  simp only
  rw [isInput_generate h hv hty]
  have : decide (net.m_arcs.countP (fun b => decide (b.to_ = a.from_)) = 0) = false := by
    simp only [decide_eq_false_iff_not]
    omega
  rw [this]

theorem pushFromOutput_noop {net : PetriNet} (h : WellFormed net) (i : Nat) (p : Place)
    (hp : net.m_places[i]? = some p)
    (hout : 0 < net.m_arcs.countP (fun a => decide (a.from_ = p.ref)))
    (hT : ∀ r, validRef net r → r.type = NodeType.Transition →
      0 < net.m_arcs.countP (fun a => decide (a.from_ = r))) :
    pushFromOutput net.generateArcsInArcsOut i = some net.generateArcsInArcsOut := by
  obtain ⟨a, hfind, hq, hmem⟩ := find_some_of_countP_pos hout
  have hfrom : a.from_ = p.ref := by simpa using hq
  have hty : a.to_.type = NodeType.Transition := by
    have := h.2.2.2 a hmem
    rw [hfrom] at this
    rcases type_cases a.to_.type with h1 | h1
    · exact absurd h1.symm this
    · exact h1
  have hv := (h.2.1 a hmem).2
  have hpos := hT a.to_ hv hty
  have hgp : net.generateArcsInArcsOut.m_places[i]? = some
      { p with
        arcsIn := arcIndices net.m_arcs (fun a => decide (a.to_ = p.ref))
        arcsOut := arcIndices net.m_arcs (fun a => decide (a.from_ = p.ref)) } := by
    rw [generate_places net h.2.2.2, List.getElem?_map, hp]
    rfl
  unfold pushFromOutput
  rw [hgp]
  simp only
  have hfa : net.generateArcsInArcsOut.firstArc
      (arcIndices net.m_arcs (fun a => decide (a.from_ = p.ref))) = some a := by
    rw [← hfind]
    exact firstArc_arcIndices net _
  rw [hfa]
  simp only
  rw [isOutput_generate h hv hty]
  have : decide (net.m_arcs.countP (fun b => decide (b.from_ = a.to_)) = 0) = false := by
    simp only [decide_eq_false_iff_not]
    omega
  rw [this]

theorem boundaryPlaces_noop {net : PetriNet} (h : WellFormed net)
    (hP : ∀ p ∈ net.m_places, p.tokens = 1 →
      0 < net.m_arcs.countP (fun a => decide (a.to_ = p.ref)) ∧
      0 < net.m_arcs.countP (fun a => decide (a.from_ = p.ref)))
    (hT : ∀ r, validRef net r → r.type = NodeType.Transition →
      0 < net.m_arcs.countP (fun a => decide (a.to_ = r)) ∧
      0 < net.m_arcs.countP (fun a => decide (a.from_ = r))) :
    ∀ n, n ≤ net.m_places.length →
      boundaryPlaces n net.generateArcsInArcsOut = some net.generateArcsInArcsOut := by
  intro n
  induction n with
  | zero => intro _; rfl
  | succ n ih =>
    intro hn
    have hlt : n < net.m_places.length := hn
    have hp : net.m_places[n]? = some net.m_places[n] := List.getElem?_eq_getElem hlt
    have hgp : net.generateArcsInArcsOut.m_places[n]? = some
        { net.m_places[n] with
          arcsIn := arcIndices net.m_arcs (fun a => decide (a.to_ = net.m_places[n].ref))
          arcsOut := arcIndices net.m_arcs (fun a => decide (a.from_ = net.m_places[n].ref)) } := by
      rw [generate_places net h.2.2.2, List.getElem?_map, hp]
      rfl
    unfold boundaryPlaces
    rw [hgp]
    simp only
    by_cases ht : net.m_places[n].tokens = 1
    · have hc := hP _ (List.getElem_mem hlt) ht
      rw [if_pos ht, pushFromInput_noop h n _ hp hc.1 (fun r hv hty => (hT r hv hty).1)]
      simp only
      rw [pushFromOutput_noop h n _ hp hc.2 (fun r hv hty => (hT r hv hty).2)]
      exact ih (Nat.le_of_lt hlt)
    · rw [if_neg ht]
      exact ih (Nat.le_of_lt hlt)

theorem isEventGraph_of_counts {net : PetriNet} (hb : Bipartite net)
    (he : net.isEmpty = false)
    (h : ∀ p ∈ net.m_places,
      net.m_arcs.countP (fun a => decide (a.to_ = p.ref)) = 1 ∧
      net.m_arcs.countP (fun a => decide (a.from_ = p.ref)) = 1) :
    net.isEventGraph.1 = true := by
  rw [isEventGraph_eq net hb he]
  cases hf : firstOffendingPlace net with
  | none => rfl
  | some q =>
    have hq := List.find?_some hf
    have := h q (List.mem_of_find?_eq_some hf)
    simp [this.1, this.2] at hq

theorem countP_eq_zero_of_not_valid_to {net : PetriNet} (hr : RefIntegrity net) {r : NodeRef}
    (h : ¬ validRef net r) : net.m_arcs.countP (fun a => decide (a.to_ = r)) = 0 := by
  apply List.countP_eq_zero.2
  intro a ha
  simp only [decide_eq_true_eq]
  intro e
  exact h (e ▸ (hr a ha).2)

theorem countP_eq_zero_of_not_valid_from {net : PetriNet} (hr : RefIntegrity net) {r : NodeRef}
    (h : ¬ validRef net r) : net.m_arcs.countP (fun a => decide (a.from_ = r)) = 0 := by
  apply List.countP_eq_zero.2
  intro a ha
  simp only [decide_eq_true_eq]
  intro e
  exact h (e ▸ (hr a ha).1)

theorem counts_after_explosion {net : PetriNet} (u pr : NodeRef)
    (hex : ∃ x ∈ net.m_arcs, x.from_ = u ∧ x.to_ = pr) (hu : validRef net u)
    (hute : u.type = NodeType.Transition)
    (d : ℚ) (m : Nat) (hm : 0 < m) (arcs1 : List Arc)
    (h1 : arcs1 = (net.removeArc u pr).2.m_arcs ++
      chainArcs u net.m_places.length net.m_transitions.length m ++
        [⟨⟨NodeType.Transition, net.m_transitions.length + m - 1⟩, pr, d⟩]) (r : NodeRef) :
    arcs1.countP (fun a => decide (a.to_ = r)) =
        net.m_arcs.countP (fun a => decide (a.to_ = r)) +
          (if (r.type = NodeType.Place ∧ net.m_places.length ≤ r.id ∧
                r.id < net.m_places.length + m) ∨
              (r.type = NodeType.Transition ∧ net.m_transitions.length ≤ r.id ∧
                r.id < net.m_transitions.length + m) then 1 else 0) ∧
    arcs1.countP (fun a => decide (a.from_ = r)) =
        net.m_arcs.countP (fun a => decide (a.from_ = r)) +
          (if (r.type = NodeType.Place ∧ net.m_places.length ≤ r.id ∧
                r.id < net.m_places.length + m) ∨
              (r.type = NodeType.Transition ∧ net.m_transitions.length ≤ r.id ∧
                r.id < net.m_transitions.length + m) then 1 else 0) := by
  have c1 := countP_removeArc net u pr (fun a => decide (a.to_ = r)) (decide (pr = r))
    (fun a _ h2 => by simp only [h2]) hex
  have c2 := countP_removeArc net u pr (fun a => decide (a.from_ = r))
    (decide (u = r)) (fun a h2 _ => by simp only [h2]) hex
  obtain ⟨ut, ui⟩ := u
  simp only at hute
  subst hute
  have hult : ui < net.m_transitions.length := hu
  rw [h1]
  simp only [List.countP_append, List.countP_cons, List.countP_nil, countP_to_chainArcs,
    countP_from_chainArcs]
  simp only [decide_eq_true_eq] at c1 c2 ⊢
  obtain ⟨ty, id⟩ := r
  constructor
  · cases ty <;> simp only [NodeRef.mk.injEq, true_and, false_and, and_false, or_false,
      false_or, reduceCtorEq] at c1 ⊢ <;> split_ifs at c1 ⊢ <;>
      first | contradiction | omega
  · cases ty <;> simp only [NodeRef.mk.injEq, true_and, false_and, and_false, or_false,
      false_or, reduceCtorEq, hm] at c2 ⊢ <;> split_ifs at c2 ⊢ <;>
      first | contradiction | omega

theorem toCanonicalForm_single (net canonic : PetriNet) (i : Nat) (p : Place) (e : Arc)
    (hwf : WellFormed net)
    (hP : ∀ q ∈ net.m_places,
      net.m_arcs.countP (fun a => decide (a.to_ = q.ref)) = 1 ∧
      net.m_arcs.countP (fun a => decide (a.from_ = q.ref)) = 1)
    (hT : ∀ t ∈ net.m_transitions,
      0 < net.m_arcs.countP (fun a => decide (a.to_ = t.ref)) ∧
      0 < net.m_arcs.countP (fun a => decide (a.from_ = t.ref)))
    (hp : net.m_places[i]? = some p) (hk : 1 < p.tokens)
    (hothers : ∀ j q, net.m_places[j]? = some q → j ≠ i → q.tokens ≤ 1)
    (he : predArc net.m_arcs p = some e) :
    ∃ dst, net.toCanonicalForm canonic = some dst ∧ WellFormed dst ∧
      dst.m_arcs =
        (net.removeArc e.from_ p.ref).2.m_arcs ++
          chainArcs e.from_ net.m_places.length net.m_transitions.length (p.tokens - 1) ++
            [⟨⟨NodeType.Transition, net.m_transitions.length + p.tokens - 2⟩, p.ref,
              e.duration⟩] ∧
      dst.m_places.map Place.tokens =
        (net.m_places.map Place.tokens).set i 1 ++ List.replicate (p.tokens - 1) 1 ∧
      dst.m_transitions.length = net.m_transitions.length + (p.tokens - 1) ∧
      (∀ q ∈ dst.m_places,
        dst.m_arcs.countP (fun a => decide (a.to_ = q.ref)) = 1 ∧
        dst.m_arcs.countP (fun a => decide (a.from_ = q.ref)) = 1) ∧
      (∀ t ∈ dst.m_transitions,
        0 < dst.m_arcs.countP (fun a => decide (a.to_ = t.ref)) ∧
        0 < dst.m_arcs.countP (fun a => decide (a.from_ = t.ref))) := by
  obtain ⟨n0, hn0, w0, ty0, ar0, pl0, tl0⟩ := assign_of_wf canonic hwf
  have hi : i < net.m_places.length := by
    rcases Nat.lt_or_ge i net.m_places.length with hlt | hge
    · exact hlt
    · rw [List.getElem?_eq_none hge] at hp
      cases hp
  have hpe : net.m_places[i] = p := by
    have := List.getElem?_eq_getElem hi
    rw [hp] at this
    exact (Option.some.inj this).symm
  have hpid : p.id = i := by
    rw [← hpe]
    exact getElem_of_map_eq_range hwf.1.1 i hi
  have hemem : e ∈ net.m_arcs := List.mem_of_find?_eq_some he
  have heto : e.to_ = p.ref := by
    have := List.find?_some he
    simpa using this
  have hety : e.from_.type = NodeType.Transition := by
    have := hwf.2.2.2 e hemem
    rw [heto] at this
    rcases type_cases e.from_.type with h1 | h1
    · exact absurd h1 this
    · exact h1
  have hev : validRef net e.from_ := (hwf.2.1 e hemem).1
  have tk0 : n0.m_places.map Place.tokens = net.m_places.map Place.tokens := by
    rw [pl0, List.map_map]
    rfl
  have len0 : n0.m_places.length = net.m_places.length := by
    rw [pl0, List.length_map]
  have htoki : (net.m_places.map Place.tokens)[i]? = some p.tokens := by
    rw [List.getElem?_map, hp]
    rfl
  have hothers2 : ∀ j t, j ≠ i → (net.m_places.map Place.tokens)[j]? = some t → t ≤ 1 := by
    intro j t hj ht
    rw [List.getElem?_map] at ht
    cases hq : net.m_places[j]? with
    | none => rw [hq] at ht; cases ht
    | some q =>
      rw [hq] at ht
      have := hothers j q hq hj
      simp only [Option.map_some', Option.some.injEq] at ht
      omega
  unfold PetriNet.toCanonicalForm
  rw [hn0]
  simp only
  rw [explodePlaces_descend i n0.m_places.length n0 (by omega) (Nat.le_refl _)
    (fun j t h1 _ ht => hothers2 j t (by omega) (by rw [← tk0]; exact ht))]
  have hp0 : n0.m_places[i]? = some
      { p with
        arcsIn := arcIndices net.m_arcs (fun a => decide (a.to_ = p.ref))
        arcsOut := arcIndices net.m_arcs (fun a => decide (a.from_ = p.ref)) } := by
    rw [pl0, List.getElem?_map, hp]
    rfl
  have hfa : n0.firstArc (arcIndices net.m_arcs (fun a => decide (a.to_ = p.ref))) = some e := by
    have := firstArc_arcIndices n0 (fun a => decide (a.to_ = p.ref))
    rw [ar0] at this
    rw [this]
    exact he
  rw [explodePlaces]
  simp only [Place.ref] at hfa
  simp only [hp0, hk, if_true, Place.ref, hfa]
  have wr := wf_removeArc w0 e.from_ ⟨NodeType.Place, p.id⟩
  have arr : (n0.removeArc e.from_ ⟨NodeType.Place, p.id⟩).2.m_arcs =
      (net.removeArc e.from_ p.ref).2.m_arcs := by
    simp only [removeArc, ar0, Place.ref]
  have plr : (n0.removeArc e.from_ ⟨NodeType.Place, p.id⟩).2.m_places = n0.m_places := rfl
  have tlr : (n0.removeArc e.from_ ⟨NodeType.Place, p.id⟩).2.m_transitions =
      n0.m_transitions := rfl
  generalize (n0.removeArc e.from_ ⟨NodeType.Place, p.id⟩).2 = nr at wr arr plr tlr ⊢
  have hevr : validRef nr e.from_ :=
    validRef_of_lengths (by rw [plr, len0]) (by rw [tlr, tl0]) hev
  have htokr : (nr.m_places.map Place.tokens)[i]? = some (p.tokens - 1 + 1) := by
    rw [plr, tk0, htoki]
    congr 1
    omega
  obtain ⟨n1, e1, w1, _, ar1, tk1, tl1⟩ :=
    explodeLoop_spec i e.duration (p.tokens - 1) nr e.from_ wr hevr hety htokr
  rw [e1]
  simp only
  rw [plr, len0, tlr, tl0, arr, if_neg (by omega), ← hpid] at ar1
  rw [plr, tk0] at tk1
  rw [tlr, tl0] at tl1
  have len1 : n1.m_places.length = net.m_places.length + (p.tokens - 1) := by
    have := congrArg List.length tk1
    simpa using this
  rw [explodePlaces_skip i n1 (by omega) (fun j t hj ht => by
    rw [tk1, List.getElem?_append_left (by simp; omega),
      List.getElem?_set_ne (by omega)] at ht
    exact hothers2 j t (by omega) ht)]
  simp only
  have hlast : net.m_transitions.length + (p.tokens - 1) - 1 =
      net.m_transitions.length + p.tokens - 2 := by omega
  have hc := counts_after_explosion e.from_ ⟨NodeType.Place, p.id⟩
    ⟨e, hemem, rfl, heto⟩ hev hety e.duration (p.tokens - 1) (by omega) n1.m_arcs ar1
  have hP1 : ∀ q ∈ n1.m_places,
      n1.m_arcs.countP (fun a => decide (a.to_ = q.ref)) = 1 ∧
      n1.m_arcs.countP (fun a => decide (a.from_ = q.ref)) = 1 := by
    intro q hq
    obtain ⟨j, hj, rfl⟩ := List.getElem_of_mem hq
    have hid : n1.m_places[j].id = j := getElem_of_map_eq_range w1.1.1 j hj
    have hcq := hc n1.m_places[j].ref
    simp only [Place.ref, hid, true_and, reduceCtorEq, false_and, or_false] at hcq ⊢
    by_cases hjn : j < net.m_places.length
    · have hold := hP net.m_places[j] (List.getElem_mem hjn)
      simp only [Place.ref, getElem_of_map_eq_range hwf.1.1 j hjn] at hold
      rw [hcq.1, hcq.2, hold.1, hold.2, if_neg (by omega)]
      exact ⟨rfl, rfl⟩
    · have hnv : ¬ validRef net ⟨NodeType.Place, j⟩ := hjn
      rw [hcq.1, hcq.2, countP_eq_zero_of_not_valid_to hwf.2.1 hnv,
        countP_eq_zero_of_not_valid_from hwf.2.1 hnv, if_pos (by omega)]
      exact ⟨rfl, rfl⟩
  have hT1 : ∀ r, validRef n1 r → r.type = NodeType.Transition →
      0 < n1.m_arcs.countP (fun a => decide (a.to_ = r)) ∧
      0 < n1.m_arcs.countP (fun a => decide (a.from_ = r)) := by
    intro r hv hty
    obtain ⟨ty, j⟩ := r
    simp only at hty
    subst hty
    have hj : j < n1.m_transitions.length := hv
    have hcq := hc ⟨NodeType.Transition, j⟩
    simp only [true_and, reduceCtorEq, false_and, false_or] at hcq
    by_cases hjn : j < net.m_transitions.length
    · have hold := hT net.m_transitions[j] (List.getElem_mem hjn)
      simp only [Transition.ref, getElem_of_map_eq_range hwf.1.2.2.1 j hjn] at hold
      rw [hcq.1, hcq.2]
      omega
    · rw [hcq.1, hcq.2, if_pos (by omega)]
      omega
  have hgl : n1.generateArcsInArcsOut.m_places.length = n1.m_places.length := by
    simp [generateArcsInArcsOut]
  rw [boundaryPlaces_noop w1 (fun q hq _ => by
    have := hP1 q hq
    omega) hT1 _ (Nat.le_of_eq hgl)]
  have hgp := generate_places n1 w1.2.2.2
  have hgt := generate_transitions n1 w1.2.2.2
  refine ⟨_, rfl, wf_generate w1, ?_, ?_, ?_, ?_, ?_⟩
  · rw [(generate_frame n1).2.1, ar1, hlast]
    rfl
  · rw [map_tokens_of_map_data (generate_frame n1).2.2.2.2.2.1, tk1]
  · rw [hgt, List.length_map, tl1]
  · intro q hq
    rw [hgp] at hq
    obtain ⟨q0, hq0, rfl⟩ := List.mem_map.1 hq
    exact hP1 q0 hq0
  · intro t ht
    rw [hgt] at ht
    obtain ⟨t0, ht0, rfl⟩ := List.mem_map.1 ht
    obtain ⟨j, hj, rfl⟩ := List.getElem_of_mem ht0
    have hid : n1.m_transitions[j].id = j := getElem_of_map_eq_range w1.1.2.2.1 j hj
    have := hT1 ⟨NodeType.Transition, j⟩ hj rfl
    simpa [Transition.ref, hid] using this

theorem chainArcs_duration (a : Arc) :
    ∀ (n : Nat) (u : NodeRef) (np nt : Nat), a ∈ chainArcs u np nt n → a.duration = 0 := by
  intro n
  induction n with
  | zero => intro u np nt h; cases h
  | succ n ih =>
    intro u np nt h
    simp only [chainArcs, List.mem_cons] at h
    rcases h with rfl | rfl | h
    · rfl
    · rfl
    · exact ih _ _ _ h

theorem chainArcs_duration_sum :
    ∀ (n : Nat) (u : NodeRef) (np nt : Nat),
      ((chainArcs u np nt n).map Arc.duration).sum = 0 := by
  intro n
  induction n with
  | zero => intro u np nt; rfl
  | succ n ih =>
    intro u np nt
    simp only [chainArcs, List.map_cons, List.sum_cons, ih, defaultDuration, add_zero]

theorem chainArcs_length :
    ∀ (n : Nat) (u : NodeRef) (np nt : Nat), (chainArcs u np nt n).length = 2 * n := by
  intro n
  induction n with
  | zero => intro u np nt; rfl
  | succ n ih =>
    intro u np nt
    simp only [chainArcs, List.length_cons, ih]
    omega

theorem chainArcs_head (n : Nat) (u : NodeRef) (np nt : Nat) (h : 0 < n) :
    (⟨u, ⟨NodeType.Place, np⟩, 0⟩ : Arc) ∈ chainArcs u np nt n := by
  cases n with
  | zero => omega
  | succ n => simp [chainArcs, defaultDuration]

theorem chainArcs_chain (pr : NodeRef) (d : ℚ) :
    ∀ (n : Nat) (u : NodeRef) (np nt : Nat) (a0 : Arc), a0.to_ = u →
      List.Chain (fun a b : Arc => a.to_ = b.from_) a0
        (chainArcs u np nt n ++
          [⟨if n = 0 then u else ⟨NodeType.Transition, nt + n - 1⟩, pr, d⟩]) := by
  intro n
  induction n with
  | zero =>
    intro u np nt a0 h
    simp [chainArcs, h]
  | succ n ih =>
    intro u np nt a0 h
    simp only [chainArcs, List.cons_append, List.chain_cons, h, true_and]
    have := ih ⟨NodeType.Transition, nt⟩ (np + 1) (nt + 1)
      ⟨⟨NodeType.Place, np⟩, ⟨NodeType.Transition, nt⟩, defaultDuration⟩ rfl
    have e : (if n = 0 then (⟨NodeType.Transition, nt⟩ : NodeRef)
        else ⟨NodeType.Transition, nt + 1 + n - 1⟩) =
        (if n + 1 = 0 then u else ⟨NodeType.Transition, nt + (n + 1) - 1⟩) := by
      by_cases hn : n = 0
      · simp [hn]
      · rw [if_neg hn, if_neg (by omega)]
        congr 1
        omega
    rw [e] at this
    exact this

theorem find_of_countP_one {arcs : List Arc} {q : Arc → Bool} {e : Arc}
    (h : arcs.countP q = 1) (he : e ∈ arcs) (hq : q e = true) : arcs.find? q = some e := by
  induction arcs with
  | nil => cases he
  | cons x rest ih =>
    rw [List.countP_cons] at h
    by_cases hx : q x = true
    · simp only [hx, if_true] at h
      have h0 : rest.countP q = 0 := by omega
      rcases List.mem_cons.1 he with rfl | hr
      · simp [hx]
      · have := List.countP_eq_zero.1 h0 e hr
        exact absurd hq this
    · simp only [hx, Bool.false_eq_true, if_false, Nat.add_zero] at h
      rcases List.mem_cons.1 he with rfl | hr
      · exact absurd hq hx
      · rw [List.find?_cons]
        simp only [hx]
        exact ih h hr

/-- C19 (amended). In a well-formed event graph without source or sink
transition in which `p` is the only place holding more than one token, with
`e` the input arc of `p`, `toCanonicalForm` returns the arc list left by
`removeArc(e.from, p)` followed by the chain
`e.from -> q1 -> t1 -> ... -> q(k-1) -> t(k-1)` through new places and
transitions and by the arc `t(k-1) -> p`.  The duration of `e` is carried by
this last hop only, the arc entering `p`; the first hop, leaving `e.from`, and
every other arc of the chain carry the default duration 0.  The place `p` keeps
one token and each of the `k - 1` new places holds one token. -/
theorem C19_toCanonicalForm_last_hop (net canonic : PetriNet) (p : Place) (e : Arc)
    (hwf : WellFormed net)
    (hP : ∀ q ∈ net.m_places,
      net.m_arcs.countP (fun a => decide (a.to_ = q.ref)) = 1 ∧
      net.m_arcs.countP (fun a => decide (a.from_ = q.ref)) = 1)
    (hT : ∀ t ∈ net.m_transitions,
      0 < net.m_arcs.countP (fun a => decide (a.to_ = t.ref)) ∧
      0 < net.m_arcs.countP (fun a => decide (a.from_ = t.ref)))
    (hp : p ∈ net.m_places) (hk : 1 < p.tokens)
    (hothers : ∀ q ∈ net.m_places, q ≠ p → q.tokens ≤ 1)
    (he : e ∈ net.m_arcs) (heto : e.to_ = p.ref) :
    ∃ dst, net.toCanonicalForm canonic = some dst ∧
      dst.m_arcs =
        (net.removeArc e.from_ p.ref).2.m_arcs ++
          chainArcs e.from_ net.m_places.length net.m_transitions.length (p.tokens - 1) ++
            [⟨⟨NodeType.Transition, net.m_transitions.length + p.tokens - 2⟩, p.ref,
              e.duration⟩] ∧
      (⟨e.from_, ⟨NodeType.Place, net.m_places.length⟩, 0⟩ : Arc) ∈ dst.m_arcs ∧
      (∀ a ∈ chainArcs e.from_ net.m_places.length net.m_transitions.length (p.tokens - 1),
        a.duration = 0) ∧
      dst.m_places.map Place.tokens =
        (net.m_places.map Place.tokens).set p.id 1 ++ List.replicate (p.tokens - 1) 1 ∧
      dst.m_transitions.length = net.m_transitions.length + (p.tokens - 1) := by
  obtain ⟨i, hi, hpi⟩ := List.getElem_of_mem hp
  have hid : p.id = i := by
    rw [← hpi]
    exact getElem_of_map_eq_range hwf.1.1 i hi
  have hget : net.m_places[i]? = some p := by
    rw [List.getElem?_eq_getElem hi, hpi]
  have hoth : ∀ j q, net.m_places[j]? = some q → j ≠ i → q.tokens ≤ 1 := by
    intro j q hq hj
    have hjl : j < net.m_places.length := by
      rcases Nat.lt_or_ge j net.m_places.length with hlt | hge
      · exact hlt
      · rw [List.getElem?_eq_none hge] at hq
        cases hq
    have hqe : net.m_places[j] = q := by
      rw [List.getElem?_eq_getElem hjl] at hq
      exact Option.some.inj hq
    have hqid : q.id = j := by
      rw [← hqe]
      exact getElem_of_map_eq_range hwf.1.1 j hjl
    refine hothers q (hqe ▸ List.getElem_mem hjl) (fun hqp => hj ?_)
    rw [← hqid, hqp, hid]
  have hpred : predArc net.m_arcs p = some e :=
    find_of_countP_one (hP p hp).1 he (by simpa using heto)
  obtain ⟨dst, h1, _, h3, h4, h5, _, _⟩ :=
    toCanonicalForm_single net canonic i p e hwf hP hT hget hk hoth hpred
  refine ⟨dst, h1, h3, ?_, fun a ha => chainArcs_duration a _ _ _ _ ha, by rw [hid]; exact h4, h5⟩
  rw [h3]
  exact List.mem_append_left _ (List.mem_append_right _ (chainArcs_head _ _ _ _ (by omega)))

/-- Witness of C19 on the one-cycle net with 3 tokens and duration 2. -/
theorem C19_toCanonicalForm_last_hop_witness :
    ∃ dst, (oneCycleNet 3 2).toCanonicalForm emptyNet = some dst ∧
      dst.m_arcs =
        [ ⟨⟨NodeType.Place, 0⟩, ⟨NodeType.Transition, 0⟩, 0⟩,
          ⟨⟨NodeType.Transition, 0⟩, ⟨NodeType.Place, 1⟩, 0⟩,
          ⟨⟨NodeType.Place, 1⟩, ⟨NodeType.Transition, 1⟩, 0⟩,
          ⟨⟨NodeType.Transition, 1⟩, ⟨NodeType.Place, 2⟩, 0⟩,
          ⟨⟨NodeType.Place, 2⟩, ⟨NodeType.Transition, 2⟩, 0⟩,
          ⟨⟨NodeType.Transition, 2⟩, ⟨NodeType.Place, 0⟩, 2⟩ ] ∧
      dst.m_places.map Place.tokens = [1, 1, 1] ∧
      dst.m_transitions.length = 3 := by
  obtain ⟨dst, h1, h2, _, _, h5, h6⟩ := C19_toCanonicalForm_last_hop (oneCycleNet 3 2) emptyNet
    { id := 0, caption := "P0", x := 0, y := 0, tokens := 3, arcsIn := [0], arcsOut := [1] }
    ⟨⟨NodeType.Transition, 0⟩, ⟨NodeType.Place, 0⟩, 2⟩
    ⟨by decide, by decide, by decide, by decide⟩ (by decide) (by decide) (by decide) (by decide)
    (by decide) (by decide) (by decide)
  exact ⟨dst, h1, h2.trans (by decide), h5.trans (by decide), h6.trans (by decide)⟩

/-- C19 as stated fails on the one-cycle net with 3 tokens and duration 2 on
T0 -> P0: in the canonical form the first hop T0 -> P1, the arc leaving the
original predecessor T0, has duration 0, and the duration 2 is on the arc
T2 -> P0 entering the original place. -/
theorem C19_counterexample :
    (oneCycleNet 3 2).isEventGraph.1 = true ∧
    (oneCycleNet 3 2).m_arcs =
      [ ⟨⟨NodeType.Transition, 0⟩, ⟨NodeType.Place, 0⟩, 2⟩,
        ⟨⟨NodeType.Place, 0⟩, ⟨NodeType.Transition, 0⟩, 0⟩ ] ∧
    ((oneCycleNet 3 2).toCanonicalForm emptyNet).map
        (fun dst => dst.m_arcs.filter (fun a => decide (a.from_ = ⟨NodeType.Transition, 0⟩))) =
      some [ ⟨⟨NodeType.Transition, 0⟩, ⟨NodeType.Place, 1⟩, 0⟩ ] ∧
    ((oneCycleNet 3 2).toCanonicalForm emptyNet).map
        (fun dst => dst.m_arcs.filter (fun a => decide (a.to_ = ⟨NodeType.Place, 0⟩))) =
      some [ ⟨⟨NodeType.Transition, 2⟩, ⟨NodeType.Place, 0⟩, 2⟩ ] := by
  decide

theorem wf_oneCycleNet (k : Nat) (d : ℚ) : WellFormed (oneCycleNet k d) := by
  refine ⟨⟨rfl, rfl, rfl, rfl⟩, ?_, ?_, ?_⟩
  · intro a ha
    simp only [oneCycleNet, List.mem_cons, List.mem_singleton, List.not_mem_nil, or_false] at ha
    rcases ha with rfl | rfl <;> exact ⟨Nat.zero_lt_one, Nat.zero_lt_one⟩
  · simp [ArcsUnique, oneCycleNet, Arc.ends]
  · intro a ha
    simp only [oneCycleNet, List.mem_cons, List.mem_singleton, List.not_mem_nil, or_false] at ha
    rcases ha with rfl | rfl <;> exact fun e => NodeType.noConfusion e

/-- C18. For every `k >= 2` and every duration `d`, `toCanonicalForm` on the
one-cycle net T0 -> P0 -> T0 with `k` tokens in P0 and duration `d` on
T0 -> P0 returns a net with `k` places holding one token each and `k`
transitions; its `2k` arcs are, in list order, P0 -> T0, the chain
T0 -> P1 -> T1 -> ... -> P(k-1) -> T(k-1), and T(k-1) -> P0: each arc starts
where the previous one ends, the last one ends where the first one starts, and
no node is left twice.  The arc T(k-1) -> P0 entering P0 carries `d`, every
other arc carries 0, the durations sum to `d`, and `isEventGraph` is true on
the result. -/
theorem C18_toCanonicalForm_one_cycle (k : Nat) (hk : 2 ≤ k) (d : ℚ) (canonic : PetriNet) :
    ∃ dst, (oneCycleNet k d).toCanonicalForm canonic = some dst ∧
      dst.m_places.map Place.tokens = List.replicate k 1 ∧
      dst.m_transitions.length = k ∧
      dst.m_arcs =
        ⟨⟨NodeType.Place, 0⟩, ⟨NodeType.Transition, 0⟩, 0⟩ ::
          (chainArcs ⟨NodeType.Transition, 0⟩ 1 1 (k - 1) ++
            [⟨⟨NodeType.Transition, k - 1⟩, ⟨NodeType.Place, 0⟩, d⟩]) ∧
      dst.m_arcs.length = 2 * k ∧
      List.Chain' (fun a b : Arc => a.to_ = b.from_) dst.m_arcs ∧
      dst.m_arcs.getLast?.map Arc.to_ = dst.m_arcs.head?.map Arc.from_ ∧
      (dst.m_arcs.map Arc.from_).Nodup ∧
      (∀ a ∈ dst.m_arcs, a ≠ ⟨⟨NodeType.Transition, k - 1⟩, ⟨NodeType.Place, 0⟩, d⟩ →
        a.duration = 0) ∧
      (dst.m_arcs.map Arc.duration).sum = d ∧
      dst.isEventGraph.1 = true := by
  have hwf := wf_oneCycleNet k d
  obtain ⟨dst, h1, w, h3, h4, h5, h6, _⟩ := toCanonicalForm_single (oneCycleNet k d) canonic 0
    { id := 0, caption := "P0", x := 0, y := 0, tokens := k, arcsIn := [0], arcsOut := [1] }
    ⟨⟨NodeType.Transition, 0⟩, ⟨NodeType.Place, 0⟩, d⟩ hwf
    (by
      intro q hq
      simp only [oneCycleNet, List.mem_singleton] at hq
      subst hq
      simp [oneCycleNet, Place.ref, List.countP_cons])
    (by
      intro t ht
      simp only [oneCycleNet, List.mem_singleton] at ht
      subst ht
      simp [oneCycleNet, Transition.ref, List.countP_cons])
    rfl (by simpa using hk)
    (by
      intro j q hq hj
      cases j with
      | zero => exact absurd rfl hj
      | succ j => simp [oneCycleNet] at hq)
    (by simp [predArc, oneCycleNet, Place.ref])
  have hrem : ((oneCycleNet k d).removeArc ⟨NodeType.Transition, 0⟩ ⟨NodeType.Place, 0⟩).2.m_arcs =
      [⟨⟨NodeType.Place, 0⟩, ⟨NodeType.Transition, 0⟩, 0⟩] := by
    simp [removeArc, removeArcLoop, swapRemove, oneCycleNet]
  have harcs : dst.m_arcs =
      ⟨⟨NodeType.Place, 0⟩, ⟨NodeType.Transition, 0⟩, 0⟩ ::
        (chainArcs ⟨NodeType.Transition, 0⟩ 1 1 (k - 1) ++
          [⟨⟨NodeType.Transition, k - 1⟩, ⟨NodeType.Place, 0⟩, d⟩]) := by
    rw [h3]
    simp only [Place.ref, hrem]
    have e : (oneCycleNet k d).m_transitions.length + k - 2 = k - 1 := by
      simp only [oneCycleNet, List.length_singleton]
      omega
    rw [e]
    rfl
  have hchain := chainArcs_chain ⟨NodeType.Place, 0⟩ d (k - 1) ⟨NodeType.Transition, 0⟩ 1 1
    ⟨⟨NodeType.Place, 0⟩, ⟨NodeType.Transition, 0⟩, 0⟩ rfl
  rw [if_neg (by omega)] at hchain
  have e1 : 1 + (k - 1) - 1 = k - 1 := by omega
  rw [e1] at hchain
  refine ⟨dst, h1, ?_, ?_, harcs, ?_, ?_, ?_, ?_, ?_, ?_, ?_⟩
  · rw [h4]
    simp only [oneCycleNet, List.map_cons, List.map_nil, List.set_cons_zero]
    have : k = (k - 1) + 1 := by omega
    conv_rhs => rw [this, List.replicate_succ]
    rfl
  · rw [h5]
    simp only [oneCycleNet, List.length_singleton]
    omega
  · rw [harcs]
    simp only [List.length_cons, List.length_append, chainArcs_length, List.length_singleton,
      List.length_nil]
    omega
  · rw [harcs]
    exact hchain
  · rw [harcs, ← List.cons_append, List.getLast?_append]
    rfl
  · rw [harcs, List.nodup_iff_count_le_one]
    intro r
    rw [List.count_eq_countP, List.countP_map]
    have hc := countP_from_chainArcs r (k - 1) ⟨NodeType.Transition, 0⟩ 1 1
    have hcongr : List.countP ((fun x => x == r) ∘ Arc.from_) =
        List.countP (fun a : Arc => decide (a.from_ = r)) := by
      congr 1
    rw [hcongr]
    simp only [List.countP_cons, List.countP_append, List.countP_nil, hc, decide_eq_true_eq]
    obtain ⟨ty, id⟩ := r
    cases ty <;> simp only [NodeRef.mk.injEq, true_and, false_and, and_false, or_false,
      false_or, reduceCtorEq] <;> split_ifs <;> first | contradiction | omega
  · intro a ha hne
    rw [harcs] at ha
    simp only [List.mem_cons, List.mem_append, List.mem_singleton, List.not_mem_nil,
      or_false] at ha
    rcases ha with rfl | ha | rfl
    · rfl
    · exact chainArcs_duration a _ _ _ _ ha
    · exact absurd rfl hne
  · rw [harcs]
    simp only [List.map_cons, List.map_append, List.sum_cons, List.sum_append,
      chainArcs_duration_sum, List.map_nil, List.sum_nil]
    simp
  · apply isEventGraph_of_counts w.2.2.2 ?_ h6
    have hl := congrArg List.length h4
    simp only [List.length_map, List.length_append, List.length_set, List.length_replicate,
      oneCycleNet, List.length_singleton] at hl
    cases hpl : dst.m_places with
    | nil =>
      rw [hpl, List.length_nil] at hl
      omega
    | cons q rest => simp [PetriNet.isEmpty, hpl]

/-- Witness of C18 for k = 3 and d = 2. -/
theorem C18_toCanonicalForm_one_cycle_witness :
    ∃ dst, (oneCycleNet 3 2).toCanonicalForm emptyNet = some dst ∧
      dst.m_places.map Place.tokens = List.replicate 3 1 ∧
      dst.m_transitions.length = 3 ∧
      dst.m_arcs =
        ⟨⟨NodeType.Place, 0⟩, ⟨NodeType.Transition, 0⟩, 0⟩ ::
          (chainArcs ⟨NodeType.Transition, 0⟩ 1 1 (3 - 1) ++
            [⟨⟨NodeType.Transition, 3 - 1⟩, ⟨NodeType.Place, 0⟩, 2⟩]) ∧
      dst.m_arcs.length = 2 * 3 ∧
      List.Chain' (fun a b : Arc => a.to_ = b.from_) dst.m_arcs ∧
      dst.m_arcs.getLast?.map Arc.to_ = dst.m_arcs.head?.map Arc.from_ ∧
      (dst.m_arcs.map Arc.from_).Nodup ∧
      (∀ a ∈ dst.m_arcs, a ≠ ⟨⟨NodeType.Transition, 3 - 1⟩, ⟨NodeType.Place, 0⟩, 2⟩ →
        a.duration = 0) ∧
      (dst.m_arcs.map Arc.duration).sum = 2 ∧
      dst.isEventGraph.1 = true :=
  C18_toCanonicalForm_one_cycle 3 (by decide) 2 emptyNet

/-! ## Claim C30: removeNode on a transition -/

/-- C30 (amended). In a net satisfying identifier density with `n`
transitions, removing the transition with id `i < n - 1` succeeds; the net has
`n - 1` transitions and next-transition-id counter `n - 1`; slot `i` holds a
transition with id `i` and the position and angle of the former last
transition; its receptivity is not copied: it is true exactly when the net type
is TimedPetri; its index is 0; its caption is the key of slot `i` when the
former last caption was empty or equal to its own key, and the former last
caption otherwise; the places keep their ids, captions, positions and
tokens. -/
theorem C30_removeNode_transition (net : PetriNet) (hd : IdDense net) (i : Nat)
    (hi : i + 1 < net.m_transitions.length) :
    ∃ net' te, net.removeNode ⟨NodeType.Transition, i⟩ = some net' ∧
      net.m_transitions.getLast? = some te ∧
      net'.m_transitions.length = net.m_transitions.length - 1 ∧
      net'.m_next_transition_id = net.m_transitions.length - 1 ∧
      (net'.m_transitions.map Transition.data)[i]? =
        some (i,
          (if te.caption = "" ∨ te.caption = te.key then to_str NodeType.Transition i
           else te.caption),
          te.x, te.y, te.angle, decide (net.m_type = NetType.TimedPetri), 0) ∧
      net'.m_places.map Place.data = net.m_places.map Place.data := by
  obtain ⟨pi, pe, h1, h2, h3, h4, h5⟩ :=
    removeNode_transition_dense hd (Nat.lt_of_succ_lt hi)
  refine ⟨_, pe, h5, h2, ?_, ?_, ?_, ?_⟩
  · have := congrArg List.length (generate_frame { net with
        m_transitions := (net.m_transitions.set i
          (if pe.caption = pe.key then
            Transition.make pi.id pi.key pe.x pe.y pe.angle
              (if net.m_type = NetType.TimedPetri then true else false)
           else
            Transition.make pi.id pe.caption pe.x pe.y pe.angle
              (if net.m_type = NetType.TimedPetri then true else false))).dropLast
        m_next_transition_id := net.m_next_transition_id - 1
        m_arcs := relinkArcs pe.ref pi.ref
          (removeIncidentArcs ⟨NodeType.Transition, i⟩ net.m_arcs.length
            net.m_arcs) }).2.2.2.2.2.2
    simpa using this
  · rw [(generate_frame _).2.2.2.1]
    simp only [hd.2.2.2]
  · rw [(generate_frame _).2.2.2.2.2.2]
    simp only
    rw [getElem_opt_map_set_dropLast, if_pos hi, if_pos rfl]
    have hkey : to_str NodeType.Transition i ≠ "" := to_str_ne_empty _ _
    have hrec : (if net.m_type = NetType.TimedPetri then true else false) =
        decide (net.m_type = NetType.TimedPetri) := by
      by_cases ht : net.m_type = NetType.TimedPetri <;> simp [ht]
    rw [hrec]
    by_cases hk : pe.caption = pe.key
    · have hor : pe.caption = "" ∨ pe.caption = pe.key := Or.inr hk
      rw [if_pos hk, if_pos hor]
      simp only [Transition.make, Transition.data, Transition.key, h3, if_neg hkey]
    · rw [if_neg hk]
      by_cases he : pe.caption = ""
      · have hor : pe.caption = "" ∨ pe.caption = pe.key := Or.inl he
        rw [if_pos hor]
        simp only [Transition.make, Transition.data, h3, he, if_true]
      · have hor : ¬ (pe.caption = "" ∨ pe.caption = pe.key) := fun h => h.elim he hk
        rw [if_neg hor]
        simp only [Transition.make, Transition.data, h3, if_neg he]
  · rw [(generate_frame _).2.2.2.2.2.1]

/-- Witness of C30 on the loop net: removing its transition T0. -/
theorem C30_removeNode_transition_witness :
    ∃ net' te, loopNet.removeNode ⟨NodeType.Transition, 0⟩ = some net' ∧
      loopNet.m_transitions.getLast? = some te ∧
      net'.m_transitions.length = loopNet.m_transitions.length - 1 ∧
      net'.m_next_transition_id = loopNet.m_transitions.length - 1 ∧
      (net'.m_transitions.map Transition.data)[0]? =
        some (0,
          (if te.caption = "" ∨ te.caption = te.key then to_str NodeType.Transition 0
           else te.caption),
          te.x, te.y, te.angle, decide (loopNet.m_type = NetType.TimedPetri), 0) ∧
      net'.m_places.map Place.data = loopNet.m_places.map Place.data :=
  C30_removeNode_transition loopNet (by decide) 0 (by decide)

/-- C30 as stated fails: in this GRAFCET net the last transition T1 has
receptivity true, and after `removeNode(T0)` the transition moved into slot 0
has receptivity false. -/
theorem C30_counterexample :
    IdDense receptiveNet ∧
    receptiveNet.m_transitions.map Transition.receptivity = [true, true] ∧
    (receptiveNet.removeNode ⟨NodeType.Transition, 0⟩).map (fun net' => net'.m_transitions) =
      some [ { id := 0, caption := "T0", x := 1, y := 1, angle := 90, receptivity := false,
               index := 0, arcsIn := [], arcsOut := [] } ] := by
  decide

/-! ## Claim C26: setTokens -/

theorem setTokensLoop_spec (marks : List Nat) :
    ∀ (i : Nat) (places : List Place), i ≤ marks.length → i ≤ places.length →
      ∃ ps, setTokensLoop marks i places = some ps ∧
        ∀ j, ps[j]? = (places[j]?).map (fun p =>
          if j < i then { p with tokens := marks.getD j 0 } else p) := by
  intro i
  induction i with
  | zero =>
    intro places _ _
    refine ⟨places, rfl, fun j => ?_⟩
    cases places[j]? <;> simp
  | succ i ih =>
    intro places hm hp
    have hmi : marks[i]? = some marks[i] := List.getElem?_eq_getElem hm
    have hpi : places[i]? = some places[i] := List.getElem?_eq_getElem hp
    obtain ⟨ps, h1, h2⟩ := ih (places.modify (fun p => { p with tokens := marks[i] }) i)
      (Nat.le_of_lt hm) (by simpa using Nat.le_of_lt hp)
    refine ⟨ps, ?_, fun j => ?_⟩
    · rw [setTokensLoop, hmi, hpi]
      exact h1
    · rw [h2 j, List.getElem?_modify]
      have hget : marks.getD i 0 = marks[i] := by
        rw [List.getD_eq_getElem?_getD, hmi]
        rfl
      cases hj : places[j]? with
      | none => rfl
      | some p =>
        simp only [Option.map_some', Option.some.injEq]
        by_cases hji : i = j
        · subst hji
          simp [← hget, List.getD_eq_getElem?_getD]
        · by_cases hlt : j < i
          · simp [hji, hlt, Nat.lt_succ_of_lt hlt]
          · have : ¬ j < i + 1 := by omega
            simp [hji, hlt, this]

/-- C26. `setTokens(marks)` returns false exactly when the length of `marks`
differs from the number of places, and then the net is unchanged.  When it
returns true the token counts of the places are, slot by slot, the entries of
`marks`; the other fields of the places (id, caption, position, adjacency
lists), the transitions, the arcs, the type, the counters and the modified flag
are unchanged. -/
theorem C26_setTokens (net : PetriNet) (marks : List Nat) :
    ∃ b net', net.setTokens marks = some (b, net') ∧
      (b = false ↔ net.m_places.length ≠ marks.length) ∧
      (b = false → net' = net) ∧
      (b = true →
        net'.m_places.map Place.tokens = marks ∧
        net'.m_places.map (fun p => (p.id, p.caption, p.x, p.y, p.arcsIn, p.arcsOut)) =
          net.m_places.map (fun p => (p.id, p.caption, p.x, p.y, p.arcsIn, p.arcsOut)) ∧
        net'.m_transitions = net.m_transitions ∧ net'.m_arcs = net.m_arcs ∧
        net'.m_type = net.m_type ∧ net'.m_next_place_id = net.m_next_place_id ∧
        net'.m_next_transition_id = net.m_next_transition_id ∧
        net'.modified = net.modified) := by
  by_cases hl : net.m_places.length = marks.length
  · obtain ⟨ps, h1, h2⟩ := setTokensLoop_spec marks marks.length net.m_places (Nat.le_refl _)
      (Nat.le_of_eq hl.symm)
    refine ⟨true, { net with m_places := ps }, ?_, ?_, ?_, ?_⟩
    · simp [PetriNet.setTokens, hl, h1]
    · simp [hl]
    · intro h; cases h
    · intro _
      refine ⟨?_, ?_, rfl, rfl, rfl, rfl, rfl, rfl⟩
      · apply List.ext_getElem?
        intro j
        rw [List.getElem?_map, h2 j]
        by_cases hj : j < marks.length
        · have hjp : j < net.m_places.length := by omega
          rw [List.getElem?_eq_getElem hjp, List.getElem?_eq_getElem hj]
          simp [hj, List.getD_eq_getElem?_getD, List.getElem?_eq_getElem hj]
        · rw [List.getElem?_eq_none (by omega), List.getElem?_eq_none (by omega)]
          rfl
      · apply List.ext_getElem?
        intro j
        rw [List.getElem?_map, List.getElem?_map, h2 j]
        cases net.m_places[j]? with
        | none => rfl
        | some p =>
          simp only [Option.map_some', Option.some.injEq]
          split <;> rfl
  · refine ⟨false, net, ?_, ?_, fun _ => rfl, fun h => by cases h⟩
    · simp [PetriNet.setTokens, hl]
    · simp [hl]

/-! ## Claim C27: addPlace and addTransition with an explicit id -/

theorem range_concat_perm_iff (n id : Nat) :
    (List.range n ++ [id]).Perm (List.range (n + 1)) ↔ id = n := by
  constructor
  · intro h
    have hmem : id ∈ List.range (n + 1) := h.subset (by simp)
    have hnd : (List.range n ++ [id]).Nodup := h.nodup_iff.2 (List.nodup_range _)
    have hnot : id ∉ List.range n := by
      intro hin
      have := List.nodup_append.1 hnd
      exact this.2.2 hin (List.mem_singleton_self id)
    simp only [List.mem_range] at hmem hnot
    omega
  · intro h
    rw [h, List.range_succ]

theorem range_concat_eq_iff (n id : Nat) :
    List.range n ++ [id] = List.range (n + 1) ↔ id = n := by
  rw [List.range_succ]
  constructor
  · intro h
    have := List.append_cancel_left h
    simpa using this
  · intro h
    rw [h]

/-- C27 (amended). In a net satisfying identifier density with `n` places and
`m` transitions, for every id below the largest `size_t` value:
`addPlace(id, caption, x, y, tokens)` sets the next-place-id counter to
`max(n, id + 1)` and appends in slot `n` a place with that id, position and
tokens and without adjacent arc, whose caption is `caption`, or its key when
`caption` is empty; the place ids are still 0, ..., |places| - 1, in slot order
or in any order, exactly when `id = n`.  The same holds for
`addTransition(id, caption, x, y, angle)`, whose transition has the given
angle, index 0 and a receptivity that is true exactly when the net type is
TimedPetri. -/
theorem C27_add_with_explicit_id (net : PetriNet) (hd : IdDense net) (id : Nat)
    (hid : id < SIZE_MAX) (caption : String) (x y : ℚ) (tokens : Nat) (angle : Int) :
    ((net.addPlaceId id caption x y tokens).m_next_place_id =
        max net.m_places.length (id + 1) ∧
      (net.addPlaceId id caption x y tokens).m_places =
        net.m_places ++
          [{ id := id
             caption := if caption = "" then to_str NodeType.Place id else caption
             x := x
             y := y
             tokens := tokens
             arcsIn := []
             arcsOut := [] }] ∧
      ((net.addPlaceId id caption x y tokens).m_places.map Place.id =
          List.range (net.addPlaceId id caption x y tokens).m_places.length ↔
        id = net.m_places.length) ∧
      (((net.addPlaceId id caption x y tokens).m_places.map Place.id).Perm
          (List.range (net.addPlaceId id caption x y tokens).m_places.length) ↔
        id = net.m_places.length)) ∧
    ((net.addTransitionId id caption x y angle).m_next_transition_id =
        max net.m_transitions.length (id + 1) ∧
      (net.addTransitionId id caption x y angle).m_transitions =
        net.m_transitions ++
          [{ id := id
             caption := if caption = "" then to_str NodeType.Transition id else caption
             x := x
             y := y
             angle := angle
             receptivity := decide (net.m_type = NetType.TimedPetri)
             index := 0
             arcsIn := []
             arcsOut := [] }] ∧
      ((net.addTransitionId id caption x y angle).m_transitions.map Transition.id =
          List.range (net.addTransitionId id caption x y angle).m_transitions.length ↔
        id = net.m_transitions.length) ∧
      (((net.addTransitionId id caption x y angle).m_transitions.map Transition.id).Perm
          (List.range (net.addTransitionId id caption x y angle).m_transitions.length) ↔
        id = net.m_transitions.length)) := by
  have hmod : (id + 1) % (SIZE_MAX + 1) = id + 1 := Nat.mod_eq_of_lt (by omega)
  obtain ⟨h1, h2, h3, h4⟩ := hd
  refine ⟨⟨?_, rfl, ?_, ?_⟩, ⟨?_, ?_, ?_, ?_⟩⟩
  · simp only [PetriNet.addPlaceId, hmod, h2]
    split <;> omega
  · simp only [PetriNet.addPlaceId, List.map_append, List.map_cons, List.map_nil,
      List.length_append, List.length_singleton, h1, Place.make]
    exact range_concat_eq_iff _ _
  · simp only [PetriNet.addPlaceId, List.map_append, List.map_cons, List.map_nil,
      List.length_append, List.length_singleton, h1, Place.make]
    exact range_concat_perm_iff _ _
  · simp only [PetriNet.addTransitionId, hmod, h4]
    split <;> omega
  · simp only [PetriNet.addTransitionId, Transition.make]
    by_cases ht : net.m_type = NetType.TimedPetri <;> simp [ht]
  · simp only [PetriNet.addTransitionId, List.map_append, List.map_cons, List.map_nil,
      List.length_append, List.length_singleton, h3, Transition.make]
    exact range_concat_eq_iff _ _
  · simp only [PetriNet.addTransitionId, List.map_append, List.map_cons, List.map_nil,
      List.length_append, List.length_singleton, h3, Transition.make]
    exact range_concat_perm_iff _ _

/-- Witness of C27 on the sample net, whose two places have the ids 0 and 1:
the place added with id 2 keeps the ids dense and sets the counter to 3; so
does the counter of the transitions for a transition added with id 2. -/
theorem C27_add_with_explicit_id_witness :
    (sampleNet.addPlaceId 2 "store" 3 4 1).m_next_place_id = 3 ∧
    (sampleNet.addPlaceId 2 "store" 3 4 1).m_places.map Place.id = [0, 1, 2] ∧
    (sampleNet.addTransitionId 2 "fire" 3 4 90).m_next_transition_id = 3 := by
  have h := C27_add_with_explicit_id sampleNet (by decide) 2 (by decide) "store" 3 4 1 90
  exact ⟨h.1.1.trans (by decide), by decide, by decide⟩

/-- C27 as stated fails in two edge cases.  With the empty caption the appended
place does not carry that caption but its key.  With the largest `size_t` value
as id, `id + 1u` wraps to 0 and the counter keeps its value instead of growing
past the id. -/
theorem C27_counterexample :
    IdDense sampleNet ∧
    ((sampleNet.addPlaceId 7 "" 0 0 0).m_places.map Place.caption).getLast? = some "P7" ∧
    sampleNet.m_next_place_id = 2 ∧
    (sampleNet.addPlaceId SIZE_MAX "a" 0 0 0).m_next_place_id = 2 := by
  decide


/-! ## Claim C21: the seven-argument toSysLin -/

theorem addAll_append (m : SparseMatrix) (l1 l2 : List (Nat × Nat × ℚ)) :
    m.addAll (l1 ++ l2) = (m.addAll l1).addAll l2 := by
  simp [SparseMatrix.addAll, List.foldl_append]

theorem addAll_eq (l : List (Nat × Nat × ℚ)) :
    ∀ m : SparseMatrix, m.addAll l =
      ⟨m.i ++ l.map (fun t => t.1), m.j ++ l.map (fun t => t.2.1),
        m.d ++ l.map (fun t => t.2.2), m.M, m.N⟩ := by
  induction l with
  | nil => intro m; simp [SparseMatrix.addAll]
  | cons t rest ih =>
    intro m
    have := ih (m.add t.1 t.2.1 t.2.2)
    simp only [SparseMatrix.addAll, List.foldl_cons] at this ⊢
    rw [this]
    simp [SparseMatrix.add]

theorem addAll_clear_dim (X : SparseMatrix) (l : List (Nat × Nat × ℚ)) (M N : Nat) :
    ((X.clear).dim M N).addAll l = SparseMatrix.ofTriplets l M N := by
  rw [addAll_eq]
  simp [SparseMatrix.clear, SparseMatrix.dim, SparseMatrix.ofTriplets]

theorem arcIndices_map_get (arcs : List Arc) (q : Arc → Bool) :
    (arcIndices arcs q).map (fun k => arcs[k]?) = (arcs.filter q).map some := by
  induction arcs with
  | nil => rfl
  | cons a rest ih =>
    rw [arcIndices_cons, List.filter_cons]
    by_cases hq : q a = true
    · simp only [hq, if_true, List.map_append, List.map_cons, List.map_nil, List.map_map,
        List.singleton_append, List.getElem?_cons_zero]
      congr 1
      rw [← ih]
      apply List.map_congr_left
      intro k _
      simp
    · simp only [hq, Bool.false_eq_true, if_false, List.nil_append, List.map_map]
      rw [← ih]
      apply List.map_congr_left
      intro k _
      simp

theorem find_of_dense_transitions {net : PetriNet} (hd : IdDense net) {id : Nat}
    (h : id < net.m_transitions.length) :
    net.m_transitions.find? (fun t => decide (t.id = id)) = net.m_transitions[id]? := by
  rw [List.getElem?_eq_getElem h]
  have hp : (fun t : Transition => decide (t.id = id)) net.m_transitions[id] = true := by
    simp [getElem_of_map_eq_range hd.2.2.1 id h]
  refine List.find?_eq_some_iff_getElem.2 ⟨hp, id, h, rfl, fun j hj => ?_⟩
  have := getElem_of_map_eq_range hd.2.2.1 j (Nat.lt_trans hj h)
  simp only [this, Bool.not_eq_true', decide_eq_false_iff_not]
  omega

theorem find_of_dense_places {net : PetriNet} (hd : IdDense net) {id : Nat}
    (h : id < net.m_places.length) :
    net.m_places.find? (fun p => decide (p.id = id)) = net.m_places[id]? := by
  rw [List.getElem?_eq_getElem h]
  have hp : (fun p : Place => decide (p.id = id)) net.m_places[id] = true := by
    simp [getElem_of_map_eq_range hd.1 id h]
  refine List.find?_eq_some_iff_getElem.2 ⟨hp, id, h, rfl, fun j hj => ?_⟩
  have := getElem_of_map_eq_range hd.1 j (Nat.lt_trans hj h)
  simp only [this, Bool.not_eq_true', decide_eq_false_iff_not]
  omega

theorem nodeIndex_eq {net : PetriNet} (hd : IdDense net) {r : NodeRef}
    (hv : validRef net r) (hty : r.type = NodeType.Transition) :
    net.nodeIndex r = some (indexOf net r) := by
  obtain ⟨ty, id⟩ := r
  simp only at hty
  subst hty
  have hlt : id < net.m_transitions.length := hv
  simp only [PetriNet.nodeIndex, indexOf, find_of_dense_transitions hd hlt,
    List.getElem?_eq_getElem hlt, Option.map_some', Option.getD_some]

theorem nodeTokens_eq {net : PetriNet} (hd : IdDense net) {r : NodeRef}
    (hv : validRef net r) (hty : r.type = NodeType.Place) :
    net.nodeTokens r = some (tokensOf net r) := by
  obtain ⟨ty, id⟩ := r
  simp only at hty
  subst hty
  have hlt : id < net.m_places.length := hv
  simp only [PetriNet.nodeTokens, tokensOf, find_of_dense_places hd hlt,
    List.getElem?_eq_getElem hlt, Option.map_some', Option.getD_some]

theorem isState_generate {net : PetriNet} (h : WellFormed net) {r : NodeRef}
    (hv : validRef net r) (hty : r.type = NodeType.Transition) :
    net.generateArcsInArcsOut.isState r =
      some (decide (inDegree net r ≠ 0) && decide (outDegree net r ≠ 0)) := by
  obtain ⟨ty, id⟩ := r
  simp only at hty
  subst hty
  have hlt : id < net.m_transitions.length := hv
  have hid := getElem_of_map_eq_range h.1.2.2.1 id hlt
  simp only [PetriNet.isState, PetriNet.nodeArcsIn, PetriNet.nodeArcsOut,
    generate_transitions net h.2.2.2, List.getElem?_map, List.getElem?_eq_getElem hlt,
    Option.map_some', arcIndices_length, Transition.ref, hid, inDegree, outDegree]

theorem nodeArcsOut_generate_place {net : PetriNet} (h : WellFormed net) {r : NodeRef}
    (hv : validRef net r) (hty : r.type = NodeType.Place) :
    net.generateArcsInArcsOut.nodeArcsOut r =
      some (arcIndices net.m_arcs (fun a => decide (a.from_ = r))) := by
  obtain ⟨ty, id⟩ := r
  simp only at hty
  subst hty
  have hlt : id < net.m_places.length := hv
  have hid := getElem_of_map_eq_range h.1.1 id hlt
  simp only [PetriNet.nodeArcsOut, generate_places net h.2.2.2, List.getElem?_map,
    List.getElem?_eq_getElem hlt, Option.map_some', Place.ref, hid]

theorem sysLinInner_spec {net : PetriNet} (h : WellFormed net)
    (hgen : net.generateArcsInArcsOut = net) (arc : Arc) (harc : arc ∈ net.m_arcs)
    (hfrom : arc.from_.type = NodeType.Transition) :
    ∀ (ks : List Nat) (outs : List Arc),
      ks.map (fun k => net.m_arcs[k]?) = outs.map some →
      (∀ a ∈ outs, a ∈ net.m_arcs ∧ a.from_ = arc.to_) →
      ∀ D A C : SparseMatrix,
        sysLinInner net arc (indexOf net arc.from_) ks D A C =
          some (D.addAll ((outs.map Arc.to_).filterMap (fun t' =>
        if (inDegree net t' ≠ 0 ∧ outDegree net t' ≠ 0) ∧ tokensOf net arc.to_ ≠ 1 then
          some (indexOf net t', indexOf net arc.from_, arc.duration)
        else none)),
            A.addAll ((outs.map Arc.to_).filterMap (fun t' =>
        if (inDegree net t' ≠ 0 ∧ outDegree net t' ≠ 0) ∧ tokensOf net arc.to_ = 1 then
          some (indexOf net t', indexOf net arc.from_, arc.duration)
        else none)),
            C.addAll ((outs.map Arc.to_).filterMap (fun t' =>
        if ¬ (inDegree net t' ≠ 0 ∧ outDegree net t' ≠ 0) ∧ outDegree net t' = 0 then
          some (indexOf net arc.from_, indexOf net arc.from_, arc.duration)
        else none))) := by
  have hto : arc.to_.type = NodeType.Place := by
    have := h.2.2.2 arc harc
    rw [hfrom] at this
    rcases type_cases arc.to_.type with h1 | h1
    · exact h1
    · exact absurd h1.symm this
  have htok := nodeTokens_eq h.1 (h.2.1 arc harc).2 hto
  intro ks
  induction ks with
  | nil =>
    intro outs hmap _ D A C
    cases outs with
    | nil => rfl
    | cons a rest => simp at hmap
  | cons k rest ih =>
    intro outs hmap hmem D A C
    cases outs with
    | nil => simp at hmap
    | cons a outs1 =>
      simp only [List.map_cons, List.cons.injEq] at hmap
      obtain ⟨hk, hrest⟩ := hmap
      have ha := hmem a (List.mem_cons_self _ _)
      have hav := (h.2.1 a ha.1).2
      have haty : a.to_.type = NodeType.Transition := by
        have := h.2.2.2 a ha.1
        rw [ha.2, hto] at this
        rcases type_cases a.to_.type with h1 | h1
        · exact absurd h1.symm this
        · exact h1
      have hst := isState_generate h hav haty
      have hou := isOutput_generate h hav haty
      rw [hgen] at hst hou
      have hidx := nodeIndex_eq h.1 hav haty
      have hrec := ih outs1 hrest (fun x hx => hmem x (List.mem_cons_of_mem _ hx))
      rw [sysLinInner, hk]
      simp only [hst]
      by_cases hs : inDegree net a.to_ ≠ 0 ∧ outDegree net a.to_ ≠ 0
      · have hsb : (decide (inDegree net a.to_ ≠ 0) && decide (outDegree net a.to_ ≠ 0)) = true := by
          simp [hs.1, hs.2]
        simp only [hsb, htok, hidx]
        by_cases ht : tokensOf net arc.to_ = 1
        · rw [if_pos ht, hrec]
          simp [List.filterMap_cons, hs, ht, SparseMatrix.addAll]
        · rw [if_neg ht, hrec]
          simp [List.filterMap_cons, hs, ht, SparseMatrix.addAll]
      · have hsb : (decide (inDegree net a.to_ ≠ 0) && decide (outDegree net a.to_ ≠ 0)) = false := by
          rcases not_and_or.1 hs with h1 | h1
          · simp [not_not.1 h1]
          · simp [not_not.1 h1]
        simp only [hsb, hou]
        by_cases ho : outDegree net a.to_ = 0
        · have hob : decide (net.m_arcs.countP (fun b => decide (b.from_ = a.to_)) = 0) = true := by
            simpa [outDegree] using ho
          simp only [hob]
          rw [hrec]
          simp [List.filterMap_cons, hs, ho, SparseMatrix.addAll]
        · have hob : decide (net.m_arcs.countP (fun b => decide (b.from_ = a.to_)) = 0) = false := by
            simpa [outDegree] using ho
          have hin0 : inDegree net a.to_ = 0 := by
            by_contra hc
            exact hs ⟨hc, ho⟩
          simp only [hob]
          rw [hrec]
          simp [List.filterMap_cons, hin0, ho, SparseMatrix.addAll]

theorem sysLinLoop_spec {net : PetriNet} (h : WellFormed net)
    (hgen : net.generateArcsInArcsOut = net) :
    ∀ (l : List Arc), (∀ arc ∈ l, arc ∈ net.m_arcs) → ∀ D A B C : SparseMatrix,
      sysLinLoop net l D A B C = some
        (D.addAll (l.flatMap (fun arc =>
    if arc.from_.type = NodeType.Transition ∧ inDegree net arc.from_ ≠ 0 then
      (successors net arc).filterMap (fun t' =>
        if (inDegree net t' ≠ 0 ∧ outDegree net t' ≠ 0) ∧ tokensOf net arc.to_ ≠ 1 then
          some (indexOf net t', indexOf net arc.from_, arc.duration)
        else none)
    else [])),
          A.addAll (l.flatMap (fun arc =>
    if arc.from_.type = NodeType.Transition ∧ inDegree net arc.from_ ≠ 0 then
      (successors net arc).filterMap (fun t' =>
        if (inDegree net t' ≠ 0 ∧ outDegree net t' ≠ 0) ∧ tokensOf net arc.to_ = 1 then
          some (indexOf net t', indexOf net arc.from_, arc.duration)
        else none)
    else [])),
          B.addAll (l.filterMap (fun arc =>
    if arc.from_.type = NodeType.Transition ∧ inDegree net arc.from_ = 0 then
      some (indexOf net arc.from_, indexOf net arc.from_, arc.duration)
    else none)),
          C.addAll (l.flatMap (fun arc =>
    if arc.from_.type = NodeType.Transition ∧ inDegree net arc.from_ ≠ 0 then
      (successors net arc).filterMap (fun t' =>
        if ¬ (inDegree net t' ≠ 0 ∧ outDegree net t' ≠ 0) ∧ outDegree net t' = 0 then
          some (indexOf net arc.from_, indexOf net arc.from_, arc.duration)
        else none)
    else []))) := by
  intro l
  induction l with
  | nil => intro _ D A B C; rfl
  | cons arc rest ih =>
    intro hmem D A B C
    have harc := hmem arc (List.mem_cons_self _ _)
    have hrec := ih (fun x hx => hmem x (List.mem_cons_of_mem _ hx))
    rw [sysLinLoop]
    by_cases hp : arc.from_.type = NodeType.Place
    · have hnt : ¬ arc.from_.type = NodeType.Transition := by rw [hp]; exact fun e => NodeType.noConfusion e
      rw [if_pos hp, hrec]
      simp [List.flatMap_cons, List.filterMap_cons, hnt]
    · have hty : arc.from_.type = NodeType.Transition := by
        rcases type_cases arc.from_.type with h1 | h1
        · exact absurd h1 hp
        · exact h1
      have hv := (h.2.1 arc harc).1
      have hin := isInput_generate h hv hty
      rw [hgen] at hin
      have hidx := nodeIndex_eq h.1 hv hty
      have hto : arc.to_.type = NodeType.Place := by
        have := h.2.2.2 arc harc
        rw [hty] at this
        rcases type_cases arc.to_.type with h1 | h1
        · exact h1
        · exact absurd h1.symm this
      rw [if_neg hp]
      simp only [hin, hidx]
      by_cases hi : inDegree net arc.from_ = 0
      · have hib : decide (net.m_arcs.countP (fun a => decide (a.to_ = arc.from_)) = 0) = true := by
          simpa [inDegree] using hi
        simp only [hib]
        rw [hrec]
        simp [List.flatMap_cons, List.filterMap_cons, hty, hi, SparseMatrix.addAll]
      · have hib : decide (net.m_arcs.countP (fun a => decide (a.to_ = arc.from_)) = 0) = false := by
          simpa [inDegree] using hi
        simp only [hib]
        have hout := nodeArcsOut_generate_place h (h.2.1 arc harc).2 hto
        rw [hgen] at hout
        rw [hout]
        simp only
        rw [sysLinInner_spec h hgen arc harc hty _ _
          (arcIndices_map_get net.m_arcs (fun a => decide (a.from_ = arc.to_)))
          (fun a ha => by
            have := List.mem_filter.1 ha
            exact ⟨this.1, by simpa using this.2⟩)]
        simp only
        rw [hrec]
        simp [List.flatMap_cons, List.filterMap_cons, hty, hi, addAll_append, successors]

/-- C21. On a well-formed net whose adjacency lists are those
`generateArcsInArcsOut` computes, the seven-argument `toSysLin` returns; `D` and
`A` get the shape nb_states x nb_states, `B` the shape nb_inputs x nb_inputs
and `C` the shape nb_outputs x nb_outputs, and the four matrices hold exactly
the triplets the claim lists, in arc-list order: in `B` one triplet
`(index(t), index(t), duration)` for each arc `t -> p` leaving an input
transition; for each arc `t -> p` leaving another transition and each successor
`t'` of `p`, `(index(t'), index(t), duration)` in `A` when `t'` is a state and
`p` holds one token, in `D` when `t'` is a state and `p` does not, and
`(index(t), index(t), duration)` in `C` when `t'` is an output. -/
theorem C21_toSysLin (net : PetriNet) (hwf : WellFormed net)
    (hgen : net.generateArcsInArcsOut = net) (D A B C : SparseMatrix)
    (nb_inputs nb_states nb_outputs : Nat) :
    net.toSysLin7 D A B C nb_inputs nb_states nb_outputs =
      some (SparseMatrix.ofTriplets (sysLinD net) nb_states nb_states,
        SparseMatrix.ofTriplets (sysLinA net) nb_states nb_states,
        SparseMatrix.ofTriplets (sysLinB net) nb_inputs nb_inputs,
        SparseMatrix.ofTriplets (sysLinC net) nb_outputs nb_outputs) := by
  unfold PetriNet.toSysLin7
  rw [sysLinLoop_spec hwf hgen net.m_arcs (fun _ h => h)]
  simp only [addAll_clear_dim]
  rfl

/-- Witness of C21 on the net of scenario S5, labelled with index 0 on its
input T0, on its state T1 and on its output T2. -/
theorem C21_toSysLin_witness :
    s5Net.toSysLin7 SparseMatrix.zero SparseMatrix.zero SparseMatrix.zero SparseMatrix.zero
        1 1 1 =
      some (⟨[], [], [], 1, 1⟩, ⟨[], [], [], 1, 1⟩, ⟨[0], [0], [1], 1, 1⟩,
        ⟨[0], [0], [2], 1, 1⟩) :=
  (C21_toSysLin s5Net ⟨by decide, by decide, by decide, by decide⟩ (by decide)
    SparseMatrix.zero SparseMatrix.zero SparseMatrix.zero SparseMatrix.zero 1 1 1).trans
    (by decide)

/-! ## Claim C22: scenario S5 -/

/-- C22 fails on the net of scenario S5.  With the arcs created in the order
of the scenario, the canonical net keeps in `P1.arcsOut` a pointer to slot 3 of
the arc list, where `toCanonicalForm` has meanwhile put the arc T0 -> P2; the
scan of T1 -> P1 then takes the place P2 for the successor transition and reads
its `index`, a member a place does not have.  With the arc T0 -> P0 created
last no pointer is stale and the call returns true with `D` empty and
`C[0,0] = 2`, but with `B[0,0] = 0`, because the canonical net carries the
duration 1 on the arc P2 -> T3, and with the entry of `A` at `[0,1]`. -/
theorem C22_toSysLin_scenario :
    s5Net.isEventGraph.1 = true ∧
    (s5Net.toCanonicalForm (PetriNet.empty NetType.TimedPetri)).map
        (fun n => ((n.m_places[1]?).map Place.arcsOut, n.m_arcs[3]?)) =
      some (some [3], some ⟨⟨NodeType.Transition, 0⟩, ⟨NodeType.Place, 2⟩, 0⟩) ∧
    (s5Net.toSysLin SparseMatrix.zero SparseMatrix.zero SparseMatrix.zero
        SparseMatrix.zero).isNone = true ∧
    (s5NetLast.toSysLin SparseMatrix.zero SparseMatrix.zero SparseMatrix.zero
        SparseMatrix.zero).map (fun r => r.1) = some true ∧
    (s5NetLast.toSysLin SparseMatrix.zero SparseMatrix.zero SparseMatrix.zero
        SparseMatrix.zero).map (fun r => r.2.1) = some ⟨[], [], [], 2, 2⟩ ∧
    (s5NetLast.toSysLin SparseMatrix.zero SparseMatrix.zero SparseMatrix.zero
        SparseMatrix.zero).map (fun r => r.2.2.1) = some ⟨[0], [1], [0], 2, 2⟩ ∧
    (s5NetLast.toSysLin SparseMatrix.zero SparseMatrix.zero SparseMatrix.zero
        SparseMatrix.zero).map (fun r => r.2.2.2.1) = some ⟨[0], [0], [0], 1, 1⟩ ∧
    (s5NetLast.toSysLin SparseMatrix.zero SparseMatrix.zero SparseMatrix.zero
        SparseMatrix.zero).map (fun r => r.2.2.2.2.1) = some ⟨[0], [0], [2], 1, 1⟩ := by
  decide

/-! ## Claim C25: requests on a net that is not an event graph -/

/-- C25. On a net on which `isEventGraph` returns false, `toSysLin(D, A, B, C)`
returns false and leaves the four matrices as they were, and
`findCriticalCycle(result)` returns false with `result` holding the erroneous
arcs `isEventGraph` reports for that net. -/
theorem C25_not_event_graph
    (Semi_Howard : List Int → List ℚ → List ℚ → Nat → Nat → HowardResult) (net : PetriNet)
    (D A B C : SparseMatrix) (h : net.isEventGraph.1 = false) :
    net.toSysLin D A B C = some (false, D, A, B, C, net.isEventGraph.2.2) ∧
    net.findCriticalCycle Semi_Howard =
      some (false, net.isEventGraph.2.1, net.isEventGraph.2.2) := by
  constructor
  · simp [PetriNet.toSysLin, h]
  · simp [PetriNet.findCriticalCycle, h]

/-- Witness of C25 on the net with two places of wrong degree. -/
theorem C25_not_event_graph_witness :
    twoOffendersNet.toSysLin SparseMatrix.zero SparseMatrix.zero SparseMatrix.zero
        SparseMatrix.zero =
      some (false, SparseMatrix.zero, SparseMatrix.zero, SparseMatrix.zero, SparseMatrix.zero,
        twoOffendersNet.isEventGraph.2.2) ∧
    twoOffendersNet.findCriticalCycle noPolicy =
      some (false, twoOffendersNet.isEventGraph.2.1, twoOffendersNet.isEventGraph.2.2) :=
  C25_not_event_graph noPolicy twoOffendersNet SparseMatrix.zero SparseMatrix.zero
    SparseMatrix.zero SparseMatrix.zero (by decide)

/-! ## Claim C23: saving and loading again -/

/-- C23. The round trip save then load does not give back the positions of every
net built by the structural operations: `save` writes a float with six
significant digits, so the net with one place at abscissa 1234567 and the net
with one place at abscissa 1234568 are saved as the same document, with the
abscissa written 1.23457e+06, and no loader, reading only the document, gives
back the places of both. -/
theorem C23_save_round_trip_positions :
    (wideNet 1234567).save true =
      (true, "\x7b\n  \"places\": [\n    \"P0,P0,1.23457e+06,0,0\"],\n  \"transitions\": [],\n  \"arcs\": []\n\x7d") ∧
    (wideNet 1234568).save true = (wideNet 1234567).save true ∧
    (wideNet 1234567).m_places.map Place.data = [(0, "P0", 1234567, 0, 0)] ∧
    (wideNet 1234568).m_places.map Place.data = [(0, "P0", 1234568, 0, 0)] ∧
    ∀ load : String → PetriNet,
      ¬ ((load ((wideNet 1234567).save true).2).m_places.map Place.data =
            (wideNet 1234567).m_places.map Place.data ∧
          (load ((wideNet 1234568).save true).2).m_places.map Place.data =
            (wideNet 1234568).m_places.map Place.data) := by
  have h1 : (wideNet 1234567).save true =
      (true, "\x7b\n  \"places\": [\n    \"P0,P0,1.23457e+06,0,0\"],\n  \"transitions\": [],\n  \"arcs\": []\n\x7d") := by
    decide
  have h2 : (wideNet 1234568).save true = (wideNet 1234567).save true := by decide
  have h3 : (wideNet 1234567).m_places.map Place.data = [(0, "P0", 1234567, 0, 0)] := by decide
  have h4 : (wideNet 1234568).m_places.map Place.data = [(0, "P0", 1234568, 0, 0)] := by decide
  refine ⟨h1, h2, h3, h4, fun load h => ?_⟩
  rw [h2, h.1, h3, h4] at h
  exact absurd h.2 (by decide)

theorem applyRecords_append (net : PetriNet) (l1 l2 : List Record) :
    applyRecords (applyRecords net l1) l2 = applyRecords net (l1 ++ l2) := by
  simp [applyRecords, List.foldl_append]

theorem loadPlaces_accepted {σ : Type} (rd : Reader σ) (fuel : Nat) :
    ∀ (s : σ) (words : List String) (net : PetriNet),
      loadPlaces rd fuel s words net =
        (acceptedPlaces rd fuel s words).map (fun r =>
          (r.1, r.2.1, r.2.2.1, applyRecords net r.2.2.2)) := by
  induction fuel with
  | zero => intro s words net; rfl
  | succ fuel ih =>
    intro s words net
    rw [loadPlaces, acceptedPlaces]
    split_ifs with h1 h2
    · rfl
    · exact ih _ _ _
    · simp only
      split_ifs with h3
      · rfl
      · cases (rd.token2vector (rd.str (rd.split " \t\n\"[" "\"" s).2) words).2[0]? <;>
          cases (rd.token2vector (rd.str (rd.split " \t\n\"[" "\"" s).2) words).2[1]? <;>
          cases (rd.token2vector (rd.str (rd.split " \t\n\"[" "\"" s).2) words).2[2]? <;>
          cases (rd.token2vector (rd.str (rd.split " \t\n\"[" "\"" s).2) words).2[3]? <;>
          cases (rd.token2vector (rd.str (rd.split " \t\n\"[" "\"" s).2) words).2[4]? <;>
          first
          | rfl
          | (simp only
             split_ifs with h4
             · rfl
             · rw [ih, Option.map_map]
               rfl)

theorem loadTransitions_accepted {σ : Type} (rd : Reader σ) (fuel : Nat) :
    ∀ (s : σ) (words : List String) (net : PetriNet),
      loadTransitions rd fuel s words net =
        (acceptedTransitions rd fuel s words).map (fun r =>
          (r.1, r.2.1, r.2.2.1, applyRecords net r.2.2.2)) := by
  induction fuel with
  | zero => intro s words net; rfl
  | succ fuel ih =>
    intro s words net
    rw [loadTransitions, acceptedTransitions]
    split_ifs with h1 h2
    · rfl
    · exact ih _ _ _
    · simp only
      split_ifs with h3
      · rfl
      · cases (rd.token2vector (rd.str (rd.split " \t\n\"[" "\"" s).2) words).2[0]? <;>
          cases (rd.token2vector (rd.str (rd.split " \t\n\"[" "\"" s).2) words).2[1]? <;>
          cases (rd.token2vector (rd.str (rd.split " \t\n\"[" "\"" s).2) words).2[2]? <;>
          cases (rd.token2vector (rd.str (rd.split " \t\n\"[" "\"" s).2) words).2[3]? <;>
          cases (rd.token2vector (rd.str (rd.split " \t\n\"[" "\"" s).2) words).2[4]? <;>
          first
          | rfl
          | (simp only
             split_ifs with h4
             · rfl
             · rw [ih, Option.map_map]
               rfl)

theorem loadArcs_accepted {σ : Type} (rd : Reader σ) (fuel : Nat) :
    ∀ (s : σ) (words : List String) (net : PetriNet),
      loadArcs rd fuel s words net =
        (acceptedArcs rd fuel s words net).map (fun r =>
          (r.1, r.2.1, r.2.2.1, applyRecords net r.2.2.2)) := by
  induction fuel with
  | zero => intro s words net; rfl
  | succ fuel ih =>
    intro s words net
    rw [loadArcs, acceptedArcs]
    split_ifs with h1 h2
    · rfl
    · exact ih _ _ _
    · simp only
      split_ifs with h3
      · rfl
      · cases (rd.token2vector (rd.str (rd.split " \t\n\"[" "\"\x7d" s).2) words).2[0]? <;>
          cases (rd.token2vector (rd.str (rd.split " \t\n\"[" "\"\x7d" s).2) words).2[1]? <;>
          cases (rd.token2vector (rd.str (rd.split " \t\n\"[" "\"\x7d" s).2) words).2[2]? <;>
          first
          | rfl
          | (rename_i w0 w1 w2
             simp only
             cases net.findNode w0 with
             | none => rfl
             | some from_ =>
               simp only
               cases net.findNode w1 with
               | none => rfl
               | some to_ =>
                 simp only
                 split_ifs with h4
                 · rfl
                 · cases net.deref from_ <;> cases net.deref to_ <;>
                     first
                     | rfl
                     | (simp only
                        split_ifs with h5
                        · rfl
                        · rw [ih, Option.map_map]
                          rfl))

theorem loadSections_accepted {σ : Type} (rd : Reader σ) (fuel : Nat) :
    ∀ (s : σ) (words : List String) (net : PetriNet),
      loadSections rd fuel s words net =
        (acceptedSections rd fuel s words net).map (fun r => (r.1, applyRecords net r.2)) := by
  induction fuel with
  | zero => intro s words net; rfl
  | succ fuel ih =>
    intro s words net
    have hsub : ∀ (o : Option (Bool × σ × List String × List Record)),
        (match o.map (fun r => (r.1, r.2.1, r.2.2.1, applyRecords net r.2.2.2)) with
          | none => none
          | some (false, _, _, net1) => some (false, net1)
          | some (true, s4, words1, net1) => loadSections rd fuel s4 words1 net1) =
        Option.map (fun r => (r.1, applyRecords net r.2))
          (match o with
          | none => none
          | some (false, _, _, records) => some (false, records)
          | some (true, s4, words1, records) =>
            (acceptedSections rd fuel s4 words1 (applyRecords net records)).map (fun r =>
              (r.1, records ++ r.2))) := by
      intro o
      cases o with
      | none => rfl
      | some r =>
        obtain ⟨b, s4, words1, records⟩ := r
        cases b
        · rfl
        · simp only [Option.map_some', ih, Option.map_map]
          congr 1
          funext r
          simp only [Function.comp_apply, applyRecords_append]
    rw [loadSections, acceptedSections]
    split_ifs with h0
    · rfl
    · simp only [loadPlaces_accepted, loadTransitions_accepted, loadArcs_accepted]
      split_ifs <;> first | rfl | exact hsub _ | exact ih _ _ _

theorem addArc_strict_frame (net : PetriNet) (f t : NodeRef) (d : ℚ) :
    (net.addArc f t d true).2.m_type = net.m_type ∧
    (net.addArc f t d true).2.m_places.map Place.data = net.m_places.map Place.data ∧
    (net.addArc f t d true).2.m_transitions.map Transition.data =
      net.m_transitions.map Transition.data ∧
    (net.addArc f t d true).2.m_next_place_id = net.m_next_place_id ∧
    (net.addArc f t d true).2.m_next_transition_id = net.m_next_transition_id ∧
    ((net.addArc f t d true).1 = false → (net.addArc f t d true).2.m_arcs = net.m_arcs) ∧
    ((net.addArc f t d true).1 ≠ false →
      (net.addArc f t d true).2.m_arcs = net.m_arcs ++ [⟨f, t, d⟩]) := by
  cases hA : net.findArc f t with
  | some a =>
    rw [addArc_of_dup d true hA]
    exact ⟨rfl, rfl, rfl, rfl, rfl, fun _ => rfl, fun h => absurd rfl h⟩
  | none =>
    cases hF : net.findNode f.key with
    | none =>
      rw [addArc_of_no_from d true hF]
      exact ⟨rfl, rfl, rfl, rfl, rfl, fun _ => rfl, fun h => absurd rfl h⟩
    | some pf =>
      cases hT : net.findNode t.key with
      | none =>
        rw [addArc_of_no_to d true hT]
        exact ⟨rfl, rfl, rfl, rfl, rfl, fun _ => rfl, fun h => absurd rfl h⟩
      | some pt =>
        by_cases hty : f.type = t.type
        · rw [addArc_of_strict_same d hty]
          exact ⟨rfl, rfl, rfl, rfl, rfl, fun _ => rfl, fun h => absurd rfl h⟩
        · rw [addArc_normal d true hA hF hT hty]
          obtain ⟨a1, a2, a3, a4, _, a6, a7⟩ := linkArc_frame net pf f pt t d
          exact ⟨a1, a6, a7, a3, a4, fun h => Bool.noConfusion h, fun _ => a2⟩

theorem applyRecords_cons (net : PetriNet) (r : Record) (l : List Record) :
    applyRecords net (r :: l) = applyRecords (Record.apply net r) l := rfl

theorem applyRecords_frame (records : List Record) :
    ∀ net : PetriNet,
      (applyRecords net records).m_type = net.m_type ∧
      (applyRecords net records).m_places.map Place.data =
        net.m_places.map Place.data ++ records.filterMap Record.placeData ∧
      (applyRecords net records).m_transitions.map Transition.data =
        net.m_transitions.map Transition.data ++
          records.filterMap (Record.transitionData net.m_type) ∧
      (applyRecords net records).m_next_place_id =
        records.foldl Record.placeCounter net.m_next_place_id ∧
      (applyRecords net records).m_next_transition_id =
        records.foldl Record.transitionCounter net.m_next_transition_id := by
  induction records with
  | nil => intro net; simp [applyRecords]
  | cons r rest ih =>
    intro net
    rw [applyRecords_cons]
    obtain ⟨i1, i2, i3, i4, i5⟩ := ih (Record.apply net r)
    rw [i1, i2, i3, i4, i5]
    cases r with
    | place id caption x y tokens =>
      simp [Record.apply, addPlaceId, Record.placeData, Record.transitionData,
        Record.placeCounter, Record.transitionCounter]
    | transition id caption x y angle =>
      simp [Record.apply, addTransitionId, Record.placeData, Record.transitionData,
        Record.placeCounter, Record.transitionCounter]
    | arc f t d =>
      obtain ⟨a1, a2, a3, a4, a5, _, _⟩ := addArc_strict_frame net f t d
      simp only [Record.apply, defaultStrict, a1, a2, a3, a4, a5, List.filterMap_cons,
        Record.placeData, Record.transitionData, List.foldl_cons, Record.placeCounter,
        Record.transitionCounter, and_self]

theorem acceptedPlaces_arcs {σ : Type} (rd : Reader σ) (fuel : Nat) :
    ∀ (s : σ) (words : List String) (r : Bool × σ × List String × List Record),
      acceptedPlaces rd fuel s words = some r → ∀ net, ArcsFollow net r.2.2.2 := by
  induction fuel with
  | zero => intro s words r h; simp [acceptedPlaces] at h
  | succ fuel ih =>
    intro s words r h
    rw [acceptedPlaces] at h
    split_ifs at h with h1 h2
    · cases h; intro net; simp [ArcsFollow, applyRecords]
    · exact ih _ _ _ h
    · simp only at h
      split_ifs at h with h3
      · cases h; intro net; simp [ArcsFollow, applyRecords]
      · split at h
        · split_ifs at h with h4
          rw [Option.map_eq_some'] at h
          obtain ⟨r1, hr1, rfl⟩ := h
          intro net
          have key := ih _ _ _ hr1
          unfold ArcsFollow at key ⊢
          rw [applyRecords_cons, key]
          simp [Record.apply, Record.arcOf, addPlaceId]
        · cases h

theorem acceptedTransitions_arcs {σ : Type} (rd : Reader σ) (fuel : Nat) :
    ∀ (s : σ) (words : List String) (r : Bool × σ × List String × List Record),
      acceptedTransitions rd fuel s words = some r → ∀ net, ArcsFollow net r.2.2.2 := by
  induction fuel with
  | zero => intro s words r h; simp [acceptedTransitions] at h
  | succ fuel ih =>
    intro s words r h
    rw [acceptedTransitions] at h
    split_ifs at h with h1 h2
    · cases h; intro net; simp [ArcsFollow, applyRecords]
    · exact ih _ _ _ h
    · simp only at h
      split_ifs at h with h3
      · cases h; intro net; simp [ArcsFollow, applyRecords]
      · split at h
        · split_ifs at h with h4
          rw [Option.map_eq_some'] at h
          obtain ⟨r1, hr1, rfl⟩ := h
          intro net
          have key := ih _ _ _ hr1
          unfold ArcsFollow at key ⊢
          rw [applyRecords_cons, key]
          simp [Record.apply, Record.arcOf, addTransitionId]
        · cases h

theorem acceptedArcs_arcs {σ : Type} (rd : Reader σ) (fuel : Nat) :
    ∀ (s : σ) (words : List String) (net : PetriNet)
      (r : Bool × σ × List String × List Record),
      acceptedArcs rd fuel s words net = some r → ArcsFollow net r.2.2.2 := by
  induction fuel with
  | zero => intro s words net r h; simp [acceptedArcs] at h
  | succ fuel ih =>
    intro s words net r h
    rw [acceptedArcs] at h
    split_ifs at h with h1 h2
    · cases h; simp [ArcsFollow, applyRecords]
    · exact ih _ _ _ _ h
    · simp only at h
      split_ifs at h with h3
      · cases h; simp [ArcsFollow, applyRecords]
      · split at h
        · split at h
          · cases h; simp [ArcsFollow, applyRecords]
          · split at h
            · cases h; simp [ArcsFollow, applyRecords]
            · split_ifs at h with h4
              · cases h; simp [ArcsFollow, applyRecords]
              · split at h
                · split_ifs at h with h5
                  · cases h; simp [ArcsFollow, applyRecords]
                  · rw [Option.map_eq_some'] at h
                    obtain ⟨r1, hr1, rfl⟩ := h
                    have h6 := ih _ _ _ _ hr1
                    have h7 := (addArc_strict_frame net _ _ _).2.2.2.2.2.2 h5
                    simp only [ArcsFollow, applyRecords_cons, Record.apply, defaultStrict,
                      List.filterMap_cons, Record.arcOf] at h6 ⊢
                    rw [h6, h7, List.append_assoc]
                    rfl
                · cases h
        · cases h

theorem arcsFollow_append {net : PetriNet} {l1 l2 : List Record} (h1 : ArcsFollow net l1)
    (h2 : ArcsFollow (applyRecords net l1) l2) : ArcsFollow net (l1 ++ l2) := by
  unfold ArcsFollow at *
  rw [← applyRecords_append, h2, h1, List.filterMap_append, List.append_assoc]

theorem acceptedSections_arcs {σ : Type} (rd : Reader σ) (fuel : Nat) :
    ∀ (s : σ) (words : List String) (net : PetriNet) (r : Bool × List Record),
      acceptedSections rd fuel s words net = some r → ArcsFollow net r.2 := by
  induction fuel with
  | zero => intro s words net r h; simp [acceptedSections] at h
  | succ fuel ih =>
    intro s words net r h
    have hnil : ArcsFollow net [] := by simp [ArcsFollow, applyRecords]
    rw [acceptedSections] at h
    split at h
    · cases h; exact hnil
    · simp only at h
      split at h
      · split at h
        · cases h; exact hnil
        · split at h
          · cases h; exact hnil
          · split at h
            · cases h
            · rename_i s4 w4 l4 heq
              cases h
              split_ifs at heq
              · exact acceptedPlaces_arcs rd fuel _ _ _ heq net
              · exact acceptedTransitions_arcs rd fuel _ _ _ heq net
              · exact acceptedArcs_arcs rd fuel _ _ _ _ heq
            · rename_i s4 w4 l4 heq
              have hin : ArcsFollow net l4 := by
                split_ifs at heq
                · exact acceptedPlaces_arcs rd fuel _ _ _ heq net
                · exact acceptedTransitions_arcs rd fuel _ _ _ heq net
                · exact acceptedArcs_arcs rd fuel _ _ _ _ heq
              rw [Option.map_eq_some'] at h
              obtain ⟨r1, hr1, rfl⟩ := h
              exact arcsFollow_append hin (ih _ _ _ _ hr1)
      · split at h
        · cases h; exact hnil
        · split at h
          · cases h; exact hnil
          · exact ih _ _ _ _ h

/-! ## Claim C24: a load that fails -/

/-- C24, counterexample.  A failing `load` does not leave the net cleared: on a
document whose first place record is well formed and whose second has two
fields, `load` returns false and the net holds the first place, with the place
counter at 1; on a document whose second arc names an unknown place, it returns
false and the net holds the place, the transition and the first arc. -/
theorem C24_counterexample :
    (sampleNet.load tokenReader 20 (brokenDocument, "")).map (fun r => r.1) = some false ∧
    (sampleNet.load tokenReader 20 (brokenDocument, "")).map
        (fun r => r.2.m_places.map Place.data) = some [(0, "first", 1, 2, 3)] ∧
    (sampleNet.load tokenReader 20 (brokenDocument, "")).map
        (fun r => r.2.m_next_place_id) = some 1 ∧
    (sampleNet.load tokenReader 20 (strayArcDocument, "")).map (fun r => r.1) = some false ∧
    (sampleNet.load tokenReader 20 (strayArcDocument, "")).map
        (fun r => (r.2.m_places.length, r.2.m_transitions.length)) = some (1, 1) ∧
    (sampleNet.load tokenReader 20 (strayArcDocument, "")).map
        (fun r => r.2.m_arcs.map Arc.ends) =
      some [(⟨NodeType.Place, 0⟩, ⟨NodeType.Transition, 0⟩)] := by
  refine ⟨by decide, by decide, by decide, by decide, by decide, by decide⟩

/-- C24, amended.  With whatever helpers `load` reads the document: if the
splitter is not in a good state or the first token is not the opening brace,
`load` returns false and leaves the net as it was (not cleared); otherwise
`load` returns exactly when the scan of the document for its accepted records
does, with the same boolean, and the net it leaves is the cleared net to which
every record accepted before the return was added by `addPlace`,
`addTransition` and `addArc`, in the order of the document: nothing is undone
when a later record is refused.  That net has the type of the net before the
call, its places are the places of the accepted place records, its transitions
those of the accepted transition records, its arcs those of the accepted arc
records, each in the order of the document, and its next-id counters are the
ones these records set from 0. -/
theorem C24_load_failure {σ : Type} (rd : Reader σ) (fuel : Nat) (s : σ) (net : PetriNet) :
    (rd.good s = false ∨ (rd.split " \t\n" " \t\n" s).1 ≠ "\x7b" →
      net.load rd fuel s = some (false, net)) ∧
    (rd.good s = true → (rd.split " \t\n" " \t\n" s).1 = "\x7b" →
      net.load rd fuel s =
        (acceptedRecords rd fuel s net).map (fun r => (r.1, applyRecords net.clear r.2))) ∧
    (∀ b records, acceptedRecords rd fuel s net = some (b, records) →
      (applyRecords net.clear records).m_type = net.m_type ∧
      (applyRecords net.clear records).m_places.map Place.data =
        records.filterMap Record.placeData ∧
      (applyRecords net.clear records).m_transitions.map Transition.data =
        records.filterMap (Record.transitionData net.m_type) ∧
      (applyRecords net.clear records).m_arcs = records.filterMap Record.arcOf ∧
      (applyRecords net.clear records).m_next_place_id =
        records.foldl Record.placeCounter 0 ∧
      (applyRecords net.clear records).m_next_transition_id =
        records.foldl Record.transitionCounter 0) := by
  refine ⟨fun hor => ?_, fun hg hb => ?_, fun b records h => ?_⟩
  · unfold PetriNet.load
    rcases hor with hg | hb
    · rw [if_pos hg]
    · split_ifs <;> rfl
  · unfold PetriNet.load acceptedRecords
    rw [if_neg (by simp [hg]), if_neg (by simp [hb])]
    exact loadSections_accepted rd fuel _ _ _
  · obtain ⟨f1, f2, f3, f4, f5⟩ := applyRecords_frame records net.clear
    have f6 := acceptedSections_arcs rd fuel _ _ _ _ h
    exact ⟨f1, f2, f3, f6, f4, f5⟩

/-- Witness of C24 on the document whose second place record is cut short: the
only accepted record is the first place, `load` returns false and the net
holds that place. -/
theorem C24_load_failure_witness :
    acceptedRecords tokenReader 20 (brokenDocument, "") sampleNet =
        some (false, [Record.place 0 "first" 1 2 3]) ∧
      sampleNet.load tokenReader 20 (brokenDocument, "") =
        (acceptedRecords tokenReader 20 (brokenDocument, "") sampleNet).map (fun r =>
          (r.1, applyRecords (PetriNet.clear sampleNet) r.2)) :=
  ⟨by decide,
    (C24_load_failure tokenReader 20 (brokenDocument, "") sampleNet).2.1 (by decide)
      (by decide)⟩

theorem badHandle_of_range (st : Facade) (handle : Int)
    (h : handle < 0 ∨ (st.g_petri_nets.length : Int) ≤ handle) : st.badHandle handle := by
  unfold Facade.badHandle
  omega

theorem setNet_length (st : Facade) (i : Nat) (net : PetriNet) :
    (st.setNet i net).g_petri_nets.length = st.g_petri_nets.length := by
  simp [Facade.setNet]

/-! ## Claim C28: a handle outside the table -/

/-- C28. For every state of the handle table and every handle that is negative
or not below the size of the table, every handle-taking function of the API
returns false (boolean functions) or -1 (id-returning functions), whatever its
other arguments, and leaves the state, hence the table and every net in it,
unchanged; the records and arrays of the caller are left as they were. -/
theorem C28_invalid_handle (st : Facade) (handle : Int)
    (h : handle < 0 ∨ (st.g_petri_nets.length : Int) ≤ handle) :
    (∀ copy, petri_copy copy st handle = some (-1, st)) ∧
    (∀ reset, petri_reset reset st handle = some (false, st)) ∧
    (∀ empty, petri_is_empty st handle empty = some (false, empty, st)) ∧
    (∀ editor, petri_editor editor st handle = some (false, st)) ∧
    petri_count_places st handle = some (-1, st) ∧
    petri_count_transitions st handle = some (-1, st) ∧
    (∀ places, petri_get_places st handle places = some (false, places, st)) ∧
    (∀ i place, petri_get_place st handle i place = some (false, place, st)) ∧
    (∀ transitions,
      petri_get_transitions st handle transitions = some (false, transitions, st)) ∧
    (∀ i transition,
      petri_get_transition st handle i transition = some (false, transition, st)) ∧
    (∀ x y tokens, petri_add_place st handle x y tokens = some (-1, st)) ∧
    (∀ x y, petri_add_transition st handle x y = some (-1, st)) ∧
    (∀ tokens, petri_set_marks st handle tokens = some (false, st)) ∧
    (∀ tokens, petri_get_marks st handle tokens = some (false, tokens, st)) ∧
    (∀ id, petri_remove_place st handle id = some (false, st)) ∧
    (∀ id, petri_remove_transition st handle id = some (false, st)) ∧
    (∀ from_ to_ duration, petri_add_arc st handle from_ to_ duration = some (-1, st)) ∧
    (∀ from_ to_, petri_remove_arc st handle from_ to_ = some (false, st)) ∧
    (∀ id, petri_get_tokens st handle id = some (-1, st)) ∧
    (∀ id tokens, petri_set_tokens st handle id tokens = some (false, st)) ∧
    (∀ opened, petri_save st handle opened = some (false, st)) ∧
    (∀ (σ : Type) (rd : Reader σ) (fuel : Nat) (s : σ),
      petri_load rd fuel st handle s = some (false, st)) ∧
    (∀ res, petri_is_event_graph st handle res = some (false, res, st)) ∧
    petri_to_canonical st handle = some (-1, st) ∧
    (∀ pN pT, petri_to_adjacency_matrices st handle pN pT = some (false, pN, pT, st)) ∧
    (∀ pD pA pB pC, petri_to_sys_lin st handle pD pA pB pC = some (false, pD, pA, pB, pC, st)) ∧
    (∀ showDaterForm, petri_dater_form showDaterForm st handle = some (false, st)) ∧
    (∀ showCounterForm, petri_counter_form showCounterForm st handle = some (false, st)) := by
  have hb : st.badHandle handle := badHandle_of_range st handle h
  refine ⟨?_, ?_, ?_, ?_, ?_, ?_, ?_, ?_, ?_, ?_, ?_, ?_, ?_, ?_, ?_, ?_, ?_, ?_, ?_, ?_, ?_, ?_,
    ?_, ?_, ?_, ?_, ?_, ?_⟩
  · intro copy; simp [petri_copy, hb]
  · intro reset; simp [petri_reset, hb]
  · intro empty; simp [petri_is_empty, hb]
  · intro editor; simp [petri_editor, hb]
  · simp [petri_count_places, hb]
  · simp [petri_count_transitions, hb]
  · intro places; simp [petri_get_places, hb]
  · intro i place; simp [petri_get_place, hb]
  · intro transitions; simp [petri_get_transitions, hb]
  · intro i transition; simp [petri_get_transition, hb]
  · intro x y tokens; simp [petri_add_place, hb]
  · intro x y; simp [petri_add_transition, hb]
  · intro tokens; simp [petri_set_marks, hb]
  · intro tokens; simp [petri_get_marks, hb]
  · intro id; simp [petri_remove_place, hb]
  · intro id; simp [petri_remove_transition, hb]
  · intro from_ to_ duration; simp [petri_add_arc, hb]
  · intro from_ to_; simp [petri_remove_arc, hb]
  · intro id; simp [petri_get_tokens, hb]
  · intro id tokens; simp [petri_set_tokens, hb]
  · intro opened; simp [petri_save, hb]
  · intro σ rd fuel s; simp [petri_load, hb]
  · intro res; simp [petri_is_event_graph, hb]
  · simp [petri_to_canonical, hb]
  · intro pN pT
    unfold petri_to_adjacency_matrices
    split_ifs <;> rfl
  · intro pD pA pB pC; simp [petri_to_sys_lin, hb]
  · intro showDaterForm; simp [petri_dater_form, hb]
  · intro showCounterForm; simp [petri_counter_form, hb]

theorem C28_invalid_handle_witness :
    ((2 : Int) < 0 ∨ (sampleFacade.g_petri_nets.length : Int) ≤ 2) ∧
      petri_count_places sampleFacade 2 = some (-1, sampleFacade) ∧
      petri_to_canonical sampleFacade 2 = some (-1, sampleFacade) ∧
      petri_set_tokens sampleFacade 2 0 5 = some (false, sampleFacade) ∧
      petri_count_places sampleFacade 1 = some (2, sampleFacade) :=
  ⟨by decide, (C28_invalid_handle sampleFacade 2 (by decide)).2.2.2.2.1,
    (C28_invalid_handle sampleFacade 2 (by decide)).2.2.2.2.2.2.2.2.2.2.2.2.2.2.2.2.2.2.2.2.2.2.2.1,
    (C28_invalid_handle sampleFacade 2 (by decide)).2.2.2.2.2.2.2.2.2.2.2.2.2.2.2.2.2.2.2.1 0 5,
    by decide⟩

theorem run_length {σ : Type} (ext : Externals σ) (st : Facade) (call : Call σ) (st' : Facade)
    (h : call.run ext st = some st') :
    st.g_petri_nets.length ≤ st'.g_petri_nets.length := by
  cases call <;> simp only [Call.run, Option.map_eq_some', Option.some.injEq] at h
  case create => subst h; simp [petri_create]
  all_goals obtain ⟨r, hr, rfl⟩ := h
  case to_canonical =>
    unfold petri_to_canonical at hr
    split at hr
    · cases hr; simp
    · split at hr
      · cases hr
      · split at hr
        · cases hr; simp [setNet_length]
        · simp only at hr
          split at hr
          · split at hr
            · cases hr
            · cases hr; simp [setNet_length, petri_create]
          · cases hr
  case copy =>
    unfold petri_copy at hr
    repeat' split at hr
    all_goals (cases hr <;> simp [setNet_length])
  case remove_place =>
    unfold petri_remove_place removeByKey at hr
    repeat' split at hr
    all_goals (cases hr <;> simp [setNet_length])
  case remove_transition =>
    unfold petri_remove_transition removeByKey at hr
    repeat' split at hr
    all_goals (cases hr <;> simp [setNet_length])
  all_goals
    first
    | unfold petri_reset at hr
    | unfold petri_editor at hr
    | unfold petri_is_empty at hr
    | unfold petri_count_places at hr
    | unfold petri_get_places at hr
    | unfold petri_get_place at hr
    | unfold petri_add_place at hr
    | unfold petri_add_transition at hr
    | unfold petri_count_transitions at hr
    | unfold petri_set_marks at hr
    | unfold petri_get_marks at hr
    | unfold petri_get_transitions at hr
    | unfold petri_get_transition at hr
    | unfold petri_add_arc at hr
    | unfold petri_remove_arc at hr
    | unfold petri_get_tokens at hr
    | unfold petri_set_tokens at hr
    | unfold petri_save at hr
    | unfold petri_load at hr
    | unfold petri_is_event_graph at hr
    | unfold petri_to_adjacency_matrices at hr
    | unfold petri_to_sys_lin at hr
    | unfold petri_dater_form at hr
    | unfold petri_counter_form at hr
  all_goals repeat' split at hr
  all_goals (cases hr <;> simp [setNet_length])

theorem runCalls_length {σ : Type} (ext : Externals σ) (calls : List (Call σ)) :
    ∀ (st st' : Facade), runCalls ext st calls = some st' →
      st.g_petri_nets.length ≤ st'.g_petri_nets.length := by
  induction calls with
  | nil => intro st st' h; simp [runCalls] at h; subst h; exact le_rfl
  | cons call rest ih =>
    intro st st' h
    rw [runCalls] at h
    split at h
    · cases h
    · rename_i st1 h1
      exact le_trans (run_length ext st call st1 h1) (ih st1 st' h)

theorem toInt64_of_lt (n : Nat) (h : n < 2 ^ 63) : toInt64 n = (n : Int) := by
  have h1 : n % 2 ^ 64 = n := Nat.mod_eq_of_lt (by omega)
  unfold toInt64
  rw [h1, if_pos h]

theorem toSizeT_natCast (n : Nat) (h : n < 2 ^ 63) : toSizeT (n : Int) = n := by
  unfold toSizeT
  omega

theorem petri_create_eq (st : Facade) (h : st.g_petri_nets.length < 2 ^ 63) :
    petri_create st = ((st.g_petri_nets.length : Int),
      { st with g_petri_nets := st.g_petri_nets ++ [PetriNet.empty NetType.TimedPetri] }) := by
  simp [petri_create, toInt64_of_lt _ h]

theorem not_badHandle_of_get (st : Facade) (handle : Int) (net : PetriNet) (h0 : 0 ≤ handle)
    (hnet : st.g_petri_nets[handle.toNat]? = some net) : ¬ st.badHandle handle := by
  have hlt : handle.toNat < st.g_petri_nets.length := (List.getElem?_eq_some_iff.mp hnet).1
  unfold Facade.badHandle
  omega

theorem petri_to_canonical_eq (st : Facade) (handle : Int) (net : PetriNet)
    (hlen : st.g_petri_nets.length < 2 ^ 63) (h0 : 0 ≤ handle)
    (hnet : st.g_petri_nets[handle.toNat]? = some net) (heg : net.isEventGraph.1 = true) :
    petri_to_canonical st handle =
      (net.isEventGraph.2.2.toCanonicalForm (PetriNet.empty NetType.TimedPetri)).map
        (fun c => ((st.g_petri_nets.length : Int),
          { st with
            g_petri_nets := st.g_petri_nets.set handle.toNat net.isEventGraph.2.2 ++ [c] })) := by
  have hnb := not_badHandle_of_get st handle net h0 hnet
  have hlt : handle.toNat < st.g_petri_nets.length := (List.getElem?_eq_some_iff.mp hnet).1
  have hl1 : (st.setNet handle.toNat net.isEventGraph.2.2).g_petri_nets.length < 2 ^ 63 := by
    rw [setNet_length]; exact hlen
  unfold petri_to_canonical
  rw [if_neg hnb, hnet]
  simp only [heg, Bool.true_eq_false, if_false]
  rw [petri_create_eq _ hl1]
  simp only [setNet_length, toSizeT_natCast _ hlen]
  have e1 : ((st.setNet handle.toNat net.isEventGraph.2.2).g_petri_nets ++
      [PetriNet.empty NetType.TimedPetri])[handle.toNat]? = some net.isEventGraph.2.2 := by
    rw [List.getElem?_append_left (by rw [setNet_length]; exact hlt)]
    simp [Facade.setNet, hlt]
  have e2 : ((st.setNet handle.toNat net.isEventGraph.2.2).g_petri_nets ++
      [PetriNet.empty NetType.TimedPetri])[st.g_petri_nets.length]? =
      some (PetriNet.empty NetType.TimedPetri) := by
    rw [List.getElem?_append_right (by rw [setNet_length])]
    simp [setNet_length]
  rw [e1, e2]
  cases hc : net.isEventGraph.2.2.toCanonicalForm (PetriNet.empty NetType.TimedPetri) with
  | none => simp only [hc, Option.map_none']
  | some c =>
    have hl2 : (st.g_petri_nets.set handle.toNat net.isEventGraph.2.2).length =
        st.g_petri_nets.length := List.length_set _ _ _
    have e3 : (st.g_petri_nets.set handle.toNat net.isEventGraph.2.2 ++
        [PetriNet.empty NetType.TimedPetri]).set st.g_petri_nets.length c =
        st.g_petri_nets.set handle.toNat net.isEventGraph.2.2 ++ [c] := by
      rw [List.set_append_right _ _ (by rw [hl2]), hl2]
      simp
    simp only [hc, Option.map_some', Facade.setNet, e3]

/-! ## Claim C29: the growth of the handle table -/

/-- C29. In every sequence of calls of the handle API the size of the table
never decreases.  For a table of fewer than 2^63 nets (any table that fits in
memory): `petri_create` returns the size of the table before the call and adds
one net; so do `petri_copy` on a valid handle, when the copy constructor
returns, and `petri_to_canonical` on a valid handle whose net is an event
graph, when `toCanonicalForm` returns; on an invalid handle both return -1 and
leave the state unchanged, and on a net that is not an event graph
`petri_to_canonical` returns -1 and leaves the size of the table unchanged.
Hence a handle returned by `petri_create` is below the handle returned by any
later `petri_create`. -/
theorem C29_handle_table {σ : Type} (ext : Externals σ) (st : Facade)
    (hlen : st.g_petri_nets.length < 2 ^ 63) :
    (∀ calls st', runCalls ext st calls = some st' →
      st.g_petri_nets.length ≤ st'.g_petri_nets.length) ∧
    petri_create st = ((st.g_petri_nets.length : Int),
      { st with g_petri_nets := st.g_petri_nets ++ [PetriNet.empty NetType.TimedPetri] }) ∧
    (∀ handle : Int, handle < 0 ∨ (st.g_petri_nets.length : Int) ≤ handle →
      petri_copy ext.copy st handle = some (-1, st) ∧
      petri_to_canonical st handle = some (-1, st)) ∧
    (∀ (handle : Int) (net : PetriNet), 0 ≤ handle →
      st.g_petri_nets[handle.toNat]? = some net →
      petri_copy ext.copy st handle =
        (ext.copy net).map (fun c => ((st.g_petri_nets.length : Int),
          { st with g_petri_nets := st.g_petri_nets ++ [c] })) ∧
      (net.isEventGraph.1 = false →
        petri_to_canonical st handle =
          some (-1, st.setNet handle.toNat net.isEventGraph.2.2) ∧
        (st.setNet handle.toNat net.isEventGraph.2.2).g_petri_nets.length =
          st.g_petri_nets.length) ∧
      (net.isEventGraph.1 = true →
        petri_to_canonical st handle =
          (net.isEventGraph.2.2.toCanonicalForm (PetriNet.empty NetType.TimedPetri)).map
            (fun c => ((st.g_petri_nets.length : Int),
              { st with
                g_petri_nets :=
                  st.g_petri_nets.set handle.toNat net.isEventGraph.2.2 ++ [c] })))) ∧
    (∀ calls st', runCalls ext (petri_create st).2 calls = some st' →
      st'.g_petri_nets.length < 2 ^ 63 → (petri_create st).1 < (petri_create st').1) := by
  refine ⟨fun calls st' h => runCalls_length ext calls st st' h, petri_create_eq st hlen,
    fun handle hb => ?_, fun handle net h0 hnet => ⟨?_, fun heg => ⟨?_, setNet_length _ _ _⟩,
      fun heg => petri_to_canonical_eq st handle net hlen h0 hnet heg⟩, fun calls st' h hl => ?_⟩
  · have hbad := badHandle_of_range st handle hb
    constructor
    · simp [petri_copy, hbad]
    · simp [petri_to_canonical, hbad]
  · have hnb := not_badHandle_of_get st handle net h0 hnet
    unfold petri_copy
    rw [if_neg hnb, hnet]
    cases hc : ext.copy net with
    | none => simp only [hc, Option.map_none']
    | some c =>
      have hl1 : (st.g_petri_nets ++ [c]).length - 1 = st.g_petri_nets.length := by simp
      simp only [hc, Option.map_some', hl1, toInt64_of_lt _ hlen]
  · have hnb := not_badHandle_of_get st handle net h0 hnet
    unfold petri_to_canonical
    rw [if_neg hnb, hnet]
    simp only [heg, if_true]
  · have hmono := runCalls_length ext calls _ st' h
    rw [petri_create_eq st hlen] at hmono
    rw [petri_create_eq st hlen, petri_create_eq st' hl]
    simp only [List.length_append, List.length_singleton] at hmono
    show (st.g_petri_nets.length : Int) < (st'.g_petri_nets.length : Int)
    omega

theorem C29_handle_table_witness :
    sampleFacade.g_petri_nets.length < 2 ^ 63 ∧
      (petri_create sampleFacade).1 = 2 ∧
      petri_copy sampleExternals.copy sampleFacade 5 = some (-1, sampleFacade) ∧
      (petri_copy sampleExternals.copy sampleFacade 1).map
        (fun r => (r.1, r.2.g_petri_nets.length)) = some (2, 3) ∧
      (petri_to_canonical sampleFacade 0).map
        (fun r => (r.1, r.2.g_petri_nets.length)) = some (2, 3) ∧
      (petri_to_canonical sampleFacade 1).map
        (fun r => (r.1, r.2.g_petri_nets.length)) = some (-1, 2) :=
  ⟨by decide, congrArg Prod.fst (C29_handle_table sampleExternals sampleFacade (by decide)).2.1,
    ((C29_handle_table sampleExternals sampleFacade (by decide)).2.2.1 5 (by decide)).1,
    by decide, by decide, by decide⟩

/-! ## Claim C32: referential integrity -/

theorem burntLoop_pos (tokensIn : Nat → Nat) :
    ∀ (l : List Nat) (burnt : Nat), 0 < burnt →
      (0 < burntLoop tokensIn l burnt ↔ ∀ a ∈ l, 1 ≤ tokensIn a) := by
  intro l
  induction l with
  | nil => intro burnt hb; simpa [burntLoop] using hb
  | cons x rest ih =>
    intro burnt hb
    unfold burntLoop
    by_cases h0 : tokensIn x = 0
    · simp [h0]
    · have hx : 1 ≤ tokensIn x := Nat.pos_of_ne_zero h0
      simp only [h0, if_false, List.mem_cons, forall_eq_or_imp, hx, true_and]
      split_ifs
      · exact ih _ hx
      · exact ih _ hb

/-- C34. For every transition and every token count on its input arcs,
`howManyTokensCanBurnt()` is positive exactly when `isEnabled()` is true and
the receptivity is true; and `howManyTokensCanBurnt()` is at most `tokensIn()`
of each input arc of the transition, so subtracting it from the tokens of an
input place does not underflow. -/
theorem C34_burnt_and_enabled (tokensIn : Nat → Nat) (t : Transition) :
    (0 < t.howManyTokensCanBurnt tokensIn ↔
      (t.isEnabled tokensIn = true ∧ t.receptivity = true)) ∧
    (∀ a ∈ t.arcsIn, t.howManyTokensCanBurnt tokensIn ≤ tokensIn a ∧
      tokensIn a - t.howManyTokensCanBurnt tokensIn + t.howManyTokensCanBurnt tokensIn =
        tokensIn a) := by
  have hle : ∀ a ∈ t.arcsIn, t.howManyTokensCanBurnt tokensIn ≤ tokensIn a := by
    intro a ha
    have hl : t.arcsIn.length ≠ 0 := fun e => by
      rw [List.length_eq_zero.1 e] at ha; cases ha
    unfold Transition.howManyTokensCanBurnt
    rw [if_neg hl]
    split_ifs
    · exact Nat.zero_le _
    · exact (burntLoop_spec tokensIn t.arcsIn SIZE_MAX).1 a ha
  refine ⟨?_, fun a ha => ⟨hle a ha, Nat.sub_add_cancel (hle a ha)⟩⟩
  unfold Transition.howManyTokensCanBurnt Transition.isEnabled
  by_cases hl : t.arcsIn.length = 0
  · cases hr : t.receptivity <;> simp [hl, hr]
  · cases hr : t.receptivity
    · simp [hl, hr]
    · simp only [hl, if_false, Bool.true_eq_false, and_true]
      rw [burntLoop_pos tokensIn t.arcsIn SIZE_MAX (by decide), isEnabledLoop_iff]

/-! ## Claim C38: the default branch of changeTypeOfNet -/

/-- C38. The claim fails for the type TimedGraphEvent: `changeTypeOfNet` has no
case for it, so the call reaches the default branch and its failing assertion.
For the three other types the call returns and changes the type of the net
only: places (tokens included), transitions (receptivities included), arcs,
counters and the modified flag are those of the net before the call. -/
theorem C38_changeTypeOfNet_default (net : PetriNet) (s : Settings) :
    net.changeTypeOfNet s NetType.TimedGraphEvent = none ∧
    ∀ mode : NetType, mode ≠ NetType.TimedGraphEvent →
      ∃ s', net.changeTypeOfNet s mode = some ({ net with m_type := mode }, s') := by
  refine ⟨rfl, fun mode hm => ?_⟩
  cases mode <;> first | exact absurd rfl hm | exact ⟨_, rfl⟩

/-! ## Claim C39: write_int32 -/

/-- C39. For every integer value and every content of the file, `write_int32`
appends exactly four bytes `b0`, `b1`, `b2`, `b3`, in that order, each below
256, with b0 + 256 b1 + 65536 b2 + 16777216 b3 equal to the value modulo
2^32, which is also `int32_t(val)` modulo 2^32; decoding the four bytes as a
little-endian signed 32-bit integer gives `int32_t(val)`, which is the value
itself when it lies in the `int32_t` range. -/
theorem C39_write_int32 (file : List Nat) (val : Int) :
    ∃ b0 b1 b2 b3 : Nat,
      write_int32 file val = file ++ [b0, b1, b2, b3] ∧
      b0 < 256 ∧ b1 < 256 ∧ b2 < 256 ∧ b3 < 256 ∧
      ((b0 + 256 * b1 + 65536 * b2 + 16777216 * b3 : Nat) : Int) = val % 2 ^ 32 ∧
      val % 2 ^ 32 = toInt32 val % 2 ^ 32 ∧
      decodeInt32 b0 b1 b2 b3 = toInt32 val ∧
      (-2 ^ 31 ≤ val → val < 2 ^ 31 → decodeInt32 b0 b1 b2 b3 = val) := by
  have hd1 : -2147483648 ≤ toInt32 val ∧ toInt32 val < 2147483648 ∧
      val % 4294967296 = toInt32 val % 4294967296 ∧
      (-2147483648 ≤ val → val < 2147483648 → toInt32 val = val) := by
    unfold toInt32
    norm_num
    omega
  have e8 : toInt32 val >>> (8 : Nat) = toInt32 val / 256 :=
    (Int.shiftRight_eq_div_pow (toInt32 val) 8).trans (by norm_num)
  have e16 : toInt32 val >>> (16 : Nat) = toInt32 val / 65536 :=
    (Int.shiftRight_eq_div_pow (toInt32 val) 16).trans (by norm_num)
  have e24 : toInt32 val >>> (24 : Nat) = toInt32 val / 16777216 :=
    (Int.shiftRight_eq_div_pow (toInt32 val) 24).trans (by norm_num)
  have hdec : ∀ n : Int, toInt32 n = (n + 2147483648) % 4294967296 - 2147483648 := by
    intro n; unfold toInt32; norm_num
  have p32 : (2 : Int) ^ 32 = 4294967296 := by norm_num
  have p31 : (2 : Int) ^ 31 = 2147483648 := by norm_num
  have c0 : (((toInt32 val % 256).toNat : Nat) : Int) = toInt32 val % 256 :=
    Int.toNat_of_nonneg (Int.emod_nonneg _ (by norm_num))
  have c1 : (((toInt32 val / 256 % 256).toNat : Nat) : Int) = toInt32 val / 256 % 256 :=
    Int.toNat_of_nonneg (Int.emod_nonneg _ (by norm_num))
  have c2 : (((toInt32 val / 65536 % 256).toNat : Nat) : Int) = toInt32 val / 65536 % 256 :=
    Int.toNat_of_nonneg (Int.emod_nonneg _ (by norm_num))
  have c3 : (((toInt32 val / 16777216 % 256).toNat : Nat) : Int) =
      toInt32 val / 16777216 % 256 :=
    Int.toNat_of_nonneg (Int.emod_nonneg _ (by norm_num))
  have hsum : (((toInt32 val % 256).toNat + 256 * (toInt32 val / 256 % 256).toNat +
      65536 * (toInt32 val / 65536 % 256).toNat +
      16777216 * (toInt32 val / 16777216 % 256).toNat : Nat) : Int) =
      toInt32 val % 4294967296 := by
    push_cast
    rw [c0, c1, c2, c3]
    generalize toInt32 val = d at hd1
    omega
  have hback : (toInt32 val % 4294967296 + 2147483648) % 4294967296 - 2147483648 =
      toInt32 val := by
    generalize toInt32 val = d at hd1
    omega
  refine ⟨(toInt32 val % 256).toNat, ((toInt32 val >>> (8 : Nat)) % 256).toNat,
    ((toInt32 val >>> (16 : Nat)) % 256).toNat, ((toInt32 val >>> (24 : Nat)) % 256).toNat,
    ?_, ?_, ?_, ?_, ?_, ?_, ?_, ?_, ?_⟩
  · simp [write_int32, put]
  · omega
  · omega
  · omega
  · omega
  · rw [e8, e16, e24, p32, hsum]
    exact hd1.2.2.1.symm
  · rw [p32]
    exact hd1.2.2.1
  · rw [e8, e16, e24, decodeInt32, hdec, hsum, hback]
  · intro h1 h2
    rw [p31] at h1 h2
    rw [e8, e16, e24, decodeInt32, hdec, hsum, hback]
    exact hd1.2.2.2 h1 h2

theorem generate_idempotent (net : PetriNet) :
    net.generateArcsInArcsOut.generateArcsInArcsOut = net.generateArcsInArcsOut := by
  simp [generateArcsInArcsOut, List.map_map, Function.comp_def]

/-! ## Claim C31: toCanonicalForm leaves the source net as it is -/

theorem forall_mem_modify {α : Type} (P : α → Prop) (f : α → α) (l : List α) (n : Nat)
    (hl : ∀ a ∈ l, P a) (hf : ∀ a, P a → P (f a)) : ∀ a ∈ l.modify f n, P a := by
  intro a ha
  rw [List.mem_iff_getElem?] at ha
  obtain ⟨m, hm⟩ := ha
  rw [List.getElem?_modify] at hm
  cases hlm : l[m]? with
  | none => rw [hlm] at hm; cases hm
  | some b =>
    rw [hlm] at hm
    simp only [Option.map_eq_map, Option.map_some', Option.some.injEq] at hm
    have hb := hl b (List.getElem?_mem hlm)
    subst hm
    split_ifs
    · exact hf b hb
    · exact hb

theorem forall_mem_swapRemove {α : Type} (P : α → Prop) (l : List α) (i : Nat)
    (hl : ∀ a ∈ l, P a) : ∀ a ∈ swapRemove l i, P a := by
  intro a ha
  unfold swapRemove at ha
  cases he : l.getLast? with
  | none => rw [he] at ha; exact hl a ha
  | some e =>
    rw [he] at ha
    rcases List.mem_or_eq_of_mem_set (List.mem_of_mem_dropLast ha) with h1 | h1
    · exact hl a h1
    · rw [h1]; exact hl e (List.mem_of_mem_getLast? he)

theorem Heap.addPlace_closed (h : Heap) (x y : ℚ) (tokens : Nat) (hc : h.Closed) :
    (h.addPlace Obj.canonic x y tokens).1.obj = Obj.canonic ∧
    (h.addPlace Obj.canonic x y tokens).2.Closed ∧
    (h.addPlace Obj.canonic x y tokens).2.this_ = h.this_ := by
  refine ⟨rfl, ⟨hc.1, ?_, hc.2.2⟩, rfl⟩
  intro p hp
  simp only [Heap.addPlace, Heap.setNet, Heap.net, List.mem_append, List.mem_singleton] at hp
  rcases hp with hp | hp
  · exact hc.2.1 p hp
  · subst hp
    exact ⟨fun x hx => (by cases hx), fun x hx => (by cases hx)⟩

theorem Heap.addTransition_closed (h : Heap) (x y : ℚ) (hc : h.Closed) :
    (h.addTransition Obj.canonic x y).1.obj = Obj.canonic ∧
    (h.addTransition Obj.canonic x y).2.Closed ∧
    (h.addTransition Obj.canonic x y).2.this_ = h.this_ := by
  refine ⟨rfl, ⟨hc.1, hc.2.1, ?_⟩, rfl⟩
  intro t ht
  simp only [Heap.addTransition, Heap.setNet, Heap.net, List.mem_append,
    List.mem_singleton] at ht
  rcases ht with ht | ht
  · exact hc.2.2 t ht
  · subst ht
    exact ⟨fun x hx => (by cases hx), fun x hx => (by cases hx)⟩

theorem Heap.pushArcsOut_closed (h : Heap) (a : NodeAddr) (x : ArcAddr)
    (ha : a.obj = Obj.canonic) (hx : x.obj = Obj.canonic) (hc : h.Closed) :
    (h.pushArcsOut a x).Closed ∧ (h.pushArcsOut a x).this_ = h.this_ ∧
      (h.pushArcsOut a x).canonic.m_arcs = h.canonic.m_arcs := by
  obtain ⟨o, ty, s⟩ := a
  simp only at ha
  subst ha
  cases ty
  · refine ⟨⟨hc.1, ?_, hc.2.2⟩, rfl, rfl⟩
    apply forall_mem_modify _ _ _ _ hc.2.1
    intro p hp
    refine ⟨hp.1, fun z hz => ?_⟩
    simp only [List.mem_append, List.mem_singleton] at hz
    rcases hz with hz | hz
    · exact hp.2 z hz
    · rw [hz]; exact hx
  · refine ⟨⟨hc.1, hc.2.1, ?_⟩, rfl, rfl⟩
    apply forall_mem_modify _ _ _ _ hc.2.2
    intro p hp
    refine ⟨hp.1, fun z hz => ?_⟩
    simp only [List.mem_append, List.mem_singleton] at hz
    rcases hz with hz | hz
    · exact hp.2 z hz
    · rw [hz]; exact hx

theorem Heap.pushArcsIn_closed (h : Heap) (a : NodeAddr) (x : ArcAddr)
    (ha : a.obj = Obj.canonic) (hx : x.obj = Obj.canonic) (hc : h.Closed) :
    (h.pushArcsIn a x).Closed ∧ (h.pushArcsIn a x).this_ = h.this_ ∧
      (h.pushArcsIn a x).canonic.m_arcs = h.canonic.m_arcs := by
  obtain ⟨o, ty, s⟩ := a
  simp only at ha
  subst ha
  cases ty
  · refine ⟨⟨hc.1, ?_, hc.2.2⟩, rfl, rfl⟩
    apply forall_mem_modify _ _ _ _ hc.2.1
    intro p hp
    refine ⟨fun z hz => ?_, hp.2⟩
    simp only [List.mem_append, List.mem_singleton] at hz
    rcases hz with hz | hz
    · exact hp.1 z hz
    · rw [hz]; exact hx
  · refine ⟨⟨hc.1, hc.2.1, ?_⟩, rfl, rfl⟩
    apply forall_mem_modify _ _ _ _ hc.2.2
    intro p hp
    refine ⟨fun z hz => ?_, hp.2⟩
    simp only [List.mem_append, List.mem_singleton] at hz
    rcases hz with hz | hz
    · exact hp.1 z hz
    · rw [hz]; exact hx

theorem Heap.linkArc_closed (h : Heap) (from_ to_ : NodeAddr) (d : ℚ)
    (hf : from_.obj = Obj.canonic) (ht : to_.obj = Obj.canonic) (hc : h.Closed) :
    (h.linkArc Obj.canonic from_ to_ d).Closed ∧
      (h.linkArc Obj.canonic from_ to_ d).this_ = h.this_ := by
  have h1 : (h.setNet Obj.canonic
      { h.net Obj.canonic with
        m_arcs := (h.net Obj.canonic).m_arcs ++ [⟨from_, to_, d⟩] }).Closed := by
    refine ⟨?_, hc.2.1, hc.2.2⟩
    intro a ha
    simp only [Heap.setNet, Heap.net, List.mem_append, List.mem_singleton] at ha
    rcases ha with ha | ha
    · exact hc.1 a ha
    · subst ha
      exact ⟨hf, ht⟩
  obtain ⟨c2, t2, _⟩ := Heap.pushArcsOut_closed _ from_ ⟨Obj.canonic, (h.net Obj.canonic).m_arcs.length⟩
    hf rfl h1
  obtain ⟨c3, t3, _⟩ := Heap.pushArcsIn_closed _ to_ ⟨Obj.canonic, (h.net Obj.canonic).m_arcs.length⟩
    ht rfl c2
  exact ⟨c3, t3.trans t2⟩

theorem Heap.setModified_closed (h : Heap) (hc : h.Closed) :
    (h.setModified Obj.canonic).Closed ∧ (h.setModified Obj.canonic).this_ = h.this_ :=
  ⟨hc, rfl⟩

theorem Heap.addArc_closed (h : Heap) (from_ to_ : NodeAddr) (d : ℚ) (strict : Bool)
    (hf : from_.obj = Obj.canonic) (ht : to_.obj = Obj.canonic) (hc : h.Closed)
    (r : Bool × Heap) (hr : h.addArc Obj.canonic from_ to_ d strict = some r) :
    r.2.Closed ∧ r.2.this_ = h.this_ := by
  unfold Heap.addArc at hr
  repeat' split at hr
  all_goals first
    | (cases hr; done)
    | (cases hr; exact ⟨hc, rfl⟩)
    | skip
  · rename_i fx tx fy ty _ _ _ _ _
    cases hr
    obtain ⟨n1, n2, n3⟩ := Heap.addTransition_closed h (floatMid fx tx) (floatMid fy ty) hc
    obtain ⟨l1, l2⟩ := Heap.linkArc_closed _ from_ _ d hf n1 n2
    obtain ⟨m1, m2⟩ := Heap.linkArc_closed _ _ to_ d n1 ht l1
    exact ⟨m1, m2.trans (l2.trans n3)⟩
  · rename_i fx tx fy ty _ _ _ _ _
    cases hr
    obtain ⟨n1, n2, n3⟩ := Heap.addPlace_closed h (floatMid fx tx) (floatMid fy ty) 0 hc
    obtain ⟨l1, l2⟩ := Heap.linkArc_closed _ from_ _ d hf n1 n2
    obtain ⟨m1, m2⟩ := Heap.linkArc_closed _ _ to_ d n1 ht l1
    exact ⟨m1, m2.trans (l2.trans n3)⟩
  · cases hr
    obtain ⟨l1, l2⟩ := Heap.linkArc_closed h from_ to_ d hf ht hc
    exact ⟨l1, l2⟩

theorem Heap.removeArcLoop_mem (h : Heap) (from_ to_ : NodeAddr) (P : ArcCell → Prop) :
    ∀ (i : Nat) (arcs : List ArcCell) (r : Bool × List ArcCell),
      h.removeArcLoop from_ to_ i arcs = some r → (∀ a ∈ arcs, P a) → ∀ a ∈ r.2, P a := by
  intro i
  induction i with
  | zero =>
    intro arcs r hr hl
    simp only [Heap.removeArcLoop, Option.some.injEq] at hr
    subst hr
    exact hl
  | succ i ih =>
    intro arcs r hr hl
    rw [Heap.removeArcLoop] at hr
    split at hr
    · split at hr
      · cases hr
      · cases hr
        exact forall_mem_swapRemove P arcs i hl
      · exact ih arcs r hr hl
    · exact ih arcs r hr hl

theorem Heap.removeArc_closed (h : Heap) (from_ to_ : NodeAddr) (hc : h.Closed)
    (r : Bool × Heap) (hr : h.removeArc Obj.canonic from_ to_ = some r) :
    r.2.Closed ∧ r.2.this_ = h.this_ := by
  unfold Heap.removeArc at hr
  rw [Option.map_eq_some'] at hr
  obtain ⟨q, hq, rfl⟩ := hr
  exact ⟨⟨Heap.removeArcLoop_mem h from_ to_ ArcCell.Own _ _ q hq hc.1, hc.2.1, hc.2.2⟩, rfl⟩

theorem Heap.scanTransitionArcs_own (h : Heap) (tid : Nat) :
    ∀ (arcs : List ArcCell) (k : Nat) (r : List ArcAddr × List ArcAddr),
      h.scanTransitionArcs Obj.canonic tid k arcs = some r →
      (∀ x ∈ r.1, x.obj = Obj.canonic) ∧ ∀ x ∈ r.2, x.obj = Obj.canonic := by
  intro arcs
  induction arcs with
  | nil =>
    intro k r hr
    simp only [Heap.scanTransitionArcs, Option.some.injEq] at hr
    subst hr
    exact ⟨fun x hx => (by cases hx), fun x hx => (by cases hx)⟩
  | cons a rest ih =>
    intro k r hr
    rw [Heap.scanTransitionArcs] at hr
    split at hr
    · cases hr
    · rw [Option.map_eq_some'] at hr
      obtain ⟨q, hq, rfl⟩ := hr
      obtain ⟨i1, i2⟩ := ih _ _ hq
      refine ⟨fun x hx => ?_, i2⟩
      rcases List.mem_cons.1 hx with hx | hx
      · rw [hx]
      · exact i1 x hx
    · split at hr
      · cases hr
      · rw [Option.map_eq_some'] at hr
        obtain ⟨q, hq, rfl⟩ := hr
        obtain ⟨i1, i2⟩ := ih _ _ hq
        refine ⟨i1, fun x hx => ?_⟩
        rcases List.mem_cons.1 hx with hx | hx
        · rw [hx]
        · exact i2 x hx
      · exact ih _ _ hr

theorem Heap.scanPlaceArcs_own (h : Heap) (pid : Nat) :
    ∀ (arcs : List ArcCell) (k : Nat) (r : List ArcAddr × List ArcAddr),
      h.scanPlaceArcs Obj.canonic pid k arcs = some r →
      (∀ x ∈ r.1, x.obj = Obj.canonic) ∧ ∀ x ∈ r.2, x.obj = Obj.canonic := by
  intro arcs
  induction arcs with
  | nil =>
    intro k r hr
    simp only [Heap.scanPlaceArcs, Option.some.injEq] at hr
    subst hr
    exact ⟨fun x hx => (by cases hx), fun x hx => (by cases hx)⟩
  | cons a rest ih =>
    intro k r hr
    rw [Heap.scanPlaceArcs] at hr
    split at hr
    · cases hr
    · rw [Option.map_eq_some'] at hr
      obtain ⟨q, hq, rfl⟩ := hr
      obtain ⟨i1, i2⟩ := ih _ _ hq
      refine ⟨fun x hx => ?_, i2⟩
      rcases List.mem_cons.1 hx with hx | hx
      · rw [hx]
      · exact i1 x hx
    · split at hr
      · cases hr
      · rw [Option.map_eq_some'] at hr
        obtain ⟨q, hq, rfl⟩ := hr
        obtain ⟨i1, i2⟩ := ih _ _ hq
        refine ⟨i1, fun x hx => ?_⟩
        rcases List.mem_cons.1 hx with hx | hx
        · rw [hx]
        · exact i2 x hx
      · exact ih _ _ hr

theorem Heap.generateTransitions_own (h : Heap) :
    ∀ (l r : List TransitionCell), h.generateTransitions Obj.canonic l = some r →
      ∀ t ∈ r, t.Own := by
  intro l
  induction l with
  | nil =>
    intro r hr
    simp only [Heap.generateTransitions, Option.some.injEq] at hr
    subst hr
    exact fun t ht => (by cases ht)
  | cons t rest ih =>
    intro r hr
    rw [Heap.generateTransitions] at hr
    split at hr
    · rename_i q l2 hq hl2
      cases hr
      intro u hu
      rcases List.mem_cons.1 hu with hu | hu
      · rw [hu]
        exact Heap.scanTransitionArcs_own h _ _ _ _ hq
      · exact ih _ hl2 u hu
    · cases hr

theorem Heap.generatePlaces_own (h : Heap) :
    ∀ (l r : List PlaceCell), h.generatePlaces Obj.canonic l = some r → ∀ p ∈ r, p.Own := by
  intro l
  induction l with
  | nil =>
    intro r hr
    simp only [Heap.generatePlaces, Option.some.injEq] at hr
    subst hr
    exact fun t ht => (by cases ht)
  | cons t rest ih =>
    intro r hr
    rw [Heap.generatePlaces] at hr
    split at hr
    · rename_i q l2 hq hl2
      cases hr
      intro u hu
      rcases List.mem_cons.1 hu with hu | hu
      · rw [hu]
        exact Heap.scanPlaceArcs_own h _ _ _ _ hq
      · exact ih _ hl2 u hu
    · cases hr

/-- After `generateArcsInArcsOut` on `canonic` every `Arc*` of `canonic` points
into `canonic`, whatever the adjacency lists held before; the arcs and the
other object are as before. -/
theorem Heap.generate_closed (h : Heap) (ha : ∀ a ∈ h.canonic.m_arcs, a.Own) (r : Heap)
    (hr : h.generateArcsInArcsOut Obj.canonic = some r) :
    r.Closed ∧ r.this_ = h.this_ := by
  unfold Heap.generateArcsInArcsOut at hr
  split at hr
  · rename_i ts ps hts hps
    cases hr
    exact ⟨⟨ha, Heap.generatePlaces_own h _ _ hps, Heap.generateTransitions_own h _ _ hts⟩, rfl⟩
  · cases hr

theorem Heap.rebind_obj (h : Heap) (a b : NodeAddr) (hb : h.rebind Obj.canonic a = some b) :
    b.obj = Obj.canonic := by
  unfold Heap.rebind at hb
  split at hb
  · split_ifs at hb
    cases hb
    rfl
  · split_ifs at hb
    cases hb
    rfl
  · cases hb

theorem Heap.rebindArcs_own (h : Heap) :
    ∀ (l r : List ArcCell), h.rebindArcs Obj.canonic l = some r → ∀ a ∈ r, a.Own := by
  intro l
  induction l with
  | nil =>
    intro r hr
    simp only [Heap.rebindArcs, Option.some.injEq] at hr
    subst hr
    exact fun t ht => (by cases ht)
  | cons it rest ih =>
    intro r hr
    rw [Heap.rebindArcs] at hr
    split at hr
    · rename_i f t arcs hf ht harcs
      cases hr
      intro u hu
      rcases List.mem_cons.1 hu with hu | hu
      · rw [hu]
        exact ⟨Heap.rebind_obj h _ _ hf, Heap.rebind_obj h _ _ ht⟩
      · exact ih _ harcs u hu
    · cases hr

/-- The copy `canonic = *this` leaves `*this` as it was and leaves in `canonic`
no pointer into `*this`, whatever the pointers of the two objects were. -/
theorem Heap.assign_closed (h r : Heap) (hr : h.assign Obj.canonic Obj.this_ = some r) :
    r.Closed ∧ r.this_ = h.this_ := by
  unfold Heap.assign at hr
  rw [if_neg (by decide)] at hr
  split at hr
  · cases hr
  · rename_i arcs harcs
    have := Heap.generate_closed _ (Heap.rebindArcs_own _ _ _ harcs) r hr
    exact ⟨this.1, this.2⟩

theorem Heap.firstArc_own (h : Heap) (hc : h.Closed) (l : List ArcAddr)
    (hl : ∀ x ∈ l, x.obj = Obj.canonic) (a : ArcCell) (ha : h.firstArc l = some a) : a.Own := by
  unfold Heap.firstArc at ha
  split at ha
  · cases ha
  · rename_i x hx
    have hxo := hl x (List.getElem?_mem hx)
    unfold Heap.arcAt at ha
    rw [hxo] at ha
    exact hc.1 a (List.getElem?_mem ha)

theorem Heap.decrementTokens_closed (h : Heap) (i : Nat) (hc : h.Closed) :
    (h.decrementTokens i).Closed ∧ (h.decrementTokens i).this_ = h.this_ := by
  refine ⟨⟨hc.1, ?_, hc.2.2⟩, rfl⟩
  exact forall_mem_modify _ _ _ _ hc.2.1 (fun p hp => hp)

theorem Heap.explodeLoop_closed (i : Nat) (d : ℚ) :
    ∀ (tokens : Nat) (h : Heap) (from_ : NodeAddr) (r : Heap), h.Closed →
      from_.obj = Obj.canonic → Heap.explodeLoop i d tokens h from_ = some r →
      r.Closed ∧ r.this_ = h.this_ := by
  intro tokens
  induction tokens with
  | zero =>
    intro h from_ r hc _ hr
    simp only [Heap.explodeLoop, Option.some.injEq] at hr
    subst hr
    exact ⟨hc, rfl⟩
  | succ tokens ih =>
    intro h from_ r hc hf hr
    rw [Heap.explodeLoop] at hr
    obtain ⟨p1, p2, p3⟩ := Heap.addPlace_closed h 10 10 1 hc
    split at hr
    · cases hr
    · rename_i r1 hr1
      obtain ⟨a1, a2⟩ := Heap.addArc_closed _ _ _ _ _ hf p1 p2 r1 hr1
      obtain ⟨t1, t2, t3⟩ := Heap.addTransition_closed r1.2 20 20 a1
      split at hr
      · cases hr
      · rename_i r2 hr2
        obtain ⟨b1, b2⟩ := Heap.addArc_closed _ _ _ _ _ p1 t1 t2 r2 hr2
        obtain ⟨d1, d2⟩ := Heap.decrementTokens_closed r2.2 i b1
        split at hr
        · cases hr
        · split at hr
          · split at hr
            · cases hr
            · rename_i r3 hr3
              obtain ⟨c1, c2⟩ := Heap.addArc_closed _ _ _ _ _ t1 rfl d1 r3 hr3
              obtain ⟨e1, e2⟩ := ih _ _ _ c1 t1 hr
              exact ⟨e1, e2.trans (c2.trans (d2.trans (b2.trans (t3.trans (a2.trans p3)))))⟩
          · obtain ⟨e1, e2⟩ := ih _ _ _ d1 t1 hr
            exact ⟨e1, e2.trans (d2.trans (b2.trans (t3.trans (a2.trans p3))))⟩

theorem Heap.explodePlaces_closed :
    ∀ (i : Nat) (h r : Heap), h.Closed → Heap.explodePlaces i h = some r →
      r.Closed ∧ r.this_ = h.this_ := by
  intro i
  induction i with
  | zero =>
    intro h r hc hr
    simp only [Heap.explodePlaces, Option.some.injEq] at hr
    subst hr
    exact ⟨hc, rfl⟩
  | succ i ih =>
    intro h r hc hr
    rw [Heap.explodePlaces] at hr
    split at hr
    · cases hr
    · rename_i p hp
      split at hr
      · split at hr
        · cases hr
        · rename_i a ha
          have hown := Heap.firstArc_own h hc _ (hc.2.1 p (List.getElem?_mem hp)).1 a ha
          split at hr
          · cases hr
          · rename_i r1 hr1
            obtain ⟨a1, a2⟩ := Heap.removeArc_closed h _ _ hc r1 hr1
            split at hr
            · cases hr
            · rename_i h1 hh1
              obtain ⟨b1, b2⟩ := Heap.explodeLoop_closed i _ _ _ _ _ a1 hown.1 hh1
              obtain ⟨c1, c2⟩ := ih _ _ b1 hr
              exact ⟨c1, c2.trans (b2.trans a2)⟩
      · exact ih _ _ hc hr

theorem Heap.pushFromInput_closed (h : Heap) (i : Nat) (r : Heap) (hc : h.Closed)
    (hr : h.pushFromInput i = some r) : r.Closed ∧ r.this_ = h.this_ := by
  unfold Heap.pushFromInput at hr
  split at hr
  · cases hr
  · rename_i p hp
    split at hr
    · cases hr
    · rename_i a ha
      have hown := Heap.firstArc_own h hc _ (hc.2.1 p (List.getElem?_mem hp)).1 a ha
      split at hr
      · cases hr
      · cases hr
        exact ⟨hc, rfl⟩
      · split at hr
        · cases hr
        · rename_i r0 hr0
          obtain ⟨a1, a2⟩ := Heap.removeArc_closed h _ _ hc r0 hr0
          obtain ⟨p1, p2, p3⟩ := Heap.addPlace_closed r0.2 50 50 0 a1
          obtain ⟨t1, t2, t3⟩ := Heap.addTransition_closed _ 60 60 p2
          split at hr
          · cases hr
          · rename_i r1 hr1
            obtain ⟨b1, b2⟩ := Heap.addArc_closed _ _ _ _ _ hown.1 p1 t2 r1 hr1
            split at hr
            · cases hr
            · rename_i r2 hr2
              obtain ⟨c1, c2⟩ := Heap.addArc_closed _ _ _ _ _ p1 t1 b1 r2 hr2
              rw [Option.map_eq_some'] at hr
              obtain ⟨r3, hr3, rfl⟩ := hr
              obtain ⟨d1, d2⟩ := Heap.addArc_closed _ _ _ _ _ t1 rfl c1 r3 hr3
              exact ⟨d1, d2.trans (c2.trans (b2.trans (t3.trans (p3.trans a2))))⟩

theorem Heap.pushFromOutput_closed (h : Heap) (i : Nat) (r : Heap) (hc : h.Closed)
    (hr : h.pushFromOutput i = some r) : r.Closed ∧ r.this_ = h.this_ := by
  unfold Heap.pushFromOutput at hr
  split at hr
  · cases hr
  · rename_i p hp
    split at hr
    · cases hr
    · rename_i a ha
      have hown := Heap.firstArc_own h hc _ (hc.2.1 p (List.getElem?_mem hp)).2 a ha
      split at hr
      · cases hr
      · cases hr
        exact ⟨hc, rfl⟩
      · split at hr
        · cases hr
        · rename_i r0 hr0
          obtain ⟨a1, a2⟩ := Heap.removeArc_closed h _ _ hc r0 hr0
          obtain ⟨t1, t2, t3⟩ := Heap.addTransition_closed r0.2 60 60 a1
          obtain ⟨p1, p2, p3⟩ := Heap.addPlace_closed _ 50 50 0 t2
          split at hr
          · cases hr
          · rename_i r1 hr1
            obtain ⟨b1, b2⟩ := Heap.addArc_closed _ _ _ _ _ rfl t1 p2 r1 hr1
            split at hr
            · cases hr
            · rename_i r2 hr2
              obtain ⟨c1, c2⟩ := Heap.addArc_closed _ _ _ _ _ t1 p1 b1 r2 hr2
              rw [Option.map_eq_some'] at hr
              obtain ⟨r3, hr3, rfl⟩ := hr
              obtain ⟨d1, d2⟩ := Heap.addArc_closed _ _ _ _ _ p1 hown.2 c1 r3 hr3
              exact ⟨d1, d2.trans (c2.trans (b2.trans (p3.trans (t3.trans a2))))⟩

theorem Heap.boundaryPlaces_closed :
    ∀ (i : Nat) (h r : Heap), h.Closed → Heap.boundaryPlaces i h = some r →
      r.Closed ∧ r.this_ = h.this_ := by
  intro i
  induction i with
  | zero =>
    intro h r hc hr
    simp only [Heap.boundaryPlaces, Option.some.injEq] at hr
    subst hr
    exact ⟨hc, rfl⟩
  | succ i ih =>
    intro h r hc hr
    rw [Heap.boundaryPlaces] at hr
    split at hr
    · cases hr
    · split at hr
      · split at hr
        · cases hr
        · rename_i h1 hh1
          obtain ⟨a1, a2⟩ := Heap.pushFromInput_closed h i h1 hc hh1
          split at hr
          · cases hr
          · rename_i h2 hh2
            obtain ⟨b1, b2⟩ := Heap.pushFromOutput_closed h1 i h2 a1 hh2
            obtain ⟨c1, c2⟩ := ih _ _ b1 hr
            exact ⟨c1, c2.trans (b2.trans a2)⟩
      · exact ih _ _ hc hr

theorem Heap.toCanonicalForm_closed (h r : Heap) (hr : h.toCanonicalForm = some r) :
    r.Closed ∧ r.this_ = h.this_ := by
  unfold Heap.toCanonicalForm at hr
  split at hr
  · cases hr
  · rename_i h0 hh0
    obtain ⟨a1, a2⟩ := Heap.assign_closed h h0 hh0
    split at hr
    · cases hr
    · rename_i h1 hh1
      obtain ⟨b1, b2⟩ := Heap.explodePlaces_closed _ _ _ a1 hh1
      split at hr
      · cases hr
      · rename_i h2 hh2
        obtain ⟨c1, c2⟩ := Heap.generate_closed h1 b1.1 h2 hh2
        obtain ⟨d1, d2⟩ := Heap.boundaryPlaces_closed _ _ _ c1 hr
        exact ⟨d1, d2.trans (c2.trans (b2.trans a2))⟩

theorem Heap.idsAgree_ofNet {h : Heap} {o : Obj} {c : PetriNet}
    (hc : h.net o = NetCell.ofNet o c) : h.IdsAgree o c := by
  unfold Heap.IdsAgree
  rw [hc]
  simp [NetCell.ofNet, List.map_map, Function.comp_def, PlaceCell.ofPlace,
    TransitionCell.ofTransition]

theorem Heap.nodeId_of_valid {h : Heap} {o : Obj} {c : PetriNet} (ha : h.IdsAgree o c)
    (hd : IdDense c) {r : NodeRef} (hv : validRef c r) : h.nodeId (r.addr o) = some r.id := by
  obtain ⟨ty, id⟩ := r
  cases ty
  · have hv1 : id < c.m_places.length := hv
    simp only [Heap.nodeId, NodeRef.addr, ← List.getElem?_map, ha.1, hd.1]
    rw [List.getElem?_range hv1]
  · have hv1 : id < c.m_transitions.length := hv
    simp only [Heap.nodeId, NodeRef.addr, ← List.getElem?_map, ha.2, hd.2.2.1]
    rw [List.getElem?_range hv1]

theorem Heap.nodeType_of_valid {h : Heap} {o : Obj} {c : PetriNet} (ha : h.IdsAgree o c)
    (hd : IdDense c) {r : NodeRef} (hv : validRef c r) :
    h.nodeType (r.addr o) = some r.type := by
  rw [Heap.nodeType, Heap.nodeId_of_valid ha hd hv]
  rfl

theorem Heap.nodeKey_of_valid {h : Heap} {o : Obj} {c : PetriNet} (ha : h.IdsAgree o c)
    (hd : IdDense c) {r : NodeRef} (hv : validRef c r) :
    h.nodeKey (r.addr o) = some r.key := by
  rw [Heap.nodeKey, Heap.nodeId_of_valid ha hd hv]
  rfl

theorem Heap.nodeEq_of_valid {h : Heap} {o : Obj} {c : PetriNet} (ha : h.IdsAgree o c)
    (hd : IdDense c) {r1 r2 : NodeRef} (h1 : validRef c r1) (h2 : validRef c r2) :
    h.nodeEq (r1.addr o) (r2.addr o) = some (decide (r1 = r2)) := by
  rw [Heap.nodeEq, Heap.nodeId_of_valid ha hd h1, Heap.nodeId_of_valid ha hd h2]
  obtain ⟨t1, i1⟩ := r1
  obtain ⟨t2, i2⟩ := r2
  simp [NodeRef.addr]

theorem Heap.arcMatches_of_valid {h : Heap} {o : Obj} {c : PetriNet} (ha : h.IdsAgree o c)
    (hd : IdDense c) {a : Arc} {f t : NodeRef} (ha1 : validRef c a.from_)
    (ha2 : validRef c a.to_) (hf : validRef c f) (ht : validRef c t) :
    h.arcMatches (ArcCell.ofArc o a) (f.addr o) (t.addr o) =
      some (decide (a.from_ = f) && decide (a.to_ = t)) := by
  rw [Heap.arcMatches]
  simp only [ArcCell.ofArc]
  rw [Heap.nodeEq_of_valid ha hd ha1 hf, Heap.nodeEq_of_valid ha hd ha2 ht]
  by_cases h1 : a.from_ = f
  · simp [h1]
  · simp [h1]

theorem map_modify_comm {α β : Type} (g : α → β) (f : α → α) (f' : β → β)
    (hfg : ∀ a, g (f a) = f' (g a)) (l : List α) (n : Nat) :
    (l.modify f n).map g = (l.map g).modify f' n := by
  apply List.ext_getElem?
  intro m
  rw [List.getElem?_map, List.getElem?_modify, List.getElem?_modify, List.getElem?_map]
  cases l[m]? with
  | none => rfl
  | some a =>
    simp only [Option.map_eq_map, Option.map_some', Option.some.injEq]
    split_ifs
    · exact hfg a
    · rfl

theorem findIdx_map {α β : Type} (g : α → β) (p : β → Bool) (l : List α) :
    (l.map g).findIdx p = l.findIdx (fun a => p (g a)) := by
  induction l with
  | nil => rfl
  | cons a rest ih => simp only [List.map_cons, List.findIdx_cons, ih]

theorem Heap.eta (h : Heap) : (⟨h.this_, h.canonic⟩ : Heap) = h := by
  cases h; rfl

theorem Heap.eq_of_canonic {h : Heap} {n : NetCell} (hc : h.canonic = n) :
    h = ⟨h.this_, n⟩ := by
  cases h; simp only at hc; rw [hc]

theorem Heap.findNode_sim {h : Heap} {c : PetriNet}
    (hc : h.canonic = NetCell.ofNet Obj.canonic c) (key : String) :
    h.findNode Obj.canonic key = (c.findNode key).map (NodePtr.addr Obj.canonic) := by
  unfold Heap.findNode PetriNet.findNode
  simp only [Heap.net, hc, NetCell.ofNet, findIdx_map, List.length_map, PlaceCell.ofPlace,
    TransitionCell.ofTransition, Place.key, Transition.key]
  split_ifs <;> rfl

theorem Heap.findArcLoop_sim {h : Heap} {o : Obj} {c : PetriNet} (ha : h.IdsAgree o c)
    (hd : IdDense c) {f t : NodeRef} (hf : validRef c f) (ht : validRef c t) :
    ∀ (l : List Arc) (k : Nat), (∀ a ∈ l, validRef c a.from_ ∧ validRef c a.to_) →
      ∃ x, h.findArcLoop (f.addr o) (t.addr o) k (l.map (ArcCell.ofArc o)) = some x ∧
        x.isSome = (l.find? (fun it => decide (it.from_ = f) && decide (it.to_ = t))).isSome := by
  intro l
  induction l with
  | nil => intro k _; exact ⟨none, rfl, rfl⟩
  | cons a rest ih =>
    intro k hl
    have hva := hl a (List.mem_cons_self _ _)
    rw [List.map_cons, Heap.findArcLoop, Heap.arcMatches_of_valid ha hd hva.1 hva.2 hf ht]
    cases hm : (decide (a.from_ = f) && decide (a.to_ = t)) with
    | true =>
      refine ⟨some k, rfl, ?_⟩
      rw [List.find?_cons, hm]
      rfl
    | false =>
      obtain ⟨x, hx1, hx2⟩ := ih (k + 1) (fun b hb => hl b (List.mem_cons_of_mem _ hb))
      refine ⟨x, hx1, ?_⟩
      rw [List.find?_cons, hm]
      exact hx2

theorem Heap.pushArcsOut_sim {h : Heap} {c : PetriNet}
    (hc : h.canonic = NetCell.ofNet Obj.canonic c) (n : NodePtr) (k : Nat) :
    h.pushArcsOut (n.addr Obj.canonic) ⟨Obj.canonic, k⟩ =
      ⟨h.this_, NetCell.ofNet Obj.canonic (c.pushArcsOut n k)⟩ := by
  cases n with
  | place s =>
    simp only [Heap.pushArcsOut, NodePtr.addr, Heap.setNet, Heap.net, hc, NetCell.ofNet,
      PetriNet.pushArcsOut]
    congr 2
    symm
    apply map_modify_comm
    intro a
    simp [PlaceCell.ofPlace, ArcAddr.ofSlot]
  | transition s =>
    simp only [Heap.pushArcsOut, NodePtr.addr, Heap.setNet, Heap.net, hc, NetCell.ofNet,
      PetriNet.pushArcsOut]
    congr 2
    symm
    apply map_modify_comm
    intro a
    simp [TransitionCell.ofTransition, ArcAddr.ofSlot]

theorem Heap.pushArcsIn_sim {h : Heap} {c : PetriNet}
    (hc : h.canonic = NetCell.ofNet Obj.canonic c) (n : NodePtr) (k : Nat) :
    h.pushArcsIn (n.addr Obj.canonic) ⟨Obj.canonic, k⟩ =
      ⟨h.this_, NetCell.ofNet Obj.canonic (c.pushArcsIn n k)⟩ := by
  cases n with
  | place s =>
    simp only [Heap.pushArcsIn, NodePtr.addr, Heap.setNet, Heap.net, hc, NetCell.ofNet,
      PetriNet.pushArcsIn]
    congr 2
    symm
    apply map_modify_comm
    intro a
    simp [PlaceCell.ofPlace, ArcAddr.ofSlot]
  | transition s =>
    simp only [Heap.pushArcsIn, NodePtr.addr, Heap.setNet, Heap.net, hc, NetCell.ofNet,
      PetriNet.pushArcsIn]
    congr 2
    symm
    apply map_modify_comm
    intro a
    simp [TransitionCell.ofTransition, ArcAddr.ofSlot]

theorem NodeRef.ptr_addr (o : Obj) (r : NodeRef) : r.ptr.addr o = r.addr o := by
  obtain ⟨ty, id⟩ := r
  cases ty <;> rfl

theorem Heap.linkArc_sim {h : Heap} {c : PetriNet}
    (hc : h.canonic = NetCell.ofNet Obj.canonic c) (f t : NodeRef) (d : ℚ) :
    h.linkArc Obj.canonic (f.addr Obj.canonic) (t.addr Obj.canonic) d =
      ⟨h.this_, NetCell.ofNet Obj.canonic (c.linkArc f.ptr f t.ptr t d)⟩ := by
  unfold Heap.linkArc PetriNet.linkArc
  have h1 : (h.setNet Obj.canonic
      { h.net Obj.canonic with
        m_arcs := (h.net Obj.canonic).m_arcs ++
          [⟨f.addr Obj.canonic, t.addr Obj.canonic, d⟩] }).canonic =
      NetCell.ofNet Obj.canonic { c with m_arcs := c.m_arcs ++ [⟨f, t, d⟩] } := by
    simp only [Heap.setNet, Heap.net, hc, NetCell.ofNet, List.map_append, List.map_cons,
      List.map_nil, ArcCell.ofArc]
  have hlen : (h.net Obj.canonic).m_arcs.length = c.m_arcs.length := by
    simp only [Heap.net, hc, NetCell.ofNet, List.length_map]
  rw [← NodeRef.ptr_addr Obj.canonic f, ← NodeRef.ptr_addr Obj.canonic t] at h1
  rw [hlen, ← NodeRef.ptr_addr Obj.canonic f, ← NodeRef.ptr_addr Obj.canonic t,
    Heap.pushArcsOut_sim h1 f.ptr c.m_arcs.length]
  exact Heap.pushArcsIn_sim rfl t.ptr c.m_arcs.length

theorem Heap.addPlace_sim {h : Heap} {c : PetriNet}
    (hc : h.canonic = NetCell.ofNet Obj.canonic c) (x y : ℚ) (tokens : Nat) :
    h.addPlace Obj.canonic x y tokens =
      (⟨Obj.canonic, NodeType.Place, c.m_places.length⟩,
        ⟨h.this_, NetCell.ofNet Obj.canonic (c.addPlace x y tokens)⟩) := by
  simp only [Heap.addPlace, Heap.setNet, Heap.net, hc, NetCell.ofNet, PetriNet.addPlace,
    List.length_map, List.map_append, List.map_cons, List.map_nil, PlaceCell.ofPlace,
    PlaceCell.make, Place.make]

theorem Heap.addTransition_sim {h : Heap} {c : PetriNet}
    (hc : h.canonic = NetCell.ofNet Obj.canonic c) (x y : ℚ) :
    h.addTransition Obj.canonic x y =
      (⟨Obj.canonic, NodeType.Transition, c.m_transitions.length⟩,
        ⟨h.this_, NetCell.ofNet Obj.canonic (c.addTransition x y)⟩) := by
  simp only [Heap.addTransition, Heap.setNet, Heap.net, hc, NetCell.ofNet,
    PetriNet.addTransition, List.length_map, List.map_append, List.map_cons, List.map_nil,
    TransitionCell.ofTransition, TransitionCell.make, Transition.make]

theorem Heap.findArc_sim {h : Heap} {c : PetriNet}
    (hc : h.canonic = NetCell.ofNet Obj.canonic c) (hd : IdDense c) (hr : RefIntegrity c)
    {f t : NodeRef} (hf : validRef c f) (ht : validRef c t) :
    ∃ x, h.findArc Obj.canonic (f.addr Obj.canonic) (t.addr Obj.canonic) = some x ∧
      x.isSome = (c.findArc f t).isSome := by
  have hc1 : h.net Obj.canonic = NetCell.ofNet Obj.canonic c := hc
  obtain ⟨x, hx1, hx2⟩ := Heap.findArcLoop_sim (Heap.idsAgree_ofNet hc1) hd hf ht c.m_arcs 0 hr
  refine ⟨x.map (fun k => ⟨Obj.canonic, k⟩), ?_, ?_⟩
  · unfold Heap.findArc
    rw [hc1]
    simp only [NetCell.ofNet]
    rw [hx1]
    rfl
  · rw [Option.isSome_map']
    exact hx2

theorem Heap.addArc_sim {h : Heap} {c : PetriNet}
    (hc : h.canonic = NetCell.ofNet Obj.canonic c) (hd : IdDense c) (hr : RefIntegrity c)
    {f t : NodeRef} (hf : validRef c f) (ht : validRef c t) (d : ℚ) :
    h.addArc Obj.canonic (f.addr Obj.canonic) (t.addr Obj.canonic) d true =
      some ((c.addArc f t d true).1,
        ⟨h.this_, NetCell.ofNet Obj.canonic (c.addArc f t d true).2⟩) := by
  have hc1 : h.net Obj.canonic = NetCell.ofNet Obj.canonic c := hc
  have hia := Heap.idsAgree_ofNet hc1
  obtain ⟨x, hx1, hx2⟩ := Heap.findArc_sim hc hd hr hf ht
  have hnf : c.findNode f.key = some f.ptr := by rw [findNode_of_dense hd f, if_pos hf]
  have hnt : c.findNode t.key = some t.ptr := by rw [findNode_of_dense hd t, if_pos ht]
  unfold Heap.addArc
  rw [hx1]
  cases hA : c.findArc f t with
  | some a =>
    rw [hA] at hx2
    obtain ⟨y, rfl⟩ := Option.isSome_iff_exists.1 hx2
    simp only
    rw [addArc_of_dup d true hA]
    exact congrArg some (congrArg (Prod.mk false) (Heap.eq_of_canonic hc))
  | none =>
    rw [hA] at hx2
    have hxn : x = none := by
      cases x with
      | none => rfl
      | some y => cases hx2
    subst hxn
    simp only
    rw [Heap.nodeKey_of_valid hia hd hf]
    simp only
    rw [Heap.findNode_sim hc, hnf]
    simp only [Option.map_some']
    rw [Heap.nodeKey_of_valid hia hd ht]
    simp only
    rw [Heap.findNode_sim hc, hnt]
    simp only [Option.map_some']
    by_cases hty : f.type = t.type
    · have hty1 : (f.addr Obj.canonic).type = (t.addr Obj.canonic).type := hty
      simp only [hty1, if_true]
      rw [addArc_of_strict_same d hty]
      exact congrArg some (congrArg (Prod.mk false) (Heap.eq_of_canonic hc))
    · have hty1 : ¬ (f.addr Obj.canonic).type = (t.addr Obj.canonic).type := hty
      simp only [hty1, if_false]
      rw [addArc_normal d true hA hnf hnt hty, Heap.linkArc_sim hc f t d]
      rfl

theorem swapRemove_map {α β : Type} (g : α → β) (l : List α) (i : Nat) :
    swapRemove (l.map g) i = (swapRemove l i).map g := by
  unfold swapRemove
  rw [List.getLast?_map]
  cases l.getLast? with
  | none => rfl
  | some e =>
    simp only [Option.map_some']
    rw [List.map_dropLast, List.map_set]

theorem Heap.removeArcLoop_sim {h : Heap} {o : Obj} {c : PetriNet} (ha : h.IdsAgree o c)
    (hd : IdDense c) {f t : NodeRef} (hf : validRef c f) (ht : validRef c t) (l : List Arc)
    (hl : ∀ a ∈ l, validRef c a.from_ ∧ validRef c a.to_) :
    ∀ i : Nat, h.removeArcLoop (f.addr o) (t.addr o) i (l.map (ArcCell.ofArc o)) =
      some ((PetriNet.removeArcLoop f t i l).1,
        (PetriNet.removeArcLoop f t i l).2.map (ArcCell.ofArc o)) := by
  intro i
  induction i with
  | zero => rfl
  | succ i ih =>
    rw [Heap.removeArcLoop, PetriNet.removeArcLoop, List.getElem?_map]
    cases hi : l[i]? with
    | none => exact ih
    | some it =>
      have hv := hl it (List.getElem?_mem hi)
      simp only [Option.map_some']
      rw [Heap.arcMatches_of_valid ha hd hv.1 hv.2 hf ht]
      by_cases hm : it.from_ = f ∧ it.to_ = t
      · rw [if_pos hm]
        simp only [hm.1, hm.2, decide_True, Bool.and_self, swapRemove_map]
      · rw [if_neg hm]
        have : (decide (it.from_ = f) && decide (it.to_ = t)) = false := by
          simpa using hm
        rw [this]
        exact ih

theorem Heap.removeArc_sim {h : Heap} {c : PetriNet}
    (hc : h.canonic = NetCell.ofNet Obj.canonic c) (hd : IdDense c) (hr : RefIntegrity c)
    {f t : NodeRef} (hf : validRef c f) (ht : validRef c t) :
    h.removeArc Obj.canonic (f.addr Obj.canonic) (t.addr Obj.canonic) =
      some ((c.removeArc f t).1, ⟨h.this_, NetCell.ofNet Obj.canonic (c.removeArc f t).2⟩) := by
  have hc1 : h.net Obj.canonic = NetCell.ofNet Obj.canonic c := hc
  unfold Heap.removeArc
  rw [hc1]
  simp only [NetCell.ofNet, List.length_map]
  rw [Heap.removeArcLoop_sim (Heap.idsAgree_ofNet hc1) hd hf ht c.m_arcs hr]
  rfl

theorem Heap.typeAndId_of_valid {h : Heap} {o : Obj} {c : PetriNet} (ha : h.IdsAgree o c)
    (hd : IdDense c) {x y : NodeRef} (hx : validRef c x) (hy : validRef c y)
    (type : NodeType) (id : Nat) :
    h.typeAndId (x.addr o) (y.addr o) type id = some (decide (x.type = type ∧ y.id = id)) := by
  rw [Heap.typeAndId, Heap.nodeType_of_valid ha hd hx]
  simp only
  rw [Heap.nodeId_of_valid ha hd hy]
  by_cases h1 : x.type = type
  · simp [h1]
  · simp [h1]

theorem Heap.scanPlaceArcs_sim {h : Heap} {o : Obj} {c : PetriNet} (ha : h.IdsAgree o c)
    (hd : IdDense c) (pid : Nat) :
    ∀ (l : List Arc) (k : Nat), (∀ a ∈ l, validRef c a.from_ ∧ validRef c a.to_) →
      h.scanPlaceArcs o pid k (l.map (ArcCell.ofArc o)) =
        some ((PetriNet.scanPlaceArcs pid k l).1.map (ArcAddr.ofSlot o),
          (PetriNet.scanPlaceArcs pid k l).2.map (ArcAddr.ofSlot o)) := by
  intro l
  induction l with
  | nil => intro k _; rfl
  | cons a rest ih =>
    intro k hl
    have hv := hl a (List.mem_cons_self _ _)
    have ih1 := ih (k + 1) (fun b hb => hl b (List.mem_cons_of_mem _ hb))
    rw [List.map_cons, Heap.scanPlaceArcs, PetriNet.scanPlaceArcs]
    simp only [ArcCell.ofArc]
    rw [Heap.typeAndId_of_valid ha hd hv.1 hv.2, Heap.typeAndId_of_valid ha hd hv.2 hv.1]
    by_cases h1 : a.from_.type = NodeType.Transition ∧ a.to_.id = pid
    · rw [if_pos h1, decide_eq_true h1]
      simp only
      rw [ih1]
      rfl
    · rw [if_neg h1, decide_eq_false h1]
      simp only
      by_cases h2 : a.to_.type = NodeType.Transition ∧ a.from_.id = pid
      · rw [if_pos h2, decide_eq_true h2]
        simp only
        rw [ih1]
        rfl
      · rw [if_neg h2, decide_eq_false h2]
        exact ih1

theorem Heap.scanTransitionArcs_sim {h : Heap} {o : Obj} {c : PetriNet}
    (ha : h.IdsAgree o c) (hd : IdDense c) (tid : Nat) :
    ∀ (l : List Arc) (k : Nat), (∀ a ∈ l, validRef c a.from_ ∧ validRef c a.to_) →
      h.scanTransitionArcs o tid k (l.map (ArcCell.ofArc o)) =
        some ((PetriNet.scanTransitionArcs tid k l).1.map (ArcAddr.ofSlot o),
          (PetriNet.scanTransitionArcs tid k l).2.map (ArcAddr.ofSlot o)) := by
  intro l
  induction l with
  | nil => intro k _; rfl
  | cons a rest ih =>
    intro k hl
    have hv := hl a (List.mem_cons_self _ _)
    have ih1 := ih (k + 1) (fun b hb => hl b (List.mem_cons_of_mem _ hb))
    rw [List.map_cons, Heap.scanTransitionArcs, PetriNet.scanTransitionArcs]
    simp only [ArcCell.ofArc]
    rw [Heap.typeAndId_of_valid ha hd hv.1 hv.2, Heap.typeAndId_of_valid ha hd hv.2 hv.1]
    by_cases h1 : a.from_.type = NodeType.Place ∧ a.to_.id = tid
    · rw [if_pos h1, decide_eq_true h1]
      simp only
      rw [ih1]
      rfl
    · rw [if_neg h1, decide_eq_false h1]
      simp only
      by_cases h2 : a.to_.type = NodeType.Place ∧ a.from_.id = tid
      · rw [if_pos h2, decide_eq_true h2]
        simp only
        rw [ih1]
        rfl
      · rw [if_neg h2, decide_eq_false h2]
        exact ih1

theorem Heap.generatePlaces_sim {h : Heap} {o : Obj} {c : PetriNet} (ha : h.IdsAgree o c)
    (hd : IdDense c) (hr : RefIntegrity c)
    (harcs : (h.net o).m_arcs = c.m_arcs.map (ArcCell.ofArc o)) :
    ∀ l : List PlaceCell, h.generatePlaces o l =
      some (l.map (fun p =>
        { p with
          arcsIn := (PetriNet.scanPlaceArcs p.id 0 c.m_arcs).1.map (ArcAddr.ofSlot o)
          arcsOut := (PetriNet.scanPlaceArcs p.id 0 c.m_arcs).2.map (ArcAddr.ofSlot o) })) := by
  intro l
  induction l with
  | nil => rfl
  | cons p rest ih =>
    rw [Heap.generatePlaces, harcs, Heap.scanPlaceArcs_sim ha hd p.id c.m_arcs 0 hr, ih]
    rfl

theorem Heap.generateTransitions_sim {h : Heap} {o : Obj} {c : PetriNet}
    (ha : h.IdsAgree o c) (hd : IdDense c) (hr : RefIntegrity c)
    (harcs : (h.net o).m_arcs = c.m_arcs.map (ArcCell.ofArc o)) :
    ∀ l : List TransitionCell, h.generateTransitions o l =
      some (l.map (fun t =>
        { t with
          arcsIn := (PetriNet.scanTransitionArcs t.id 0 c.m_arcs).1.map (ArcAddr.ofSlot o)
          arcsOut :=
            (PetriNet.scanTransitionArcs t.id 0 c.m_arcs).2.map (ArcAddr.ofSlot o) })) := by
  intro l
  induction l with
  | nil => rfl
  | cons p rest ih =>
    rw [Heap.generateTransitions, harcs, Heap.scanTransitionArcs_sim ha hd p.id c.m_arcs 0 hr,
      ih]
    rfl

theorem Heap.generate_sim {h : Heap} {c : PetriNet}
    (hc : h.canonic = NetCell.ofNet Obj.canonic c) (hd : IdDense c) (hr : RefIntegrity c) :
    h.generateArcsInArcsOut Obj.canonic =
      some ⟨h.this_, NetCell.ofNet Obj.canonic c.generateArcsInArcsOut⟩ := by
  have hc1 : h.net Obj.canonic = NetCell.ofNet Obj.canonic c := hc
  have hia := Heap.idsAgree_ofNet hc1
  have harcs : (h.net Obj.canonic).m_arcs = c.m_arcs.map (ArcCell.ofArc Obj.canonic) := by
    rw [hc1]; rfl
  unfold Heap.generateArcsInArcsOut
  rw [Heap.generateTransitions_sim hia hd hr harcs, Heap.generatePlaces_sim hia hd hr harcs]
  simp only [Heap.setNet, hc1, NetCell.ofNet, PetriNet.generateArcsInArcsOut, List.map_map,
    Function.comp_def, PlaceCell.ofPlace, TransitionCell.ofTransition]

theorem Heap.firstArc_sim {h : Heap} {c : PetriNet}
    (hc : h.canonic = NetCell.ofNet Obj.canonic c) (l : List Nat) :
    h.firstArc (l.map (ArcAddr.ofSlot Obj.canonic)) =
      (c.firstArc l).map (ArcCell.ofArc Obj.canonic) := by
  unfold Heap.firstArc PetriNet.firstArc
  rw [List.getElem?_map]
  cases l[0]? with
  | none => rfl
  | some k =>
    simp only [Option.map_some', Heap.arcAt, ArcAddr.ofSlot, Heap.net, hc, NetCell.ofNet,
      List.getElem?_map]

theorem Heap.isInput_sim {h : Heap} {c : PetriNet}
    (hc : h.canonic = NetCell.ofNet Obj.canonic c) (r : NodeRef) :
    h.isInput (r.addr Obj.canonic) = c.isInput r := by
  obtain ⟨ty, id⟩ := r
  cases ty <;>
    simp [Heap.isInput, PetriNet.isInput, Heap.nodeArcsIn, PetriNet.nodeArcsIn, NodeRef.addr,
      Heap.net, hc, NetCell.ofNet, PlaceCell.ofPlace, TransitionCell.ofTransition,
      Function.comp_def]

theorem Heap.isOutput_sim {h : Heap} {c : PetriNet}
    (hc : h.canonic = NetCell.ofNet Obj.canonic c) (r : NodeRef) :
    h.isOutput (r.addr Obj.canonic) = c.isOutput r := by
  obtain ⟨ty, id⟩ := r
  cases ty <;>
    simp [Heap.isOutput, PetriNet.isOutput, Heap.nodeArcsOut, PetriNet.nodeArcsOut, NodeRef.addr,
      Heap.net, hc, NetCell.ofNet, PlaceCell.ofPlace, TransitionCell.ofTransition,
      Function.comp_def]

theorem Heap.decrementTokens_sim {h : Heap} {c : PetriNet}
    (hc : h.canonic = NetCell.ofNet Obj.canonic c) (i : Nat) :
    h.decrementTokens i =
      ⟨h.this_, NetCell.ofNet Obj.canonic
        { c with m_places := c.m_places.modify (fun q => { q with tokens := q.tokens - 1 }) i }⟩ := by
  simp only [Heap.decrementTokens, hc, NetCell.ofNet]
  congr 2
  symm
  apply map_modify_comm
  intro a
  rfl

theorem Heap.rebind_sim {h : Heap} {src : PetriNet} (ha : h.IdsAgree Obj.this_ src)
    (hd : IdDense src) (hp : (h.net Obj.canonic).m_places.length = src.m_places.length)
    (ht : (h.net Obj.canonic).m_transitions.length = src.m_transitions.length)
    {r : NodeRef} (hv : validRef src r) :
    h.rebind Obj.canonic (r.addr Obj.this_) = some (r.addr Obj.canonic) := by
  rw [Heap.rebind, Heap.nodeType_of_valid ha hd hv, Heap.nodeId_of_valid ha hd hv]
  obtain ⟨ty, id⟩ := r
  cases ty
  · have hv1 : id < src.m_places.length := hv
    simp only [hp, hv1, if_true]
    rfl
  · have hv1 : id < src.m_transitions.length := hv
    simp only [ht, hv1, if_true]
    rfl

theorem Heap.rebindArcs_sim {h : Heap} {src : PetriNet} (ha : h.IdsAgree Obj.this_ src)
    (hd : IdDense src) (hp : (h.net Obj.canonic).m_places.length = src.m_places.length)
    (ht : (h.net Obj.canonic).m_transitions.length = src.m_transitions.length) :
    ∀ l : List Arc, (∀ a ∈ l, validRef src a.from_ ∧ validRef src a.to_) →
      h.rebindArcs Obj.canonic (l.map (ArcCell.ofArc Obj.this_)) =
        some (l.map (ArcCell.ofArc Obj.canonic)) := by
  intro l
  induction l with
  | nil => intro _; rfl
  | cons a rest ih =>
    intro hl
    have hv := hl a (List.mem_cons_self _ _)
    rw [List.map_cons, Heap.rebindArcs]
    simp only [ArcCell.ofArc]
    rw [Heap.rebind_sim ha hd hp ht hv.1, Heap.rebind_sim ha hd hp ht hv.2,
      ih (fun b hb => hl b (List.mem_cons_of_mem _ hb))]
    rfl

theorem Heap.assign_sim {h : Heap} {src dst : PetriNet}
    (hs : h.this_ = NetCell.ofNet Obj.this_ src)
    (hc : h.canonic = NetCell.ofNet Obj.canonic dst) (hd : IdDense src)
    (hr : RefIntegrity src) :
    h.assign Obj.canonic Obj.this_ =
      (dst.assign src).map (fun c => ⟨h.this_, NetCell.ofNet Obj.canonic c⟩) := by
  unfold Heap.assign PetriNet.assign
  rw [if_neg (by decide), rebindArcs_self hd src.m_arcs hr]
  have hs1 : h.net Obj.this_ = NetCell.ofNet Obj.this_ src := hs
  have hc1 : h.net Obj.canonic = NetCell.ofNet Obj.canonic dst := hc
  rw [hs1, hc1]
  have hreb := @Heap.rebindArcs_sim
    (h.setNet Obj.canonic
      { NetCell.ofNet Obj.canonic dst with
        m_type := (NetCell.ofNet Obj.this_ src).m_type
        m_places := (NetCell.ofNet Obj.this_ src).m_places
        m_transitions := (NetCell.ofNet Obj.this_ src).m_transitions
        m_next_place_id := (NetCell.ofNet Obj.this_ src).m_next_place_id
        m_next_transition_id := (NetCell.ofNet Obj.this_ src).m_next_transition_id
        m_arcs := [] }) src
    (by
      unfold Heap.IdsAgree
      simp only [Heap.setNet, Heap.net, hs, NetCell.ofNet, List.map_map, Function.comp_def,
        PlaceCell.ofPlace, TransitionCell.ofTransition, and_self])
    hd (by simp [Heap.setNet, Heap.net, NetCell.ofNet])
    (by simp [Heap.setNet, Heap.net, NetCell.ofNet]) src.m_arcs hr
  have hm : (NetCell.ofNet Obj.this_ src).m_arcs = src.m_arcs.map (ArcCell.ofArc Obj.this_) := rfl
  rw [hm, hreb]
  simp only [Option.map_some']
  have hia : (h.setNet Obj.canonic
      { NetCell.ofNet Obj.canonic dst with
        m_type := (NetCell.ofNet Obj.this_ src).m_type
        m_places := (NetCell.ofNet Obj.this_ src).m_places
        m_transitions := (NetCell.ofNet Obj.this_ src).m_transitions
        m_next_place_id := (NetCell.ofNet Obj.this_ src).m_next_place_id
        m_next_transition_id := (NetCell.ofNet Obj.this_ src).m_next_transition_id
        m_arcs := src.m_arcs.map (ArcCell.ofArc Obj.canonic) }).IdsAgree Obj.canonic src := by
    unfold Heap.IdsAgree
    simp only [Heap.setNet, Heap.net, NetCell.ofNet, List.map_map, Function.comp_def,
      PlaceCell.ofPlace, TransitionCell.ofTransition, and_self]
  unfold Heap.generateArcsInArcsOut
  rw [Heap.generateTransitions_sim hia hd hr rfl, Heap.generatePlaces_sim hia hd hr rfl]
  simp only [Heap.setNet, Heap.net, NetCell.ofNet, PetriNet.generateArcsInArcsOut, List.map_map,
    Function.comp_def, PlaceCell.ofPlace, TransitionCell.ofTransition]

theorem validRef_addArc_strict {c : PetriNet} (f t : NodeRef) (d : ℚ) {r : NodeRef}
    (h : validRef c r) : validRef (c.addArc f t d true).2 r := by
  obtain ⟨_, a2, a3, _, _, _, _⟩ := addArc_strict_frame c f t d
  have hp := congrArg List.length a2
  have ht := congrArg List.length a3
  simp only [List.length_map] at hp ht
  exact validRef_of_lengths (Nat.le_of_eq hp.symm) (Nat.le_of_eq ht.symm) h

theorem validRef_addPlace {c : PetriNet} (x y : ℚ) (tokens : Nat) {r : NodeRef}
    (h : validRef c r) : validRef (c.addPlace x y tokens) r :=
  validRef_of_lengths (by simp [PetriNet.addPlace]) (by simp [PetriNet.addPlace]) h

theorem validRef_addTransition {c : PetriNet} (x y : ℚ) {r : NodeRef}
    (h : validRef c r) : validRef (c.addTransition x y) r :=
  validRef_of_lengths (by simp [PetriNet.addTransition]) (by simp [PetriNet.addTransition]) h

theorem validRef_new_place {c : PetriNet} (hd : IdDense c) (x y : ℚ) (tokens : Nat) :
    validRef (c.addPlace x y tokens) ⟨NodeType.Place, c.m_next_place_id⟩ := by
  show c.m_next_place_id < (c.addPlace x y tokens).m_places.length
  rw [hd.2.1]
  simp [PetriNet.addPlace]

theorem validRef_new_transition {c : PetriNet} (hd : IdDense c) (x y : ℚ) :
    validRef (c.addTransition x y) ⟨NodeType.Transition, c.m_next_transition_id⟩ := by
  show c.m_next_transition_id < (c.addTransition x y).m_transitions.length
  rw [hd.2.2.2]
  simp [PetriNet.addTransition]

theorem validRef_decrement {c : PetriNet} (i : Nat) {r : NodeRef} (h : validRef c r) :
    validRef
      { c with m_places := c.m_places.modify (fun q => { q with tokens := q.tokens - 1 }) i }
      r :=
  validRef_of_lengths (by simp) (by simp) h

theorem NetCell.ofNet_places_get (o : Obj) (c : PetriNet) (i : Nat) :
    (NetCell.ofNet o c).m_places[i]? = (c.m_places[i]?).map (PlaceCell.ofPlace o) := by
  simp only [NetCell.ofNet, List.getElem?_map]

theorem place_ref_of_get {c : PetriNet} (hd : IdDense c) {i : Nat} {p : Place}
    (hp : c.m_places[i]? = some p) : p.ref = ⟨NodeType.Place, i⟩ ∧ i < c.m_places.length := by
  have hi : i < c.m_places.length := by
    by_contra hn
    rw [List.getElem?_eq_none (by omega)] at hp
    cases hp
  rw [List.getElem?_eq_getElem hi] at hp
  cases hp
  refine ⟨?_, hi⟩
  simp only [Place.ref, getElem_of_map_eq_range hd.1 i hi]

theorem explodeLoop_sim (i : Nat) (d : ℚ) :
    ∀ (tokens : Nat) (h : Heap) (c : PetriNet) (f : NodeRef),
      h.canonic = NetCell.ofNet Obj.canonic c → WellFormed c → validRef c f →
      Heap.explodeLoop i d tokens h (f.addr Obj.canonic) =
          (explodeLoop i d tokens c f).map (fun c1 =>
            ⟨h.this_, NetCell.ofNet Obj.canonic c1⟩) ∧
        ∀ c1, explodeLoop i d tokens c f = some c1 → WellFormed c1 := by
  intro tokens
  induction tokens with
  | zero =>
    intro h c f hc hw _
    refine ⟨?_, ?_⟩
    · exact congrArg some (Heap.eq_of_canonic hc)
    · intro c1 h1
      cases h1
      exact hw
  | succ n ih =>
    intro h c f hc hw hf
    rw [Heap.explodeLoop, explodeLoop]
    simp only [defaultStrict]
    rw [Heap.addPlace_sim hc 10 10 1]
    simp only
    have ha1 : (⟨Obj.canonic, NodeType.Place, c.m_places.length⟩ : NodeAddr) =
        NodeRef.addr Obj.canonic ⟨NodeType.Place, c.m_next_place_id⟩ := by
      rw [hw.1.2.1]; rfl
    rw [ha1]
    generalize htmp1 : (⟨NodeType.Place, c.m_next_place_id⟩ : NodeRef) = tmp1
    have hw1 := wf_addPlace hw 10 10 1
    have hf1 : validRef (c.addPlace 10 10 1) f := validRef_addPlace 10 10 1 hf
    have ht1 : validRef (c.addPlace 10 10 1) tmp1 := by
      rw [← htmp1]; exact validRef_new_place hw.1 10 10 1
    rw [Heap.addArc_sim rfl hw1.1 hw1.2.1 hf1 ht1]
    simp only
    have hw2 := wf_addArc hw1 f tmp1 defaultDuration true
    have ht1a := validRef_addArc_strict f tmp1 defaultDuration ht1
    generalize ((c.addPlace 10 10 1).addArc f tmp1 defaultDuration true).2 = c2 at hw2 ht1a ⊢
    rw [Heap.addTransition_sim rfl 20 20]
    simp only
    have ha2 : (⟨Obj.canonic, NodeType.Transition, c2.m_transitions.length⟩ : NodeAddr) =
        NodeRef.addr Obj.canonic ⟨NodeType.Transition, c2.m_next_transition_id⟩ := by
      rw [hw2.1.2.2.2]; rfl
    rw [ha2]
    have ht2 := validRef_new_transition hw2.1 20 20
    have ht1b := validRef_addTransition 20 20 ht1a
    generalize (⟨NodeType.Transition, c2.m_next_transition_id⟩ : NodeRef) = tmp2 at ht2 ⊢
    have hw3 := wf_addTransition hw2 20 20
    rw [Heap.addArc_sim rfl hw3.1 hw3.2.1 ht1b ht2]
    simp only
    have hw4 := wf_addArc hw3 tmp1 tmp2 defaultDuration true
    have ht2a := validRef_addArc_strict tmp1 tmp2 defaultDuration ht2
    generalize ((c2.addTransition 20 20).addArc tmp1 tmp2 defaultDuration true).2 = c4
      at hw4 ht2a ⊢
    rw [NetCell.ofNet_places_get]
    cases hp : c4.m_places[i]? with
    | none => simp
    | some p =>
      simp only [Option.map_some']
      have hpt : (PlaceCell.ofPlace Obj.canonic p).tokens = p.tokens := rfl
      rw [hpt, Heap.decrementTokens_sim rfl i]
      obtain ⟨hw5, _⟩ := decrement_spec hw4 i p hp
      have ht2c := validRef_decrement i ht2a
      obtain ⟨hpr, hpi⟩ := place_ref_of_get hw4.1 hp
      by_cases hone : p.tokens - 1 = 1
      · rw [if_pos hone, if_pos hone]
        have ha3 : (⟨Obj.canonic, NodeType.Place, i⟩ : NodeAddr) =
            NodeRef.addr Obj.canonic p.ref := by rw [hpr]; rfl
        have hpv : validRef
            { c4 with
              m_places := c4.m_places.modify (fun q => { q with tokens := q.tokens - 1 }) i }
            p.ref := by
          rw [hpr]
          show i < (c4.m_places.modify (fun q => { q with tokens := q.tokens - 1 }) i).length
          rw [List.length_modify]
          exact hpi
        rw [ha3, Heap.addArc_sim rfl hw5.1 hw5.2.1 ht2c hpv]
        simp only
        exact ih _ _ tmp2 rfl (wf_addArc hw5 tmp2 p.ref d true)
          (validRef_addArc_strict tmp2 p.ref d ht2c)
      · rw [if_neg hone, if_neg hone]
        exact ih _ _ tmp2 rfl hw5 ht2c

theorem firstArc_valid {c : PetriNet} (hr : RefIntegrity c) {l : List Nat} {a : Arc}
    (h : c.firstArc l = some a) : validRef c a.from_ ∧ validRef c a.to_ := by
  unfold PetriNet.firstArc at h
  split at h
  · cases h
  · exact hr a (List.getElem?_mem h)

theorem validRef_removeArc {c : PetriNet} (f t : NodeRef) {r : NodeRef} (h : validRef c r) :
    validRef (c.removeArc f t).2 r :=
  validRef_of_lengths (Nat.le_refl _) (Nat.le_refl _) h

theorem explodePlaces_sim :
    ∀ (i : Nat) (h : Heap) (c : PetriNet),
      h.canonic = NetCell.ofNet Obj.canonic c → WellFormed c →
      Heap.explodePlaces i h =
          (explodePlaces i c).map (fun c1 => ⟨h.this_, NetCell.ofNet Obj.canonic c1⟩) ∧
        ∀ c1, explodePlaces i c = some c1 → WellFormed c1 := by
  intro i
  induction i with
  | zero =>
    intro h c hc hw
    refine ⟨congrArg some (Heap.eq_of_canonic hc), ?_⟩
    intro c1 h1
    cases h1
    exact hw
  | succ i ih =>
    intro h c hc hw
    rw [Heap.explodePlaces, explodePlaces, hc, NetCell.ofNet_places_get]
    cases hp : c.m_places[i]? with
    | none => simp
    | some p =>
      simp only [Option.map_some']
      have hpt : (PlaceCell.ofPlace Obj.canonic p).tokens = p.tokens := rfl
      have hpa : (PlaceCell.ofPlace Obj.canonic p).arcsIn =
          p.arcsIn.map (ArcAddr.ofSlot Obj.canonic) := rfl
      rw [hpt, hpa]
      by_cases hgt : p.tokens > 1
      · rw [if_pos hgt, if_pos hgt, Heap.firstArc_sim hc]
        cases ha : c.firstArc p.arcsIn with
        | none => simp
        | some a =>
          simp only [Option.map_some']
          obtain ⟨hva1, hva2⟩ := firstArc_valid hw.2.1 ha
          obtain ⟨hpr, hpi⟩ := place_ref_of_get hw.1 hp
          have hpv : validRef c p.ref := by rw [hpr]; exact hpi
          have ha3 : (⟨Obj.canonic, NodeType.Place, i⟩ : NodeAddr) =
              NodeRef.addr Obj.canonic p.ref := by rw [hpr]; rfl
          have hfa : (ArcCell.ofArc Obj.canonic a).from_ = a.from_.addr Obj.canonic := rfl
          have hda : (ArcCell.ofArc Obj.canonic a).duration = a.duration := rfl
          rw [ha3, hfa, hda, Heap.removeArc_sim hc hw.1 hw.2.1 hva1 hpv]
          simp only
          obtain ⟨e1, e2⟩ := explodeLoop_sim i a.duration (p.tokens - 1)
            ⟨h.this_, NetCell.ofNet Obj.canonic (c.removeArc a.from_ p.ref).2⟩
            (c.removeArc a.from_ p.ref).2 a.from_ rfl (wf_removeArc hw a.from_ p.ref)
            (validRef_removeArc a.from_ p.ref hva1)
          rw [e1]
          cases hl : explodeLoop i a.duration (p.tokens - 1) (c.removeArc a.from_ p.ref).2
              a.from_ with
          | none => simp
          | some c1 =>
            simp only [Option.map_some']
            exact ih _ c1 rfl (e2 c1 hl)
      · rw [if_neg hgt, if_neg hgt]
        exact ih h c hc hw

theorem pushFromInput_sim (h : Heap) (c : PetriNet) (i : Nat)
    (hc : h.canonic = NetCell.ofNet Obj.canonic c) (hw : WellFormed c) :
    Heap.pushFromInput h i =
        (pushFromInput c i).map (fun c1 => ⟨h.this_, NetCell.ofNet Obj.canonic c1⟩) ∧
      ∀ c1, pushFromInput c i = some c1 → WellFormed c1 := by
  rw [Heap.pushFromInput, pushFromInput, hc, NetCell.ofNet_places_get]
  cases hp : c.m_places[i]? with
  | none => simp
  | some p =>
    simp only [Option.map_some']
    have hpa : (PlaceCell.ofPlace Obj.canonic p).arcsIn =
        p.arcsIn.map (ArcAddr.ofSlot Obj.canonic) := rfl
    rw [hpa, Heap.firstArc_sim hc]
    cases ha : c.firstArc p.arcsIn with
    | none => simp
    | some a =>
      simp only [Option.map_some']
      obtain ⟨hva1, hva2⟩ := firstArc_valid hw.2.1 ha
      obtain ⟨hpr, hpi⟩ := place_ref_of_get hw.1 hp
      have hpv : validRef c p.ref := by rw [hpr]; exact hpi
      have ha3 : (⟨Obj.canonic, NodeType.Place, i⟩ : NodeAddr) =
          NodeRef.addr Obj.canonic p.ref := by rw [hpr]; rfl
      have hfa : (ArcCell.ofArc Obj.canonic a).from_ = a.from_.addr Obj.canonic := rfl
      have hda : (ArcCell.ofArc Obj.canonic a).duration = a.duration := rfl
      rw [ha3, hfa, hda, Heap.isInput_sim hc]
      cases hin : c.isInput a.from_ with
      | none => simp
      | some b =>
        cases b with
        | false =>
          simp only [Option.map_some']
          refine ⟨congrArg some (Heap.eq_of_canonic hc), ?_⟩
          intro c1 h1
          cases h1
          exact hw
        | true =>
          simp only [defaultStrict]
          rw [Heap.removeArc_sim hc hw.1 hw.2.1 hva1 hpv]
          simp only
          have hw1 := wf_removeArc hw a.from_ p.ref
          have hf1 := validRef_removeArc a.from_ p.ref hva1
          have hp1 := validRef_removeArc a.from_ p.ref hpv
          generalize (c.removeArc a.from_ p.ref).2 = c1 at hw1 hf1 hp1 ⊢
          rw [Heap.addPlace_sim rfl 50 50 0]
          simp only
          have hb1 : (⟨Obj.canonic, NodeType.Place, c1.m_places.length⟩ : NodeAddr) =
              NodeRef.addr Obj.canonic ⟨NodeType.Place, c1.m_next_place_id⟩ := by
            rw [hw1.1.2.1]; rfl
          rw [hb1]
          have hw2 := wf_addPlace hw1 50 50 0
          have hf2 := validRef_addPlace 50 50 0 hf1
          have hp2 := validRef_addPlace 50 50 0 hp1
          have ht1 := validRef_new_place hw1.1 50 50 0
          generalize (⟨NodeType.Place, c1.m_next_place_id⟩ : NodeRef) = tmp1 at ht1 ⊢
          generalize c1.addPlace 50 50 0 = c2 at hw2 hf2 hp2 ht1 ⊢
          rw [Heap.addTransition_sim rfl 60 60]
          simp only
          have hb2 : (⟨Obj.canonic, NodeType.Transition, c2.m_transitions.length⟩ : NodeAddr) =
              NodeRef.addr Obj.canonic ⟨NodeType.Transition, c2.m_next_transition_id⟩ := by
            rw [hw2.1.2.2.2]; rfl
          rw [hb2]
          have hw3 := wf_addTransition hw2 60 60
          have hf3 := validRef_addTransition 60 60 hf2
          have hp3 := validRef_addTransition 60 60 hp2
          have ht1c := validRef_addTransition 60 60 ht1
          have ht2 := validRef_new_transition hw2.1 60 60
          generalize (⟨NodeType.Transition, c2.m_next_transition_id⟩ : NodeRef) = tmp2 at ht2 ⊢
          generalize c2.addTransition 60 60 = c3 at hw3 hf3 hp3 ht1c ht2 ⊢
          rw [Heap.addArc_sim rfl hw3.1 hw3.2.1 hf3 ht1c]
          simp only
          have hw4 := wf_addArc hw3 a.from_ tmp1 defaultDuration true
          have hp4 := validRef_addArc_strict a.from_ tmp1 defaultDuration hp3
          have ht1d := validRef_addArc_strict a.from_ tmp1 defaultDuration ht1c
          have ht2d := validRef_addArc_strict a.from_ tmp1 defaultDuration ht2
          generalize (c3.addArc a.from_ tmp1 defaultDuration true).2 = c4
            at hw4 hp4 ht1d ht2d ⊢
          rw [Heap.addArc_sim rfl hw4.1 hw4.2.1 ht1d ht2d]
          simp only
          have hw5 := wf_addArc hw4 tmp1 tmp2 a.duration true
          have hp5 := validRef_addArc_strict tmp1 tmp2 a.duration hp4
          have ht2e := validRef_addArc_strict tmp1 tmp2 a.duration ht2d
          generalize (c4.addArc tmp1 tmp2 a.duration true).2 = c5 at hw5 hp5 ht2e ⊢
          rw [Heap.addArc_sim rfl hw5.1 hw5.2.1 ht2e hp5]
          refine ⟨rfl, ?_⟩
          intro c6 h6
          cases h6
          exact wf_addArc hw5 tmp2 p.ref defaultDuration true

theorem pushFromOutput_sim (h : Heap) (c : PetriNet) (i : Nat)
    (hc : h.canonic = NetCell.ofNet Obj.canonic c) (hw : WellFormed c) :
    Heap.pushFromOutput h i =
        (pushFromOutput c i).map (fun c1 => ⟨h.this_, NetCell.ofNet Obj.canonic c1⟩) ∧
      ∀ c1, pushFromOutput c i = some c1 → WellFormed c1 := by
  rw [Heap.pushFromOutput, pushFromOutput, hc, NetCell.ofNet_places_get]
  cases hp : c.m_places[i]? with
  | none => simp
  | some p =>
    simp only [Option.map_some']
    have hpa : (PlaceCell.ofPlace Obj.canonic p).arcsOut =
        p.arcsOut.map (ArcAddr.ofSlot Obj.canonic) := rfl
    rw [hpa, Heap.firstArc_sim hc]
    cases ha : c.firstArc p.arcsOut with
    | none => simp
    | some a =>
      simp only [Option.map_some']
      obtain ⟨hva1, hva2⟩ := firstArc_valid hw.2.1 ha
      obtain ⟨hpr, hpi⟩ := place_ref_of_get hw.1 hp
      have hpv : validRef c p.ref := by rw [hpr]; exact hpi
      have ha3 : (⟨Obj.canonic, NodeType.Place, i⟩ : NodeAddr) =
          NodeRef.addr Obj.canonic p.ref := by rw [hpr]; rfl
      have hfa : (ArcCell.ofArc Obj.canonic a).to_ = a.to_.addr Obj.canonic := rfl
      rw [ha3, hfa, Heap.isOutput_sim hc]
      cases hin : c.isOutput a.to_ with
      | none => simp
      | some b =>
        cases b with
        | false =>
          simp only [Option.map_some']
          refine ⟨congrArg some (Heap.eq_of_canonic hc), ?_⟩
          intro c1 h1
          cases h1
          exact hw
        | true =>
          simp only [defaultStrict]
          rw [Heap.removeArc_sim hc hw.1 hw.2.1 hpv hva2]
          simp only
          have hw1 := wf_removeArc hw p.ref a.to_
          have hf1 := validRef_removeArc p.ref a.to_ hva2
          have hp1 := validRef_removeArc p.ref a.to_ hpv
          generalize (c.removeArc p.ref a.to_).2 = c1 at hw1 hf1 hp1 ⊢
          rw [Heap.addTransition_sim rfl 60 60]
          simp only
          have hb1 : (⟨Obj.canonic, NodeType.Transition, c1.m_transitions.length⟩ : NodeAddr) =
              NodeRef.addr Obj.canonic ⟨NodeType.Transition, c1.m_next_transition_id⟩ := by
            rw [hw1.1.2.2.2]; rfl
          rw [hb1]
          have hw2 := wf_addTransition hw1 60 60
          have hf2 := validRef_addTransition 60 60 hf1
          have hp2 := validRef_addTransition 60 60 hp1
          have ht1 := validRef_new_transition hw1.1 60 60
          generalize (⟨NodeType.Transition, c1.m_next_transition_id⟩ : NodeRef) = tmp1 at ht1 ⊢
          generalize c1.addTransition 60 60 = c2 at hw2 hf2 hp2 ht1 ⊢
          rw [Heap.addPlace_sim rfl 50 50 0]
          simp only
          have hb2 : (⟨Obj.canonic, NodeType.Place, c2.m_places.length⟩ : NodeAddr) =
              NodeRef.addr Obj.canonic ⟨NodeType.Place, c2.m_next_place_id⟩ := by
            rw [hw2.1.2.1]; rfl
          rw [hb2]
          have hw3 := wf_addPlace hw2 50 50 0
          have hf3 := validRef_addPlace 50 50 0 hf2
          have hp3 := validRef_addPlace 50 50 0 hp2
          have ht1c := validRef_addPlace 50 50 0 ht1
          have ht2 := validRef_new_place hw2.1 50 50 0
          generalize (⟨NodeType.Place, c2.m_next_place_id⟩ : NodeRef) = tmp2 at ht2 ⊢
          generalize c2.addPlace 50 50 0 = c3 at hw3 hf3 hp3 ht1c ht2 ⊢
          rw [Heap.addArc_sim rfl hw3.1 hw3.2.1 hp3 ht1c]
          simp only
          have hw4 := wf_addArc hw3 p.ref tmp1 defaultDuration true
          have hf4 := validRef_addArc_strict p.ref tmp1 defaultDuration hf3
          have ht1d := validRef_addArc_strict p.ref tmp1 defaultDuration ht1c
          have ht2d := validRef_addArc_strict p.ref tmp1 defaultDuration ht2
          generalize (c3.addArc p.ref tmp1 defaultDuration true).2 = c4
            at hw4 hf4 ht1d ht2d ⊢
          rw [Heap.addArc_sim rfl hw4.1 hw4.2.1 ht1d ht2d]
          simp only
          have hw5 := wf_addArc hw4 tmp1 tmp2 defaultDuration true
          have hf5 := validRef_addArc_strict tmp1 tmp2 defaultDuration hf4
          have ht2e := validRef_addArc_strict tmp1 tmp2 defaultDuration ht2d
          generalize (c4.addArc tmp1 tmp2 defaultDuration true).2 = c5 at hw5 hf5 ht2e ⊢
          rw [Heap.addArc_sim rfl hw5.1 hw5.2.1 ht2e hf5]
          refine ⟨rfl, ?_⟩
          intro c6 h6
          cases h6
          exact wf_addArc hw5 tmp2 a.to_ defaultDuration true

theorem boundaryPlaces_sim :
    ∀ (i : Nat) (h : Heap) (c : PetriNet),
      h.canonic = NetCell.ofNet Obj.canonic c → WellFormed c →
      Heap.boundaryPlaces i h =
        (boundaryPlaces i c).map (fun c1 => ⟨h.this_, NetCell.ofNet Obj.canonic c1⟩) := by
  intro i
  induction i with
  | zero =>
    intro h c hc _
    exact congrArg some (Heap.eq_of_canonic hc)
  | succ i ih =>
    intro h c hc hw
    rw [Heap.boundaryPlaces, boundaryPlaces, hc, NetCell.ofNet_places_get]
    cases hp : c.m_places[i]? with
    | none => rfl
    | some p =>
      simp only [Option.map_some']
      have hpt : (PlaceCell.ofPlace Obj.canonic p).tokens = p.tokens := rfl
      rw [hpt]
      by_cases hone : p.tokens = 1
      · rw [if_pos hone, if_pos hone]
        obtain ⟨e1, e2⟩ := pushFromInput_sim h c i hc hw
        rw [e1]
        cases h1 : pushFromInput c i with
        | none => rfl
        | some c1 =>
          simp only [Option.map_some']
          obtain ⟨g1, g2⟩ := pushFromOutput_sim
            ⟨h.this_, NetCell.ofNet Obj.canonic c1⟩ c1 i rfl (e2 c1 h1)
          rw [g1]
          cases h2 : pushFromOutput c1 i with
          | none => rfl
          | some c2 =>
            simp only [Option.map_some']
            exact ih _ c2 rfl (g2 c2 h2)
      · rw [if_neg hone, if_neg hone]
        exact ih h c hc hw

/-- On the memory in which `*this` stands for a well-formed net `src` and
`canonic` for a net `dst`, the call `toCanonicalForm(canonic)` returns exactly
when the value embedding does; `canonic` then stands for the net the value
embedding computes and `*this` still stands for `src`. -/
theorem toCanonicalForm_sim (src dst : PetriNet) (hw : WellFormed src) :
    (Heap.ofNets src dst).toCanonicalForm =
      (src.toCanonicalForm dst).map (fun c => Heap.ofNets src c) := by
  unfold Heap.toCanonicalForm PetriNet.toCanonicalForm
  rw [Heap.assign_sim (by rfl) (by rfl) hw.1 hw.2.1]
  obtain ⟨n0, hn0, hw0, _⟩ := assign_of_wf dst hw
  rw [hn0]
  simp only [Option.map_some']
  obtain ⟨e1, e2⟩ := explodePlaces_sim n0.m_places.length
    ⟨(Heap.ofNets src dst).this_, NetCell.ofNet Obj.canonic n0⟩ n0 rfl hw0
  have hlen : (NetCell.ofNet Obj.canonic n0).m_places.length = n0.m_places.length := by
    simp only [NetCell.ofNet, List.length_map]
  rw [hlen, e1]
  cases h1 : explodePlaces n0.m_places.length n0 with
  | none => rfl
  | some c1 =>
    simp only [Option.map_some']
    have hw1 := e2 c1 h1
    rw [Heap.generate_sim rfl hw1.1 hw1.2.1]
    simp only
    have hlen2 : (NetCell.ofNet Obj.canonic c1.generateArcsInArcsOut).m_places.length =
        c1.generateArcsInArcsOut.m_places.length := by
      simp only [NetCell.ofNet, List.length_map]
    rw [hlen2]
    exact boundaryPlaces_sim _ _ _ rfl (wf_generate hw1)

/-- C31. In the memory of a call `toCanonicalForm(canonic)`, where the net the
method is called on and `canonic` are two distinct objects and every `Node&`,
`Node*` and `Arc*` names the object it points into.  First, whatever the two
objects hold before the call, pointers of one into the other included, a call
that reads nowhere outside a container leaves the object `*this` exactly as it
was (type, places, transitions, arc list with its endpoints and durations,
next-id counters, and also adjacency lists and modified flag): every write of
the call lands in `canonic`, and after the call no pointer held by `canonic`
points into `*this`.  Second, when `*this` holds a well-formed net `src` and
`canonic` a net `dst`, the call returns exactly when `toCanonicalForm` of the
value embedding does, `canonic` then holds the net computed there and `*this`
still holds `src`.  Third, the call does return when `src` is moreover an event
graph in which every transition has an input and an output arc and one place
holds more than one token. -/
theorem C31_toCanonicalForm_source_unchanged (h : Heap) (src dst : PetriNet) :
    (∀ r, h.toCanonicalForm = some r → r.this_ = h.this_ ∧ r.Closed) ∧
    (WellFormed src →
      (Heap.ofNets src dst).toCanonicalForm =
        (src.toCanonicalForm dst).map (fun c => Heap.ofNets src c)) ∧
    (WellFormed src →
      (∀ q ∈ src.m_places,
        src.m_arcs.countP (fun a => decide (a.to_ = q.ref)) = 1 ∧
        src.m_arcs.countP (fun a => decide (a.from_ = q.ref)) = 1) →
      (∀ t ∈ src.m_transitions,
        0 < src.m_arcs.countP (fun a => decide (a.to_ = t.ref)) ∧
        0 < src.m_arcs.countP (fun a => decide (a.from_ = t.ref))) →
      ∀ (i : Nat) (p : Place), src.m_places[i]? = some p → 1 < p.tokens →
        (∀ j q, src.m_places[j]? = some q → j ≠ i → q.tokens ≤ 1) →
        ∃ r, (Heap.ofNets src dst).toCanonicalForm = some r ∧
          r.this_ = NetCell.ofNet Obj.this_ src ∧ r.Closed) := by
  refine ⟨fun r hr => ?_, fun hw => toCanonicalForm_sim src dst hw, ?_⟩
  · exact ⟨(Heap.toCanonicalForm_closed h r hr).2, (Heap.toCanonicalForm_closed h r hr).1⟩
  · intro hw hP hT i p hp hk hothers
    have hpm : p ∈ src.m_places := List.getElem?_mem hp
    have hpos : 0 < src.m_arcs.countP (fun a => decide (a.to_ = p.ref)) := by
      rw [(hP p hpm).1]; exact Nat.one_pos
    obtain ⟨e, he⟩ := Option.isSome_iff_exists.1
      (List.find?_isSome.2 (List.countP_pos_iff.1 hpos))
    obtain ⟨c, hc, _⟩ := toCanonicalForm_single src dst i p e hw hP hT hp hk hothers he
    have hs := toCanonicalForm_sim src dst hw
    rw [hc] at hs
    exact ⟨_, hs, rfl, (Heap.toCanonicalForm_closed _ _ hs).1⟩

/-- Witness of C31 on the net of scenario S5, whose canonical form adds places
and transitions next to the source and the sink: the call returns, with the net
of the value embedding in `canonic`, and `*this` is as before. -/
theorem C31_toCanonicalForm_source_unchanged_witness :
    WellFormed s5Net ∧ (s5Net.toCanonicalForm emptyNet).isSome = true ∧
      (Heap.ofNets s5Net emptyNet).toCanonicalForm =
        (s5Net.toCanonicalForm emptyNet).map (fun c => Heap.ofNets s5Net c) ∧
      ∃ r, (Heap.ofNets s5Net emptyNet).toCanonicalForm = some r ∧
        r.this_ = (Heap.ofNets s5Net emptyNet).this_ ∧ r.Closed :=
  ⟨⟨by decide, by decide, by decide, by decide⟩, by decide,
    (C31_toCanonicalForm_source_unchanged (Heap.ofNets s5Net emptyNet) s5Net emptyNet).2.1
      ⟨by decide, by decide, by decide, by decide⟩,
    ⟨((Heap.ofNets s5Net emptyNet).toCanonicalForm).get (by decide),
      (Option.some_get _).symm,
      (C31_toCanonicalForm_source_unchanged (Heap.ofNets s5Net emptyNet) s5Net emptyNet).1 _
        (Option.some_get _).symm⟩⟩

/-! ## Claim C33: the copy assignment -/

theorem resize_length (marks : List Nat) (n : Nat) : (resize marks n).length = n := by
  simp only [resize, List.length_append, List.length_take, List.length_replicate]
  omega

theorem getTokensLoop_spec :
    ∀ (l : List Place) (k : Nat) (marks : List Nat),
      l.map Place.id = List.range' k l.length → k + l.length ≤ marks.length →
      getTokensLoop l marks =
        some (marks.take k ++ l.map Place.tokens ++ marks.drop (k + l.length)) := by
  intro l
  induction l with
  | nil =>
    intro k marks _ _
    simp [getTokensLoop]
  | cons p rest ih =>
    intro k marks hid hlen
    simp only [List.map_cons, List.length_cons, List.range'_succ, List.cons.injEq] at hid
    simp only [List.length_cons] at hlen
    have hk : k < marks.length := by omega
    rw [getTokensLoop, hid.1, if_pos hk]
    rw [ih (k + 1) (marks.set k p.tokens) hid.2 (by rw [List.length_set]; omega)]
    congr 1
    rw [List.set_eq_take_append_cons_drop, if_pos hk]
    have hl : (marks.take k).length = k := by rw [List.length_take]; omega
    have e1 : (List.take k marks ++ p.tokens :: List.drop (k + 1) marks).take (k + 1) =
        List.take k marks ++ [p.tokens] := by
      rw [List.take_append_eq_append_take, hl]
      simp
    have e2 : (List.take k marks ++ p.tokens :: List.drop (k + 1) marks).drop
        (k + 1 + rest.length) = marks.drop (k + (rest.length + 1)) := by
      rw [List.drop_append_eq_append_drop, hl]
      have : (List.take k marks).drop (k + 1 + rest.length) = [] := by
        apply List.drop_eq_nil_of_le; omega
      rw [this]
      have e3 : k + 1 + rest.length - k = rest.length + 1 := by omega
      rw [e3, List.nil_append, List.drop_succ_cons, List.drop_drop]
      congr 1
      omega
    rw [e1, e2]
    simp

theorem getTokens_of_ids (net : PetriNet)
    (hid : net.m_places.map Place.id = List.range net.m_places.length) (marks : List Nat) :
    net.getTokens marks = some (net.m_places.map Place.tokens) := by
  unfold PetriNet.getTokens
  rw [getTokensLoop_spec net.m_places 0 _ (by rw [hid, List.range_eq_range'])
    (by rw [resize_length]; omega)]
  simp [resize_length, List.drop_eq_nil_of_le]

theorem setTokens_of_length (net : PetriNet) (marks : List Nat)
    (hl : net.m_places.length = marks.length) :
    ∃ ps, net.setTokens marks = some (true, { net with m_places := ps }) ∧
      ps.map Place.tokens = marks ∧ ps.map Place.id = net.m_places.map Place.id ∧
      (net.m_places.map Place.tokens = marks → ps = net.m_places) := by
  obtain ⟨ps, h1, h2⟩ := setTokensLoop_spec marks marks.length net.m_places (Nat.le_refl _)
    (Nat.le_of_eq hl.symm)
  refine ⟨ps, by simp [PetriNet.setTokens, hl, h1], ?_, ?_, ?_⟩
  · apply List.ext_getElem?
    intro j
    rw [List.getElem?_map, h2 j]
    by_cases hj : j < marks.length
    · have hjp : j < net.m_places.length := by omega
      rw [List.getElem?_eq_getElem hjp, List.getElem?_eq_getElem hj]
      simp [hj, List.getD_eq_getElem?_getD, List.getElem?_eq_getElem hj]
    · rw [List.getElem?_eq_none (by omega), List.getElem?_eq_none (by omega)]
      rfl
  · apply List.ext_getElem?
    intro j
    rw [List.getElem?_map, List.getElem?_map, h2 j]
    cases net.m_places[j]? with
    | none => rfl
    | some p =>
      simp only [Option.map_some', Option.some.injEq]
      split <;> rfl
  · intro hsame
    apply List.ext_getElem?
    intro j
    rw [h2 j]
    cases hp : net.m_places[j]? with
    | none => rfl
    | some p =>
      simp only [Option.map_some', Option.some.injEq]
      split
      · have hm : marks[j]? = some p.tokens := by
          rw [← hsame, List.getElem?_map, hp]
          rfl
        have hg : marks.getD j 0 = p.tokens := by
          rw [List.getD_eq_getElem?_getD, hm]
          rfl
        rw [hg]
      · rfl

/-! ## Claim C35: getTokens and setTokens -/

/-- C35. In a net satisfying identifier density, `getTokens(marks)` writes only
inside the vector, resized to the number of places, and returns with `marks`
holding the token counts of the places in slot order; for every vector `marks`
with one entry per place, `setTokens(marks)` returns true and a following
`getTokens(out)` gives `out = marks`; and `getTokens(m)` followed by
`setTokens(m)` returns true and leaves the net, hence the token count of every
place, unchanged. -/
theorem C35_getTokens_setTokens (net : PetriNet) (hd : IdDense net) :
    (∀ marks, ∃ out, net.getTokens marks = some out ∧ out.length = net.m_places.length ∧
      out = net.m_places.map Place.tokens) ∧
    (∀ marks out, marks.length = net.m_places.length →
      ∃ net', net.setTokens marks = some (true, net') ∧ net'.getTokens out = some marks) ∧
    (∀ m0, ∃ m, net.getTokens m0 = some m ∧ net.setTokens m = some (true, net)) := by
  refine ⟨fun marks => ⟨_, getTokens_of_ids net hd.1 marks, by simp, rfl⟩,
    fun marks out hl => ?_, fun m0 => ⟨_, getTokens_of_ids net hd.1 m0, ?_⟩⟩
  · obtain ⟨ps, h1, h2, h3, _⟩ := setTokens_of_length net marks hl.symm
    refine ⟨_, h1, ?_⟩
    have hlen : ps.length = net.m_places.length := by
      simpa using congrArg List.length h3
    have hid : ps.map Place.id = List.range ps.length := by rw [h3, hlen]; exact hd.1
    have := getTokens_of_ids { net with m_places := ps } hid out
    rw [this]
    exact congrArg some h2
  · obtain ⟨ps, h1, _, _, h4⟩ := setTokens_of_length net (net.m_places.map Place.tokens)
      (by simp)
    rw [h1, h4 rfl]

theorem C35_getTokens_setTokens_witness :
    IdDense loopNet ∧ loopNet.getTokens [7, 7, 7] = some [1, 0] ∧
      ∃ net', loopNet.setTokens [4, 5] = some (true, net') ∧ net'.getTokens [] = some [4, 5] :=
  ⟨by decide, by decide, (C35_getTokens_setTokens loopNet (by decide)).2.1 [4, 5] [] (by decide)⟩

/-! ## Claim C36: the triplets of toSysLin and the shapes -/

/-- C36 fails for `C`.  The chain T0 -> P0 -> T1 -> P1 -> T2 -> P2 -> T3 is an
event graph with one input (T0), two states (T1, T2) and one output (T3).
`toSysLin` returns true; `D`, `A` and `B` hold their triplets inside their
shapes, but `C`, declared 1 x 1, receives for the arc T2 -> P2 the triplet
(1, 1, 3): it is indexed by the state index of T2, not by an output index. -/
theorem C36_toSysLin_shapes :
    chainNet.isEventGraph.1 = true ∧
    (chainNet.toSysLin SparseMatrix.zero SparseMatrix.zero SparseMatrix.zero
        SparseMatrix.zero).map (fun r => r.1) = some true ∧
    (chainNet.toSysLin SparseMatrix.zero SparseMatrix.zero SparseMatrix.zero
        SparseMatrix.zero).map (fun r => r.2.1) = some ⟨[1], [0], [2], 2, 2⟩ ∧
    (chainNet.toSysLin SparseMatrix.zero SparseMatrix.zero SparseMatrix.zero
        SparseMatrix.zero).map (fun r => r.2.2.1) = some ⟨[], [], [], 2, 2⟩ ∧
    (chainNet.toSysLin SparseMatrix.zero SparseMatrix.zero SparseMatrix.zero
        SparseMatrix.zero).map (fun r => r.2.2.2.1) = some ⟨[0], [0], [1], 1, 1⟩ ∧
    (chainNet.toSysLin SparseMatrix.zero SparseMatrix.zero SparseMatrix.zero
        SparseMatrix.zero).map (fun r => r.2.2.2.2.1) = some ⟨[1], [1], [3], 1, 1⟩ ∧
    ¬ (⟨[1], [1], [3], 1, 1⟩ : SparseMatrix).inShape := by
  decide

/-! ## Claim C37: tokens by place id in the handle API -/

/-- C37 fails outside the range.  On a table whose net 0 has two places:
`petri_set_tokens` with the id -1 or 3 returns true, not false (the refusal
returns `-1` from a function of type `bool`); with the id 2, the number of
places, the test `id > size` lets the call through, and `petri_get_tokens` reads
and `petri_set_tokens` writes a place outside the container.  With the id -1 or
3 `petri_get_tokens` returns -1, and inside the range the value set is the
value read back. -/
theorem C37_tokens_by_id :
    petri_count_places sampleFacade 0 = some (2, sampleFacade) ∧
    petri_set_tokens sampleFacade 0 (-1) 5 = some (true, sampleFacade) ∧
    petri_set_tokens sampleFacade 0 3 5 = some (true, sampleFacade) ∧
    petri_get_tokens sampleFacade 0 2 = none ∧
    petri_set_tokens sampleFacade 0 2 5 = none ∧
    petri_get_tokens sampleFacade 0 (-1) = some (-1, sampleFacade) ∧
    petri_get_tokens sampleFacade 0 3 = some (-1, sampleFacade) ∧
    ((petri_set_tokens sampleFacade 0 1 5).bind
      (fun r => (petri_get_tokens r.2 0 1).map (fun q => (r.1, q.1)))) = some (true, 5) := by
  decide

theorem toInt64_toSizeT (v : Int) (h1 : -2 ^ 63 ≤ v) (h2 : v < 2 ^ 63) :
    toInt64 (toSizeT v) = v := by
  have p63 : (2 : Int) ^ 63 = 9223372036854775808 := by norm_num
  have p64 : (2 : Int) ^ 64 = 18446744073709551616 := by norm_num
  have q63 : (2 : Nat) ^ 63 = 9223372036854775808 := by norm_num
  have q64 : (2 : Nat) ^ 64 = 18446744073709551616 := by norm_num
  rw [p63] at h1 h2
  unfold toInt64 toSizeT
  rw [p64, q63, q64]
  have hc : (((v % 18446744073709551616).toNat : Nat) : Int) = v % 18446744073709551616 :=
    Int.toNat_of_nonneg (Int.emod_nonneg _ (by norm_num))
  have hlt : (v % 18446744073709551616).toNat < 18446744073709551616 := by omega
  rw [Nat.mod_eq_of_lt hlt]
  split_ifs with h
  · rw [hc]; omega
  · rw [hc]; omega

/-- Inside the range the handle API gives back the tokens it was given: on a
valid handle, for an id between 0 and the number of places, excluded,
`petri_set_tokens` returns true and `petri_get_tokens` then returns the value
set. -/
theorem petri_set_get_tokens (st : Facade) (handle : Int) (net : PetriNet) (id tokens : Int)
    (h0 : 0 ≤ handle) (hnet : st.g_petri_nets[handle.toNat]? = some net)
    (hid0 : 0 ≤ id) (hid : id.toNat < net.m_places.length)
    (hlen : net.m_places.length < 2 ^ 63) (ht1 : -2 ^ 63 ≤ tokens) (ht2 : tokens < 2 ^ 63) :
    ∃ st', petri_set_tokens st handle id tokens = some (true, st') ∧
      petri_get_tokens st' handle id = some (tokens, st') := by
  have hnb := not_badHandle_of_get st handle net h0 hnet
  have hlt : handle.toNat < st.g_petri_nets.length := (List.getElem?_eq_some_iff.mp hnet).1
  have hrange : ¬ (id < 0 ∨ id > toInt64 net.m_places.length) := by
    rw [toInt64_of_lt _ hlen]
    omega
  have hp : net.m_places[id.toNat]? = some net.m_places[id.toNat] :=
    List.getElem?_eq_getElem hid
  refine ⟨st.setNet handle.toNat
    { net with
      m_places := net.m_places.modify (fun p => { p with tokens := toSizeT tokens })
        id.toNat }, ?_, ?_⟩
  · unfold petri_set_tokens
    rw [if_neg hnb, hnet]
    simp only [hrange, if_false, hp]
  · have hnb' : ¬ (st.setNet handle.toNat
        { net with
          m_places := net.m_places.modify (fun p => { p with tokens := toSizeT tokens })
            id.toNat }).badHandle handle := by
      unfold Facade.badHandle
      rw [setNet_length]
      exact hnb
    unfold petri_get_tokens
    rw [if_neg hnb']
    have hget : (st.setNet handle.toNat
        { net with
          m_places := net.m_places.modify (fun p => { p with tokens := toSizeT tokens })
            id.toNat }).g_petri_nets[handle.toNat]? = some
        { net with
          m_places := net.m_places.modify (fun p => { p with tokens := toSizeT tokens })
            id.toNat } := by
      simp [Facade.setNet, hlt]
    rw [hget]
    simp only [List.length_modify, hrange, if_false, List.getElem?_modify, hp, Option.map_some',
      if_true, Option.map_eq_map]
    rw [toInt64_toSizeT tokens ht1 ht2]

end PetriNetEditor
